import Mathlib

/-!
# Test-support utilities of `internal/common/testutil`

A shallow embedding of the assertion helpers, the Secret builder and the
controller simulators, followed by the properties proved about them.

Collaborators that live outside the repository (the gomega assertion library,
the controller-runtime client, `fmt`, the apimachinery helpers) are modelled
only as far as the helpers observe them; every such model says so in its
doc comment.
-/

set_option autoImplicit false

namespace Forge

/-! ## Part I. Definitions -/

/-! ### Text produced by library code -/

/-- Text rendered by library code whose exact wording the helpers do not fix:
`quote` is the `%q` verb of `fmt.Sprintf`, `equalFailure actual expected` is the
failure text of `gomega.Equal(expected)` on `actual`, `containFailure` the
failure text of the `gomega.ContainElement(gomega.HaveField("Type", ...))`
matcher, `beTrueFailure` that of `gomega.BeTrue()`, and
`unexpectedErrorFailure` that of a negated `gomega.HaveOccurred()`, given the
error's text. -/
structure TextLib where
  quote : String → String
  equalFailure : String → String → String
  containFailure : String → String
  beTrueFailure : String
  unexpectedErrorFailure : String → String

/-- Substring test on message text: `sub` occurs contiguously in `msg`. -/
def containsSubstr (msg sub : String) : Prop :=
  sub.data <:+: msg.data

instance (msg sub : String) : Decidable (containsSubstr msg sub) := by
  unfold containsSubstr
  infer_instance

/-! ### The gomega collaborator -/

/-- A `gomega.Gomega` whose fail handler records the message and returns, as the
one built with `gomega.NewGomega` in the tests: the messages reported so far,
oldest first. -/
structure Gomega where
  failures : List String
  deriving DecidableEq, Repr

/-- The fail handler is invoked with `msg`. -/
def Gomega.fail (g : Gomega) (msg : String) : Gomega :=
  { failures := g.failures ++ [msg] }

/-! ### `fmt.Sprintf` on a format without operands

gomega renders the optional description of an assertion with
`fmt.Sprintf(description, operands...)`. `AssertCondition` hands it a text that
`fmt.Sprintf` has rendered already and no operands, so that text is read as a
format once more. -/

/-- The function `tooLarge` of package `fmt`. -/
def tooLarge (x : Nat) : Bool :=
  decide (x > 1000000)

/-- The loop of `parsenum` of package `fmt` on the text between `start` and
`end`: the number read so far, whether a digit was read, and the text from the
first character that is no digit on. `none` is the overflow return, where
`parsenum` gives `end` as the new position. -/
def parsenum : List Char → Nat → Bool → Option (Nat × Bool × List Char)
  | [], num, isnum => some (num, isnum, [])
  | c :: rest, num, isnum =>
    if c.isDigit then
      if tooLarge num then none
      else parsenum rest (num * 10 + (c.toNat - '0'.toNat)) true
    else some (num, isnum, c :: rest)

/-- The function `parseArgNumber` of package `fmt`, on text that starts with
`[`: the width of the index read and whether it is a number in brackets. -/
def parseArgNumber (format : List Char) : Nat × Bool :=
  if (String.mk format).utf8ByteSize < 3 then (1, false)
  else if (format.drop 1).takeWhile (fun c => c != ']') = format.drop 1 then (1, false)
  else
    match parsenum ((format.drop 1).takeWhile (fun c => c != ']')) 0 false with
    | some (_, true, []) => (((format.drop 1).takeWhile (fun c => c != ']')).length + 2, true)
    | _ => (((format.drop 1).takeWhile (fun c => c != ']')).length + 2, false)

/-- The method `argNumber` of package `fmt` in a call without operands, where
no index is in range: the text left, whether an index was read (`afterIndex`)
and whether the argument number is still good. -/
def argNumber (format : List Char) (good : Bool) : List Char × Bool × Bool :=
  match format with
  | '[' :: _ => (format.drop (parseArgNumber format).1, (parseArgNumber format).2, false)
  | _ => (format, false, good)

/-- The width of a directive: text written, text left, `afterIndex`, and
whether the argument number is still good. -/
def directiveWidth (format : List Char) (afterIndex good : Bool) :
    List Char × List Char × Bool × Bool :=
  match format with
  | '*' :: rest => ("%!(BADWIDTH)".data, rest, false, good)
  | _ =>
    match parsenum format 0 false with
    | some (_, widPresent, rest) => ([], rest, afterIndex, good && !(afterIndex && widPresent))
    | none => ([], [], afterIndex, good)

/-- The precision of a directive: text written, text left, `afterIndex`, and
whether the argument number is still good. -/
def directivePrec (format : List Char) (afterIndex good : Bool) :
    List Char × List Char × Bool × Bool :=
  match format with
  | '.' :: rest =>
    match (argNumber rest (good && !afterIndex)).1 with
    | '*' :: rest' =>
      ("%!(BADPREC)".data, rest', false, (argNumber rest (good && !afterIndex)).2.2)
    | _ =>
      match parsenum (argNumber rest (good && !afterIndex)).1 0 false with
      | some (_, _, rest') =>
        ([], rest', (argNumber rest (good && !afterIndex)).2.1,
          (argNumber rest (good && !afterIndex)).2.2)
      | none =>
        ([], [], (argNumber rest (good && !afterIndex)).2.1,
          (argNumber rest (good && !afterIndex)).2.2)
  | _ => ([], format, afterIndex, good)

/-- The verb of a directive in a call without operands: text written and text
left. -/
def directiveVerb (format : List Char) (good : Bool) : List Char × List Char :=
  match format with
  | [] => ("%!(NOVERB)".data, [])
  | verb :: rest =>
    if verb = '%' then (['%'], rest)
    else if good = false then ("%!".data ++ [verb] ++ "(BADINDEX)".data, rest)
    else ("%!".data ++ [verb] ++ "(MISSING)".data, rest)

/-- One directive of `doPrintf` in a call without operands, on the text after
its `%`: flags, argument index, width, precision, argument index, verb. The
text written and the text left. -/
def directive (format : List Char) : List Char × List Char :=
  let flags := format.dropWhile
    (fun c => c == '#' || c == '0' || c == '+' || c == '-' || c == ' ')
  let idx := argNumber flags true
  let wid := directiveWidth idx.1 idx.2.1 idx.2.2
  let prec := directivePrec wid.2.1 wid.2.2.1 wid.2.2.2
  let idx2 := if prec.2.2.1 then (prec.2.1, prec.2.2.1, prec.2.2.2)
    else argNumber prec.2.1 prec.2.2.2
  let verb := directiveVerb idx2.1 idx2.2.2
  (wid.1 ++ prec.1 ++ verb.1, verb.2)

/-- The method `doPrintf` of package `fmt` in a call without operands: text is
copied up to a `%`, a directive is read and what it stands for written. `skip`
is the number of characters still to pass over, the directive before having
read them. -/
def doPrintf : List Char → Nat → List Char
  | [], _ => []
  | _ :: rest, skip + 1 => doPrintf rest skip
  | c :: rest, 0 =>
    if c = '%' then
      (directive rest).1 ++ doPrintf rest (rest.length - (directive rest).2.length)
    else c :: doPrintf rest 0

/-- The library function `fmt.Sprintf` called with a format and no operands. -/
def Sprintf (format : String) : String :=
  ⟨doPrintf format.data 0⟩

/-- The message gomega hands to the fail handler when a failed assertion
carries a description: the description as rendered, a newline, the matcher's
text. -/
def describedMessage (rendered matcherText : String) : String :=
  rendered ++ "\n" ++ matcherText

/-- The message gomega hands to the fail handler when the failed assertion was
given `description` as its only optional argument: the description is rendered
by `fmt.Sprintf(description)`. -/
def failureMessage (description matcherText : String) : String :=
  describedMessage (Sprintf description) matcherText

/-- A Go slice as the helpers see it: `none` is the nil slice, `some xs` a
non-nil slice holding `xs`. -/
abbrev Slice (α : Type) := Option (List α)

/-- The elements a `for ... range` loop over the slice visits, in order. -/
def Slice.elems {α : Type} (s : Slice α) : List α :=
  s.getD []

/-! ### Conditions (`metav1.Condition`) -/

/-- The `metav1.Condition` struct; `Status` is the string-typed
`metav1.ConditionStatus`. -/
structure Condition where
  Type' : String
  Status : String
  Reason : String
  Message : String
  LastTransitionTime : String
  deriving DecidableEq, Repr

/-- The statement `g.Expect(actual).To(gomega.Equal(expected), description)`
on condition statuses. -/
def Gomega.expectEqual (lib : TextLib) (g : Gomega) (actual expected description : String) :
    Gomega :=
  if actual = expected then g
  else g.fail (failureMessage description (lib.equalFailure actual expected))

/-- The statement
`g.Expect(conditions).To(gomega.ContainElement(gomega.HaveField("Type", gomega.Equal(condType))), description)`. -/
def Gomega.expectContainType (lib : TextLib) (g : Gomega) (conditions : Slice Condition)
    (condType description : String) : Gomega :=
  if conditions.elems.any (fun c => decide (c.Type' = condType)) then g
  else g.fail (failureMessage description (lib.containFailure condType))

/-- The `for i := range conditions` loop of `AssertCondition`: `some g'` when
an entry of the given type was met (the function returns from inside the loop),
`none` when the loop runs to its end. -/
def assertConditionLoop (lib : TextLib) (g : Gomega) :
    List Condition → String → String → Option Gomega
  | [], _, _ => none
  | c :: rest, condType, status =>
    if c.Type' = condType then
      some (g.expectEqual lib c.Status status
        ("condition " ++ lib.quote condType ++ " has status " ++ lib.quote c.Status ++
          ", expected " ++ lib.quote status))
    else assertConditionLoop lib g rest condType status

/-- The function `AssertCondition` of `assertions/conditions.go`. -/
def AssertCondition (lib : TextLib) (g : Gomega) (conditions : Slice Condition)
    (condType status : String) : Gomega :=
  match assertConditionLoop lib g conditions.elems condType status with
  | some g' => g'
  | none =>
    g.expectContainType lib conditions condType
      ("condition " ++ lib.quote condType ++ " not found")

/-! ### Memory: maps, slices and structs as heap cells

The builder hands out pointers, and the claims about it speak of aliasing, so
its model keeps Go's reference types (maps, slices, pointers to structs) as
references into an explicit heap. -/

/-- A reference: the index of a heap cell. -/
abbrev Ref := Nat

/-- The contents of a `[]byte`. -/
abbrev Bytes := List Nat

/-- The `metav1.OwnerReference` struct; its two `*bool` fields are kept by value. -/
structure OwnerReference where
  APIVersion : String
  Kind : String
  Name : String
  UID : String
  Controller : Option Bool
  BlockOwnerDeletion : Option Bool
  deriving DecidableEq, Repr

/-- The `corev1.Secret` struct as it lies in memory: scalar fields inline,
every map and slice field a reference (`none` is nil). -/
structure SecretStruct where
  Name : String
  Namespace : String
  UID : String
  ResourceVersion : String
  Labels : Option Ref
  Annotations : Option Ref
  OwnerReferences : Option Ref
  Data : Option Ref
  StringData : Option Ref
  Type' : String
  deriving DecidableEq, Repr

/-- What a heap cell holds: the backing array of a `[]byte`, a
`map[string][]byte` (its values are slices, hence references, nil included), a
`map[string]string`, the backing array of a `[]OwnerReference`, or a Secret
struct. Maps are association lists read by first match. -/
inductive Cell where
  | bytes (b : Bytes)
  | dataMap (m : List (String × Option Ref))
  | stringMap (m : List (String × String))
  | ownerRefs (l : List OwnerReference)
  | secret (s : SecretStruct)
  deriving DecidableEq, Repr

/-- The heap: cell `r` is the object reference `r` points to. -/
abbrev Heap := List Cell

/-- Allocation: the new object gets the next free reference. -/
def Heap.alloc (h : Heap) (c : Cell) : Heap × Ref :=
  (h ++ [c], h.length)

/-- The Go statement `m[k] = v` on a map held as an association list. -/
def mapSet {V : Type} : List (String × V) → String → V → List (String × V)
  | [], k, v => [(k, v)]
  | (k', v') :: rest, k, v =>
    if k' = k then (k, v) :: rest else (k', v') :: mapSet rest k v

/-- The Go expression `m[k]` with its `ok` flag. -/
def mapGet {V : Type} : List (String × V) → String → Option V
  | [], _ => none
  | (k', v') :: rest, k => if k' = k then some v' else mapGet rest k

/-- The keys of a map. -/
def mapKeys {V : Type} (m : List (String × V)) : List String :=
  m.map Prod.fst

/-- Reading a `[]byte` value: nil reads as the empty sequence. -/
def Heap.readBytes (h : Heap) : Option Ref → Bytes
  | none => []
  | some r =>
    match h[r]? with
    | some (Cell.bytes b) => b
    | _ => []

/-- Reading a `map[string]string` field: `none` for nil. -/
def Heap.readStringMap (h : Heap) : Option Ref → Option (List (String × String))
  | none => none
  | some r =>
    match h[r]? with
    | some (Cell.stringMap m) => some m
    | _ => none

/-- Reading a `[]OwnerReference` field: `none` for nil. -/
def Heap.readOwnerRefs (h : Heap) : Option Ref → Option (List OwnerReference)
  | none => none
  | some r =>
    match h[r]? with
    | some (Cell.ownerRefs l) => some l
    | _ => none

/-- The entries of a `map[string][]byte` field, values still references. -/
def Heap.dataEntries (h : Heap) : Option Ref → Option (List (String × Option Ref))
  | none => none
  | some r =>
    match h[r]? with
    | some (Cell.dataMap m) => some m
    | _ => none

/-- Reading a `map[string][]byte` field down to the bytes: `none` for nil. -/
def Heap.readData (h : Heap) (r : Option Ref) : Option (List (String × Bytes)) :=
  (h.dataEntries r).map (fun m => m.map (fun kv => (kv.1, h.readBytes kv.2)))

/-- A Secret by value: what the struct and everything it points to hold. -/
structure Secret where
  Name : String
  Namespace : String
  UID : String
  ResourceVersion : String
  Labels : Option (List (String × String))
  Annotations : Option (List (String × String))
  OwnerReferences : Option (List OwnerReference)
  Data : Option (List (String × Bytes))
  StringData : Option (List (String × String))
  Type' : String
  deriving DecidableEq, Repr

/-- The value of a Secret struct in a heap. -/
def Heap.viewStruct (h : Heap) (s : SecretStruct) : Secret where
  Name := s.Name
  Namespace := s.Namespace
  UID := s.UID
  ResourceVersion := s.ResourceVersion
  Labels := h.readStringMap s.Labels
  Annotations := h.readStringMap s.Annotations
  OwnerReferences := h.readOwnerRefs s.OwnerReferences
  Data := h.readData s.Data
  StringData := h.readStringMap s.StringData
  Type' := s.Type'

/-- The value behind a `*corev1.Secret`; `none` if `p` is no such pointer. -/
def Heap.viewSecret (h : Heap) (p : Ref) : Option Secret :=
  match h[p]? with
  | some (Cell.secret s) => some (h.viewStruct s)
  | _ => none

/-- The references held by a reference-typed field: the object itself and, for
a `map[string][]byte`, the byte arrays of its values. -/
def Heap.fieldReach (h : Heap) : Option Ref → List Ref
  | none => []
  | some r =>
    match h[r]? with
    | some (Cell.dataMap m) => r :: m.filterMap Prod.snd
    | _ => [r]

/-- Every object a Secret struct points to, directly or through its Data map. -/
def Heap.structReach (h : Heap) (s : SecretStruct) : List Ref :=
  h.fieldReach s.Labels ++ h.fieldReach s.Annotations ++ h.fieldReach s.OwnerReferences ++
    h.fieldReach s.Data ++ h.fieldReach s.StringData

/-- Every object that can be written through a `*corev1.Secret`: the struct it
points to and all that the struct points to. -/
def Heap.reach (h : Heap) (p : Ref) : List Ref :=
  match h[p]? with
  | some (Cell.secret s) => p :: h.structReach s
  | _ => [p]

/-- The references a Secret struct holds in its fields. -/
def SecretStruct.refs (s : SecretStruct) : List Ref :=
  s.Labels.toList ++ s.Annotations.toList ++ s.OwnerReferences.toList ++ s.Data.toList ++
    s.StringData.toList

/-- The references a cell holds. -/
def Cell.refs : Cell → List Ref
  | Cell.dataMap m => m.filterMap Prod.snd
  | Cell.secret s => s.refs
  | _ => []

/-- No dangling references: every reference held by a cell points into the
heap, as in any state a Go program can reach. -/
def Heap.Closed (h : Heap) : Prop :=
  ∀ c ∈ h, ∀ q ∈ c.refs, q < h.length

instance (h : Heap) : Decidable h.Closed := by
  unfold Heap.Closed
  infer_instance

/-- A sequence of stores `*r = c` through references, oldest first. -/
def Heap.writeAll (h : Heap) (ws : List (Ref × Cell)) : Heap :=
  ws.foldl (fun g w => g.set w.1 w.2) h

/-! ### Deep copy (`zz_generated.deepcopy.go` of the API types)

`Secret.DeepCopy` is generated library code. It allocates a new struct, and for
every non-nil map or slice of the source a new map or slice filled with copies
of the elements; byte slices are copied byte by byte. -/

/-- Copy of a `[]byte` value: a new array with the same bytes (nil stays nil). -/
def copyBytes (h : Heap) : Option Ref → Heap × Option Ref
  | none => (h, none)
  | some r =>
    match h[r]? with
    | some (Cell.bytes b) => (h ++ [Cell.bytes b], some h.length)
    | _ => (h, none)

/-- The loop copying the values of a `map[string][]byte`. -/
def copyDataEntries (h : Heap) :
    List (String × Option Ref) → Heap × List (String × Option Ref)
  | [] => (h, [])
  | (k, v) :: rest =>
    ((copyDataEntries (copyBytes h v).1 rest).1,
      (k, (copyBytes h v).2) :: (copyDataEntries (copyBytes h v).1 rest).2)

/-- Copy of a `map[string][]byte` field. -/
def copyData (h : Heap) (r : Option Ref) : Heap × Option Ref :=
  match h.dataEntries r with
  | some m =>
    ((copyDataEntries h m).1 ++ [Cell.dataMap (copyDataEntries h m).2],
      some (copyDataEntries h m).1.length)
  | none => (h, none)

/-- Copy of a `map[string]string` field. -/
def copyStringMap (h : Heap) (r : Option Ref) : Heap × Option Ref :=
  match h.readStringMap r with
  | some m => (h ++ [Cell.stringMap m], some h.length)
  | none => (h, none)

/-- Copy of a `[]OwnerReference` field. -/
def copyOwnerRefs (h : Heap) (r : Option Ref) : Heap × Option Ref :=
  match h.readOwnerRefs r with
  | some l => (h ++ [Cell.ownerRefs l], some h.length)
  | none => (h, none)

/-- The struct `s` with its five reference fields pointing elsewhere. -/
def SecretStruct.withRefs (s : SecretStruct) (labels annotations owners data stringData :
    Option Ref) : SecretStruct :=
  { s with
    Labels := labels, Annotations := annotations, OwnerReferences := owners, Data := data,
    StringData := stringData }

/-- The generated `(*Secret).DeepCopy`: the new heap and the pointer to the copy. -/
def DeepCopy (h : Heap) (s : SecretStruct) : Heap × Ref :=
  let c1 := copyStringMap h s.Labels
  let c2 := copyStringMap c1.1 s.Annotations
  let c3 := copyOwnerRefs c2.1 s.OwnerReferences
  let c4 := copyData c3.1 s.Data
  let c5 := copyStringMap c4.1 s.StringData
  Heap.alloc c5.1 (Cell.secret (s.withRefs c1.2 c2.2 c3.2 c4.2 c5.2))

/-! ### The Secret builder (`builders/secret.go`)

A `*SecretBuilder` is the reference of the cell holding its `secret` field.
Every setter returns the builder it was called on, so its model returns the
heap only. -/

/-- The assignment `b.secret.<field> = ...`: an update of the builder's struct. -/
def Heap.updateSecret (h : Heap) (b : Ref) (f : SecretStruct → SecretStruct) : Heap :=
  match h[b]? with
  | some (Cell.secret s) => h.set b (Cell.secret (f s))
  | _ => h

/-- The zero value of `corev1.Secret`. -/
def zeroSecret : SecretStruct :=
  { Name := "", Namespace := "", UID := "", ResourceVersion := "", Labels := none,
    Annotations := none, OwnerReferences := none, Data := none, StringData := none,
    Type' := "" }

/-- The function `NewSecretBuilder`: `&SecretBuilder{}`. -/
def NewSecretBuilder (h : Heap) : Heap × Ref :=
  h.alloc (Cell.secret zeroSecret)

/-- The method `WithName`. -/
def WithName (h : Heap) (b : Ref) (name : String) : Heap :=
  h.updateSecret b (fun s => { s with Name := name })

/-- The method `WithNamespace`. -/
def WithNamespace (h : Heap) (b : Ref) (ns : String) : Heap :=
  h.updateSecret b (fun s => { s with Namespace := ns })

/-- The method `WithData`: the builder keeps the caller's map itself. -/
def WithData (h : Heap) (b : Ref) (data : Option Ref) : Heap :=
  h.updateSecret b (fun s => { s with Data := data })

/-- The method `WithStringData`: the builder keeps the caller's map itself. -/
def WithStringData (h : Heap) (b : Ref) (data : Option Ref) : Heap :=
  h.updateSecret b (fun s => { s with StringData := data })

/-- The statement `m[k] = v` on the `map[string]string` that `l` points to. -/
def Heap.storeString (h : Heap) (l : Ref) (k v : String) : Heap :=
  match h[l]? with
  | some (Cell.stringMap m) => h.set l (Cell.stringMap (mapSet m k v))
  | _ => h

/-- The entries a `for k, v := range m` loop over a `map[string]string` visits
(none for a nil map). -/
def Heap.rangeStringMap (h : Heap) (r : Option Ref) : List (String × String) :=
  (h.readStringMap r).getD []

/-- The first statement of `WithLabels`:
`if b.secret.Labels == nil { b.secret.Labels = make(map[string]string) }`. -/
def ensureLabels (h : Heap) (b : Ref) : Heap :=
  match h[b]? with
  | some (Cell.secret s) =>
    match s.Labels with
    | some _ => h
    | none => (h ++ [Cell.stringMap []]).set b (Cell.secret { s with Labels := some h.length })
  | _ => h

/-- The labels reference of the builder's struct. -/
def labelsRef (h : Heap) (b : Ref) : Option Ref :=
  match h[b]? with
  | some (Cell.secret s) => s.Labels
  | _ => none

/-- The method `WithLabels`: the map is created if nil, then the entries of
`labels` are stored into it one by one. -/
def WithLabels (h : Heap) (b : Ref) (labels : Option Ref) : Heap :=
  match labelsRef (ensureLabels h b) b with
  | some l =>
    (h.rangeStringMap labels).foldl (fun hh kv => hh.storeString l kv.1 kv.2)
      (ensureLabels h b)
  | none => h

/-- The method `WithOwnerRef`:
`b.secret.OwnerReferences = append(b.secret.OwnerReferences, ref)`. The slice
is private to the builder, so whether `append` grows in place or moves to a new
array cannot be observed; the model always takes a new array. -/
def WithOwnerRef (h : Heap) (b : Ref) (ref : OwnerReference) : Heap :=
  match h[b]? with
  | some (Cell.secret s) =>
    (h ++ [Cell.ownerRefs (((h.readOwnerRefs s.OwnerReferences).getD []) ++ [ref])]).set b
      (Cell.secret { s with OwnerReferences := some h.length })
  | _ => h

/-- The method `Build`: `return b.secret.DeepCopy()`. -/
def Build (h : Heap) (b : Ref) : Heap × Ref :=
  match h[b]? with
  | some (Cell.secret s) => DeepCopy h s
  | _ => (h, b)

/-- A call of one of the builder's setters, with its argument. -/
inductive Setter where
  | WithName (name : String)
  | WithNamespace (ns : String)
  | WithData (data : Option Ref)
  | WithStringData (data : Option Ref)
  | WithLabels (labels : Option Ref)
  | WithOwnerRef (ref : OwnerReference)
  deriving DecidableEq, Repr

/-- The map a setter call is handed, if it is handed one. -/
def Setter.argRefs : Setter → List Ref
  | Setter.WithData data => data.toList
  | Setter.WithStringData data => data.toList
  | Setter.WithLabels labels => labels.toList
  | _ => []

/-- The owner reference a setter call is handed, if it is handed one. -/
def Setter.ownerRef : Setter → Option OwnerReference
  | Setter.WithOwnerRef ref => some ref
  | _ => none

/-- The effect of one setter call on builder `b`. -/
def Setter.apply (h : Heap) (b : Ref) : Setter → Heap
  | Setter.WithName name => Forge.WithName h b name
  | Setter.WithNamespace ns => Forge.WithNamespace h b ns
  | Setter.WithData data => Forge.WithData h b data
  | Setter.WithStringData data => Forge.WithStringData h b data
  | Setter.WithLabels labels => Forge.WithLabels h b labels
  | Setter.WithOwnerRef ref => Forge.WithOwnerRef h b ref

/-- A chain of setter calls on builder `b`, first call first. -/
def runSetters (h : Heap) (b : Ref) (ops : List Setter) : Heap :=
  ops.foldl (fun g op => op.apply g b) h

/-- The builder that `NewSecretBuilder()` followed by the chain of setter calls
`ops` yields: the heap and the builder pointer. -/
def builderAfter (h0 : Heap) (ops : List Setter) : Heap × Ref :=
  (runSetters (NewSecretBuilder h0).1 (NewSecretBuilder h0).2 ops, (NewSecretBuilder h0).2)

/-! ### Errors (`error`, `fmt.Errorf`, `apierrors`) -/

/-- The `metav1.StatusReason` of an API error, as far as the helpers tell
reasons apart. -/
inductive StatusReason where
  | NotFound
  | AlreadyExists
  | Conflict
  | Invalid
  | Unknown
  deriving DecidableEq, Repr

/-- A non-nil Go `error`: an API status error, any other error, or an error
made by `fmt.Errorf(text + "%w", cause)`. -/
inductive Err where
  | status (reason : StatusReason) (message : String)
  | plain (message : String)
  | wrap (text : String) (cause : Err)
  deriving DecidableEq, Repr

/-- The method `Error()`. -/
def Err.Error : Err → String
  | Err.status _ m => m
  | Err.plain m => m
  | Err.wrap t c => t ++ c.Error

/-- The reason `apierrors.ReasonForError` finds, looking through wrapping. -/
def Err.reason : Err → StatusReason
  | Err.status r _ => r
  | Err.plain _ => StatusReason.Unknown
  | Err.wrap _ c => c.reason

/-- The function `apierrors.IsNotFound`; a nil error is not one. -/
def IsNotFound : Option Err → Bool
  | none => false
  | some e => decide (e.reason = StatusReason.NotFound)

/-- The function `apierrors.IsAlreadyExists`; a nil error is not one. -/
def IsAlreadyExists : Option Err → Bool
  | none => false
  | some e => decide (e.reason = StatusReason.AlreadyExists)

/-- The `%v` rendering of an error value. -/
def fmtErr : Option Err → String
  | none => "<nil>"
  | some e => e.Error

/-! ### Schema-less objects (`unstructured.Unstructured`) -/

/-- A JSON value as held in a `map[string]interface{}`; maps are association
lists read by first match. -/
inductive Value where
  | null
  | bool (b : Bool)
  | num (n : Int)
  | str (s : String)
  | list (items : List Value)
  | map (fields : List (String × Value))
  deriving Repr

mutual
/-- Equality test on JSON values. -/
def Value.beq : Value → Value → Bool
  | Value.null, Value.null => true
  | Value.bool a, Value.bool b => a == b
  | Value.num a, Value.num b => a == b
  | Value.str a, Value.str b => a == b
  | Value.list a, Value.list b => Value.beqList a b
  | Value.map a, Value.map b => Value.beqFields a b
  | _, _ => false
/-- Equality test on lists of JSON values. -/
def Value.beqList : List Value → List Value → Bool
  | [], [] => true
  | a :: as, b :: bs => Value.beq a b && Value.beqList as bs
  | _, _ => false
/-- Equality test on the fields of a JSON object. -/
def Value.beqFields : List (String × Value) → List (String × Value) → Bool
  | [], [] => true
  | (k, a) :: as, (j, b) :: bs => k == j && Value.beq a b && Value.beqFields as bs
  | _, _ => false
end

/-- The fields of a JSON object. -/
abbrev Fields := List (String × Value)

/-- The Go statement `delete(m, k)`. -/
def mapDelete {V : Type} (m : List (String × V)) (k : String) : List (String × V) :=
  m.filter (fun kv => decide (kv.1 ≠ k))

/-- The library function `unstructured.SetNestedField` (and `SetNestedSlice`):
walks the path, creating the maps that are missing, and fails when a value on
the way is not a map. -/
def SetNestedField (obj : Fields) (value : Value) : List String → Except String Fields
  | [] => Except.error "no field given"
  | [f] => Except.ok (mapSet obj f value)
  | f :: g :: rest =>
    match mapGet obj f with
    | some (Value.map m) =>
      match SetNestedField m value (g :: rest) with
      | Except.ok m' => Except.ok (mapSet obj f (Value.map m'))
      | Except.error e => Except.error e
    | some _ =>
      Except.error ("value cannot be set because " ++ f ++ " is not a map[string]interface{}")
    | none =>
      match SetNestedField [] value (g :: rest) with
      | Except.ok m' => Except.ok (mapSet obj f (Value.map m'))
      | Except.error e => Except.error e

/-- The library function `unstructured.RemoveNestedField`. -/
def RemoveNestedField (obj : Fields) : List String → Fields
  | [] => obj
  | [f] => mapDelete obj f
  | f :: g :: rest =>
    match mapGet obj f with
    | some (Value.map m) => mapSet obj f (Value.map (RemoveNestedField m (g :: rest)))
    | _ => obj

/-- The library function `unstructured.NestedFieldNoCopy`: the value at the
path (`none` when a field on the way is absent), or an error when a value on
the way is not a map. -/
def NestedFieldNoCopy (val : Value) : List String → Except String (Option Value)
  | [] => Except.ok (some val)
  | f :: rest =>
    match val with
    | Value.null => Except.ok none
    | Value.map m =>
      match mapGet m f with
      | some v => NestedFieldNoCopy v rest
      | none => Except.ok none
    | _ => Except.error ("accessor error: expected map[string]interface{} at " ++ f)

/-- The library function `unstructured.NestedString`, without its error: the
string at the path, if there is one. -/
def NestedString (obj : Fields) (path : List String) : Option String :=
  match NestedFieldNoCopy (Value.map obj) path with
  | Except.ok (some (Value.str s)) => some s
  | _ => none

/-- The struct `unstructured.Unstructured`: its content map (nil reads as empty). -/
structure Unstructured where
  Object : Fields
  deriving Repr

/-- The struct `schema.GroupVersionKind`. -/
structure GroupVersionKind where
  Group : String
  Version : String
  Kind : String
  deriving DecidableEq, Repr

/-- The method `GroupVersion().String()`. -/
def GroupVersionKind.apiVersion (gvk : GroupVersionKind) : String :=
  if gvk.Group = "" then gvk.Version else gvk.Group ++ "/" ++ gvk.Version

/-- The unexported method `(*Unstructured).setNestedField`, which drops the error. -/
def Unstructured.setNestedField (u : Unstructured) (value : Value) (path : List String) :
    Unstructured :=
  match SetNestedField u.Object value path with
  | Except.ok o => { Object := o }
  | Except.error _ => u

/-- The method `SetGroupVersionKind`: `SetAPIVersion` then `SetKind`. -/
def Unstructured.SetGroupVersionKind (u : Unstructured) (gvk : GroupVersionKind) :
    Unstructured :=
  (u.setNestedField (Value.str gvk.apiVersion) ["apiVersion"]).setNestedField
    (Value.str gvk.Kind) ["kind"]

/-- The method `SetName`. -/
def Unstructured.SetName (u : Unstructured) (name : String) : Unstructured :=
  if name = "" then { Object := RemoveNestedField u.Object ["metadata", "name"] }
  else u.setNestedField (Value.str name) ["metadata", "name"]

/-- The method `SetNamespace`. -/
def Unstructured.SetNamespace (u : Unstructured) (ns : String) : Unstructured :=
  if ns = "" then { Object := RemoveNestedField u.Object ["metadata", "namespace"] }
  else u.setNestedField (Value.str ns) ["metadata", "namespace"]

/-- The method `GetName`. -/
def Unstructured.GetName (u : Unstructured) : String :=
  (NestedString u.Object ["metadata", "name"]).getD ""

/-- The method `GetNamespace`. -/
def Unstructured.GetNamespace (u : Unstructured) : String :=
  (NestedString u.Object ["metadata", "namespace"]).getD ""

/-- The method `GetAPIVersion`. -/
def Unstructured.GetAPIVersion (u : Unstructured) : String :=
  (NestedString u.Object ["apiVersion"]).getD ""

/-- The method `GetKind`. -/
def Unstructured.GetKind (u : Unstructured) : String :=
  (NestedString u.Object ["kind"]).getD ""

/-! ### Typed objects -/

/-- The struct `types.NamespacedName` (`client.ObjectKey`). -/
structure ObjectKey where
  Namespace : String
  Name : String
  deriving DecidableEq, Repr

/-- A `metav1.Time`. -/
abbrev Time := Nat

/-- The struct `batchv1.JobCondition`. -/
structure JobCondition where
  Type' : String
  Status : String
  Reason : String
  Message : String
  LastTransitionTime : Time
  deriving DecidableEq, Repr

/-- The struct `corev1.Container`, by name and image. -/
structure Container where
  Name : String
  Image : String
  deriving DecidableEq, Repr

/-- The struct `corev1.PodSpec`, by containers and restart policy. -/
structure PodSpec where
  Containers : List Container
  RestartPolicy : String
  deriving DecidableEq, Repr

/-- The struct `corev1.PodTemplateSpec`. -/
structure PodTemplateSpec where
  Spec : PodSpec
  deriving DecidableEq, Repr

/-- The struct `batchv1.JobSpec`. -/
structure JobSpec where
  Template : PodTemplateSpec
  deriving DecidableEq, Repr

/-- The struct `batchv1.JobStatus`. -/
structure JobStatus where
  Conditions : List JobCondition
  StartTime : Option Time
  CompletionTime : Option Time
  Active : Int
  Succeeded : Int
  Failed : Int
  deriving DecidableEq, Repr

/-- The struct `batchv1.Job`. -/
structure Job where
  Name : String
  Namespace : String
  UID : String
  ResourceVersion : String
  Spec : JobSpec
  Status : JobStatus
  deriving DecidableEq, Repr

/-- The zero value of `batchv1.JobStatus`. -/
def zeroJobStatus : JobStatus :=
  { Conditions := [], StartTime := none, CompletionTime := none, Active := 0, Succeeded := 0,
    Failed := 0 }

/-- Any `client.Object` the helpers hand to the client. -/
inductive Object where
  | unstructured (u : Unstructured)
  | secret (s : Secret)
  | job (j : Job)
  deriving Repr

/-- What makes a type a `client.Object`: its place among the objects and the
function `client.ObjectKeyFromObject`. -/
class ClientObject (O : Type) where
  toObject : O → Object
  key : O → ObjectKey

instance : ClientObject Unstructured where
  toObject := Object.unstructured
  key u := { Namespace := u.GetNamespace, Name := u.GetName }

instance : ClientObject Secret where
  toObject := Object.secret
  key s := { Namespace := s.Namespace, Name := s.Name }

instance : ClientObject Job where
  toObject := Object.job
  key j := { Namespace := j.Namespace, Name := j.Name }

/-! ### The controller-runtime client -/

/-- What a client call gives back: the store afterwards, the error (`none` is
nil) and the content of the object handle after the call. -/
structure Reply (σ O : Type) where
  store : σ
  err : Option Err
  obj : O

/-- The part of `client.Client` the helpers use, for objects of type `O`, over
a store of type `σ`. `StatusPatch s obj base` is
`c.Status().Patch(ctx, obj, client.MergeFrom(base))`. Any behaviour of the
store is a `Client`. -/
structure Client (σ O : Type) where
  Create : σ → O → Reply σ O
  Get : σ → ObjectKey → O → Reply σ O
  Update : σ → O → Reply σ O
  StatusPatch : σ → O → O → Reply σ O

/-- A request issued to the client. -/
inductive Call where
  | Create (obj : Object)
  | Get (key : ObjectKey) (obj : Object)
  | Update (obj : Object)
  | StatusPatch (obj base : Object)
  deriving Repr

/-- The store together with the requests issued so far, oldest first. -/
structure Session (σ : Type) where
  store : σ
  calls : List Call

/-- What a call made in a session gives back. -/
structure Outcome (σ O : Type) where
  session : Session σ
  err : Option Err
  obj : O

/-- The call `c.Create(ctx, obj)`. -/
def Client.create {σ O : Type} [ClientObject O] (c : Client σ O) (w : Session σ) (obj : O) :
    Outcome σ O :=
  { session := { store := (c.Create w.store obj).store,
                 calls := w.calls ++ [Call.Create (ClientObject.toObject obj)] },
    err := (c.Create w.store obj).err,
    obj := (c.Create w.store obj).obj }

/-- The call `c.Get(ctx, key, obj)`. -/
def Client.get {σ O : Type} [ClientObject O] (c : Client σ O) (w : Session σ) (key : ObjectKey)
    (obj : O) : Outcome σ O :=
  { session := { store := (c.Get w.store key obj).store,
                 calls := w.calls ++ [Call.Get key (ClientObject.toObject obj)] },
    err := (c.Get w.store key obj).err,
    obj := (c.Get w.store key obj).obj }

/-- The call `c.Update(ctx, obj)`. -/
def Client.update {σ O : Type} [ClientObject O] (c : Client σ O) (w : Session σ) (obj : O) :
    Outcome σ O :=
  { session := { store := (c.Update w.store obj).store,
                 calls := w.calls ++ [Call.Update (ClientObject.toObject obj)] },
    err := (c.Update w.store obj).err,
    obj := (c.Update w.store obj).obj }

/-- The call `c.Status().Patch(ctx, obj, client.MergeFrom(base))`. -/
def Client.statusPatch {σ O : Type} [ClientObject O] (c : Client σ O) (w : Session σ)
    (obj base : O) : Outcome σ O :=
  { session := { store := (c.StatusPatch w.store obj base).store,
                 calls := w.calls ++
                   [Call.StatusPatch (ClientObject.toObject obj) (ClientObject.toObject base)] },
    err := (c.StatusPatch w.store obj base).err,
    obj := (c.StatusPatch w.store obj base).obj }

/-! ### The simulators (`simulators/*.go`) -/

/-- The first statements of the schema-less simulators: a new
`unstructured.Unstructured` with its group/version/kind, name and namespace set. -/
def newUnstructured (gvk : GroupVersionKind) (name ns : String) : Unstructured :=
  (((⟨[]⟩ : Unstructured).SetGroupVersionKind gvk).SetName name).SetNamespace ns

/-- The function `createOrGet` of `simulators/helpers.go`. -/
def createOrGet {σ O : Type} [ClientObject O] (c : Client σ O) (w : Session σ) (obj : O)
    (kind : String) : Outcome σ O :=
  let created := c.create w obj
  if created.err ≠ none ∧ IsAlreadyExists created.err = false then
    { session := created.session,
      err := created.err.map (Err.wrap ("creating " ++ kind ++ ": ")),
      obj := created.obj }
  else if IsAlreadyExists created.err = true then
    let got := c.get created.session (ClientObject.key created.obj) created.obj
    if got.err ≠ none then
      { session := got.session,
        err := got.err.map (Err.wrap ("getting " ++ kind ++ ": ")),
        obj := got.obj }
    else { session := got.session, err := none, obj := got.obj }
  else { session := created.session, err := none, obj := created.obj }

/-- What a simulator gives back: the session afterwards and the error returned. -/
structure Result (σ : Type) where
  session : Session σ
  err : Option Err

/-- The one-element condition list the ready simulators write. -/
def readyConditions (reason message now : String) : Value :=
  Value.list [Value.map [("type", Value.str "Ready"), ("status", Value.str "True"),
    ("reason", Value.str reason), ("message", Value.str message),
    ("lastTransitionTime", Value.str now)]]

/-- The function `simulateUnstructuredReady` of `simulators/helpers.go`; `now`
is `time.Now().UTC().Format(time.RFC3339)` as read during the call. -/
def simulateUnstructuredReady {σ : Type} (c : Client σ Unstructured) (w : Session σ)
    (now : String) (gvk : GroupVersionKind) (name ns condReason condMessage : String) :
    Result σ :=
  let obj := newUnstructured gvk name ns
  let r := createOrGet c w obj gvk.Kind
  match r.err with
  | some e => { session := r.session, err := some e }
  | none =>
    let base := r.obj
    match SetNestedField r.obj.Object (Value.bool true) ["status", "ready"] with
    | Except.error e =>
      { session := r.session,
        err := some (Err.wrap ("setting " ++ gvk.Kind ++ " status.ready: ") (Err.plain e)) }
    | Except.ok o1 =>
      match SetNestedField o1 (readyConditions condReason condMessage now)
          ["status", "conditions"] with
      | Except.error e =>
        { session := r.session,
          err := some (Err.wrap ("setting " ++ gvk.Kind ++ " status.conditions: ")
            (Err.plain e)) }
      | Except.ok o2 =>
        let p := c.statusPatch r.session { Object := o2 } base
        { session := p.session,
          err := p.err.map (Err.wrap ("patching " ++ gvk.Kind ++ " status: ")) }

/-- The function `SimulateMariaDBReady` of `simulators/mariadb.go`. -/
def SimulateMariaDBReady {σ : Type} (c : Client σ Unstructured) (w : Session σ) (now : String)
    (name ns : String) : Result σ :=
  simulateUnstructuredReady c w now
    { Group := "k8s.mariadb.com", Version := "v1alpha1", Kind := "MariaDB" }
    name ns "Ready" "MariaDB is ready"

/-- The function `SimulateMemcachedReady` of `simulators/memcached.go`. -/
def SimulateMemcachedReady {σ : Type} (c : Client σ Unstructured) (w : Session σ) (now : String)
    (name ns : String) : Result σ :=
  simulateUnstructuredReady c w now
    { Group := "opsv1.memcached.com", Version := "v1alpha1", Kind := "Memcached" }
    name ns "Ready" "Memcached is ready"

/-- The zero value of `corev1.Secret`, by value. -/
def Secret.zero : Secret :=
  { Name := "", Namespace := "", UID := "", ResourceVersion := "", Labels := none,
    Annotations := none, OwnerReferences := none, Data := none, StringData := none,
    Type' := "" }

/-- The Secret literal of `SimulateExternalSecretSync`. -/
def targetSecret (name ns : String) (targetSecretData : Option (List (String × Bytes))) :
    Secret :=
  { Secret.zero with Name := name, Namespace := ns, Data := targetSecretData }

/-- The second half of `SimulateExternalSecretSync`: create the target Secret,
or, when it exists already, fetch it and update its Data. -/
def syncTargetSecret {σ : Type} (cs : Client σ Secret) (w : Session σ) (name ns : String)
    (targetSecretData : Option (List (String × Bytes))) : Result σ :=
  let secret := targetSecret name ns targetSecretData
  let created := cs.create w secret
  match created.err with
  | none => { session := created.session, err := none }
  | some e =>
    if IsAlreadyExists (some e) = false then
      { session := created.session, err := some (Err.wrap "creating target Secret: " e) }
    else
      let got := cs.get created.session (ClientObject.key created.obj) Secret.zero
      match got.err with
      | some ge =>
        { session := got.session,
          err := some (Err.wrap "getting existing target Secret: " ge) }
      | none =>
        let updated := cs.update got.session { got.obj with Data := targetSecretData }
        { session := updated.session,
          err := updated.err.map (Err.wrap "updating existing target Secret data: ") }

/-- The function `SimulateExternalSecretSync` of `simulators/externalsecret.go`;
`now` is `time.Now().UTC().Format(time.RFC3339)` as read during the call. -/
def SimulateExternalSecretSync {σ : Type} (cu : Client σ Unstructured) (cs : Client σ Secret)
    (w : Session σ) (now : String) (name ns : String)
    (targetSecretData : Option (List (String × Bytes))) : Result σ :=
  let obj := newUnstructured
    { Group := "external-secrets.io", Version := "v1beta1", Kind := "ExternalSecret" } name ns
  let r := createOrGet cu w obj "ExternalSecret"
  match r.err with
  | some e => { session := r.session, err := some e }
  | none =>
    let base := r.obj
    match SetNestedField r.obj.Object (readyConditions "SecretSynced" "Secret was synced" now)
        ["status", "conditions"] with
    | Except.error e =>
      { session := r.session,
        err := some (Err.wrap "setting ExternalSecret status.conditions: " (Err.plain e)) }
    | Except.ok o =>
      let p := cu.statusPatch r.session { Object := o } base
      match p.err with
      | some e =>
        { session := p.session, err := some (Err.wrap "patching ExternalSecret status: " e) }
      | none => syncTargetSecret cs p.session name ns targetSecretData

/-- The two conditions `SimulateJobComplete` writes. -/
def jobCompleteConditions (now : Time) : List JobCondition :=
  [{ Type' := "SuccessCriteriaMet", Status := "True", Reason := "SuccessCriteriaMet",
     Message := "Job success criteria met", LastTransitionTime := now },
   { Type' := "Complete", Status := "True", Reason := "Complete", Message := "Job completed",
     LastTransitionTime := now }]

/-- The Job literal of `SimulateJobComplete`. -/
def newJob (name ns : String) : Job :=
  { Name := name, Namespace := ns, UID := "", ResourceVersion := "",
    Spec := { Template := { Spec := { Containers := [{ Name := "job", Image := "busybox" }],
                                      RestartPolicy := "Never" } } },
    Status := zeroJobStatus }

/-- The four assignments to `job.Status` in `SimulateJobComplete`. -/
def completedJob (job : Job) (now : Time) : Job :=
  { job with
    Status := { job.Status with
      Succeeded := 1, StartTime := some now, CompletionTime := some now,
      Conditions := jobCompleteConditions now } }

/-- The function `SimulateJobComplete` of `simulators/job.go`; `now` is
`metav1.NewTime(time.Now().UTC())` as read during the call. -/
def SimulateJobComplete {σ : Type} (c : Client σ Job) (w : Session σ) (now : Time)
    (name ns : String) : Result σ :=
  let job := newJob name ns
  let r := createOrGet c w job "Job"
  match r.err with
  | some e => { session := r.session, err := some e }
  | none =>
    let base := r.obj
    let p := c.statusPatch r.session (completedJob r.obj now) base
    { session := p.session, err := p.err.map (Err.wrap "patching Job status: ") }

/-! ### Resource assertions (`assertions/resources.go`) -/

/-- The statement `g.Expect(b).To(gomega.BeTrue(), format, operand)`;
`description` is the format rendered with its operand. -/
def Gomega.expectTrue (lib : TextLib) (g : Gomega) (b : Bool) (description : String) : Gomega :=
  if b = true then g else g.fail (describedMessage description lib.beTrueFailure)

/-- The statement `g.Expect(err).NotTo(gomega.HaveOccurred())`. -/
def Gomega.expectNoError (lib : TextLib) (g : Gomega) (err : Option Err) : Gomega :=
  match err with
  | none => g
  | some e => g.fail (lib.unexpectedErrorFailure e.Error)

/-- What an assertion on the store gives back: the session, the gomega and the
object handle afterwards. -/
structure Checked (σ O : Type) where
  session : Session σ
  gomega : Gomega
  obj : O

/-- The function `AssertResourceExists` of `assertions/resources.go`. -/
def AssertResourceExists {σ O : Type} [ClientObject O] (lib : TextLib) (c : Client σ O)
    (w : Session σ) (g : Gomega) (key : ObjectKey) (obj : O) : Checked σ O :=
  let got := c.get w key obj
  { session := got.session, gomega := g.expectNoError lib got.err, obj := got.obj }

/-- The function `AssertResourceNotExists` of `assertions/resources.go`. -/
def AssertResourceNotExists {σ O : Type} [ClientObject O] (lib : TextLib) (c : Client σ O)
    (w : Session σ) (g : Gomega) (key : ObjectKey) (obj : O) : Checked σ O :=
  let got := c.get w key obj
  { session := got.session,
    gomega := g.expectTrue lib (IsNotFound got.err)
      ("expected NotFound error, got: " ++ fmtErr got.err),
    obj := got.obj }

/-! ### An in-memory store

The API server is outside the repository. Where a property needs a store that
keeps what it is given, this one is used: one table of objects per kind, an
object being identified by its namespace and name (and, when schema-less, by
its apiVersion and kind). It keeps objects as handed to it: server-managed
metadata (uid, resourceVersion, timestamps) and validation are not modelled. -/

/-- The objects held by the store. -/
structure MemStore where
  unstructureds : List Unstructured
  secrets : List Secret
  jobs : List Job

/-- The first object of a table with the given identity. -/
def tableFind {O I : Type} [DecidableEq I] (ident : O → I) (t : List O) (i : I) : Option O :=
  t.find? (fun o => decide (ident o = i))

/-- The table with the objects of the identity of `o` replaced by `o`. -/
def tableReplace {O I : Type} [DecidableEq I] (ident : O → I) (t : List O) (o : O) : List O :=
  t.map (fun x => if ident x = ident o then o else x)

/-- The error of a Create on an identity already taken. -/
def errAlreadyExists (key : ObjectKey) : Err :=
  Err.status StatusReason.AlreadyExists ("\"" ++ key.Name ++ "\" already exists")

/-- The error of a request for an object that is not there. -/
def errNotFound (key : ObjectKey) : Err :=
  Err.status StatusReason.NotFound ("\"" ++ key.Name ++ "\" not found")

/-- The identity of a schema-less object. -/
def Unstructured.ident (u : Unstructured) : String × String × ObjectKey :=
  (u.GetAPIVersion, u.GetKind, ClientObject.key u)

/-- The fields of the `status` of a schema-less object (none if it has no
`status` or the `status` is not a map). -/
def statusFields (u : Unstructured) : Fields :=
  match mapGet u.Object "status" with
  | some (Value.map m) => m
  | _ => []

/-- Equality test on optional JSON values. -/
def optBeq : Option Value → Option Value → Bool
  | none, none => true
  | some a, some b => Value.beq a b
  | _, _ => false

/-- The JSON merge patch that turns the map `base` into the map `obj`, applied
to the map `stored`, field by field: a field the caller changed or added takes
the caller's value, a field the caller removed is removed, every other field
keeps what is stored. -/
def mergeFields (stored base obj : Fields) : Fields :=
  obj.filterMap (fun kv =>
      match mapGet base kv.1 with
      | some bv =>
        if Value.beq bv kv.2 then (mapGet stored kv.1).map (fun sv => (kv.1, sv))
        else some kv
      | none => some kv) ++
    stored.filter (fun kv => (mapGet obj kv.1).isNone && (mapGet base kv.1).isNone)

/-- The stored object after `Status().Patch(obj, MergeFrom(base))`: only the
`status` is touched. An unchanged `status` leaves the stored object alone;
between two maps the patch goes field by field; otherwise the caller's
`status` replaces the stored one. -/
def patchUnstructuredStatus (stored base obj : Unstructured) : Unstructured :=
  if optBeq (mapGet base.Object "status") (mapGet obj.Object "status") then stored
  else
    match mapGet base.Object "status", mapGet obj.Object "status" with
    | some (Value.map bm), some (Value.map om) =>
      { Object := mapSet stored.Object "status"
          (Value.map (mergeFields (statusFields stored) bm om)) }
    | _, some ov => { Object := mapSet stored.Object "status" ov }
    | _, none => { Object := mapDelete stored.Object "status" }

/-- The store as a client for schema-less objects. -/
def memUnstructured : Client MemStore Unstructured where
  Create s obj :=
    match tableFind Unstructured.ident s.unstructureds obj.ident with
    | some _ => { store := s, err := some (errAlreadyExists (ClientObject.key obj)), obj := obj }
    | none =>
      { store := { s with unstructureds := s.unstructureds ++ [obj] }, err := none, obj := obj }
  Get s key obj :=
    match tableFind Unstructured.ident s.unstructureds
        (obj.GetAPIVersion, obj.GetKind, key) with
    | some stored => { store := s, err := none, obj := stored }
    | none => { store := s, err := some (errNotFound key), obj := obj }
  Update s obj :=
    match tableFind Unstructured.ident s.unstructureds obj.ident with
    | some _ =>
      { store := { s with
          unstructureds := tableReplace Unstructured.ident s.unstructureds obj },
        err := none, obj := obj }
    | none => { store := s, err := some (errNotFound (ClientObject.key obj)), obj := obj }
  StatusPatch s obj base :=
    match tableFind Unstructured.ident s.unstructureds obj.ident with
    | some stored =>
      { store := { s with
          unstructureds := tableReplace Unstructured.ident s.unstructureds
            (patchUnstructuredStatus stored base obj) },
        err := none, obj := patchUnstructuredStatus stored base obj }
    | none => { store := s, err := some (errNotFound (ClientObject.key obj)), obj := obj }

/-- The identity of a Secret. -/
def Secret.ident (s : Secret) : ObjectKey :=
  { Namespace := s.Namespace, Name := s.Name }

/-- The store as a client for Secrets; a Secret has no status sub-resource. -/
def memSecret : Client MemStore Secret where
  Create s obj :=
    match tableFind Secret.ident s.secrets obj.ident with
    | some _ => { store := s, err := some (errAlreadyExists obj.ident), obj := obj }
    | none => { store := { s with secrets := s.secrets ++ [obj] }, err := none, obj := obj }
  Get s key obj :=
    match tableFind Secret.ident s.secrets key with
    | some stored => { store := s, err := none, obj := stored }
    | none => { store := s, err := some (errNotFound key), obj := obj }
  Update s obj :=
    match tableFind Secret.ident s.secrets obj.ident with
    | some _ =>
      { store := { s with secrets := tableReplace Secret.ident s.secrets obj },
        err := none, obj := obj }
    | none => { store := s, err := some (errNotFound obj.ident), obj := obj }
  StatusPatch s obj _ := { store := s, err := some (errNotFound obj.ident), obj := obj }

/-- The identity of a Job. -/
def Job.ident (j : Job) : ObjectKey :=
  { Namespace := j.Namespace, Name := j.Name }

/-- The JSON merge patch that turns the status `base` into the status `obj`,
applied to the status `stored`, field by field. -/
def mergeJobStatus (stored base obj : JobStatus) : JobStatus :=
  { Conditions := if obj.Conditions = base.Conditions then stored.Conditions else obj.Conditions,
    StartTime := if obj.StartTime = base.StartTime then stored.StartTime else obj.StartTime,
    CompletionTime :=
      if obj.CompletionTime = base.CompletionTime then stored.CompletionTime
      else obj.CompletionTime,
    Active := if obj.Active = base.Active then stored.Active else obj.Active,
    Succeeded := if obj.Succeeded = base.Succeeded then stored.Succeeded else obj.Succeeded,
    Failed := if obj.Failed = base.Failed then stored.Failed else obj.Failed }

/-- The store as a client for Jobs. -/
def memJob : Client MemStore Job where
  Create s obj :=
    match tableFind Job.ident s.jobs obj.ident with
    | some _ => { store := s, err := some (errAlreadyExists obj.ident), obj := obj }
    | none => { store := { s with jobs := s.jobs ++ [obj] }, err := none, obj := obj }
  Get s key obj :=
    match tableFind Job.ident s.jobs key with
    | some stored => { store := s, err := none, obj := stored }
    | none => { store := s, err := some (errNotFound key), obj := obj }
  Update s obj :=
    match tableFind Job.ident s.jobs obj.ident with
    | some _ =>
      { store := { s with jobs := tableReplace Job.ident s.jobs obj }, err := none, obj := obj }
    | none => { store := s, err := some (errNotFound obj.ident), obj := obj }
  StatusPatch s obj base :=
    match tableFind Job.ident s.jobs obj.ident with
    | some stored =>
      { store := { s with
          jobs := tableReplace Job.ident s.jobs
            { stored with Status := mergeJobStatus stored.Status base.Status obj.Status } },
        err := none,
        obj := { stored with Status := mergeJobStatus stored.Status base.Status obj.Status } }
    | none => { store := s, err := some (errNotFound obj.ident), obj := obj }

/-- The empty store. -/
def MemStore.empty : MemStore :=
  { unstructureds := [], secrets := [], jobs := [] }

/-- The object `u` with field `k` of its `status` set to `v`: what a successful
`SetNestedField(u.Object, v, "status", k)` leaves. -/
def setStatus (u : Unstructured) (k : String) (v : Value) : Unstructured :=
  { Object := mapSet u.Object "status" (Value.map (mapSet (statusFields u) k v)) }

/-- The `status` of the object is a map or absent, so that a field of it can
be set. -/
def statusSettable (u : Unstructured) : Bool :=
  match mapGet u.Object "status" with
  | some (Value.map _) => true
  | some _ => false
  | none => true

/-- The object the operations on a table act on when asked for `o`: the stored
object of that identity, or `o` itself when there is none. -/
def tableCurrent {O I : Type} [DecidableEq I] (ident : O → I) (t : List O) (o : O) : O :=
  (tableFind ident t (ident o)).getD o

/-- The table after a Create of `o` that tolerates an existing object. -/
def tableEnsure {O I : Type} [DecidableEq I] (ident : O → I) (t : List O) (o : O) : List O :=
  match tableFind ident t (ident o) with
  | some _ => t
  | none => t ++ [o]

/-! ### Persisting a built Secret (`builders/secret.go`) -/

/-- What `SecretBuilder.Create` gives back: memory after the `Build`, the
session afterwards, the pointer `Build` returned, the Secret behind the
returned pointer (`none` is the nil pointer) and the error. The client is
handed the built object; what it leaves in that object is the `obj` of its
reply, so a returned Secret is carried by value. -/
structure Created (σ : Type) where
  heap : Heap
  session : Session σ
  built : Ref
  secret : Option Secret
  err : Option Err

/-- The method `Create` of `builders/secret.go`, on the builder `b`. The
namespace and name of the error text are read from the built object after the
client's Create. (A reference that is no builder has no Go counterpart; the
model builds the zero Secret for it.) -/
def SecretBuilder.Create {σ : Type} (c : Client σ Secret) (h : Heap) (b : Ref) (w : Session σ) :
    Created σ :=
  let built := Build h b
  let secret := (built.1.viewSecret built.2).getD Secret.zero
  let created := c.create w secret
  match created.err with
  | some e =>
    { heap := built.1, session := created.session, built := built.2, secret := none,
      err := some (Err.wrap
        ("creating Secret " ++ created.obj.Namespace ++ "/" ++ created.obj.Name ++ ": ") e) }
  | none =>
    { heap := built.1, session := created.session, built := built.2,
      secret := some created.obj, err := none }

/-! ### The test environment (`envtest/setup.go`)

`SetupEnvTest` drives code from outside the repository only: the Go runtime,
the file system, the envtest environment, the scheme registration functions and
the client constructor. `EnvLib` holds what these calls give back; the calls
that act outside the program are logged as events. -/

/-- A directory entry as `os.ReadDir` lists it: its `Name()` and `IsDir()`. -/
structure DirEntry where
  Name : String
  IsDir : Bool
  deriving DecidableEq, Repr

/-- What the collaborators of `SetupEnvTest` give back: `Caller` is the file
name `runtime.Caller(0)` reports (`none` when its `ok` is false), `Dir` and
`Join` are `filepath.Dir` and `filepath.Join`, `ReadDir` is `os.ReadDir`,
`Start paths` is `Start()` on an `envtest.Environment` whose
`CRDDirectoryPaths` is `paths`, `Stop` the result of its `Stop()`, `NewScheme`
is `k8sruntime.NewScheme()`, the three `AddToScheme` functions are those of
`corev1`, `appsv1` and `batchv1` (the scheme afterwards and the error), and
`NewClient cfg s` is `client.New(cfg, client.Options{Scheme: s})`. -/
structure EnvLib (Config Scheme Cl : Type) where
  Caller : Option String
  Dir : String → String
  Join : List String → String
  ReadDir : String → Except Err (List DirEntry)
  Start : List String → Except Err Config
  Stop : Option Err
  NewScheme : Scheme
  corev1AddToScheme : Scheme → Scheme × Option Err
  appsv1AddToScheme : Scheme → Scheme × Option Err
  batchv1AddToScheme : Scheme → Scheme × Option Err
  NewClient : Config → Scheme → Except Err Cl

/-- A call of `SetupEnvTest` or of its teardown function that acts outside the
program. -/
inductive EnvEvent where
  | ReadDir (path : String)
  | Start (crdDirectoryPaths : List String)
  | AddToScheme (name : String)
  | NewClient
  | Stop
  | Stderr (text : String)
  deriving DecidableEq, Repr

/-- The package variable `schemeAdders`. -/
def schemeAdders {Config Scheme Cl : Type} (lib : EnvLib Config Scheme Cl) :
    List (String × (Scheme → Scheme × Option Err)) :=
  [("corev1", lib.corev1AddToScheme), ("appsv1", lib.appsv1AddToScheme),
    ("batchv1", lib.batchv1AddToScheme)]

/-- The function `FakeCRDsPath`. -/
def FakeCRDsPath {Config Scheme Cl : Type} (lib : EnvLib Config Scheme Cl) : Except Err String :=
  match lib.Caller with
  | none =>
    Except.error
      (Err.plain "envtest: runtime.Caller(0) failed; cannot determine source file path")
  | some filename => Except.ok (lib.Join [lib.Dir filename, "..", "fake_crds"])

/-- The function `fakeCRDSubDirs`, with the events of the call. (Its result for
a directory without subdirectories is the nil slice; the caller only appends
it, so the model does not tell nil from empty.) -/
def fakeCRDSubDirs {Config Scheme Cl : Type} (lib : EnvLib Config Scheme Cl) :
    Except Err (List String) × List EnvEvent :=
  match FakeCRDsPath lib with
  | Except.error e => (Except.error e, [])
  | Except.ok base =>
    match lib.ReadDir base with
    | Except.error e =>
      (Except.error (Err.wrap ("envtest: cannot read fake_crds directory " ++ base ++ ": ") e),
        [EnvEvent.ReadDir base])
    | Except.ok entries =>
      (Except.ok ((entries.filter (fun e => e.IsDir)).map (fun e => lib.Join [base, e.Name])),
        [EnvEvent.ReadDir base])

/-- The loop `for _, sa := range schemeAdders` of `SetupEnvTest`: the scheme
with every group registered, or the name and error of the first registration
that failed; with the events so far. -/
def registerSchemes {Scheme : Type} :
    List (String × (Scheme → Scheme × Option Err)) → Scheme → List EnvEvent →
      Except (String × Err) Scheme × List EnvEvent
  | [], s, events => (Except.ok s, events)
  | (name, add) :: rest, s, events =>
    match (add s).2 with
    | some e => (Except.error (name, e), events ++ [EnvEvent.AddToScheme name])
    | none => registerSchemes rest (add s).1 (events ++ [EnvEvent.AddToScheme name])

/-- The teardown function `SetupEnvTest` returns, as the events a call of it
produces: it stops the environment and writes a stop error to stderr. -/
def teardown {Config Scheme Cl : Type} (lib : EnvLib Config Scheme Cl) : List EnvEvent :=
  match lib.Stop with
  | some e =>
    [EnvEvent.Stop, EnvEvent.Stderr ("envtest: error stopping environment: " ++ e.Error ++ "\n")]
  | none => [EnvEvent.Stop]

/-- What `SetupEnvTest` gives back: the config, the client and the teardown
function (`none` is nil), the error, and the events of the call. -/
structure EnvTest (Config Cl : Type) where
  cfg : Option Config
  client : Option Cl
  teardown : Option (List EnvEvent)
  err : Option Err
  events : List EnvEvent

/-- The function `SetupEnvTest`. -/
def SetupEnvTest {Config Scheme Cl : Type} (lib : EnvLib Config Scheme Cl)
    (crdPaths : List String) : EnvTest Config Cl :=
  match fakeCRDSubDirs lib with
  | (Except.error e, events) =>
    { cfg := none, client := none, teardown := none,
      err := some (Err.wrap "envtest: enumerating CRD subdirectories: " e), events := events }
  | (Except.ok crdSubDirs, events) =>
    let allCRDPaths := crdSubDirs ++ crdPaths
    match lib.Start allCRDPaths with
    | Except.error e =>
      { cfg := none, client := none, teardown := none,
        err := some (Err.wrap "envtest: failed to start environment: " e),
        events := events ++ [EnvEvent.Start allCRDPaths] }
    | Except.ok cfg =>
      match registerSchemes (schemeAdders lib) lib.NewScheme
          (events ++ [EnvEvent.Start allCRDPaths]) with
      | (Except.error (name, e), events2) =>
        { cfg := none, client := none, teardown := none,
          err := some (Err.wrap ("envtest: failed to register " ++ name ++ " scheme: ") e),
          events := events2 ++ [EnvEvent.Stop] }
      | (Except.ok s, events2) =>
        match lib.NewClient cfg s with
        | Except.error e =>
          { cfg := none, client := none, teardown := none,
            err := some (Err.wrap "envtest: failed to create client: " e),
            events := events2 ++ [EnvEvent.NewClient, EnvEvent.Stop] }
        | Except.ok k8sClient =>
          { cfg := some cfg, client := some k8sClient, teardown := some (Forge.teardown lib),
            err := none, events := events2 ++ [EnvEvent.NewClient] }

/-! ### Replies of the store, recorded -/

/-- The function `errors.Is` as far as wrapping goes: `x` is `e` or wraps it,
at any depth. -/
def Err.wraps (x e : Err) : Bool :=
  if x = e then true
  else
    match x with
    | Err.wrap _ cause => cause.wraps e
    | _ => false

/-- A store together with the replies it has given so far: every request with
the error it returned (`none` is nil), oldest first. -/
abbrev Traced (σ : Type) := σ × List (Call × Option Err)

/-- The client `c` with its replies recorded. It behaves as `c` does. -/
def Client.traced {σ O : Type} [ClientObject O] (c : Client σ O) : Client (Traced σ) O where
  Create s obj :=
    { store := ((c.Create s.1 obj).store,
        s.2 ++ [(Call.Create (ClientObject.toObject obj), (c.Create s.1 obj).err)]),
      err := (c.Create s.1 obj).err, obj := (c.Create s.1 obj).obj }
  Get s key obj :=
    { store := ((c.Get s.1 key obj).store,
        s.2 ++ [(Call.Get key (ClientObject.toObject obj), (c.Get s.1 key obj).err)]),
      err := (c.Get s.1 key obj).err, obj := (c.Get s.1 key obj).obj }
  Update s obj :=
    { store := ((c.Update s.1 obj).store,
        s.2 ++ [(Call.Update (ClientObject.toObject obj), (c.Update s.1 obj).err)]),
      err := (c.Update s.1 obj).err, obj := (c.Update s.1 obj).obj }
  StatusPatch s obj base :=
    { store := ((c.StatusPatch s.1 obj base).store,
        s.2 ++ [(Call.StatusPatch (ClientObject.toObject obj) (ClientObject.toObject base),
          (c.StatusPatch s.1 obj base).err)]),
      err := (c.StatusPatch s.1 obj base).err, obj := (c.StatusPatch s.1 obj base).obj }

/-! ### Polling for a condition (`assertions/conditions.go`)

`EventuallyCondition` hands a function to gomega's `Eventually`, which calls
it once per poll attempt with a gomega of its own; on that gomega the first
failed assertion ends the attempt. -/

/-- Library code the polled function relies on: `ToUnstructured` and
`FromUnstructured` are the two functions of
`runtime.DefaultUnstructuredConverter` (the second one into a
`metav1.Condition`), `succeedFailure` is the failure text of
`gomega.Succeed()`, given the error's text. -/
structure PollLib (O : Type) where
  ToUnstructured : O → Except Err Fields
  FromUnstructured : Fields → Except Err Condition
  succeedFailure : String → String

/-- The library function `unstructured.NestedSlice`: the list at the path, the
`found` flag and the error. An absent field is not found, without error; a
value on the way that is not a map, or a value at the path that is not a list,
is an error. -/
def NestedSlice (obj : Fields) (path : List String) : Option (List Value) × Bool × Option Err :=
  match NestedFieldNoCopy (Value.map obj) path with
  | Except.error e => (none, false, some (Err.plain e))
  | Except.ok none => (none, false, none)
  | Except.ok (some (Value.list items)) => (some items, true, none)
  | Except.ok (some _) => (none, false, some (Err.plain "accessor error: expected []interface{}"))

/-- The loop `for _, raw := range rawConditions` of the polled function: an
entry that is no map, or that does not convert, is passed over. -/
def convertConditions {O : Type} (plib : PollLib O) : List Value → List Condition
  | [] => []
  | Value.map condMap :: rest =>
    match plib.FromUnstructured condMap with
    | Except.ok cond => cond :: convertConditions plib rest
    | Except.error _ => convertConditions plib rest
  | _ :: rest => convertConditions plib rest

/-- What one poll attempt gives back: the session and the object handle
afterwards, and the message of the assertion that failed (`none`: the attempt
passed). -/
structure Attempt (σ O : Type) where
  session : Session σ
  obj : O
  failure : Option String

/-- The function `EventuallyCondition` hands to `Eventually`, called once:
the object is fetched again, converted, its `.status.conditions` read and
converted, and `AssertCondition` decides. -/
def EventuallyCondition.attempt {σ O : Type} [ClientObject O] (lib : TextLib) (plib : PollLib O)
    (c : Client σ O) (w : Session σ) (obj : O) (condType status : String) : Attempt σ O :=
  let got := c.get w (ClientObject.key obj) obj
  match got.err with
  | some e =>
    { session := got.session, obj := got.obj, failure := some (plib.succeedFailure e.Error) }
  | none =>
    match plib.ToUnstructured got.obj with
    | Except.error e =>
      { session := got.session, obj := got.obj,
        failure := some (failureMessage "failed to convert object to unstructured"
          (lib.unexpectedErrorFailure e.Error)) }
    | Except.ok unstrMap =>
      match NestedSlice unstrMap ["status", "conditions"] with
      | (_, _, some nestedErr) =>
        { session := got.session, obj := got.obj,
          failure := some (failureMessage "failed to read .status.conditions"
            (lib.unexpectedErrorFailure nestedErr.Error)) }
      | (_, false, none) =>
        { session := got.session, obj := got.obj,
          failure := some (failureMessage "object has no .status.conditions field"
            lib.beTrueFailure) }
      | (rawConditions, true, none) =>
        { session := got.session, obj := got.obj,
          failure := (AssertCondition lib ⟨[]⟩
            (some (convertConditions plib (rawConditions.getD []))) condType
            status).failures.head? }

/-- The constant `defaultPollingInterval`, in milliseconds. -/
def defaultPollingInterval : Nat := 250

/-- What gomega's `Eventually` and the world around it contribute to a call of
`EventuallyCondition`: `wait s` is the store after one polling interval has
passed in store `s` (other actors may have changed objects meanwhile, a context
may have been cancelled), `polls timeout interval` is the number of polls the
loop makes after its first attempt before the timeout fires, and the message
handed to the fail handler at the timeout is the failure of the last attempt
between `timedOutPrefix` ("Timed out after ...") and `timedOutSuffix`. -/
structure AsyncLib (σ : Type) where
  wait : σ → σ
  polls : Nat → Nat → Nat
  timedOutPrefix : String
  timedOutSuffix : String

/-- The polling of `Eventually(f).WithTimeout(..).WithPolling(..).Should(Succeed())`
with `n` polls left before the timeout: `f` is called at once; if the attempt
failed and a poll is left, the loop waits one interval and calls `f` again.
The result is the last attempt made. `Eventually` is handed no context here, so
the loop has no other way to end. -/
def Eventually.poll {σ O : Type} (wait : σ → σ) (f : Session σ → O → Attempt σ O) :
    Nat → Session σ → O → Attempt σ O
  | 0, w, obj => f w obj
  | n + 1, w, obj =>
    match (f w obj).failure with
    | none => f w obj
    | some _ =>
      Eventually.poll wait f n { (f w obj).session with store := wait (f w obj).session.store }
        (f w obj).obj

/-- The function `EventuallyCondition` of `assertions/conditions.go`; `timeout`
is in milliseconds. The context `ctx` is an argument of `c.Get` only: whether
it is done is part of the state the client answers from. -/
def EventuallyCondition {σ O : Type} [ClientObject O] (lib : TextLib) (plib : PollLib O)
    (alib : AsyncLib σ) (c : Client σ O) (w : Session σ) (g : Gomega) (obj : O)
    (condType status : String) (timeout : Nat) : Checked σ O :=
  let last := Eventually.poll alib.wait
    (fun w' obj' => EventuallyCondition.attempt lib plib c w' obj' condType status)
    (alib.polls timeout defaultPollingInterval) w obj
  { session := last.session,
    gomega :=
      match last.failure with
      | none => g
      | some msg => g.fail (alib.timedOutPrefix ++ msg ++ alib.timedOutSuffix),
    obj := last.obj }

/-- A client under a context, as client-go behaves: the state carries whether
`ctx` is done, and a request made under a done context fails with the
context's error without reaching the store. -/
def Client.withContext {σ O : Type} (c : Client σ O) : Client (σ × Bool) O where
  Create s obj :=
    if s.2 then { store := s, err := some (Err.plain "context canceled"), obj := obj }
    else { store := ((c.Create s.1 obj).store, s.2), err := (c.Create s.1 obj).err,
           obj := (c.Create s.1 obj).obj }
  Get s key obj :=
    if s.2 then { store := s, err := some (Err.plain "context canceled"), obj := obj }
    else { store := ((c.Get s.1 key obj).store, s.2), err := (c.Get s.1 key obj).err,
           obj := (c.Get s.1 key obj).obj }
  Update s obj :=
    if s.2 then { store := s, err := some (Err.plain "context canceled"), obj := obj }
    else { store := ((c.Update s.1 obj).store, s.2), err := (c.Update s.1 obj).err,
           obj := (c.Update s.1 obj).obj }
  StatusPatch s obj base :=
    if s.2 then { store := s, err := some (Err.plain "context canceled"), obj := obj }
    else { store := ((c.StatusPatch s.1 obj base).store, s.2),
           err := (c.StatusPatch s.1 obj base).err, obj := (c.StatusPatch s.1 obj base).obj }

/-- The loop around a store whose replies are recorded: waiting leaves the
record alone. -/
def AsyncLib.traced {σ : Type} (alib : AsyncLib σ) : AsyncLib (Traced σ) where
  wait s := (alib.wait s.1, s.2)
  polls := alib.polls
  timedOutPrefix := alib.timedOutPrefix
  timedOutSuffix := alib.timedOutSuffix

/-! ### Inputs used to evaluate the model -/

/-- The caller's heap in `TestSecretBuilder_Build_IndependentCopies`: the map
`{"key": []byte("value")}` and its byte array. -/
def copyTestHeap : Heap :=
  [Cell.bytes [118, 97, 108, 117, 101], Cell.dataMap [("key", some 0)]]

/-- The setter calls of `TestSecretBuilder_Build_IndependentCopies`. -/
def copyTestOps : List Setter :=
  [Setter.WithName "copy-test", Setter.WithNamespace "ns", Setter.WithData (some 1)]

/-- Two label maps of a caller that share the key "tier". -/
def labelsTestHeap : Heap :=
  [Cell.stringMap [("app", "myapp"), ("tier", "front")],
    Cell.stringMap [("env", "test"), ("tier", "back")]]

/-- The Job `ns/<name>` as `SimulateJobComplete` requests it. -/
def jobNamed (name : String) : Job :=
  newJob name "ns"

/-- A session on a store that holds Job `ns/j` with three successes. -/
def jobTestSession : Session MemStore :=
  { store := { MemStore.empty with
      jobs := [{ jobNamed "j" with Status := { zeroJobStatus with Succeeded := 3 } }] },
    calls := [] }

/-- A session on a store that holds the MariaDB `ns/db`, not ready and with two
stale conditions. -/
def mariadbTestSession : Session MemStore :=
  { store := { MemStore.empty with
      unstructureds := [⟨[("apiVersion", Value.str "k8s.mariadb.com/v1alpha1"),
        ("kind", Value.str "MariaDB"),
        ("metadata", Value.map [("name", Value.str "db"), ("namespace", Value.str "ns")]),
        ("status", Value.map [("ready", Value.bool false),
          ("conditions", Value.list [
            Value.map [("type", Value.str "Ready"), ("status", Value.str "False")],
            Value.map [("type", Value.str "Ready"), ("status", Value.str "Unknown")]]),
          ("phase", Value.str "Pending")])]⟩] },
    calls := [] }

/-- A plain rendering of the library text, used to evaluate the helpers on
concrete inputs. -/
def plainText : TextLib where
  quote s := "\"" ++ s ++ "\""
  equalFailure actual expected := "Expected " ++ actual ++ " to equal " ++ expected
  containFailure t := "Expected to contain element with Type " ++ t
  beTrueFailure := "Expected to be true"
  unexpectedErrorFailure e := "Unexpected error: " ++ e

/-- A client for Jobs that cannot reach the store: every request fails with
"connection refused". -/
def refusingJob : Client MemStore Job where
  Create s obj := { store := s, err := some (Err.plain "connection refused"), obj := obj }
  Get s _ obj := { store := s, err := some (Err.plain "connection refused"), obj := obj }
  Update s obj := { store := s, err := some (Err.plain "connection refused"), obj := obj }
  StatusPatch s obj _ := { store := s, err := some (Err.plain "connection refused"), obj := obj }

/-- The in-memory store for Jobs with every Get failing: what a client sees
that loses its connection after the Create. -/
def getRefusingJob : Client MemStore Job :=
  { memJob with Get := refusingJob.Get }

/-- The setter calls of `TestSecretBuilder_Create_PropagatesError`. -/
def dupSecretOps : List Setter :=
  [Setter.WithName "dup-secret", Setter.WithNamespace "default"]

/-- A session on the empty store. -/
def emptySession : Session MemStore :=
  { store := MemStore.empty, calls := [] }

/-- A session on a store that already holds the Secret `default/dup-secret`. -/
def dupSecretSession : Session MemStore :=
  { store := { MemStore.empty with
      secrets := [{ Secret.zero with Name := "dup-secret", Namespace := "default" }] },
    calls := [] }

/-- A chain that calls `WithName` and `WithData` twice, on the heap of
`copyTestHeap`: the second `WithData` is handed the nil map. -/
def replaceTestOps : List Setter :=
  [Setter.WithName "first", Setter.WithData (some 1), Setter.WithLabels none,
    Setter.WithName "second", Setter.WithData none]

/-- An environment in which every step succeeds: the bundled directory holds
two subdirectories and a file, the config is the list of manifest paths the
environment was started with, the scheme the list of registered groups.
(`Join` puts a slash between the parts and does not shorten `..`.) -/
def goodEnvLib : EnvLib (List String) (List String) String where
  Caller := some "testutil/envtest/setup.go"
  Dir := fun _ => "testutil/envtest"
  Join := fun parts => "/".intercalate parts
  ReadDir := fun _ => Except.ok [⟨"eso", true⟩, ⟨"README.md", false⟩, ⟨"mariadb", true⟩]
  Start := fun paths => Except.ok paths
  Stop := none
  NewScheme := []
  corev1AddToScheme := fun s => (s ++ ["corev1"], none)
  appsv1AddToScheme := fun s => (s ++ ["appsv1"], none)
  batchv1AddToScheme := fun s => (s ++ ["batchv1"], none)
  NewClient := fun _ _ => Except.ok "client"

/-- The environment of `goodEnvLib` with the registration of `appsv1` failing
and the environment's `Stop` failing too. -/
def badSchemeEnvLib : EnvLib (List String) (List String) String :=
  { goodEnvLib with
    appsv1AddToScheme := fun s => (s, some (Err.plain "type registered twice")),
    Stop := some (Err.plain "timeout waiting for process to stop") }

/-- The environment of `goodEnvLib` with the client constructor failing. -/
def badClientEnvLib : EnvLib (List String) (List String) String :=
  { goodEnvLib with NewClient := fun _ _ => Except.error (Err.plain "no such host") }

/-- The string field `k` of a condition map: absent reads as empty, a value
that is no string does not convert. -/
def plainStringField (m : Fields) (k : String) : Except Err String :=
  match mapGet m k with
  | none => Except.ok ""
  | some (Value.str s) => Except.ok s
  | some _ => Except.error (Err.plain ("cannot convert " ++ k ++ " to string"))

/-- A plain converter for schema-less objects: the object converts to its own
content, a condition map converts field by field. -/
def plainPollLib : PollLib Unstructured where
  ToUnstructured u := Except.ok u.Object
  FromUnstructured m :=
    match plainStringField m "type", plainStringField m "status", plainStringField m "reason",
      plainStringField m "message", plainStringField m "lastTransitionTime" with
    | Except.ok t, Except.ok s, Except.ok r, Except.ok msg, Except.ok l =>
      Except.ok ⟨t, s, r, msg, l⟩
    | Except.error e, _, _, _, _ => Except.error e
    | _, Except.error e, _, _, _ => Except.error e
    | _, _, Except.error e, _, _ => Except.error e
    | _, _, _, Except.error e, _ => Except.error e
    | _, _, _, _, Except.error e => Except.error e
  succeedFailure e := "Expected success, but got an error: " ++ e

/-- A session on a store that holds the MariaDB `ns/db` with three conditions:
one whose status is a number, one that is no map, and Ready/True. -/
def oddConditionsSession : Session (Traced MemStore) :=
  { store := ({ MemStore.empty with
      unstructureds := [⟨[("apiVersion", Value.str "k8s.mariadb.com/v1alpha1"),
        ("kind", Value.str "MariaDB"),
        ("metadata", Value.map [("name", Value.str "db"), ("namespace", Value.str "ns")]),
        ("status", Value.map [("conditions", Value.list [
          Value.map [("type", Value.str "Ready"), ("status", Value.num 0)],
          Value.str "Ready",
          Value.map [("type", Value.str "Ready"), ("status", Value.str "True")]])])]⟩] }, []),
    calls := [] }

/-- The owner references of `TestSecretBuilder_WithOwnerRef`. -/
def ownerRef1 : OwnerReference :=
  { APIVersion := "v1", Kind := "ConfigMap", Name := "owner1", UID := "uid-1",
    Controller := none, BlockOwnerDeletion := none }

def ownerRef2 : OwnerReference :=
  { APIVersion := "apps/v1", Kind := "Deployment", Name := "owner2", UID := "uid-2",
    Controller := none, BlockOwnerDeletion := none }

/-- The chain of `TestSecretBuilder_PartialChain`. -/
def partialChainOps : List Setter :=
  [Setter.WithName "partial", Setter.WithNamespace "partial-ns"]

/-- Stores of a client into the Secret that `Create` handed it for the builder
of `copyTestOps` on `copyTestHeap` (the struct is cell 5, the bytes of its data
cell 3, cell 6 is the client's own): a uid, a resource version and a label map
are set and the bytes are overwritten. -/
def storeWrites : List (Ref × Cell) :=
  [(5, Cell.secret { zeroSecret with
      Name := "copy-test", Namespace := "ns", UID := "uid-1", ResourceVersion := "1",
      Labels := some 6, Data := some 4 }),
    (3, Cell.bytes [0]), (6, Cell.stringMap [("managed", "no")])]

/-- A Secret `default/db-creds` as a store may hold it: with labels, an
annotation, an owner reference, a type, string data and a resource version. -/
def storedTarget : Secret :=
  { Name := "db-creds", Namespace := "default", UID := "uid-7", ResourceVersion := "7",
    Labels := some [("app", "db")], Annotations := some [("note", "kept")],
    OwnerReferences := some [ownerRef1], Data := some [("password", [111, 108, 100])],
    StringData := some [("extra", "value")], Type' := "Opaque" }

/-- A session on a store that holds `storedTarget` and nothing else. -/
def storedTargetSession : Session MemStore :=
  { store := { MemStore.empty with secrets := [storedTarget] }, calls := [] }

/-- A session on a store that holds the MariaDB `ns/db` without a status. -/
def noStatusSession : Session MemStore :=
  { store := { MemStore.empty with
      unstructureds := [⟨[("apiVersion", Value.str "k8s.mariadb.com/v1alpha1"),
        ("kind", Value.str "MariaDB"),
        ("metadata", Value.map [("name", Value.str "db"), ("namespace", Value.str "ns")])]⟩] },
    calls := [] }

/-- A plain rendering of the loop: the store does not change while the loop
waits, polls are made while the timeout has not passed, attempts taking no
time. -/
def plainAsyncLib : AsyncLib MemStore where
  wait s := s
  polls timeout interval := (timeout - 1) / interval
  timedOutPrefix := "Timed out.\n"
  timedOutSuffix := "\n"

/-- A session on a store that holds the PodDisruptionBudget of
`TestEventuallyCondition`, with conditions Ready/True and Available/False. -/
def pdbSession : Session MemStore :=
  { store := { MemStore.empty with
      unstructureds := [⟨[("apiVersion", Value.str "policy/v1"),
        ("kind", Value.str "PodDisruptionBudget"),
        ("metadata", Value.map [("name", Value.str "test-pdb"),
          ("namespace", Value.str "default")]),
        ("status", Value.map [("conditions", Value.list [
          Value.map [("type", Value.str "Ready"), ("status", Value.str "True")],
          Value.map [("type", Value.str "Available"), ("status", Value.str "False")]])])]⟩] },
    calls := [] }

/-- The object handle of `TestEventuallyCondition`. -/
def pdbHandle : Unstructured :=
  newUnstructured { Group := "policy", Version := "v1", Kind := "PodDisruptionBudget" }
    "test-pdb" "default"

/-- A loop around a context that is cancelled while the loop waits for the
first time; the store does not change otherwise. -/
def cancellingAsyncLib : AsyncLib (Traced (MemStore × Bool)) where
  wait s := ((s.1.1, true), s.2)
  polls timeout interval := (timeout - 1) / interval
  timedOutPrefix := "Timed out.\n"
  timedOutSuffix := "\n"

/-- The store of `pdbSession` under a context that is not done, with no replies
recorded yet. -/
def pdbContextSession : Session (Traced (MemStore × Bool)) :=
  { store := ((pdbSession.store, false), []), calls := [] }

/-- A loop around a context that is done and stays done; the store does not
change. -/
def doneAsyncLib : AsyncLib (MemStore × Bool) where
  wait s := (s.1, true)
  polls timeout interval := (timeout - 1) / interval
  timedOutPrefix := "Timed out.\n"
  timedOutSuffix := "\n"

/-- The store of `pdbSession` under a context that is done. -/
def pdbDoneSession : Session (MemStore × Bool) :=
  { store := (pdbSession.store, true), calls := [] }

/-- A session on a store that holds the MariaDB `ns/db` with a status that is
no map. -/
def badStatusSession : Session (Traced MemStore) :=
  { store := ({ MemStore.empty with
      unstructureds := [⟨[("apiVersion", Value.str "k8s.mariadb.com/v1alpha1"),
        ("kind", Value.str "MariaDB"),
        ("metadata", Value.map [("name", Value.str "db"), ("namespace", Value.str "ns")]),
        ("status", Value.str "pending")]⟩] }, []),
    calls := [] }

/-- A session on a store that holds the MariaDB `ns/db` of
`oddConditionsSession`: its first condition entry has type Ready and a number
as status, the second is no map, the third is Ready/True. -/
def oddObjectSession : Session MemStore :=
  { store := oddConditionsSession.store.1, calls := [] }

theorem containsSubstr_self (s : String) : containsSubstr s s :=
  List.infix_refl _

theorem containsSubstr_append_left {a sub : String} (b : String) (h : containsSubstr a sub) :
    containsSubstr (a ++ b) sub := by
  unfold containsSubstr at *
  rw [String.data_append]
  exact h.trans (List.infix_append' [] a.data b.data)

theorem containsSubstr_append_right {b sub : String} (a : String) (h : containsSubstr b sub) :
    containsSubstr (a ++ b) sub := by
  unfold containsSubstr at *
  rw [String.data_append]
  exact h.trans (List.suffix_append a.data b.data).isInfix

theorem assertConditionLoop_eq (lib : TextLib) (g : Gomega) (L : List Condition)
    (T s : String) :
    assertConditionLoop lib g L T s =
      (L.find? (fun c => decide (c.Type' = T))).map (fun c =>
        g.expectEqual lib c.Status s
          ("condition " ++ lib.quote T ++ " has status " ++ lib.quote c.Status ++
            ", expected " ++ lib.quote s)) := by
  induction L with
  | nil => rfl
  | cons c rest ih =>
    by_cases hc : c.Type' = T
    · simp [assertConditionLoop, List.find?, hc]
    · simp [assertConditionLoop, List.find?, hc, ih]

theorem find?_type_eq_none {L : List Condition} {T : String} :
    L.find? (fun c => decide (c.Type' = T)) = none ↔ ∀ c ∈ L, c.Type' ≠ T := by
  simp [List.find?_eq_none]

/-! ### `fmt.Sprintf` without operands -/

theorem doPrintf_of_no_percent (s : List Char) (h : '%' ∉ s) : doPrintf s 0 = s := by
  induction s with
  | nil => rfl
  | cons c rest ih =>
    have hc : c ≠ '%' := fun e => h (e ▸ List.mem_cons_self _ _)
    simp only [doPrintf, if_neg hc, ih (fun hm => h (List.mem_cons_of_mem _ hm))]

/-- A format without a `%` is rendered as it is. -/
theorem Sprintf_of_no_percent (format : String) (h : '%' ∉ format.data) :
    Sprintf format = format := by
  simp only [Sprintf, doPrintf_of_no_percent _ h]

theorem failureMessage_of_no_percent (description matcherText : String)
    (h : '%' ∉ description.data) :
    failureMessage description matcherText = description ++ "\n" ++ matcherText := by
  simp only [failureMessage, describedMessage, Sprintf_of_no_percent _ h]

theorem parsenum_suffix (s : List Char) (num : Nat) (isnum : Bool) (r : Nat × Bool × List Char)
    (h : parsenum s num isnum = some r) : r.2.2 <:+ s := by
  induction s generalizing num isnum with
  | nil =>
    simp only [parsenum, Option.some.injEq] at h
    rw [← h]
  | cons c rest ih =>
    simp only [parsenum] at h
    split at h
    · split at h
      · cases h
      · exact (ih _ _ h).trans (List.suffix_cons c rest)
    · simp only [Option.some.injEq] at h
      rw [← h]

theorem argNumber_suffix (s : List Char) (good : Bool) : (argNumber s good).1 <:+ s := by
  unfold argNumber
  split
  · exact List.drop_suffix _ _
  · exact List.suffix_refl _

theorem directiveWidth_suffix (s : List Char) (afterIndex good : Bool) :
    (directiveWidth s afterIndex good).2.1 <:+ s := by
  unfold directiveWidth
  split
  · exact List.suffix_cons _ _
  · split
    · rename_i hp
      exact parsenum_suffix _ _ _ _ hp
    · exact List.nil_suffix

theorem directivePrec_suffix (s : List Char) (afterIndex good : Bool) :
    (directivePrec s afterIndex good).2.1 <:+ s := by
  unfold directivePrec
  split
  · rename_i rest
    have ha := argNumber_suffix rest (good && !afterIndex)
    split
    · rename_i rest' hr
      rw [hr] at ha
      exact ((List.suffix_cons _ _).trans ha).trans (List.suffix_cons _ _)
    · split
      · rename_i hp
        exact ((parsenum_suffix _ _ _ _ hp).trans ha).trans (List.suffix_cons _ _)
      · exact List.nil_suffix
  · exact List.suffix_refl _

theorem directiveVerb_suffix (s : List Char) (good : Bool) :
    (directiveVerb s good).2 <:+ s := by
  unfold directiveVerb
  split
  · exact List.suffix_refl _
  · split
    · exact List.suffix_cons _ _
    · split <;> exact List.suffix_cons _ _

/-- A directive leaves a final part of the text it was given. -/
theorem directive_suffix (s : List Char) : (directive s).2 <:+ s := by
  simp only [directive]
  refine (directiveVerb_suffix _ _).trans ?_
  have h1 : (s.dropWhile
      (fun c => c == '#' || c == '0' || c == '+' || c == '-' || c == ' ')) <:+ s :=
    List.dropWhile_suffix _
  have h2 := argNumber_suffix (s.dropWhile
    (fun c => c == '#' || c == '0' || c == '+' || c == '-' || c == ' ')) true
  have h3 := directiveWidth_suffix (argNumber (s.dropWhile
    (fun c => c == '#' || c == '0' || c == '+' || c == '-' || c == ' ')) true).1
    (argNumber (s.dropWhile
      (fun c => c == '#' || c == '0' || c == '+' || c == '-' || c == ' ')) true).2.1
    (argNumber (s.dropWhile
      (fun c => c == '#' || c == '0' || c == '+' || c == '-' || c == ' ')) true).2.2
  have h4 := directivePrec_suffix (directiveWidth (argNumber (s.dropWhile
    (fun c => c == '#' || c == '0' || c == '+' || c == '-' || c == ' ')) true).1
    (argNumber (s.dropWhile
      (fun c => c == '#' || c == '0' || c == '+' || c == '-' || c == ' ')) true).2.1
    (argNumber (s.dropWhile
      (fun c => c == '#' || c == '0' || c == '+' || c == '-' || c == ' ')) true).2.2).2.1
    (directiveWidth (argNumber (s.dropWhile
    (fun c => c == '#' || c == '0' || c == '+' || c == '-' || c == ' ')) true).1
    (argNumber (s.dropWhile
      (fun c => c == '#' || c == '0' || c == '+' || c == '-' || c == ' ')) true).2.1
    (argNumber (s.dropWhile
      (fun c => c == '#' || c == '0' || c == '+' || c == '-' || c == ' ')) true).2.2).2.2.1
    (directiveWidth (argNumber (s.dropWhile
    (fun c => c == '#' || c == '0' || c == '+' || c == '-' || c == ' ')) true).1
    (argNumber (s.dropWhile
      (fun c => c == '#' || c == '0' || c == '+' || c == '-' || c == ' ')) true).2.1
    (argNumber (s.dropWhile
      (fun c => c == '#' || c == '0' || c == '+' || c == '-' || c == ' ')) true).2.2).2.2.2
  have h1234 := ((h4.trans h3).trans h2).trans h1
  split
  · exact h1234
  · exact (argNumber_suffix _ _).trans h1234

theorem doPrintf_skip (pre suf : List Char) :
    doPrintf (pre ++ suf) pre.length = doPrintf suf 0 := by
  induction pre with
  | nil => rfl
  | cons c rest ih => simpa [doPrintf] using ih

/-- The loop of `doPrintf`, step by step: text is copied up to a `%`; at a `%`
the directive is written and the loop goes on with the text the directive
left. -/
theorem doPrintf_step (c : Char) (rest : List Char) :
    doPrintf (c :: rest) 0 =
      if c = '%' then (directive rest).1 ++ doPrintf (directive rest).2 0
      else c :: doPrintf rest 0 := by
  by_cases hc : c = '%'
  · obtain ⟨pre, hpre⟩ := directive_suffix rest
    have hlen : rest.length - (directive rest).2.length = pre.length := by
      have := congrArg List.length hpre
      rw [List.length_append] at this
      omega
    simp only [doPrintf, if_pos hc, hlen]
    congr 1
    rw [← doPrintf_skip pre (directive rest).2, hpre]
  · simp only [doPrintf, if_neg hc]

/-! ### `AssertCondition` -/

/-- What `AssertCondition` does when `c0` is the first entry of `L` whose type
is `T`: nothing is reported if the expected status is `c0`'s status; for every
other expected status one failure is reported, with the description
"condition <T> has status <actual>, expected <s>" (the three values quoted) as
gomega renders it. When that description has no `%`, the message contains
"has status" and the three quoted values. -/
theorem AssertCondition_of_first_entry (lib : TextLib) (g : Gomega)
    (L : Slice Condition) (T s : String) (c0 : Condition)
    (h : L.elems.find? (fun c => decide (c.Type' = T)) = some c0) :
    (s = c0.Status → AssertCondition lib g L T s = g) ∧
    (s ≠ c0.Status →
      AssertCondition lib g L T s = g.fail (failureMessage
        ("condition " ++ lib.quote T ++ " has status " ++ lib.quote c0.Status ++
          ", expected " ++ lib.quote s) (lib.equalFailure c0.Status s))) ∧
    ('%' ∉ ("condition " ++ lib.quote T ++ " has status " ++ lib.quote c0.Status ++
        ", expected " ++ lib.quote s).data →
      containsSubstr (failureMessage
        ("condition " ++ lib.quote T ++ " has status " ++ lib.quote c0.Status ++
          ", expected " ++ lib.quote s) (lib.equalFailure c0.Status s)) "has status" ∧
      containsSubstr (failureMessage
        ("condition " ++ lib.quote T ++ " has status " ++ lib.quote c0.Status ++
          ", expected " ++ lib.quote s) (lib.equalFailure c0.Status s)) (lib.quote T) ∧
      containsSubstr (failureMessage
        ("condition " ++ lib.quote T ++ " has status " ++ lib.quote c0.Status ++
          ", expected " ++ lib.quote s) (lib.equalFailure c0.Status s))
        (lib.quote c0.Status) ∧
      containsSubstr (failureMessage
        ("condition " ++ lib.quote T ++ " has status " ++ lib.quote c0.Status ++
          ", expected " ++ lib.quote s) (lib.equalFailure c0.Status s)) (lib.quote s)) := by
  have hloop := assertConditionLoop_eq lib g L.elems T s
  rw [h] at hloop
  refine ⟨fun hs => ?_, fun hs => ?_, fun hp => ?_⟩
  · simp only [AssertCondition, hloop, Option.map_some', Gomega.expectEqual, if_pos hs.symm]
  · have hne : ¬ c0.Status = s := fun e => hs e.symm
    simp only [AssertCondition, hloop, Option.map_some', Gomega.expectEqual, if_neg hne]
  · rw [failureMessage_of_no_percent _ _ hp]
    have hlit : containsSubstr " has status " "has status" := by decide
    exact ⟨containsSubstr_append_left _ (containsSubstr_append_left _
        (containsSubstr_append_left _ (containsSubstr_append_left _
          (containsSubstr_append_left _ (containsSubstr_append_right _ hlit))))),
      containsSubstr_append_left _ (containsSubstr_append_left _
        (containsSubstr_append_left _ (containsSubstr_append_left _
          (containsSubstr_append_left _ (containsSubstr_append_left _
            (containsSubstr_append_right _ (containsSubstr_self _))))))),
      containsSubstr_append_left _ (containsSubstr_append_left _
        (containsSubstr_append_left _ (containsSubstr_append_left _
          (containsSubstr_append_right _ (containsSubstr_self _))))),
      containsSubstr_append_left _ (containsSubstr_append_left _
        (containsSubstr_append_right _ (containsSubstr_self _)))⟩

/-- What `AssertCondition` does when no entry of `L` has type `T` (the nil
slice and the empty slice included): one failure is reported, with the
description "condition <T> not found" (`T` quoted) as gomega renders it. When
that description has no `%`, the message contains "not found". -/
theorem AssertCondition_of_absent (lib : TextLib) (g : Gomega) (L : Slice Condition)
    (T s : String) (h : ∀ c ∈ L.elems, c.Type' ≠ T) :
    AssertCondition lib g L T s = g.fail (failureMessage
      ("condition " ++ lib.quote T ++ " not found") (lib.containFailure T)) ∧
    ('%' ∉ ("condition " ++ lib.quote T ++ " not found").data →
      containsSubstr (failureMessage ("condition " ++ lib.quote T ++ " not found")
        (lib.containFailure T)) "not found") := by
  have hnone := find?_type_eq_none.mpr h
  have hloop := assertConditionLoop_eq lib g L.elems T s
  rw [hnone] at hloop
  have hany : (L.elems.any fun c => decide (c.Type' = T)) = false := by
    rw [List.any_eq_false]
    intro c hc
    simpa using h c hc
  refine ⟨?_, fun hp => ?_⟩
  · simp [AssertCondition, hloop, Gomega.expectContainType, hany]
  · rw [failureMessage_of_no_percent _ _ hp]
    have hlit : containsSubstr " not found" "not found" := by decide
    exact containsSubstr_append_left _ (containsSubstr_append_left _
      (containsSubstr_append_right _ hlit))

/-- C1, at a condition type with a `%` in it. The list holds one condition of
type `%[` with status False, and status `]` is expected. `AssertCondition`
reports a failure, but its message does not contain "has status" and names
neither the type nor the actual status: the description that
`AssertCondition` rendered, `condition "%[" has status "False", expected "]"`,
is rendered by gomega once more, where `%[` ... `]` reads as a bad argument
index and the quote after it as the verb. Likewise for type `%d` with status
False where True is expected: the message keeps "has status" but has
`%!d(MISSING)` where the type should be named. With a type and statuses free
of `%` the message is the description as `AssertCondition` rendered it
(`AssertCondition_of_first_entry`). -/
theorem AssertCondition_percent_loses_has_status :
    "condition " ++ plainText.quote "%[" ++ " has status " ++ plainText.quote "False" ++
        ", expected " ++ plainText.quote "]" =
      "condition \"%[\" has status \"False\", expected \"]\"" ∧
    AssertCondition plainText ⟨[]⟩ (some [⟨"%[", "False", "", "", ""⟩]) "%[" "]" =
      ⟨["condition \"%!\"(BADINDEX)\nExpected False to equal ]"]⟩ ∧
    ¬ containsSubstr "condition \"%!\"(BADINDEX)\nExpected False to equal ]" "has status" ∧
    ¬ containsSubstr "condition \"%!\"(BADINDEX)\nExpected False to equal ]"
      (plainText.quote "%[") ∧
    ¬ containsSubstr "condition \"%!\"(BADINDEX)\nExpected False to equal ]"
      (plainText.quote "False") ∧
    AssertCondition plainText ⟨[]⟩ (some [⟨"%d", "False", "", "", ""⟩]) "%d" "True" =
      ⟨["condition \"%!d(MISSING)\" has status \"False\", expected \"True\"\n" ++
        "Expected False to equal True"]⟩ ∧
    ¬ containsSubstr ("condition \"%!d(MISSING)\" has status \"False\", expected \"True\"\n" ++
        "Expected False to equal True") (plainText.quote "%d") := by
  set_option maxRecDepth 8000 in
  exact ⟨by decide, by decide, by decide, by decide, by decide, by decide, by decide⟩

/-- C2, at a condition type with a `%` in it. No condition of type
`%2147483648` is in the nil list. `AssertCondition` reports a failure, but its
message does not contain "not found": the description that `AssertCondition`
rendered, `condition "%2147483648" not found`, is rendered by gomega once
more, where the width after the `%` is too large, for which `fmt` writes
`%!(NOVERB)` and leaves the rest of the format out. With a type free of `%`
the message is the description as `AssertCondition` rendered it
(`AssertCondition_of_absent`). -/
theorem AssertCondition_percent_loses_not_found :
    "condition " ++ plainText.quote "%2147483648" ++ " not found" =
      "condition \"%2147483648\" not found" ∧
    AssertCondition plainText ⟨[]⟩ none "%2147483648" "True" =
      ⟨["condition \"%!(NOVERB)\nExpected to contain element with Type %2147483648"]⟩ ∧
    ¬ containsSubstr
      "condition \"%!(NOVERB)\nExpected to contain element with Type %2147483648"
      "not found" := by
  set_option maxRecDepth 8000 in
  exact ⟨by decide, by decide, by decide⟩

/-! ### The heap model of the builder -/

/-! ### Frame lemmas: a read depends only on the cells it visits -/

theorem readBytes_congr {g h : Heap} {v : Option Ref}
    (hv : ∀ q ∈ v.toList, g[q]? = h[q]?) : g.readBytes v = h.readBytes v := by
  cases v with
  | none => rfl
  | some q =>
    have := hv q (by simp)
    simp [Heap.readBytes, this]

theorem field_congr {g h : Heap} {r : Option Ref}
    (hr : ∀ q ∈ h.fieldReach r, g[q]? = h[q]?) :
    g.fieldReach r = h.fieldReach r ∧ g.readStringMap r = h.readStringMap r ∧
    g.readOwnerRefs r = h.readOwnerRefs r ∧ g.readData r = h.readData r := by
  cases r with
  | none => simp [Heap.fieldReach, Heap.readStringMap, Heap.readOwnerRefs, Heap.readData,
      Heap.dataEntries]
  | some r =>
    have hcell : g[r]? = h[r]? := by
      apply hr
      simp only [Heap.fieldReach]
      split <;> simp
    refine ⟨?_, ?_, ?_, ?_⟩
    · simp [Heap.fieldReach, hcell]
    · simp [Heap.readStringMap, hcell]
    · simp [Heap.readOwnerRefs, hcell]
    · simp only [Heap.readData, Heap.dataEntries, hcell]
      cases hc : h[r]? with
      | none => rfl
      | some c =>
        cases c with
        | dataMap m =>
          simp only [Option.map_some', Option.some.injEq]
          apply List.map_congr_left
          intro kv hkv
          have : g.readBytes kv.2 = h.readBytes kv.2 := by
            apply readBytes_congr
            intro q hq
            apply hr
            simp only [Heap.fieldReach, hc]
            apply List.mem_cons_of_mem
            rw [List.mem_filterMap]
            exact ⟨kv, hkv, by simpa using hq⟩
          rw [this]
        | _ => rfl

theorem struct_congr {g h : Heap} {s : SecretStruct}
    (hr : ∀ q ∈ h.structReach s, g[q]? = h[q]?) :
    g.structReach s = h.structReach s ∧ g.viewStruct s = h.viewStruct s := by
  have h1 := field_congr (g := g) (h := h) (r := s.Labels)
    (fun q hq => hr q (by simp [Heap.structReach, hq]))
  have h2 := field_congr (g := g) (h := h) (r := s.Annotations)
    (fun q hq => hr q (by simp [Heap.structReach, hq]))
  have h3 := field_congr (g := g) (h := h) (r := s.OwnerReferences)
    (fun q hq => hr q (by simp [Heap.structReach, hq]))
  have h4 := field_congr (g := g) (h := h) (r := s.Data)
    (fun q hq => hr q (by simp [Heap.structReach, hq]))
  have h5 := field_congr (g := g) (h := h) (r := s.StringData)
    (fun q hq => hr q (by simp [Heap.structReach, hq]))
  constructor
  · simp only [Heap.structReach, h1.1, h2.1, h3.1, h4.1, h5.1]
  · simp only [Heap.viewStruct, h1.2.1, h2.2.1, h3.2.2.1, h4.2.2.2, h5.2.1]

theorem secret_congr {g h : Heap} {p : Ref}
    (hr : ∀ q ∈ h.reach p, g[q]? = h[q]?) :
    g.reach p = h.reach p ∧ g.viewSecret p = h.viewSecret p := by
  have hp : g[p]? = h[p]? := by
    apply hr
    simp only [Heap.reach]
    split <;> simp
  cases hc : h[p]? with
  | none => simp [Heap.reach, Heap.viewSecret, hp, hc]
  | some c =>
    cases c with
    | secret s =>
      have hs := struct_congr (g := g) (h := h) (s := s)
        (fun q hq => hr q (by simp [Heap.reach, hc, hq]))
      simp [Heap.reach, Heap.viewSecret, hp, hc, hs.1, hs.2]
    | _ => simp [Heap.reach, Heap.viewSecret, hp, hc]

/-- Stores leave every cell they do not address as it was. -/
theorem writeAll_getElem? (h : Heap) (ws : List (Ref × Cell)) (q : Ref)
    (hq : ∀ w ∈ ws, w.1 ≠ q) : (h.writeAll ws)[q]? = h[q]? := by
  induction ws generalizing h with
  | nil => rfl
  | cons w rest ih =>
    simp only [Heap.writeAll, List.foldl_cons]
    have := ih (h.set w.1 w.2) (fun w' hw' => hq w' (List.mem_cons_of_mem _ hw'))
    simp only [Heap.writeAll] at this
    rw [this, List.getElem?_set_ne (hq w (List.mem_cons_self _ _))]

theorem writeAll_length (h : Heap) (ws : List (Ref × Cell)) :
    (h.writeAll ws).length = h.length := by
  induction ws generalizing h with
  | nil => rfl
  | cons w rest ih =>
    simp only [Heap.writeAll, List.foldl_cons]
    have := ih (h.set w.1 w.2)
    simp only [Heap.writeAll] at this
    rw [this, List.length_set]

/-- Reads of a field whose objects all lie in `h` survive any growth of the heap. -/
theorem field_append {h : Heap} (ext : List Cell) {r : Option Ref}
    (hr : ∀ q ∈ h.fieldReach r, q < h.length) :
    Heap.fieldReach (h ++ ext) r = h.fieldReach r ∧
    Heap.readStringMap (h ++ ext) r = h.readStringMap r ∧
    Heap.readOwnerRefs (h ++ ext) r = h.readOwnerRefs r ∧
    Heap.readData (h ++ ext) r = h.readData r :=
  field_congr (fun q hq => List.getElem?_append_left (hr q hq))

theorem struct_append {h : Heap} (ext : List Cell) {s : SecretStruct}
    (hr : ∀ q ∈ h.structReach s, q < h.length) :
    Heap.structReach (h ++ ext) s = h.structReach s ∧
    Heap.viewStruct (h ++ ext) s = h.viewStruct s :=
  struct_congr (fun q hq => List.getElem?_append_left (hr q hq))

/-! ### The copies made by `DeepCopy` -/

theorem getElem?_append_cons_length (h : Heap) (c : Cell) (more : List Cell) :
    (h ++ c :: more)[h.length]? = some c := by
  rw [List.getElem?_append_right (Nat.le_refl _)]
  simp

theorem copyBytes_spec (h : Heap) (v : Option Ref) :
    (∃ ext, (copyBytes h v).1 = h ++ ext) ∧
    (∀ q ∈ (copyBytes h v).2.toList, h.length ≤ q ∧ q < (copyBytes h v).1.length) ∧
    (∀ more, Heap.readBytes ((copyBytes h v).1 ++ more) (copyBytes h v).2 = h.readBytes v) := by
  cases v with
  | none => exact ⟨⟨[], by simp [copyBytes]⟩, by simp [copyBytes], by simp [copyBytes, Heap.readBytes]⟩
  | some r =>
    cases hc : h[r]? with
    | none => exact ⟨⟨[], by simp [copyBytes, hc]⟩, by simp [copyBytes, hc],
        by simp [copyBytes, Heap.readBytes, hc]⟩
    | some c =>
      cases c with
      | bytes b =>
        refine ⟨⟨[Cell.bytes b], by simp [copyBytes, hc]⟩, by simp [copyBytes, hc], ?_⟩
        intro more
        simp only [copyBytes, hc, Heap.readBytes, List.append_assoc, List.singleton_append,
          getElem?_append_cons_length]
      | _ => exact ⟨⟨[], by simp [copyBytes, hc]⟩, by simp [copyBytes, hc],
          by simp [copyBytes, Heap.readBytes, hc]⟩

theorem copyDataEntries_spec (m : List (String × Option Ref)) (h : Heap)
    (hm : ∀ q ∈ m.filterMap Prod.snd, q < h.length) :
    (∃ ext, (copyDataEntries h m).1 = h ++ ext) ∧
    (∀ q ∈ (copyDataEntries h m).2.filterMap Prod.snd,
      h.length ≤ q ∧ q < (copyDataEntries h m).1.length) ∧
    (∀ more, (copyDataEntries h m).2.map
        (fun kv => (kv.1, Heap.readBytes ((copyDataEntries h m).1 ++ more) kv.2)) =
      m.map (fun kv => (kv.1, h.readBytes kv.2))) := by
  induction m generalizing h with
  | nil => exact ⟨⟨[], by simp [copyDataEntries]⟩, by simp [copyDataEntries],
      by simp [copyDataEntries]⟩
  | cons kv rest ih =>
    obtain ⟨k, v⟩ := kv
    obtain ⟨⟨e1, he1⟩, hfresh1, hval1⟩ := copyBytes_spec h v
    have hlen1 : h.length ≤ (copyBytes h v).1.length := by rw [he1]; simp
    have hrest : ∀ q ∈ rest.filterMap Prod.snd, q < (copyBytes h v).1.length := by
      intro q hq
      have : q < h.length := hm q (by
        rw [List.mem_filterMap] at hq ⊢
        obtain ⟨a, ha, hqa⟩ := hq
        exact ⟨a, List.mem_cons_of_mem _ ha, hqa⟩)
      exact Nat.lt_of_lt_of_le this hlen1
    obtain ⟨⟨e2, he2⟩, hfresh2, hval2⟩ := ih (copyBytes h v).1 hrest
    have hlen2 : (copyBytes h v).1.length ≤ (copyDataEntries (copyBytes h v).1 rest).1.length := by
      rw [he2]; simp
    refine ⟨⟨e1 ++ e2, ?_⟩, ?_, ?_⟩
    · simp only [copyDataEntries]
      rw [he2, he1, List.append_assoc]
    · intro q hq
      simp only [copyDataEntries] at hq ⊢
      rw [List.mem_filterMap] at hq
      obtain ⟨a, ha, hqa⟩ := hq
      rw [List.mem_cons] at ha
      rcases ha with ha | ha
      · subst ha
        have := hfresh1 q (by simpa using hqa)
        exact ⟨this.1, Nat.lt_of_lt_of_le this.2 hlen2⟩
      · have := hfresh2 q (by rw [List.mem_filterMap]; exact ⟨a, ha, hqa⟩)
        exact ⟨Nat.le_trans hlen1 this.1, this.2⟩
    · intro more
      simp only [copyDataEntries, List.map_cons, List.cons.injEq, Prod.mk.injEq, true_and]
      constructor
      · have := hval1 (e2 ++ more)
        rw [← List.append_assoc, ← he2] at this
        exact this
      · rw [hval2 more]
        apply List.map_congr_left
        intro a ha
        have : Heap.readBytes (copyBytes h v).1 a.2 = h.readBytes a.2 := by
          rw [he1]
          apply readBytes_congr
          intro q hq
          apply List.getElem?_append_left
          apply hm
          rw [List.mem_filterMap]
          exact ⟨a, List.mem_cons_of_mem _ ha, by simpa using hq⟩
        rw [this]

theorem copyStringMap_spec (h : Heap) (r : Option Ref) :
    (∃ ext, (copyStringMap h r).1 = h ++ ext) ∧
    ∀ more,
      (∀ q ∈ Heap.fieldReach ((copyStringMap h r).1 ++ more) (copyStringMap h r).2,
        h.length ≤ q ∧ q < (copyStringMap h r).1.length) ∧
      Heap.readStringMap ((copyStringMap h r).1 ++ more) (copyStringMap h r).2 =
        h.readStringMap r := by
  cases hread : h.readStringMap r with
  | none =>
    have hcopy : copyStringMap h r = (h, none) := by simp only [copyStringMap, hread]
    rw [hcopy]
    refine ⟨⟨[], by simp⟩, fun more => ?_⟩
    simp [Heap.fieldReach, Heap.readStringMap]
  | some m =>
    have hcopy : copyStringMap h r = (h ++ [Cell.stringMap m], some h.length) := by
      simp only [copyStringMap, hread]
    rw [hcopy]
    refine ⟨⟨[Cell.stringMap m], rfl⟩, fun more => ?_⟩
    simp only [Heap.fieldReach, Heap.readStringMap, List.append_assoc,
      List.singleton_append, getElem?_append_cons_length, List.mem_singleton, List.length_append,
      List.length_singleton, and_true]
    intro q hq
    subst hq
    exact ⟨Nat.le_refl _, Nat.lt_succ_self _⟩

theorem copyOwnerRefs_spec (h : Heap) (r : Option Ref) :
    (∃ ext, (copyOwnerRefs h r).1 = h ++ ext) ∧
    ∀ more,
      (∀ q ∈ Heap.fieldReach ((copyOwnerRefs h r).1 ++ more) (copyOwnerRefs h r).2,
        h.length ≤ q ∧ q < (copyOwnerRefs h r).1.length) ∧
      Heap.readOwnerRefs ((copyOwnerRefs h r).1 ++ more) (copyOwnerRefs h r).2 =
        h.readOwnerRefs r := by
  cases hread : h.readOwnerRefs r with
  | none =>
    have hcopy : copyOwnerRefs h r = (h, none) := by simp only [copyOwnerRefs, hread]
    rw [hcopy]
    refine ⟨⟨[], by simp⟩, fun more => ?_⟩
    simp [Heap.fieldReach, Heap.readOwnerRefs]
  | some m =>
    have hcopy : copyOwnerRefs h r = (h ++ [Cell.ownerRefs m], some h.length) := by
      simp only [copyOwnerRefs, hread]
    rw [hcopy]
    refine ⟨⟨[Cell.ownerRefs m], rfl⟩, fun more => ?_⟩
    simp only [Heap.fieldReach, Heap.readOwnerRefs, List.append_assoc,
      List.singleton_append, getElem?_append_cons_length, List.mem_singleton, List.length_append,
      List.length_singleton, and_true]
    intro q hq
    subst hq
    exact ⟨Nat.le_refl _, Nat.lt_succ_self _⟩

theorem dataEntries_eq_some {h : Heap} {r : Option Ref} {m : List (String × Option Ref)}
    (hm : h.dataEntries r = some m) : ∃ r0, r = some r0 ∧ h[r0]? = some (Cell.dataMap m) := by
  cases r with
  | none => simp [Heap.dataEntries] at hm
  | some r0 =>
    refine ⟨r0, rfl, ?_⟩
    simp only [Heap.dataEntries] at hm
    split at hm
    · rename_i m' hc
      simp only [Option.some.injEq] at hm
      rw [hc, hm]
    · simp at hm

theorem copyData_spec (h : Heap) (r : Option Ref) (hr : ∀ q ∈ h.fieldReach r, q < h.length) :
    (∃ ext, (copyData h r).1 = h ++ ext) ∧
    ∀ more,
      (∀ q ∈ Heap.fieldReach ((copyData h r).1 ++ more) (copyData h r).2,
        h.length ≤ q ∧ q < (copyData h r).1.length) ∧
      Heap.readData ((copyData h r).1 ++ more) (copyData h r).2 = h.readData r := by
  cases hent : h.dataEntries r with
  | none =>
    have hcopy : copyData h r = (h, none) := by simp only [copyData, hent]
    have hrd : h.readData r = none := by simp only [Heap.readData, hent, Option.map_none']
    rw [hcopy, hrd]
    refine ⟨⟨[], by simp⟩, fun more => ?_⟩
    simp [Heap.fieldReach, Heap.readData, Heap.dataEntries]
  | some m =>
    obtain ⟨r0, hr0, hcell⟩ := dataEntries_eq_some hent
    subst hr0
    have hm : ∀ q ∈ m.filterMap Prod.snd, q < h.length := by
      intro q hq
      apply hr
      simp only [Heap.fieldReach, hcell]
      exact List.mem_cons_of_mem _ hq
    obtain ⟨⟨e, he⟩, hfresh, hval⟩ := copyDataEntries_spec m h hm
    have hlen : h.length ≤ (copyDataEntries h m).1.length := by rw [he]; simp
    have hcopy : copyData h (some r0) = ((copyDataEntries h m).1 ++
        [Cell.dataMap (copyDataEntries h m).2], some (copyDataEntries h m).1.length) := by
      simp only [copyData, hent]
    have hrd : h.readData (some r0) = some (m.map (fun kv => (kv.1, h.readBytes kv.2))) := by
      simp only [Heap.readData, hent, Option.map_some']
    rw [hcopy, hrd]
    refine ⟨⟨e ++ [Cell.dataMap (copyDataEntries h m).2], ?_⟩, fun more => ⟨?_, ?_⟩⟩
    · simp only
      rw [he, List.append_assoc]
    · intro q hq
      simp only [Heap.fieldReach, List.append_assoc, List.singleton_append,
        getElem?_append_cons_length, List.mem_cons, List.length_append, List.length_cons,
        List.length_nil] at hq ⊢
      rcases hq with hq | hq
      · subst hq
        exact ⟨hlen, Nat.lt_succ_self _⟩
      · have := hfresh q hq
        exact ⟨this.1, Nat.lt_succ_of_lt this.2⟩
    · simp only [Heap.readData, Heap.dataEntries, List.append_assoc,
        List.singleton_append, getElem?_append_cons_length, Option.map_some', Option.some.injEq]
      have := hval (Cell.dataMap (copyDataEntries h m).2 :: more)
      rw [this]

theorem copyStringMap_chain (h e : Heap) (r : Option Ref)
    (hr : ∀ q ∈ h.fieldReach r, q < h.length) :
    ∃ x r', copyStringMap (h ++ e) r = (h ++ (e ++ x), r') ∧ ∀ more,
      (∀ q ∈ Heap.fieldReach (h ++ (e ++ (x ++ more))) r',
        h.length ≤ q ∧ q < (h ++ (e ++ x)).length) ∧
      Heap.readStringMap (h ++ (e ++ (x ++ more))) r' = h.readStringMap r := by
  obtain ⟨⟨x, hx⟩, hspec⟩ := copyStringMap_spec (h ++ e) r
  refine ⟨x, (copyStringMap (h ++ e) r).2, ?_, fun more => ?_⟩
  · rw [← List.append_assoc, ← hx]
  · have := hspec more
    rw [hx, List.append_assoc, List.append_assoc, List.append_assoc] at this
    refine ⟨fun q hq => ?_, ?_⟩
    · have hq' := this.1 q hq
      rw [← List.append_assoc h e x] at hq'
      rw [← List.append_assoc h e x]
      exact ⟨Nat.le_trans (by simp) hq'.1, hq'.2⟩
    · rw [this.2]
      exact (field_append e hr).2.1

theorem copyOwnerRefs_chain (h e : Heap) (r : Option Ref)
    (hr : ∀ q ∈ h.fieldReach r, q < h.length) :
    ∃ x r', copyOwnerRefs (h ++ e) r = (h ++ (e ++ x), r') ∧ ∀ more,
      (∀ q ∈ Heap.fieldReach (h ++ (e ++ (x ++ more))) r',
        h.length ≤ q ∧ q < (h ++ (e ++ x)).length) ∧
      Heap.readOwnerRefs (h ++ (e ++ (x ++ more))) r' = h.readOwnerRefs r := by
  obtain ⟨⟨x, hx⟩, hspec⟩ := copyOwnerRefs_spec (h ++ e) r
  refine ⟨x, (copyOwnerRefs (h ++ e) r).2, ?_, fun more => ?_⟩
  · rw [← List.append_assoc, ← hx]
  · have := hspec more
    rw [hx, List.append_assoc, List.append_assoc, List.append_assoc] at this
    refine ⟨fun q hq => ?_, ?_⟩
    · have hq' := this.1 q hq
      rw [← List.append_assoc h e x] at hq'
      rw [← List.append_assoc h e x]
      exact ⟨Nat.le_trans (by simp) hq'.1, hq'.2⟩
    · rw [this.2]
      exact (field_append e hr).2.2.1

theorem copyData_chain (h e : Heap) (r : Option Ref)
    (hr : ∀ q ∈ h.fieldReach r, q < h.length) :
    ∃ x r', copyData (h ++ e) r = (h ++ (e ++ x), r') ∧ ∀ more,
      (∀ q ∈ Heap.fieldReach (h ++ (e ++ (x ++ more))) r',
        h.length ≤ q ∧ q < (h ++ (e ++ x)).length) ∧
      Heap.readData (h ++ (e ++ (x ++ more))) r' = h.readData r := by
  have hr' : ∀ q ∈ Heap.fieldReach (h ++ e) r, q < (h ++ e).length := by
    intro q hq
    rw [(field_append e hr).1] at hq
    exact Nat.lt_of_lt_of_le (hr q hq) (by simp)
  obtain ⟨⟨x, hx⟩, hspec⟩ := copyData_spec (h ++ e) r hr'
  refine ⟨x, (copyData (h ++ e) r).2, ?_, fun more => ?_⟩
  · rw [← List.append_assoc, ← hx]
  · have := hspec more
    rw [hx, List.append_assoc, List.append_assoc, List.append_assoc] at this
    refine ⟨fun q hq => ?_, ?_⟩
    · have hq' := this.1 q hq
      rw [← List.append_assoc h e x] at hq'
      rw [← List.append_assoc h e x]
      exact ⟨Nat.le_trans (by simp) hq'.1, hq'.2⟩
    · rw [this.2]
      exact (field_append e hr).2.2.2

theorem mem_structReach {h : Heap} {s : SecretStruct} {q : Ref} :
    q ∈ h.structReach s ↔ q ∈ h.fieldReach s.Labels ∨ q ∈ h.fieldReach s.Annotations ∨
      q ∈ h.fieldReach s.OwnerReferences ∨ q ∈ h.fieldReach s.Data ∨
      q ∈ h.fieldReach s.StringData := by
  simp only [Heap.structReach, List.mem_append, or_assoc]

/-- `DeepCopy` only allocates; the struct it returns and everything that struct
points to are new objects; and the copy has the value of the original. -/
theorem DeepCopy_spec (h : Heap) (s : SecretStruct)
    (hs : ∀ q ∈ h.structReach s, q < h.length) :
    ∃ ext s', (DeepCopy h s).1 = h ++ ext ∧
      h.length ≤ (DeepCopy h s).2 ∧ (DeepCopy h s).2 < (DeepCopy h s).1.length ∧
      (DeepCopy h s).1[(DeepCopy h s).2]? = some (Cell.secret s') ∧
      (∀ q ∈ Heap.structReach (DeepCopy h s).1 s',
        h.length ≤ q ∧ q < (DeepCopy h s).1.length) ∧
      Heap.viewStruct (DeepCopy h s).1 s' = h.viewStruct s := by
  have v1 : ∀ q ∈ h.fieldReach s.Labels, q < h.length :=
    fun q hq => hs q (mem_structReach.mpr (Or.inl hq))
  have v2 : ∀ q ∈ h.fieldReach s.Annotations, q < h.length :=
    fun q hq => hs q (mem_structReach.mpr (Or.inr (Or.inl hq)))
  have v3 : ∀ q ∈ h.fieldReach s.OwnerReferences, q < h.length :=
    fun q hq => hs q (mem_structReach.mpr (Or.inr (Or.inr (Or.inl hq))))
  have v4 : ∀ q ∈ h.fieldReach s.Data, q < h.length :=
    fun q hq => hs q (mem_structReach.mpr (Or.inr (Or.inr (Or.inr (Or.inl hq)))))
  have v5 : ∀ q ∈ h.fieldReach s.StringData, q < h.length :=
    fun q hq => hs q (mem_structReach.mpr (Or.inr (Or.inr (Or.inr (Or.inr hq)))))
  obtain ⟨x1, r1, hc1, g1⟩ := copyStringMap_chain h [] s.Labels v1
  obtain ⟨x2, r2, hc2, g2⟩ := copyStringMap_chain h ([] ++ x1) s.Annotations v2
  obtain ⟨x3, r3, hc3, g3⟩ := copyOwnerRefs_chain h ([] ++ x1 ++ x2) s.OwnerReferences v3
  obtain ⟨x4, r4, hc4, g4⟩ := copyData_chain h ([] ++ x1 ++ x2 ++ x3) s.Data v4
  obtain ⟨x5, r5, hc5, g5⟩ := copyStringMap_chain h ([] ++ x1 ++ x2 ++ x3 ++ x4) s.StringData v5
  simp only [List.nil_append, List.append_nil, List.append_assoc] at hc1 hc2 hc3 hc4 hc5 g1 g2 g3 g4 g5
  have hD : DeepCopy h s = (h ++ (x1 ++ (x2 ++ (x3 ++ (x4 ++ (x5 ++
      [Cell.secret (s.withRefs r1 r2 r3 r4 r5)]))))), (h ++ (x1 ++ (x2 ++ (x3 ++ (x4 ++ x5))))).length) := by
    simp only [DeepCopy, Heap.alloc, hc1, hc2, hc3, hc4, hc5, List.append_assoc]
  rw [hD]
  refine ⟨_, s.withRefs r1 r2 r3 r4 r5, rfl, ?_, ?_, ?_, ?_, ?_⟩
  · show h.length ≤ (h ++ (x1 ++ (x2 ++ (x3 ++ (x4 ++ x5))))).length
    simp only [List.length_append]; omega
  · show (h ++ (x1 ++ (x2 ++ (x3 ++ (x4 ++ x5))))).length < _
    simp only [List.length_append, List.length_singleton]; omega
  · have := getElem?_append_cons_length (h ++ (x1 ++ (x2 ++ (x3 ++ (x4 ++ x5)))))
      (Cell.secret (s.withRefs r1 r2 r3 r4 r5)) []
    simpa only [List.append_assoc] using this
  · intro q hq
    have hlen : ∀ (a : Nat), a < (h ++ (x1 ++ (x2 ++ (x3 ++ (x4 ++ x5))))).length →
        a < (h ++ (x1 ++ (x2 ++ (x3 ++ (x4 ++ (x5 ++ [Cell.secret (s.withRefs r1 r2 r3 r4 r5)])))))).length := by
      intro a ha
      simp only [List.length_append, List.length_singleton] at ha ⊢
      omega
    rw [mem_structReach] at hq
    simp only [SecretStruct.withRefs] at hq
    rcases hq with hq | hq | hq | hq | hq
    · have := (g1 (x2 ++ (x3 ++ (x4 ++ (x5 ++ [_]))))).1 q hq
      refine ⟨this.1, hlen q (Nat.lt_of_lt_of_le this.2 ?_)⟩
      simp only [List.length_append]; omega
    · have := (g2 (x3 ++ (x4 ++ (x5 ++ [_])))).1 q hq
      refine ⟨this.1, hlen q (Nat.lt_of_lt_of_le this.2 ?_)⟩
      simp only [List.length_append]; omega
    · have := (g3 (x4 ++ (x5 ++ [_]))).1 q hq
      refine ⟨this.1, hlen q (Nat.lt_of_lt_of_le this.2 ?_)⟩
      simp only [List.length_append]; omega
    · have := (g4 (x5 ++ [_])).1 q hq
      refine ⟨this.1, hlen q (Nat.lt_of_lt_of_le this.2 ?_)⟩
      simp only [List.length_append]; omega
    · have := (g5 [_]).1 q hq
      exact ⟨this.1, hlen q this.2⟩
  · simp only [Heap.viewStruct, SecretStruct.withRefs]
    rw [(g1 (x2 ++ (x3 ++ (x4 ++ (x5 ++ [_]))))).2, (g2 (x3 ++ (x4 ++ (x5 ++ [_])))).2,
      (g3 (x4 ++ (x5 ++ [_]))).2, (g4 (x5 ++ [_])).2, (g5 [_]).2]

theorem self_mem_reach (h : Heap) (p : Ref) : p ∈ h.reach p := by
  simp only [Heap.reach]
  split <;> simp

/-- A builder whose struct points only into `h` builds, in any heap grown from
`h` and then written to above `h`, a new Secret with the value the builder had
in `h`, stored entirely in new objects. -/
theorem Build_spec (h : Heap) (b : Ref) (s : SecretStruct)
    (hb : h[b]? = some (Cell.secret s)) (hs : ∀ q ∈ h.structReach s, q < h.length)
    (ext : List Cell) (ws : List (Ref × Cell)) (hws : ∀ w ∈ ws, h.length ≤ w.1) :
    (∃ ext', (Build (Heap.writeAll (h ++ ext) ws) b).1 = Heap.writeAll (h ++ ext) ws ++ ext') ∧
    (∀ q ∈ Heap.reach (Build (Heap.writeAll (h ++ ext) ws) b).1
        (Build (Heap.writeAll (h ++ ext) ws) b).2,
      (h ++ ext).length ≤ q ∧ q < (Build (Heap.writeAll (h ++ ext) ws) b).1.length) ∧
    Heap.viewSecret (Build (Heap.writeAll (h ++ ext) ws) b).1
      (Build (Heap.writeAll (h ++ ext) ws) b).2 = some (h.viewStruct s) := by
  have hblt : b < h.length := by
    rw [List.getElem?_eq_some_iff] at hb
    exact hb.1
  have hsame : ∀ q : Ref, q < h.length → (Heap.writeAll (h ++ ext) ws)[q]? = h[q]? := by
    intro q hq
    rw [writeAll_getElem? _ _ _ (fun w hw => Nat.ne_of_gt (Nat.lt_of_lt_of_le hq (hws w hw)))]
    exact List.getElem?_append_left hq
  have hb' : (Heap.writeAll (h ++ ext) ws)[b]? = some (Cell.secret s) := by
    rw [hsame b hblt, hb]
  have hcongr := struct_congr (g := Heap.writeAll (h ++ ext) ws) (h := h) (s := s)
    (fun q hq => hsame q (hs q hq))
  have hlen : (Heap.writeAll (h ++ ext) ws).length = (h ++ ext).length := writeAll_length _ _
  have hs' : ∀ q ∈ Heap.structReach (Heap.writeAll (h ++ ext) ws) s,
      q < (Heap.writeAll (h ++ ext) ws).length := by
    intro q hq
    rw [hcongr.1] at hq
    rw [hlen]
    exact Nat.lt_of_lt_of_le (hs q hq) (by simp)
  obtain ⟨e, s', he, hlo, hhi, hcell, hreach, hview⟩ :=
    DeepCopy_spec (Heap.writeAll (h ++ ext) ws) s hs'
  have hB : Build (Heap.writeAll (h ++ ext) ws) b = DeepCopy (Heap.writeAll (h ++ ext) ws) s := by
    simp only [Build, hb']
  rw [hB]
  refine ⟨⟨e, he⟩, ?_, ?_⟩
  · intro q hq
    simp only [Heap.reach, hcell, List.mem_cons] at hq
    rw [← hlen]
    rcases hq with hq | hq
    · rw [hq]; exact ⟨hlo, hhi⟩
    · exact hreach q hq
  · simp only [Heap.viewSecret, hcell, hview, hcongr.2]

/-- Stores outside the objects a pointer reaches leave the value behind it alone. -/
theorem viewSecret_writeAll (g : Heap) (p : Ref) (ws : List (Ref × Cell))
    (hws : ∀ w ∈ ws, w.1 ∉ g.reach p) :
    (g.writeAll ws).viewSecret p = g.viewSecret p :=
  (secret_congr (fun q hq => writeAll_getElem? g ws q
    (fun w hw hwq => hws w hw (hwq ▸ hq)))).2

theorem secret_append {h : Heap} (ext : List Cell) {p : Ref}
    (hr : ∀ q ∈ h.reach p, q < h.length) :
    Heap.reach (h ++ ext) p = h.reach p ∧ Heap.viewSecret (h ++ ext) p = h.viewSecret p :=
  secret_congr (fun q hq => List.getElem?_append_left (hr q hq))

/-! ### Well-formed heaps stay well-formed under the setters -/

theorem mem_refs {s : SecretStruct} {q : Ref} :
    q ∈ s.refs ↔ s.Labels = some q ∨ s.Annotations = some q ∨ s.OwnerReferences = some q ∨
      s.Data = some q ∨ s.StringData = some q := by
  simp only [SecretStruct.refs, List.mem_append, Option.mem_toList, Option.mem_def, or_assoc]

theorem closed_alloc {h : Heap} {c : Cell} (hc : h.Closed)
    (hrefs : ∀ q ∈ c.refs, q < h.length + 1) : Heap.Closed (h ++ [c]) := by
  intro c' hc' q hq
  rw [List.length_append, List.length_singleton]
  rw [List.mem_append, List.mem_singleton] at hc'
  rcases hc' with hc' | hc'
  · exact Nat.lt_succ_of_lt (hc c' hc' q hq)
  · subst hc'
    exact hrefs q hq

theorem closed_set {h : Heap} {c : Cell} (r : Ref) (hc : h.Closed)
    (hrefs : ∀ q ∈ c.refs, q < h.length) : Heap.Closed (h.set r c) := by
  intro c' hc' q hq
  rw [List.length_set]
  rcases List.mem_or_eq_of_mem_set hc' with hc' | hc'
  · exact hc c' hc' q hq
  · subst hc'
    exact hrefs q hq

theorem structReach_lt {h : Heap} (hc : h.Closed) {b : Ref} {s : SecretStruct}
    (hb : h[b]? = some (Cell.secret s)) : ∀ q ∈ h.structReach s, q < h.length := by
  have hmem : Cell.secret s ∈ h := List.mem_iff_getElem?.mpr ⟨b, hb⟩
  have hfield : ∀ f : Option Ref, (∀ r, f = some r → r ∈ s.refs) →
      ∀ q ∈ h.fieldReach f, q < h.length := by
    intro f hf q hq
    cases f with
    | none => simp [Heap.fieldReach] at hq
    | some r =>
      have hr : r < h.length := hc _ hmem r (hf r rfl)
      simp only [Heap.fieldReach] at hq
      split at hq
      · rename_i m hm
        rw [List.mem_cons] at hq
        rcases hq with hq | hq
        · rw [hq]; exact hr
        · exact hc (Cell.dataMap m) (List.mem_iff_getElem?.mpr ⟨r, hm⟩) q hq
      · rw [List.mem_singleton] at hq
        rw [hq]; exact hr
  intro q hq
  rw [mem_structReach] at hq
  rcases hq with hq | hq | hq | hq | hq
  · exact hfield _ (fun r hr => mem_refs.mpr (Or.inl hr)) q hq
  · exact hfield _ (fun r hr => mem_refs.mpr (Or.inr (Or.inl hr))) q hq
  · exact hfield _ (fun r hr => mem_refs.mpr (Or.inr (Or.inr (Or.inl hr)))) q hq
  · exact hfield _ (fun r hr => mem_refs.mpr (Or.inr (Or.inr (Or.inr (Or.inl hr))))) q hq
  · exact hfield _ (fun r hr => mem_refs.mpr (Or.inr (Or.inr (Or.inr (Or.inr hr))))) q hq

theorem updateSecret_inv {h : Heap} {b : Ref} {s : SecretStruct} (f : SecretStruct → SecretStruct)
    (hc : h.Closed) (hb : h[b]? = some (Cell.secret s))
    (hf : ∀ q ∈ (f s).refs, q < h.length) :
    (h.updateSecret b f).Closed ∧ (h.updateSecret b f)[b]? = some (Cell.secret (f s)) ∧
    (h.updateSecret b f).length = h.length := by
  have hblt : b < h.length := (List.getElem?_eq_some_iff.mp hb).1
  simp only [Heap.updateSecret, hb]
  exact ⟨closed_set b hc hf, List.getElem?_set_self hblt, List.length_set _ _ _⟩

theorem storeString_inv {h : Heap} {b : Ref} {s : SecretStruct} (l : Ref) (k v : String)
    (hc : h.Closed) (hb : h[b]? = some (Cell.secret s)) :
    (h.storeString l k v).Closed ∧ (h.storeString l k v)[b]? = some (Cell.secret s) ∧
    (h.storeString l k v).length = h.length := by
  simp only [Heap.storeString]
  split
  · rename_i m hm
    refine ⟨closed_set l hc (by simp [Cell.refs]), ?_, List.length_set _ _ _⟩
    have hne : l ≠ b := by
      intro e
      rw [e, hb] at hm
      simp at hm
    rw [List.getElem?_set_ne hne, hb]
  · exact ⟨hc, hb, rfl⟩

theorem storeAll_inv {b : Ref} {s : SecretStruct} (l : Ref) (m : List (String × String))
    (h : Heap) (hc : h.Closed) (hb : h[b]? = some (Cell.secret s)) :
    (m.foldl (fun hh kv => Heap.storeString hh l kv.1 kv.2) h).Closed ∧
    (m.foldl (fun hh kv => Heap.storeString hh l kv.1 kv.2) h)[b]? = some (Cell.secret s) ∧
    (m.foldl (fun hh kv => Heap.storeString hh l kv.1 kv.2) h).length = h.length := by
  induction m generalizing h with
  | nil => exact ⟨hc, hb, rfl⟩
  | cons kv rest ih =>
    obtain ⟨h1, h2, h3⟩ := storeString_inv l kv.1 kv.2 hc hb
    obtain ⟨i1, i2, i3⟩ := ih (h.storeString l kv.1 kv.2) h1 h2
    exact ⟨i1, i2, i3.trans h3⟩

theorem alloc_set_inv {h : Heap} {b : Ref} {s : SecretStruct} (s' : SecretStruct) (c : Cell)
    (hc : h.Closed) (hb : h[b]? = some (Cell.secret s)) (hcr : c.refs = [])
    (hs' : ∀ q ∈ s'.refs, q < h.length + 1) :
    Heap.Closed ((h ++ [c]).set b (Cell.secret s')) ∧
    ((h ++ [c]).set b (Cell.secret s'))[b]? = some (Cell.secret s') ∧
    h.length ≤ ((h ++ [c]).set b (Cell.secret s')).length := by
  have hblt : b < h.length := (List.getElem?_eq_some_iff.mp hb).1
  have hlen : (h ++ [c]).length = h.length + 1 := by simp
  refine ⟨closed_set b (closed_alloc hc (by simp [hcr])) (by rw [hlen]; exact hs'), ?_, ?_⟩
  · exact List.getElem?_set_self (by rw [hlen]; exact Nat.lt_succ_of_lt hblt)
  · rw [List.length_set, hlen]; exact Nat.le_succ _

theorem ensureLabels_inv {h : Heap} {b : Ref} {s : SecretStruct}
    (hc : h.Closed) (hb : h[b]? = some (Cell.secret s)) :
    (ensureLabels h b).Closed ∧ (∃ s', (ensureLabels h b)[b]? = some (Cell.secret s')) ∧
    h.length ≤ (ensureLabels h b).length := by
  simp only [ensureLabels, hb]
  cases hl : s.Labels with
  | some l => exact ⟨hc, ⟨s, hb⟩, Nat.le_refl _⟩
  | none =>
    have hmem : Cell.secret s ∈ h := List.mem_iff_getElem?.mpr ⟨b, hb⟩
    have := alloc_set_inv { s with Labels := some h.length } (Cell.stringMap []) hc hb
      rfl (by
        intro q hq
        rw [mem_refs] at hq
        rcases hq with hq | hq | hq | hq | hq
        · simp only [Option.some.injEq] at hq
          rw [← hq]; exact Nat.lt_succ_self _
        · exact Nat.lt_succ_of_lt (hc _ hmem q (mem_refs.mpr (Or.inr (Or.inl hq))))
        · exact Nat.lt_succ_of_lt (hc _ hmem q (mem_refs.mpr (Or.inr (Or.inr (Or.inl hq)))))
        · exact Nat.lt_succ_of_lt
            (hc _ hmem q (mem_refs.mpr (Or.inr (Or.inr (Or.inr (Or.inl hq))))))
        · exact Nat.lt_succ_of_lt
            (hc _ hmem q (mem_refs.mpr (Or.inr (Or.inr (Or.inr (Or.inr hq)))))))
    exact ⟨this.1, ⟨_, this.2.1⟩, this.2.2⟩

theorem WithLabels_inv {h : Heap} {b : Ref} {s : SecretStruct} (labels : Option Ref)
    (hc : h.Closed) (hb : h[b]? = some (Cell.secret s)) :
    (WithLabels h b labels).Closed ∧ (∃ s', (WithLabels h b labels)[b]? = some (Cell.secret s')) ∧
    h.length ≤ (WithLabels h b labels).length := by
  obtain ⟨e1, ⟨s', e2⟩, e3⟩ := ensureLabels_inv hc hb
  simp only [WithLabels]
  split
  · rename_i l hl
    obtain ⟨i1, i2, i3⟩ := storeAll_inv l (h.rangeStringMap labels) (ensureLabels h b) e1 e2
    exact ⟨i1, ⟨s', i2⟩, by rw [i3]; exact e3⟩
  · exact ⟨hc, ⟨s, hb⟩, Nat.le_refl _⟩

theorem WithOwnerRef_inv {h : Heap} {b : Ref} {s : SecretStruct} (ref : OwnerReference)
    (hc : h.Closed) (hb : h[b]? = some (Cell.secret s)) :
    (WithOwnerRef h b ref).Closed ∧ (∃ s', (WithOwnerRef h b ref)[b]? = some (Cell.secret s')) ∧
    h.length ≤ (WithOwnerRef h b ref).length := by
  simp only [WithOwnerRef, hb]
  have hmem : Cell.secret s ∈ h := List.mem_iff_getElem?.mpr ⟨b, hb⟩
  have := alloc_set_inv { s with OwnerReferences := some h.length }
    (Cell.ownerRefs (((h.readOwnerRefs s.OwnerReferences).getD []) ++ [ref])) hc hb rfl (by
      intro q hq
      rw [mem_refs] at hq
      rcases hq with hq | hq | hq | hq | hq
      · exact Nat.lt_succ_of_lt (hc _ hmem q (mem_refs.mpr (Or.inl hq)))
      · exact Nat.lt_succ_of_lt (hc _ hmem q (mem_refs.mpr (Or.inr (Or.inl hq))))
      · simp only [Option.some.injEq] at hq
        rw [← hq]; exact Nat.lt_succ_self _
      · exact Nat.lt_succ_of_lt
          (hc _ hmem q (mem_refs.mpr (Or.inr (Or.inr (Or.inr (Or.inl hq))))))
      · exact Nat.lt_succ_of_lt
          (hc _ hmem q (mem_refs.mpr (Or.inr (Or.inr (Or.inr (Or.inr hq)))))))
  exact ⟨this.1, ⟨_, this.2.1⟩, this.2.2⟩

theorem Setter.apply_inv {h : Heap} {b : Ref} {s : SecretStruct} (op : Setter)
    (hc : h.Closed) (hb : h[b]? = some (Cell.secret s))
    (ha : ∀ r ∈ op.argRefs, r < h.length) :
    (op.apply h b).Closed ∧ (∃ s', (op.apply h b)[b]? = some (Cell.secret s')) ∧
    h.length ≤ (op.apply h b).length := by
  have hmem : Cell.secret s ∈ h := List.mem_iff_getElem?.mpr ⟨b, hb⟩
  have hold : ∀ q ∈ s.refs, q < h.length := hc _ hmem
  cases op with
  | WithName name =>
    have := updateSecret_inv (fun s => { s with Name := name }) hc hb hold
    exact ⟨this.1, ⟨_, this.2.1⟩, Nat.le_of_eq this.2.2.symm⟩
  | WithNamespace ns =>
    have := updateSecret_inv (fun s => { s with Namespace := ns }) hc hb hold
    exact ⟨this.1, ⟨_, this.2.1⟩, Nat.le_of_eq this.2.2.symm⟩
  | WithData data =>
    have := updateSecret_inv (fun s => { s with Data := data }) hc hb (by
      intro q hq
      rw [mem_refs] at hq
      rcases hq with hq | hq | hq | hq | hq
      · exact hold q (mem_refs.mpr (Or.inl hq))
      · exact hold q (mem_refs.mpr (Or.inr (Or.inl hq)))
      · exact hold q (mem_refs.mpr (Or.inr (Or.inr (Or.inl hq))))
      · exact ha q (by simpa [Setter.argRefs] using hq)
      · exact hold q (mem_refs.mpr (Or.inr (Or.inr (Or.inr (Or.inr hq))))))
    exact ⟨this.1, ⟨_, this.2.1⟩, Nat.le_of_eq this.2.2.symm⟩
  | WithStringData data =>
    have := updateSecret_inv (fun s => { s with StringData := data }) hc hb (by
      intro q hq
      rw [mem_refs] at hq
      rcases hq with hq | hq | hq | hq | hq
      · exact hold q (mem_refs.mpr (Or.inl hq))
      · exact hold q (mem_refs.mpr (Or.inr (Or.inl hq)))
      · exact hold q (mem_refs.mpr (Or.inr (Or.inr (Or.inl hq))))
      · exact hold q (mem_refs.mpr (Or.inr (Or.inr (Or.inr (Or.inl hq)))))
      · exact ha q (by simpa [Setter.argRefs] using hq))
    exact ⟨this.1, ⟨_, this.2.1⟩, Nat.le_of_eq this.2.2.symm⟩
  | WithLabels labels => exact WithLabels_inv labels hc hb
  | WithOwnerRef ref => exact WithOwnerRef_inv ref hc hb

theorem runSetters_inv (ops : List Setter) (n : Nat) {h : Heap} {b : Ref} {s : SecretStruct}
    (hc : h.Closed) (hb : h[b]? = some (Cell.secret s)) (hn : n ≤ h.length)
    (ha : ∀ op ∈ ops, ∀ r ∈ op.argRefs, r < n) :
    (runSetters h b ops).Closed ∧ ∃ s', (runSetters h b ops)[b]? = some (Cell.secret s') := by
  induction ops generalizing h s with
  | nil => exact ⟨hc, ⟨s, hb⟩⟩
  | cons op rest ih =>
    obtain ⟨i1, ⟨s', i2⟩, i3⟩ := Setter.apply_inv op hc hb
      (fun r hr => Nat.lt_of_lt_of_le (ha op (List.mem_cons_self _ _) r hr) hn)
    exact ih i1 i2 (Nat.le_trans hn i3) (fun op' hop' => ha op' (List.mem_cons_of_mem _ hop'))

theorem NewSecretBuilder_inv {h : Heap} (hc : h.Closed) :
    (NewSecretBuilder h).1.Closed ∧
    (NewSecretBuilder h).1[(NewSecretBuilder h).2]? = some (Cell.secret zeroSecret) ∧
    h.length ≤ (NewSecretBuilder h).1.length := by
  refine ⟨closed_alloc hc (by simp [Cell.refs, SecretStruct.refs, zeroSecret]), ?_, ?_⟩
  · exact getElem?_append_cons_length h _ []
  · simp [NewSecretBuilder, Heap.alloc]

/-- C3. For the builder reached from `NewSecretBuilder()` by any chain of
setter calls (in a heap without dangling references, the setters being handed
maps of that heap), two successive `Build()` calls return distinct pointers to
Secrets that both have the value `v` of the Secret the builder holds; no cell
reachable from one of the three Secrets is reachable from another; and after
any sequence of stores into the objects reachable from one of the two pointers
returned, the other Secret and the builder's Secret still have value `v`, and
so has the Secret a further `Build()` returns. -/
theorem Build_independent_deep_copies (h0 : Heap) (ops : List Setter) (hclosed : h0.Closed)
    (hargs : ∀ op ∈ ops, ∀ r ∈ op.argRefs, r < h0.length)
    (h : Heap) (b : Ref) (hst : (h, b) = builderAfter h0 ops)
    (h1 : Heap) (p1 : Ref) (hb1 : (h1, p1) = Build h b)
    (h2 : Heap) (p2 : Ref) (hb2 : (h2, p2) = Build h1 b) :
    p1 ≠ p2 ∧ ∃ v : Secret,
      h.viewSecret b = some v ∧ h2.viewSecret b = some v ∧
      h1.viewSecret p1 = some v ∧ h2.viewSecret p1 = some v ∧ h2.viewSecret p2 = some v ∧
      (∀ q ∈ h2.reach p1, q ∉ h2.reach b ∧ q ∉ h2.reach p2) ∧
      (∀ q ∈ h2.reach p2, q ∉ h2.reach b) ∧
      ∀ ws : List (Ref × Cell),
        ((∀ w ∈ ws, w.1 ∈ h2.reach p1) →
          (h2.writeAll ws).viewSecret p2 = some v ∧
          (h2.writeAll ws).viewSecret b = some v ∧
          (Build (h2.writeAll ws) b).1.viewSecret (Build (h2.writeAll ws) b).2 = some v) ∧
        ((∀ w ∈ ws, w.1 ∈ h2.reach p2) →
          (h2.writeAll ws).viewSecret p1 = some v ∧
          (h2.writeAll ws).viewSecret b = some v ∧
          (Build (h2.writeAll ws) b).1.viewSecret (Build (h2.writeAll ws) b).2 = some v) := by
  -- the builder is a struct of a heap without dangling references
  obtain ⟨n1, n2, n3⟩ := NewSecretBuilder_inv hclosed
  obtain ⟨hc, s, hb⟩ := runSetters_inv ops h0.length n1 n2 n3 hargs
  have hh : h = runSetters (NewSecretBuilder h0).1 (NewSecretBuilder h0).2 ops :=
    congrArg Prod.fst hst
  have hbb : b = (NewSecretBuilder h0).2 := congrArg Prod.snd hst
  rw [← hh] at hc hb
  rw [← hbb] at hb
  have hs := structReach_lt hc hb
  have hblt : b < h.length := (List.getElem?_eq_some_iff.mp hb).1
  -- the builder's own Secret
  have hvb : h.viewSecret b = some (h.viewStruct s) := by
    simp only [Heap.viewSecret, hb]
  have hrb : ∀ q ∈ h.reach b, q < h.length := by
    intro q hq
    simp only [Heap.reach, hb, List.mem_cons] at hq
    rcases hq with e | hq
    · rw [e]; exact hblt
    · exact hs q hq
  -- the first copy
  have B1 := Build_spec h b s hb hs [] [] (by simp)
  simp only [List.append_nil, Heap.writeAll, List.foldl_nil] at B1
  rw [← hb1] at B1
  obtain ⟨⟨e1, he1⟩, hr1, hv1⟩ := B1
  simp only at he1 hr1 hv1
  -- the second copy
  have B2 := Build_spec h b s hb hs e1 [] (by simp)
  simp only [Heap.writeAll, List.foldl_nil] at B2
  rw [← he1, ← hb2] at B2
  obtain ⟨⟨e2, he2⟩, hr2, hv2⟩ := B2
  simp only at he2 hr2 hv2
  have hA := secret_append (h := h1) e2 (p := p1) (fun q hq => (hr1 q hq).2)
  rw [← he2] at hA
  have hlen1 : h.length ≤ h1.length := by rw [he1]; simp
  have hh2 : h2 = h ++ (e1 ++ e2) := by rw [he2, he1, List.append_assoc]
  have hBb := secret_append (h := h) (e1 ++ e2) (p := b) hrb
  rw [← hh2] at hBb
  have hdis1 : ∀ q ∈ h2.reach p1, q ∉ h2.reach b ∧ q ∉ h2.reach p2 := by
    intro q hq
    rw [hA.1] at hq
    constructor
    · intro hqb
      rw [hBb.1] at hqb
      exact Nat.lt_irrefl _ (Nat.lt_of_lt_of_le (hrb q hqb) (hr1 q hq).1)
    · intro hq2
      exact Nat.lt_irrefl _ (Nat.lt_of_lt_of_le (hr1 q hq).2 (hr2 q hq2).1)
  have hdis2 : ∀ q ∈ h2.reach p2, q ∉ h2.reach b := by
    intro q hq hqb
    rw [hBb.1] at hqb
    exact Nat.lt_irrefl _ (Nat.lt_of_lt_of_le (hrb q hqb)
      (Nat.le_trans hlen1 (hr2 q hq).1))
  refine ⟨?_, h.viewStruct s, hvb, by rw [hBb.2, hvb], hv1, by rw [hA.2, hv1], hv2, hdis1,
    hdis2, fun ws => ⟨fun hws => ⟨?_, ?_, ?_⟩, fun hws => ⟨?_, ?_, ?_⟩⟩⟩
  · intro e
    have a1 := (hr1 p1 (self_mem_reach h1 p1)).2
    have a2 := (hr2 p2 (self_mem_reach h2 p2)).1
    rw [e] at a1
    exact Nat.lt_irrefl _ (Nat.lt_of_lt_of_le a1 a2)
  · rw [viewSecret_writeAll, hv2]
    intro w hw hmem
    exact (hdis1 _ (hws w hw)).2 hmem
  · rw [viewSecret_writeAll, hBb.2, hvb]
    intro w hw hmem
    exact (hdis1 _ (hws w hw)).1 hmem
  · have := Build_spec h b s hb hs (e1 ++ e2) ws (fun w hw => by
      have a1 := hws w hw
      rw [hA.1] at a1
      exact (hr1 _ a1).1)
    rw [← hh2] at this
    exact this.2.2
  · rw [viewSecret_writeAll, hA.2, hv1]
    intro w hw hmem
    exact (hdis1 _ hmem).2 (hws w hw)
  · rw [viewSecret_writeAll, hBb.2, hvb]
    intro w hw hmem
    exact hdis2 _ (hws w hw) hmem
  · have := Build_spec h b s hb hs (e1 ++ e2) ws (fun w hw =>
      Nat.le_trans hlen1 (hr2 _ (hws w hw)).1)
    rw [← hh2] at this
    exact this.2.2

/-- Witness for C3: the builder of `TestSecretBuilder_Build_IndependentCopies`;
both copies have the builder's name, namespace and data. -/
theorem Build_independent_deep_copies_witness :
    copyTestHeap.Closed ∧ (∀ op ∈ copyTestOps, ∀ r ∈ op.argRefs, r < copyTestHeap.length) ∧
    (Build (builderAfter copyTestHeap copyTestOps).1 (builderAfter copyTestHeap copyTestOps).2).2 ≠
      (Build (Build (builderAfter copyTestHeap copyTestOps).1
        (builderAfter copyTestHeap copyTestOps).2).1
        (builderAfter copyTestHeap copyTestOps).2).2 ∧
    (∃ v : Secret,
      Heap.viewSecret (builderAfter copyTestHeap copyTestOps).1
        (builderAfter copyTestHeap copyTestOps).2 = some v ∧
      Heap.viewSecret (Build (Build (builderAfter copyTestHeap copyTestOps).1
          (builderAfter copyTestHeap copyTestOps).2).1
          (builderAfter copyTestHeap copyTestOps).2).1
        (Build (builderAfter copyTestHeap copyTestOps).1
          (builderAfter copyTestHeap copyTestOps).2).2 = some v ∧
      Heap.viewSecret (Build (Build (builderAfter copyTestHeap copyTestOps).1
          (builderAfter copyTestHeap copyTestOps).2).1
          (builderAfter copyTestHeap copyTestOps).2).1
        (Build (Build (builderAfter copyTestHeap copyTestOps).1
          (builderAfter copyTestHeap copyTestOps).2).1
          (builderAfter copyTestHeap copyTestOps).2).2 = some v) ∧
    Heap.viewSecret (builderAfter copyTestHeap copyTestOps).1
      (builderAfter copyTestHeap copyTestOps).2 =
      some { Secret.zero with
        Name := "copy-test", Namespace := "ns",
        Data := some [("key", [118, 97, 108, 117, 101])] } :=
  ⟨by decide, by decide,
    (Build_independent_deep_copies copyTestHeap copyTestOps (by decide) (by decide)
      _ _ rfl _ _ rfl _ _ rfl).1,
    (Build_independent_deep_copies copyTestHeap copyTestOps (by decide) (by decide)
      _ _ rfl _ _ rfl _ _ rfl).2.imp (fun _ hv => ⟨hv.1, hv.2.2.2.1, hv.2.2.2.2.1⟩),
    by decide⟩

/-! ### Maps as association lists -/

theorem mapGet_mapSet_self {V : Type} (m : List (String × V)) (k : String) (v : V) :
    mapGet (mapSet m k v) k = some v := by
  induction m with
  | nil => simp [mapSet, mapGet]
  | cons kv rest ih =>
    obtain ⟨k', v'⟩ := kv
    by_cases hk : k' = k
    · simp [mapSet, mapGet, hk]
    · simp [mapSet, mapGet, hk, ih]

theorem mapGet_mapSet_ne {V : Type} (m : List (String × V)) {k k' : String} (v : V)
    (hne : k' ≠ k) : mapGet (mapSet m k v) k' = mapGet m k' := by
  induction m with
  | nil => simp [mapSet, mapGet, hne.symm]
  | cons kv rest ih =>
    obtain ⟨k1, v1⟩ := kv
    by_cases hk : k1 = k
    · subst hk
      simp [mapSet, mapGet, hne.symm]
    · by_cases hk' : k1 = k'
      · subst hk'
        simp [mapSet, mapGet, hk]
      · simp [mapSet, mapGet, hk, hk', ih]

theorem mem_mapKeys_iff {V : Type} (m : List (String × V)) (k : String) :
    k ∈ mapKeys m ↔ ∃ v, mapGet m k = some v := by
  induction m with
  | nil => simp [mapKeys, mapGet]
  | cons kv rest ih =>
    obtain ⟨k1, v1⟩ := kv
    by_cases hk : k1 = k
    · simp [mapKeys, mapGet, hk]
    · have hk' : ¬ k = k1 := fun e => hk e.symm
      simp only [mapKeys, List.map_cons, List.mem_cons, hk', false_or, mapGet, hk, if_false]
      exact ih

theorem mapGet_eq_none_iff {V : Type} (m : List (String × V)) (k : String) :
    mapGet m k = none ↔ k ∉ mapKeys m := by
  rw [mem_mapKeys_iff]
  cases mapGet m k <;> simp

theorem mapKeys_mapSet {V : Type} (m : List (String × V)) (k k' : String) (v : V) :
    k' ∈ mapKeys (mapSet m k v) ↔ k' = k ∨ k' ∈ mapKeys m := by
  rw [mem_mapKeys_iff, mem_mapKeys_iff]
  by_cases hk : k' = k
  · subst hk
    simp [mapGet_mapSet_self]
  · simp [mapGet_mapSet_ne m v hk, hk]

theorem nodup_mapSet {V : Type} (m : List (String × V)) (k : String) (v : V)
    (hm : (mapKeys m).Nodup) : (mapKeys (mapSet m k v)).Nodup := by
  induction m with
  | nil => simp [mapSet, mapKeys]
  | cons kv rest ih =>
    obtain ⟨k1, v1⟩ := kv
    have hm' : k1 ∉ mapKeys rest ∧ (mapKeys rest).Nodup := by
      simpa [mapKeys] using hm
    by_cases hk : k1 = k
    · subst hk
      simpa [mapSet, mapKeys] using hm
    · have : k1 ∉ mapKeys (mapSet rest k v) := by
        rw [mapKeys_mapSet]
        intro h
        rcases h with h | h
        · exact hk h
        · exact hm'.1 h
      simp only [mapSet, hk, if_false, mapKeys, List.map_cons, List.nodup_cons]
      exact ⟨this, ih hm'.2⟩

/-- Storing the entries of a map `E` one by one into `m0`: afterwards a key of
`E` has `E`'s value and any other key the value it had. -/
theorem mapGet_storeAll {V : Type} (E : List (String × V)) (m0 : List (String × V))
    (hE : (mapKeys E).Nodup) (k : String) :
    mapGet (E.foldl (fun m kv => mapSet m kv.1 kv.2) m0) k =
      match mapGet E k with
      | some v => some v
      | none => mapGet m0 k := by
  induction E generalizing m0 with
  | nil => simp [mapGet]
  | cons kv rest ih =>
    obtain ⟨k1, v1⟩ := kv
    have hE' : k1 ∉ mapKeys rest ∧ (mapKeys rest).Nodup := by
      simpa [mapKeys] using hE
    rw [List.foldl_cons, ih _ hE'.2]
    by_cases hk : k1 = k
    · subst hk
      have : mapGet rest k1 = none := (mapGet_eq_none_iff rest k1).mpr hE'.1
      simp [mapGet, this, mapGet_mapSet_self]
    · have hk' : k ≠ k1 := fun e => hk e.symm
      simp [mapGet, hk, mapGet_mapSet_ne m0 v1 hk']

theorem nodup_storeAll {V : Type} (E : List (String × V)) (m0 : List (String × V))
    (hm : (mapKeys m0).Nodup) :
    (mapKeys (E.foldl (fun m kv => mapSet m kv.1 kv.2) m0)).Nodup := by
  induction E generalizing m0 with
  | nil => exact hm
  | cons kv rest ih => exact ih _ (nodup_mapSet m0 kv.1 kv.2 hm)

/-! ### `WithLabels` -/

theorem storeAll_cell (E : List (String × String)) (l : Ref) (H : Heap)
    (m0 : List (String × String)) (hl : H[l]? = some (Cell.stringMap m0)) :
    (E.foldl (fun hh kv => Heap.storeString hh l kv.1 kv.2) H)[l]? =
      some (Cell.stringMap (E.foldl (fun m kv => mapSet m kv.1 kv.2) m0)) ∧
    (∀ q : Ref, q ≠ l → (E.foldl (fun hh kv => Heap.storeString hh l kv.1 kv.2) H)[q]? = H[q]?) := by
  induction E generalizing H m0 with
  | nil => exact ⟨hl, fun _ _ => rfl⟩
  | cons kv rest ih =>
    have hllt : l < H.length := (List.getElem?_eq_some_iff.mp hl).1
    have hstep : H.storeString l kv.1 kv.2 = H.set l (Cell.stringMap (mapSet m0 kv.1 kv.2)) := by
      simp only [Heap.storeString, hl]
    have hl' : (H.storeString l kv.1 kv.2)[l]? = some (Cell.stringMap (mapSet m0 kv.1 kv.2)) := by
      rw [hstep]
      exact List.getElem?_set_self hllt
    obtain ⟨i1, i2⟩ := ih (H.storeString l kv.1 kv.2) (mapSet m0 kv.1 kv.2) hl'
    refine ⟨i1, fun q hq => ?_⟩
    rw [List.foldl_cons, i2 q hq, hstep, List.getElem?_set_ne (Ne.symm hq)]

/-- What `WithLabels` does to the heap: the builder's struct points to a labels
map (the one it had, or a new empty one), that map received the entries of the
argument, and nothing else changed. -/
theorem WithLabels_spec (H : Heap) (b : Ref) (s : SecretStruct) (a : Option Ref)
    (hb : H[b]? = some (Cell.secret s))
    (hl : ∀ l, s.Labels = some l → ∃ m, H[l]? = some (Cell.stringMap m)) :
    ∃ (l : Ref) (m0 : List (String × String)),
      ((s.Labels = some l ∧ H[l]? = some (Cell.stringMap m0)) ∨
        (s.Labels = none ∧ l = H.length ∧ m0 = [])) ∧
      (WithLabels H b a)[b]? = some (Cell.secret { s with Labels := some l }) ∧
      (WithLabels H b a)[l]? = some (Cell.stringMap
        ((H.rangeStringMap a).foldl (fun m kv => mapSet m kv.1 kv.2) m0)) ∧
      (∀ q : Ref, q ≠ b → q ≠ l → q < H.length → (WithLabels H b a)[q]? = H[q]?) := by
  have hblt : b < H.length := (List.getElem?_eq_some_iff.mp hb).1
  cases hlab : s.Labels with
  | some l =>
    obtain ⟨m0, hm0⟩ := hl l hlab
    have hens : ensureLabels H b = H := by simp only [ensureLabels, hb, hlab]
    have hne : l ≠ b := by
      intro e
      rw [e, hb] at hm0
      simp at hm0
    have hW : WithLabels H b a =
        (H.rangeStringMap a).foldl (fun hh kv => Heap.storeString hh l kv.1 kv.2) H := by
      simp only [WithLabels, hens, labelsRef, hb, hlab]
    obtain ⟨i1, i2⟩ := storeAll_cell (H.rangeStringMap a) l H m0 hm0
    refine ⟨l, m0, Or.inl ⟨rfl, hm0⟩, ?_, ?_, ?_⟩
    · rw [hW, i2 b (Ne.symm hne), hb]
      cases s
      simp only at hlab
      simp only [hlab]
    · rw [hW, i1]
    · intro q _ hql _
      rw [hW, i2 q hql]
  | none =>
    have hens : ensureLabels H b =
        (H ++ [Cell.stringMap []]).set b (Cell.secret { s with Labels := some H.length }) := by
      simp only [ensureLabels, hb, hlab]
    have hlen : (H ++ [Cell.stringMap []]).length = H.length + 1 := by simp
    have hbE : (ensureLabels H b)[b]? = some (Cell.secret { s with Labels := some H.length }) := by
      rw [hens]
      exact List.getElem?_set_self (by rw [hlen]; exact Nat.lt_succ_of_lt hblt)
    have hne : H.length ≠ b := Nat.ne_of_gt hblt
    have hlE : (ensureLabels H b)[H.length]? = some (Cell.stringMap []) := by
      rw [hens, List.getElem?_set_ne (Ne.symm hne)]
      exact getElem?_append_cons_length H _ []
    have hW : WithLabels H b a =
        (H.rangeStringMap a).foldl (fun hh kv => Heap.storeString hh H.length kv.1 kv.2)
          (ensureLabels H b) := by
      simp only [WithLabels, labelsRef, hbE]
    obtain ⟨i1, i2⟩ := storeAll_cell (H.rangeStringMap a) H.length (ensureLabels H b) [] hlE
    refine ⟨H.length, [], Or.inr ⟨rfl, rfl, rfl⟩, ?_, ?_, ?_⟩
    · rw [hW, i2 b (Ne.symm hne), hbE]
    · rw [hW, i1]
    · intro q hqb hql hq
      rw [hW, i2 q hql, hens, List.getElem?_set_ne (Ne.symm hqb)]
      exact List.getElem?_append_left hq

theorem rangeStringMap_congr {g h : Heap} {r : Option Ref}
    (hr : ∀ q ∈ r.toList, g[q]? = h[q]?) : g.rangeStringMap r = h.rangeStringMap r := by
  cases r with
  | none => rfl
  | some q =>
    have := hr q (by simp)
    simp [Heap.rangeStringMap, Heap.readStringMap, this]

/-- C4. `NewSecretBuilder().WithLabels(A).WithLabels(B).Build()` carries as
Labels a map `L` whose key set is the union of the key sets of `A` and `B`, in
which every key of `B` has `B`'s value and every key outside `B` the value it
has in `A`. `A` and `B` are maps of a heap without dangling references, each
with pairwise distinct keys, or nil. -/
theorem WithLabels_twice_union (h0 : Heap) (a b : Option Ref) (hclosed : h0.Closed)
    (ha : ∀ r ∈ a.toList, r < h0.length) (hb : ∀ r ∈ b.toList, r < h0.length)
    (hA : (mapKeys (h0.rangeStringMap a)).Nodup) (hB : (mapKeys (h0.rangeStringMap b)).Nodup)
    (h : Heap) (p : Ref)
    (hbuild : (h, p) = Build (builderAfter h0 [Setter.WithLabels a, Setter.WithLabels b]).1
      (builderAfter h0 [Setter.WithLabels a, Setter.WithLabels b]).2) :
    ∃ (v : Secret) (L : List (String × String)),
      h.viewSecret p = some v ∧ v.Labels = some L ∧ (mapKeys L).Nodup ∧
      (∀ k, k ∈ mapKeys L ↔ k ∈ mapKeys (h0.rangeStringMap a) ∨
        k ∈ mapKeys (h0.rangeStringMap b)) ∧
      (∀ k x, mapGet (h0.rangeStringMap b) k = some x → mapGet L k = some x) ∧
      (∀ k, k ∉ mapKeys (h0.rangeStringMap b) → mapGet L k = mapGet (h0.rangeStringMap a) k) := by
  obtain ⟨n1, n2, n3⟩ := NewSecretBuilder_inv hclosed
  have hH0 : (NewSecretBuilder h0).1 = h0 ++ [Cell.secret zeroSecret] := rfl
  have hbp : (NewSecretBuilder h0).2 = h0.length := rfl
  have hlen0 : (NewSecretBuilder h0).1.length = h0.length + 1 := by rw [hH0]; simp
  have hold : ∀ q : Ref, q < h0.length → (NewSecretBuilder h0).1[q]? = h0[q]? :=
    fun q hq => List.getElem?_append_left hq
  -- first call
  obtain ⟨l1, m1, hcase1, w1b, w1l, w1o⟩ := WithLabels_spec (NewSecretBuilder h0).1
    (NewSecretBuilder h0).2 zeroSecret a n2 (fun l hl => by simp [zeroSecret] at hl)
  have hl1 : l1 = h0.length + 1 ∧ m1 = [] := by
    rcases hcase1 with ⟨hx, _⟩ | ⟨_, hx, hy⟩
    · simp [zeroSecret] at hx
    · exact ⟨hx.trans hlen0, hy⟩
  obtain ⟨hl1a, hl1b⟩ := hl1
  subst hl1b
  have hEA : Heap.rangeStringMap (NewSecretBuilder h0).1 a = h0.rangeStringMap a :=
    rangeStringMap_congr (fun q hq => hold q (ha q hq))
  rw [hEA] at w1l
  obtain ⟨c1, ⟨s1', c1b⟩, c1len⟩ := WithLabels_inv (h := (NewSecretBuilder h0).1) a n1 n2
  -- second call
  obtain ⟨l2, m2, hcase2, w2b, w2l, w2o⟩ := WithLabels_spec
    (WithLabels (NewSecretBuilder h0).1 (NewSecretBuilder h0).2 a) (NewSecretBuilder h0).2
    { zeroSecret with Labels := some l1 } b w1b (fun l hl => by
      simp only [Option.some.injEq] at hl
      subst hl
      exact ⟨_, w1l⟩)
  have hl2 : l2 = l1 ∧ m2 = (h0.rangeStringMap a).foldl (fun m kv => mapSet m kv.1 kv.2) [] := by
    rcases hcase2 with ⟨hx, hy⟩ | ⟨hx, _⟩
    · simp only [Option.some.injEq] at hx
      subst hx
      rw [w1l] at hy
      simp only [Option.some.injEq, Cell.stringMap.injEq] at hy
      exact ⟨rfl, hy.symm⟩
    · simp at hx
  obtain ⟨hl2a, hl2b⟩ := hl2
  subst hl2b
  rw [hl2a] at w2b w2l w2o
  have hEB : Heap.rangeStringMap (WithLabels (NewSecretBuilder h0).1 (NewSecretBuilder h0).2 a) b =
      h0.rangeStringMap b := by
    apply rangeStringMap_congr
    intro q hq
    have hq' : q < h0.length := hb q hq
    rw [w1o q (by rw [hbp]; exact Nat.ne_of_lt hq')
      (by rw [hl1a]; exact Nat.ne_of_lt (Nat.lt_succ_of_lt hq'))
      (by rw [hlen0]; exact Nat.lt_succ_of_lt hq'), hold q hq']
  rw [hEB] at w2l
  obtain ⟨c2, _, _⟩ := WithLabels_inv (h := WithLabels (NewSecretBuilder h0).1
    (NewSecretBuilder h0).2 a) b c1 w1b
  -- build
  have hstate : builderAfter h0 [Setter.WithLabels a, Setter.WithLabels b] =
      (WithLabels (WithLabels (NewSecretBuilder h0).1 (NewSecretBuilder h0).2 a)
        (NewSecretBuilder h0).2 b, (NewSecretBuilder h0).2) := rfl
  rw [hstate] at hbuild
  have hs := structReach_lt c2 w2b
  have B := Build_spec _ _ _ w2b hs [] [] (by simp)
  simp only [List.append_nil, Heap.writeAll, List.foldl_nil] at B
  rw [← hbuild] at B
  refine ⟨_, (h0.rangeStringMap b).foldl (fun m kv => mapSet m kv.1 kv.2)
      ((h0.rangeStringMap a).foldl (fun m kv => mapSet m kv.1 kv.2) []), B.2.2, ?_, ?_, ?_, ?_, ?_⟩
  · simp only [Heap.viewStruct, Heap.readStringMap, w2l]
  · exact nodup_storeAll _ _ (nodup_storeAll _ _ (by simp [mapKeys]))
  · intro k
    rw [mem_mapKeys_iff, mem_mapKeys_iff, mem_mapKeys_iff]
    simp only [mapGet_storeAll _ _ hB, mapGet_storeAll _ _ hA, mapGet]
    cases mapGet (h0.rangeStringMap b) k <;> cases mapGet (h0.rangeStringMap a) k <;> simp
  · intro k x hx
    rw [mapGet_storeAll _ _ hB, hx]
  · intro k hk
    rw [mapGet_storeAll _ _ hB, (mapGet_eq_none_iff _ _).mpr hk, mapGet_storeAll _ _ hA]
    cases mapGet (h0.rangeStringMap a) k <;> simp [mapGet]

/-- Witness for C4: two label maps that share the key "tier". -/
theorem WithLabels_twice_union_witness :
    labelsTestHeap.Closed ∧ (∀ r ∈ (some 0 : Option Ref).toList, r < labelsTestHeap.length) ∧
    (∀ r ∈ (some 1 : Option Ref).toList, r < labelsTestHeap.length) ∧
    (mapKeys (labelsTestHeap.rangeStringMap (some 0))).Nodup ∧
    (mapKeys (labelsTestHeap.rangeStringMap (some 1))).Nodup ∧
    ∃ (v : Secret) (L : List (String × String)),
      Heap.viewSecret
        (Build (builderAfter labelsTestHeap [Setter.WithLabels (some 0), Setter.WithLabels (some 1)]).1
          (builderAfter labelsTestHeap [Setter.WithLabels (some 0), Setter.WithLabels (some 1)]).2).1
        (Build (builderAfter labelsTestHeap [Setter.WithLabels (some 0), Setter.WithLabels (some 1)]).1
          (builderAfter labelsTestHeap [Setter.WithLabels (some 0), Setter.WithLabels (some 1)]).2).2
        = some v ∧ v.Labels = some L ∧ (mapKeys L).Nodup ∧
      (∀ k, k ∈ mapKeys L ↔ k ∈ mapKeys (labelsTestHeap.rangeStringMap (some 0)) ∨
        k ∈ mapKeys (labelsTestHeap.rangeStringMap (some 1))) ∧
      (∀ k x, mapGet (labelsTestHeap.rangeStringMap (some 1)) k = some x → mapGet L k = some x) ∧
      (∀ k, k ∉ mapKeys (labelsTestHeap.rangeStringMap (some 1)) →
        mapGet L k = mapGet (labelsTestHeap.rangeStringMap (some 0)) k) :=
  ⟨by decide, by decide, by decide, by decide, by decide,
    WithLabels_twice_union labelsTestHeap (some 0) (some 1) (by decide) (by decide) (by decide)
      (by decide) (by decide) _ _ rfl⟩

/-! ### `createOrGet` -/

theorem IsAlreadyExists_none : IsAlreadyExists none = false := rfl

/-- Create reports AlreadyExists and the Get that follows succeeds: the handle
holds what Get fetched. -/
theorem createOrGet_of_alreadyExists {σ O : Type} [ClientObject O] (c : Client σ O)
    (w : Session σ) (kind : String) (obj : O)
    (hexists : IsAlreadyExists (c.Create w.store obj).err = true)
    (hget : (c.Get (c.Create w.store obj).store (ClientObject.key (c.Create w.store obj).obj)
      (c.Create w.store obj).obj).err = none) :
    (createOrGet c w obj kind).err = none ∧
    (createOrGet c w obj kind).obj =
      (c.Get (c.Create w.store obj).store (ClientObject.key (c.Create w.store obj).obj)
        (c.Create w.store obj).obj).obj ∧
    (createOrGet c w obj kind).session.store =
      (c.Get (c.Create w.store obj).store (ClientObject.key (c.Create w.store obj).obj)
        (c.Create w.store obj).obj).store ∧
    (createOrGet c w obj kind).session.calls =
      w.calls ++ [Call.Create (ClientObject.toObject obj),
        Call.Get (ClientObject.key (c.Create w.store obj).obj)
          (ClientObject.toObject (c.Create w.store obj).obj)] := by
  have h1 : (c.create w obj).err = (c.Create w.store obj).err := rfl
  have h2 : ¬ ((c.create w obj).err ≠ none ∧ IsAlreadyExists (c.create w obj).err = false) := by
    rw [h1, hexists]
    simp
  have h3 : IsAlreadyExists (c.create w obj).err = true := by rw [h1, hexists]
  have h4 : (c.get (c.create w obj).session (ClientObject.key (c.create w obj).obj)
      (c.create w obj).obj).err = none := hget
  simp only [createOrGet, if_neg h2, if_pos h3, h4, ne_eq, not_true_eq_false, if_false]
  simp [Client.get, Client.create]

/-- Create succeeds: nothing else is requested. -/
theorem createOrGet_of_created {σ O : Type} [ClientObject O] (c : Client σ O)
    (w : Session σ) (kind : String) (obj : O) (hcreated : (c.Create w.store obj).err = none) :
    (createOrGet c w obj kind).err = none ∧
    (createOrGet c w obj kind).obj = (c.Create w.store obj).obj ∧
    (createOrGet c w obj kind).session.store = (c.Create w.store obj).store ∧
    (createOrGet c w obj kind).session.calls =
      w.calls ++ [Call.Create (ClientObject.toObject obj)] := by
  have h1 : (c.create w obj).err = none := hcreated
  have h2 : ¬ ((c.create w obj).err ≠ none ∧ IsAlreadyExists (c.create w obj).err = false) := by
    rw [h1]
    simp
  have h3 : ¬ IsAlreadyExists (c.create w obj).err = true := by
    rw [h1, IsAlreadyExists_none]
    simp
  simp only [createOrGet, if_neg h2, if_neg h3]
  simp [Client.create]

/-- C5. When Create on `obj` reports AlreadyExists and the Get that follows
succeeds, `createOrGet` returns no error and the handle holds what Get
fetched, whatever `obj` held; the requests issued are that Create and that Get.
When Create on `obj'` succeeds, `createOrGet` returns no error, the handle
holds what Create left in it, and the only request issued is the Create. -/
theorem createOrGet_fetches_existing {σ O : Type} [ClientObject O] (c : Client σ O)
    (w : Session σ) (kind : String) (obj : O)
    (hexists : IsAlreadyExists (c.Create w.store obj).err = true)
    (hget : (c.Get (c.Create w.store obj).store (ClientObject.key (c.Create w.store obj).obj)
      (c.Create w.store obj).obj).err = none)
    (obj' : O) (hcreated : (c.Create w.store obj').err = none) :
    ((createOrGet c w obj kind).err = none ∧
      (createOrGet c w obj kind).obj =
        (c.Get (c.Create w.store obj).store (ClientObject.key (c.Create w.store obj).obj)
          (c.Create w.store obj).obj).obj ∧
      (createOrGet c w obj kind).session.store =
        (c.Get (c.Create w.store obj).store (ClientObject.key (c.Create w.store obj).obj)
          (c.Create w.store obj).obj).store ∧
      (createOrGet c w obj kind).session.calls =
        w.calls ++ [Call.Create (ClientObject.toObject obj),
          Call.Get (ClientObject.key (c.Create w.store obj).obj)
            (ClientObject.toObject (c.Create w.store obj).obj)]) ∧
    ((createOrGet c w obj' kind).err = none ∧
      (createOrGet c w obj' kind).obj = (c.Create w.store obj').obj ∧
      (createOrGet c w obj' kind).session.store = (c.Create w.store obj').store ∧
      (createOrGet c w obj' kind).session.calls =
        w.calls ++ [Call.Create (ClientObject.toObject obj')]) :=
  ⟨createOrGet_of_alreadyExists c w kind obj hexists hget,
    createOrGet_of_created c w kind obj' hcreated⟩

/-- Witness for C5: a store holding Job `ns/j` with three successes; `ns/j` is
requested again and `ns/k` is new. -/
theorem createOrGet_fetches_existing_witness :
    IsAlreadyExists (memJob.Create jobTestSession.store (jobNamed "j")).err = true ∧
    (memJob.Get (memJob.Create jobTestSession.store (jobNamed "j")).store
      (ClientObject.key (memJob.Create jobTestSession.store (jobNamed "j")).obj)
      (memJob.Create jobTestSession.store (jobNamed "j")).obj).err = none ∧
    (memJob.Create jobTestSession.store (jobNamed "k")).err = none ∧
    (createOrGet memJob jobTestSession (jobNamed "j") "Job").err = none ∧
    (createOrGet memJob jobTestSession (jobNamed "j") "Job").obj.Status.Succeeded = 3 ∧
    (createOrGet memJob jobTestSession (jobNamed "k") "Job").err = none ∧
    (createOrGet memJob jobTestSession (jobNamed "k") "Job").session.calls =
      jobTestSession.calls ++ [Call.Create (ClientObject.toObject (jobNamed "k"))] :=
  ⟨by decide, by decide, by decide,
    (createOrGet_fetches_existing memJob jobTestSession "Job" (jobNamed "j") (by decide)
      (by decide) (jobNamed "k") (by decide)).1.1,
    (createOrGet_fetches_existing memJob jobTestSession "Job" (jobNamed "j") (by decide)
      (by decide) (jobNamed "k") (by decide)).1.2.1 ▸ (by decide),
    (createOrGet_fetches_existing memJob jobTestSession "Job" (jobNamed "j") (by decide)
      (by decide) (jobNamed "k") (by decide)).2.1,
    (createOrGet_fetches_existing memJob jobTestSession "Job" (jobNamed "j") (by decide)
      (by decide) (jobNamed "k") (by decide)).2.2.2.2⟩

/-! ### Resource assertions -/

theorem Gomega.fail_ne (g : Gomega) (msg : String) : g.fail msg ≠ g := by
  intro h
  have := congrArg (fun x => x.failures.length) h
  simp [Gomega.fail] at this

theorem IsNotFound_eq_true_iff (err : Option Err) :
    IsNotFound err = true ↔ ∃ e, err = some e ∧ e.reason = StatusReason.NotFound := by
  cases err with
  | none => simp [IsNotFound]
  | some e => simp [IsNotFound]

/-- C10. `AssertResourceNotExists` issues exactly one Get. It reports no
failure if and only if that Get returned an error classified as NotFound, and
it reports a failure if and only if the Get succeeded or returned an error
that is not NotFound. -/
theorem AssertResourceNotExists_iff_notFound {σ O : Type} [ClientObject O] (lib : TextLib)
    (c : Client σ O) (w : Session σ) (g : Gomega) (key : ObjectKey) (obj : O) :
    ((AssertResourceNotExists lib c w g key obj).gomega = g ↔
      ∃ e, (c.Get w.store key obj).err = some e ∧ e.reason = StatusReason.NotFound) ∧
    ((∃ msg, (AssertResourceNotExists lib c w g key obj).gomega = g.fail msg) ↔
      ((c.Get w.store key obj).err = none ∨
        ∃ e, (c.Get w.store key obj).err = some e ∧ e.reason ≠ StatusReason.NotFound)) ∧
    (AssertResourceNotExists lib c w g key obj).session.calls =
      w.calls ++ [Call.Get key (ClientObject.toObject obj)] := by
  have hg : (AssertResourceNotExists lib c w g key obj).gomega =
      g.expectTrue lib (IsNotFound (c.Get w.store key obj).err)
        ("expected NotFound error, got: " ++ fmtErr (c.Get w.store key obj).err) := rfl
  refine ⟨?_, ?_, rfl⟩
  · rw [hg, ← IsNotFound_eq_true_iff]
    cases hnf : IsNotFound (c.Get w.store key obj).err with
    | true => simp [Gomega.expectTrue]
    | false => simp [Gomega.expectTrue, Gomega.fail_ne]
  · rw [hg]
    cases herr : (c.Get w.store key obj).err with
    | none =>
      simp only [IsNotFound, Gomega.expectTrue, Bool.false_eq_true, if_false, true_or, iff_true]
      exact ⟨_, rfl⟩
    | some e =>
      by_cases hr : e.reason = StatusReason.NotFound
      · simp only [IsNotFound, hr, decide_True, Gomega.expectTrue, if_true]
        constructor
        · rintro ⟨msg, hmsg⟩
          exact absurd hmsg.symm (Gomega.fail_ne g msg)
        · rintro (h | ⟨e', he', hne⟩)
          · cases h
          · cases he'
            exact absurd hr hne
      · simp only [IsNotFound, hr, decide_False, Gomega.expectTrue, Bool.false_eq_true, if_false]
        constructor
        · intro _
          exact Or.inr ⟨e, rfl, hr⟩
        · intro _
          exact ⟨_, rfl⟩

/-! ### Nested fields of schema-less objects -/

theorem SetNestedField_pair (obj : Fields) (v : Value) (a b : String) :
    SetNestedField obj v [a, b] =
      match mapGet obj a with
      | some (Value.map m) => Except.ok (mapSet obj a (Value.map (mapSet m b v)))
      | some _ =>
        Except.error ("value cannot be set because " ++ a ++ " is not a map[string]interface{}")
      | none => Except.ok (mapSet obj a (Value.map [(b, v)])) := by
  cases h : mapGet obj a with
  | none => simp [SetNestedField, h, mapSet]
  | some x => cases x <;> simp [SetNestedField, h]

/-- A successful two-step `SetNestedField` replaced field `a` by a map that is
what field `a` held (nothing, if it was absent) with `b` set to `v`. -/
theorem SetNestedField_pair_ok {obj o : Fields} {v : Value} {a b : String}
    (h : SetNestedField obj v [a, b] = Except.ok o) :
    ∃ m, (mapGet obj a = some (Value.map m) ∨ (mapGet obj a = none ∧ m = [])) ∧
      o = mapSet obj a (Value.map (mapSet m b v)) := by
  rw [SetNestedField_pair] at h
  cases hg : mapGet obj a with
  | none =>
    rw [hg] at h
    simp only [Except.ok.injEq] at h
    exact ⟨[], Or.inr ⟨rfl, rfl⟩, by rw [← h]; rfl⟩
  | some x =>
    rw [hg] at h
    cases x with
    | map m =>
      simp only [Except.ok.injEq] at h
      exact ⟨m, Or.inl rfl, h.symm⟩
    | _ => simp at h

theorem NestedFieldNoCopy_pair (obj : Fields) (M : Fields) (a b : String)
    (h : mapGet obj a = some (Value.map M)) :
    NestedFieldNoCopy (Value.map obj) [a, b] = Except.ok (mapGet M b) := by
  simp only [NestedFieldNoCopy, h]
  cases mapGet M b <;> rfl

/-- C8. When `simulateUnstructuredReady` returns no error, the last request it
issued is a status patch whose object has `status.ready` equal to `true` and
`status.conditions` equal to a list of exactly one element, the condition of
type "Ready" and status "True" with the reason and message passed in and the
clock reading as transition time, whatever the object held before; the patch
is relative to the object as `createOrGet` left it. -/
theorem simulateUnstructuredReady_patch_object {σ : Type} (c : Client σ Unstructured)
    (w : Session σ) (now : String) (gvk : GroupVersionKind)
    (name ns condReason condMessage : String)
    (hok : (simulateUnstructuredReady c w now gvk name ns condReason condMessage).err = none) :
    ∃ obj base : Unstructured,
      (simulateUnstructuredReady c w now gvk name ns condReason condMessage).session.calls.getLast?
        = some (Call.StatusPatch (Object.unstructured obj) (Object.unstructured base)) ∧
      base = (createOrGet c w (newUnstructured gvk name ns) gvk.Kind).obj ∧
      NestedFieldNoCopy (Value.map obj.Object) ["status", "ready"] =
        Except.ok (some (Value.bool true)) ∧
      NestedFieldNoCopy (Value.map obj.Object) ["status", "conditions"] =
        Except.ok (some (Value.list [Value.map [("type", Value.str "Ready"),
          ("status", Value.str "True"), ("reason", Value.str condReason),
          ("message", Value.str condMessage), ("lastTransitionTime", Value.str now)]])) := by
  simp only [simulateUnstructuredReady] at hok ⊢
  generalize createOrGet c w (newUnstructured gvk name ns) gvk.Kind = r at hok ⊢
  cases hr : r.err with
  | some e => simp [hr] at hok
  | none =>
    simp only [hr] at hok ⊢
    cases h1 : SetNestedField r.obj.Object (Value.bool true) ["status", "ready"] with
    | error e => simp [h1] at hok
    | ok o1 =>
      simp only [h1] at hok ⊢
      cases h2 : SetNestedField o1 (readyConditions condReason condMessage now)
          ["status", "conditions"] with
      | error e => simp [h2] at hok
      | ok o2 =>
        simp only [h2] at hok ⊢
        obtain ⟨m1, _, ho1⟩ := SetNestedField_pair_ok h1
        obtain ⟨m2, hm2, ho2⟩ := SetNestedField_pair_ok h2
        have hst1 : mapGet o1 "status" = some (Value.map (mapSet m1 "ready" (Value.bool true))) := by
          rw [ho1]
          exact mapGet_mapSet_self _ _ _
        have hm2' : m2 = mapSet m1 "ready" (Value.bool true) := by
          rcases hm2 with hm2 | ⟨hm2, _⟩
          · rw [hst1] at hm2
            simp only [Option.some.injEq, Value.map.injEq] at hm2
            exact hm2.symm
          · rw [hst1] at hm2
            simp at hm2
        have hst2 : mapGet o2 "status" = some (Value.map
            (mapSet m2 "conditions" (readyConditions condReason condMessage now))) := by
          rw [ho2]
          exact mapGet_mapSet_self _ _ _
        refine ⟨⟨o2⟩, r.obj, ?_, rfl, ?_, ?_⟩
        · simp [Client.statusPatch, ClientObject.toObject]
        · rw [NestedFieldNoCopy_pair _ _ _ _ hst2, mapGet_mapSet_ne _ _ (by decide), hm2',
            mapGet_mapSet_self]
        · rw [NestedFieldNoCopy_pair _ _ _ _ hst2, mapGet_mapSet_self]
          rfl

/-- Witness for C8: the MariaDB `ns/db` is in the store, not ready and with two
stale conditions. -/
theorem simulateUnstructuredReady_patch_object_witness :
    (simulateUnstructuredReady memUnstructured mariadbTestSession "2024-01-01T00:00:00Z"
      ⟨"k8s.mariadb.com", "v1alpha1", "MariaDB"⟩ "db" "ns" "Ready" "MariaDB is ready").err = none ∧
    ∃ obj base : Unstructured,
      (simulateUnstructuredReady memUnstructured mariadbTestSession "2024-01-01T00:00:00Z"
        ⟨"k8s.mariadb.com", "v1alpha1", "MariaDB"⟩ "db" "ns" "Ready"
        "MariaDB is ready").session.calls.getLast?
        = some (Call.StatusPatch (Object.unstructured obj) (Object.unstructured base)) ∧
      base = (createOrGet memUnstructured mariadbTestSession
        (newUnstructured ⟨"k8s.mariadb.com", "v1alpha1", "MariaDB"⟩ "db" "ns") "MariaDB").obj ∧
      NestedFieldNoCopy (Value.map obj.Object) ["status", "ready"] =
        Except.ok (some (Value.bool true)) ∧
      NestedFieldNoCopy (Value.map obj.Object) ["status", "conditions"] =
        Except.ok (some (Value.list [Value.map [("type", Value.str "Ready"),
          ("status", Value.str "True"), ("reason", Value.str "Ready"),
          ("message", Value.str "MariaDB is ready"),
          ("lastTransitionTime", Value.str "2024-01-01T00:00:00Z")]])) :=
  ⟨by decide,
    simulateUnstructuredReady_patch_object memUnstructured mariadbTestSession
      "2024-01-01T00:00:00Z" ⟨"k8s.mariadb.com", "v1alpha1", "MariaDB"⟩ "db" "ns" "Ready"
      "MariaDB is ready" (by decide)⟩

/-- C9. When `SimulateJobComplete` returns no error, the last request it issued
is a status patch whose Job has `succeeded` equal to 1, `startTime` and
`completionTime` both set to the clock reading, and exactly two conditions, in
this order: SuccessCriteriaMet with status True, then Complete with status
True; so a Complete=True condition is present. The patch is relative to the Job
as `createOrGet` left it. -/
theorem SimulateJobComplete_patch_object {σ : Type} (c : Client σ Job) (w : Session σ)
    (now : Time) (name ns : String)
    (hok : (SimulateJobComplete c w now name ns).err = none) :
    ∃ job base : Job,
      (SimulateJobComplete c w now name ns).session.calls.getLast? =
        some (Call.StatusPatch (Object.job job) (Object.job base)) ∧
      job.Status.Succeeded = 1 ∧
      job.Status.StartTime = some now ∧ job.Status.CompletionTime = some now ∧
      job.Status.Conditions =
        [⟨"SuccessCriteriaMet", "True", "SuccessCriteriaMet", "Job success criteria met", now⟩,
          ⟨"Complete", "True", "Complete", "Job completed", now⟩] ∧
      (∃ cnd ∈ job.Status.Conditions, cnd.Type' = "Complete" ∧ cnd.Status = "True") := by
  simp only [SimulateJobComplete] at hok ⊢
  generalize createOrGet c w _ "Job" = r at hok ⊢
  cases hr : r.err with
  | some e => simp [hr] at hok
  | none =>
    simp only [hr] at hok ⊢
    refine ⟨completedJob r.obj now, r.obj, ?_, rfl, rfl, rfl, rfl, ?_⟩
    · simp [Client.statusPatch, ClientObject.toObject]
    · exact ⟨⟨"Complete", "True", "Complete", "Job completed", now⟩,
        by simp [completedJob, jobCompleteConditions], rfl, rfl⟩

/-- Witness for C9: a store that holds Job `ns/j` with three successes. -/
theorem SimulateJobComplete_patch_object_witness :
    (SimulateJobComplete memJob jobTestSession 1700000000 "j" "ns").err = none ∧
    ∃ job base : Job,
      (SimulateJobComplete memJob jobTestSession 1700000000 "j" "ns").session.calls.getLast? =
        some (Call.StatusPatch (Object.job job) (Object.job base)) ∧
      job.Status.Succeeded = 1 ∧
      job.Status.StartTime = some 1700000000 ∧ job.Status.CompletionTime = some 1700000000 ∧
      job.Status.Conditions =
        [⟨"SuccessCriteriaMet", "True", "SuccessCriteriaMet", "Job success criteria met",
            1700000000⟩,
          ⟨"Complete", "True", "Complete", "Job completed", 1700000000⟩] ∧
      (∃ cnd ∈ job.Status.Conditions, cnd.Type' = "Complete" ∧ cnd.Status = "True") :=
  ⟨by decide, SimulateJobComplete_patch_object memJob jobTestSession 1700000000 "j" "ns"
    (by decide)⟩

/-! ### Equality of JSON values -/

mutual
theorem Value.beq_iff : ∀ a b : Value, Value.beq a b = true ↔ a = b
  | Value.null, b => by cases b <;> simp [Value.beq]
  | Value.bool x, b => by cases b <;> simp [Value.beq]
  | Value.num x, b => by cases b <;> simp [Value.beq]
  | Value.str x, b => by cases b <;> simp [Value.beq]
  | Value.list xs, b => by
    cases b with
    | list ys => simp [Value.beq, Value.beqList_iff xs ys]
    | _ => simp [Value.beq]
  | Value.map xs, b => by
    cases b with
    | map ys => simp [Value.beq, Value.beqFields_iff xs ys]
    | _ => simp [Value.beq]
theorem Value.beqList_iff : ∀ a b : List Value, Value.beqList a b = true ↔ a = b
  | [], b => by cases b <;> simp [Value.beqList]
  | x :: xs, b => by
    cases b with
    | nil => simp [Value.beqList]
    | cons y ys => simp [Value.beqList, Value.beq_iff x y, Value.beqList_iff xs ys]
theorem Value.beqFields_iff :
    ∀ a b : List (String × Value), Value.beqFields a b = true ↔ a = b
  | [], b => by cases b <;> simp [Value.beqFields]
  | (k, x) :: xs, b => by
    cases b with
    | nil => simp [Value.beqFields]
    | cons y ys =>
      obtain ⟨j, y⟩ := y
      simp [Value.beqFields, Value.beq_iff x y, Value.beqFields_iff xs ys, and_assoc]
end

theorem optBeq_iff (a b : Option Value) : optBeq a b = true ↔ a = b := by
  cases a <;> cases b <;> simp [optBeq, Value.beq_iff]

/-! ### More on maps -/

theorem mapSet_of_mapGet {V : Type} (m : List (String × V)) (k : String) (v : V)
    (h : mapGet m k = some v) : mapSet m k v = m := by
  induction m with
  | nil => simp [mapGet] at h
  | cons kv rest ih =>
    obtain ⟨k1, v1⟩ := kv
    by_cases hk : k1 = k
    · subst hk
      simp only [mapGet, if_true, Option.some.injEq] at h
      simp [mapSet, h]
    · simp only [mapGet, hk, if_false] at h
      simp [mapSet, hk, ih h]

theorem mapSet_mapSet {V : Type} (m : List (String × V)) (k : String) (v v' : V) :
    mapSet (mapSet m k v) k v' = mapSet m k v' := by
  induction m with
  | nil => simp [mapSet]
  | cons kv rest ih =>
    obtain ⟨k1, v1⟩ := kv
    by_cases hk : k1 = k
    · simp [mapSet, hk]
    · simp [mapSet, hk, ih]

/-- A merge patch from `b` to `o`, applied to `b` itself, gives `o`. -/
theorem mergeFields_self (b o : Fields) : mergeFields b b o = o := by
  have h1 : o.filterMap (fun kv =>
      match mapGet b kv.1 with
      | some bv =>
        if Value.beq bv kv.2 then (mapGet b kv.1).map (fun sv => (kv.1, sv))
        else some kv
      | none => some kv) = o := by
    induction o with
    | nil => rfl
    | cons kv rest ih =>
      have hkv : (match mapGet b kv.1 with
          | some bv =>
            if Value.beq bv kv.2 then (mapGet b kv.1).map (fun sv => (kv.1, sv))
            else some kv
          | none => some kv) = some kv := by
        cases hg : mapGet b kv.1 with
        | none => rfl
        | some bv =>
          by_cases hb : Value.beq bv kv.2 = true
          · have := (Value.beq_iff bv kv.2).mp hb
            simp [hb, this]
          · simp [hb]
      rw [List.filterMap_cons, hkv, ih]
  have h2 : b.filter (fun kv => (mapGet o kv.1).isNone && (mapGet b kv.1).isNone) = [] := by
    rw [List.filter_eq_nil_iff]
    intro kv hkv
    have hmem : kv.1 ∈ mapKeys b := List.mem_map_of_mem Prod.fst hkv
    obtain ⟨v, hv⟩ := (mem_mapKeys_iff b kv.1).mp hmem
    simp [hv]
  simp only [mergeFields, h1, h2, List.append_nil]

/-- A status patch computed against the stored object itself leaves the
caller's status in the store. -/
theorem patchUnstructuredStatus_self (b : Unstructured) (st : Fields) :
    patchUnstructuredStatus b b ⟨mapSet b.Object "status" (Value.map st)⟩ =
      ⟨mapSet b.Object "status" (Value.map st)⟩ := by
  have hobj : mapGet (mapSet b.Object "status" (Value.map st)) "status" = some (Value.map st) :=
    mapGet_mapSet_self _ _ _
  simp only [patchUnstructuredStatus, hobj]
  by_cases hb : optBeq (mapGet b.Object "status") (some (Value.map st)) = true
  · rw [if_pos hb]
    have := (optBeq_iff _ _).mp hb
    rw [mapSet_of_mapGet _ _ _ this]
  · rw [if_neg hb]
    cases hg : mapGet b.Object "status" with
    | none => rfl
    | some x =>
      cases x with
      | map bm =>
        simp only [statusFields, hg, mergeFields_self]
      | _ => rfl

/-! ### Tables of the in-memory store -/

theorem tableFind_ident {O I : Type} [DecidableEq I] {ident : O → I} {t : List O} {i : I} {x : O}
    (h : tableFind ident t i = some x) : ident x = i := by
  have := List.find?_some h
  simpa using this

theorem tableFind_ensure {O I : Type} [DecidableEq I] (ident : O → I) (t : List O) (o : O) :
    tableFind ident (tableEnsure ident t o) (ident o) = some (tableCurrent ident t o) := by
  cases h : tableFind ident t (ident o) with
  | some x => simp [tableEnsure, tableCurrent, h]
  | none =>
    simp only [tableEnsure, tableCurrent, h, Option.getD_none]
    simp only [tableFind] at h ⊢
    rw [List.find?_append, h]
    simp

theorem tableCurrent_ident {O I : Type} [DecidableEq I] (ident : O → I) (t : List O) (o : O) :
    ident (tableCurrent ident t o) = ident o := by
  cases h : tableFind ident t (ident o) with
  | some x => simpa [tableCurrent, h] using tableFind_ident h
  | none => simp [tableCurrent, h]

theorem tableFind_replace {O I : Type} [DecidableEq I] {ident : O → I} {t : List O} {i : I}
    {x : O} (o : O) (h : tableFind ident t i = some x) (ho : ident o = i) :
    tableFind ident (tableReplace ident t o) i = some o := by
  subst ho
  induction t with
  | nil => simp [tableFind] at h
  | cons y rest ih =>
    by_cases hy : ident y = ident o
    · simp [tableFind, tableReplace, hy]
    · have h' : tableFind ident rest (ident o) = some x := by
        simpa [tableFind, List.find?_cons, hy] using h
      have := ih h'
      simp only [tableFind, tableReplace] at this
      simp [tableFind, tableReplace, hy, this]

theorem tableReplace_replace {O I : Type} [DecidableEq I] (ident : O → I) (t : List O)
    (o1 o2 : O) (h : ident o1 = ident o2) :
    tableReplace ident (tableReplace ident t o1) o2 = tableReplace ident t o2 := by
  simp only [tableReplace, List.map_map]
  apply List.map_congr_left
  intro x _
  by_cases hx : ident x = ident o1
  · simp [hx, h]
  · have hx2 : ¬ ident x = ident o2 := by rw [← h]; exact hx
    simp [hx, hx2]

/-- Once an object of the identity of `o` is in the table, a tolerant Create of
`o` changes nothing and the current object is the stored one. -/
theorem tableEnsure_of_find {O I : Type} [DecidableEq I] {ident : O → I} {t : List O} {o x : O}
    (h : tableFind ident t (ident o) = some x) :
    tableEnsure ident t o = t ∧ tableCurrent ident t o = x := by
  simp [tableEnsure, tableCurrent, h]

/-! ### Schema-less objects in the in-memory store -/

theorem createOrGet_memUnstructured (s : MemStore) (calls : List Call) (obj : Unstructured)
    (kind : String) :
    (createOrGet memUnstructured ⟨s, calls⟩ obj kind).err = none ∧
    (createOrGet memUnstructured ⟨s, calls⟩ obj kind).obj =
      tableCurrent Unstructured.ident s.unstructureds obj ∧
    (createOrGet memUnstructured ⟨s, calls⟩ obj kind).session.store =
      { s with unstructureds := tableEnsure Unstructured.ident s.unstructureds obj } := by
  cases h : tableFind Unstructured.ident s.unstructureds obj.ident with
  | some x =>
    have hc : memUnstructured.Create s obj =
        { store := s, err := some (errAlreadyExists (ClientObject.key obj)), obj := obj } := by
      simp only [memUnstructured, h]
    have hg : memUnstructured.Get s (ClientObject.key obj) obj =
        { store := s, err := none, obj := x } := by
      have h' : tableFind Unstructured.ident s.unstructureds
          (obj.GetAPIVersion, obj.GetKind, ClientObject.key obj) = some x := h
      simp only [memUnstructured, h']
    have hex : IsAlreadyExists (memUnstructured.Create s obj).err = true := by
      rw [hc]; rfl
    have hget : (memUnstructured.Get (memUnstructured.Create s obj).store
        (ClientObject.key (memUnstructured.Create s obj).obj)
        (memUnstructured.Create s obj).obj).err = none := by
      rw [hc]; simp only; rw [hg]
    obtain ⟨e1, e2, e3, _⟩ := createOrGet_of_alreadyExists memUnstructured ⟨s, calls⟩ kind obj
      hex hget
    refine ⟨e1, ?_, ?_⟩
    · rw [e2, hc]; simp only; rw [hg]
      simp [tableCurrent, h]
    · rw [e3, hc]; simp only; rw [hg]
      simp [tableEnsure, h]
  | none =>
    have hc : memUnstructured.Create s obj =
        { store := { s with unstructureds := s.unstructureds ++ [obj] }, err := none,
          obj := obj } := by
      simp only [memUnstructured, h]
    obtain ⟨e1, e2, e3, _⟩ := createOrGet_of_created memUnstructured ⟨s, calls⟩ kind obj
      (by rw [hc])
    refine ⟨e1, ?_, ?_⟩
    · rw [e2, hc]
      simp [tableCurrent, h]
    · rw [e3, hc]
      simp [tableEnsure, h]

theorem statusPatch_memUnstructured (s : MemStore) (calls : List Call)
    (obj base stored : Unstructured)
    (h : tableFind Unstructured.ident s.unstructureds obj.ident = some stored) :
    (memUnstructured.statusPatch ⟨s, calls⟩ obj base).err = none ∧
    (memUnstructured.statusPatch ⟨s, calls⟩ obj base).session.store =
      { s with
        unstructureds := tableReplace Unstructured.ident s.unstructureds
                           (patchUnstructuredStatus stored base obj) } := by
  simp only [Client.statusPatch, memUnstructured, h, and_self]

theorem NestedFieldNoCopy_mapSet_ne (obj : Fields) (k : String) (x : Value) (f : String)
    (rest : List String) (hf : f ≠ k) :
    NestedFieldNoCopy (Value.map (mapSet obj k x)) (f :: rest) =
      NestedFieldNoCopy (Value.map obj) (f :: rest) := by
  simp only [NestedFieldNoCopy, mapGet_mapSet_ne obj x hf]

/-- Writing the `status` leaves the identity of the object alone. -/
theorem ident_mapSet_status (u : Unstructured) (x : Value) :
    Unstructured.ident ⟨mapSet u.Object "status" x⟩ = u.ident := by
  simp only [Unstructured.ident, Unstructured.GetAPIVersion, Unstructured.GetKind,
    ClientObject.key, Unstructured.GetName, Unstructured.GetNamespace, NestedString,
    NestedFieldNoCopy_mapSet_ne u.Object "status" x _ _ (by decide : "apiVersion" ≠ "status"),
    NestedFieldNoCopy_mapSet_ne u.Object "status" x _ _ (by decide : "kind" ≠ "status"),
    NestedFieldNoCopy_mapSet_ne u.Object "status" x _ _ (by decide : "metadata" ≠ "status")]

theorem ident_setStatus (u : Unstructured) (k : String) (v : Value) :
    (setStatus u k v).ident = u.ident :=
  ident_mapSet_status u _

theorem statusFields_setStatus (u : Unstructured) (k : String) (v : Value) :
    statusFields (setStatus u k v) = mapSet (statusFields u) k v := by
  simp only [statusFields, setStatus, mapGet_mapSet_self]

theorem statusSettable_setStatus (u : Unstructured) (k : String) (v : Value) :
    statusSettable (setStatus u k v) = true := by
  simp only [statusSettable, setStatus, mapGet_mapSet_self]

/-- Setting a field of the `status` twice keeps the second value. -/
theorem setStatus_setStatus (u : Unstructured) (k : String) (v v' : Value) :
    setStatus (setStatus u k v) k v' = setStatus u k v' := by
  have h1 := statusFields_setStatus u k v
  simp only [setStatus] at h1 ⊢
  rw [h1, mapSet_mapSet, mapSet_mapSet]

/-- Setting a field of the `status` to the value it has changes nothing. -/
theorem setStatus_of_get (u : Unstructured) (k k' : String) (v v' : Value)
    (h : mapGet (statusFields u) k' = some v') :
    setStatus (setStatus u k v) k' v' = setStatus u k v ∨ k' = k := by
  by_cases hk : k' = k
  · exact Or.inr hk
  · left
    have h1 := statusFields_setStatus u k v
    have h2 : mapGet (mapSet (statusFields u) k v) k' = some v' := by
      rw [mapGet_mapSet_ne _ _ hk, h]
    simp only [setStatus] at h1 ⊢
    rw [h1, mapSet_of_mapGet _ _ _ h2, mapSet_mapSet]

/-- `SetNestedField` on a field of the `status` succeeds exactly when the
`status` is a map or absent, and then leaves `setStatus`. -/
theorem SetNestedField_status (u : Unstructured) (k : String) (v : Value) :
    (statusSettable u = true ∧
      SetNestedField u.Object v ["status", k] = Except.ok (setStatus u k v).Object) ∨
    (statusSettable u = false ∧
      ∃ e, SetNestedField u.Object v ["status", k] = Except.error e) := by
  rw [SetNestedField_pair]
  cases hg : mapGet u.Object "status" with
  | none =>
    left
    simp [statusSettable, hg, setStatus, statusFields, mapSet]
  | some x =>
    cases x with
    | map m =>
      left
      simp [statusSettable, hg, setStatus, statusFields]
    | _ =>
      right
      simp [statusSettable, hg]

/-! ### The schema-less simulators on the in-memory store -/

theorem setStatus_twice_eq (u : Unstructured) (k k' : String) (v v' : Value) :
    setStatus (setStatus u k v) k' v' =
      ⟨mapSet u.Object "status" (Value.map (mapSet (mapSet (statusFields u) k v) k' v'))⟩ := by
  have h1 := statusFields_setStatus u k v
  simp only [setStatus] at h1 ⊢
  rw [h1, mapSet_mapSet]

theorem setStatus_eq (u : Unstructured) (k : String) (v : Value) :
    setStatus u k v = ⟨mapSet u.Object "status" (Value.map (mapSet (statusFields u) k v))⟩ :=
  rfl

/-- A status patch of an object whose `status` was rewritten, relative to the
stored object it was read from: the rewritten object is what the store keeps. -/
theorem statusPatch_mem_rewritten (s : MemStore) (calls : List Call) (cur : Unstructured)
    (st : Fields)
    (hfind : tableFind Unstructured.ident s.unstructureds cur.ident = some cur) :
    (memUnstructured.statusPatch ⟨s, calls⟩
      ⟨mapSet cur.Object "status" (Value.map st)⟩ cur).err = none ∧
    (memUnstructured.statusPatch ⟨s, calls⟩
      ⟨mapSet cur.Object "status" (Value.map st)⟩ cur).session.store =
      { s with
        unstructureds := tableReplace Unstructured.ident s.unstructureds
                           ⟨mapSet cur.Object "status" (Value.map st)⟩ } := by
  have hf : tableFind Unstructured.ident s.unstructureds
      (Unstructured.ident ⟨mapSet cur.Object "status" (Value.map st)⟩) = some cur := by
    rw [ident_mapSet_status, hfind]
  have := statusPatch_memUnstructured s calls ⟨mapSet cur.Object "status" (Value.map st)⟩ cur cur hf
  rw [patchUnstructuredStatus_self] at this
  exact this

/-- The object a ready simulator leaves in the store, given the object it found
or created. -/
theorem simulateUnstructuredReady_mem (w : Session MemStore) (now : String)
    (gvk : GroupVersionKind) (name ns condReason condMessage : String) :
    (statusSettable (tableCurrent Unstructured.ident w.store.unstructureds
        (newUnstructured gvk name ns)) = true →
      (simulateUnstructuredReady memUnstructured w now gvk name ns condReason
        condMessage).err = none ∧
      (simulateUnstructuredReady memUnstructured w now gvk name ns condReason
        condMessage).session.store =
        { w.store with
          unstructureds := tableReplace Unstructured.ident
            (tableEnsure Unstructured.ident w.store.unstructureds (newUnstructured gvk name ns))
            (setStatus (setStatus (tableCurrent Unstructured.ident w.store.unstructureds
              (newUnstructured gvk name ns)) "ready" (Value.bool true)) "conditions"
              (readyConditions condReason condMessage now)) }) ∧
    (statusSettable (tableCurrent Unstructured.ident w.store.unstructureds
        (newUnstructured gvk name ns)) = false →
      (simulateUnstructuredReady memUnstructured w now gvk name ns condReason
        condMessage).err ≠ none) := by
  obtain ⟨s, calls⟩ := w
  simp only
  obtain ⟨r1, r2, r3⟩ := createOrGet_memUnstructured s calls (newUnstructured gvk name ns) gvk.Kind
  have hfind := tableFind_ensure Unstructured.ident s.unstructureds (newUnstructured gvk name ns)
  have hid := tableCurrent_ident Unstructured.ident s.unstructureds (newUnstructured gvk name ns)
  rw [← hid] at hfind
  simp only [simulateUnstructuredReady]
  generalize createOrGet memUnstructured ⟨s, calls⟩ (newUnstructured gvk name ns) gvk.Kind = r
    at r1 r2 r3 ⊢
  generalize tableCurrent Unstructured.ident s.unstructureds (newUnstructured gvk name ns) = cur
    at r2 hfind hid ⊢
  clear hid
  generalize tableEnsure Unstructured.ident s.unstructureds (newUnstructured gvk name ns) = t'
    at r3 hfind ⊢
  obtain ⟨⟨store, calls'⟩, rerr, robj⟩ := r
  simp only at r1 r2 r3
  subst r1 r2 r3
  simp only
  rcases SetNestedField_status robj "ready" (Value.bool true) with ⟨hs, h1⟩ | ⟨hs, e, h1⟩
  · rcases SetNestedField_status (setStatus robj "ready" (Value.bool true)) "conditions"
      (readyConditions condReason condMessage now) with ⟨_, h2⟩ | ⟨hs2, _⟩
    · refine ⟨fun _ => ?_, fun hf => by rw [hs] at hf; cases hf⟩
      simp only [h1, h2]
      have hP := statusPatch_mem_rewritten { s with unstructureds := t' } calls' robj
        (mapSet (mapSet (statusFields robj) "ready" (Value.bool true)) "conditions"
          (readyConditions condReason condMessage now)) hfind
      rw [setStatus_twice_eq]
      exact ⟨by rw [hP.1]; rfl, hP.2⟩
    · rw [statusSettable_setStatus] at hs2
      cases hs2
  · refine ⟨fun ht => (by rw [hs] at ht; cases ht), fun _ => ?_⟩
    simp [h1]

/-! ### The target Secret and the Job in the in-memory store -/

theorem tableReplace_append_self {O I : Type} [DecidableEq I] (ident : O → I) (t : List O) (o z : O)
    (h : tableFind ident t (ident o) = none) (hz : ident z = ident o) :
    tableReplace ident (t ++ [o]) z = t ++ [z] := by
  have hne : ∀ x ∈ t, ¬ ident x = ident z := by
    intro x hx
    have := List.find?_eq_none.mp h x hx
    rw [hz]
    simpa using this
  simp only [tableReplace, List.map_append, List.map_cons, List.map_nil, hz, if_true]
  congr 1
  rw [← hz]
  calc t.map (fun x => if ident x = ident z then z else x) = t.map id := by
        apply List.map_congr_left
        intro x hx
        simp [hne x hx]
    _ = t := List.map_id t

/-- The Secret table after `syncTargetSecret`: the target Secret is there, with
the Data asked for and everything else as it was stored (or as created). -/
theorem syncTargetSecret_mem (s : MemStore) (calls : List Call) (name ns : String)
    (D : Option (List (String × Bytes))) :
    (syncTargetSecret memSecret ⟨s, calls⟩ name ns D).err = none ∧
    (syncTargetSecret memSecret ⟨s, calls⟩ name ns D).session.store =
      { s with
        secrets := tableReplace Secret.ident
          (tableEnsure Secret.ident s.secrets (targetSecret name ns D))
          { tableCurrent Secret.ident s.secrets (targetSecret name ns D) with Data := D } } := by
  cases h : tableFind Secret.ident s.secrets (targetSecret name ns D).ident with
  | none =>
    have hc : memSecret.Create s (targetSecret name ns D) =
        { store := { s with secrets := s.secrets ++ [targetSecret name ns D] }, err := none,
          obj := targetSecret name ns D } := by
      simp only [memSecret, h]
    have hrep := tableReplace_append_self Secret.ident s.secrets (targetSecret name ns D)
      (targetSecret name ns D) h rfl
    simp only [syncTargetSecret, Client.create, hc, tableEnsure, tableCurrent, h,
      Option.getD_none, true_and]
    have hself : ({ targetSecret name ns D with Data := D } : Secret) = targetSecret name ns D :=
      rfl
    rw [hself, hrep]
  | some E =>
    have hc : memSecret.Create s (targetSecret name ns D) =
        { store := s, err := some (errAlreadyExists (targetSecret name ns D).ident),
          obj := targetSecret name ns D } := by
      simp only [memSecret, h]
    have hk : (ClientObject.key (targetSecret name ns D) : ObjectKey) =
        (targetSecret name ns D).ident := rfl
    have hg : memSecret.Get s (targetSecret name ns D).ident Secret.zero =
        { store := s, err := none, obj := E } := by
      simp only [memSecret, h]
    have hE : E.ident = (targetSecret name ns D).ident := tableFind_ident h
    have hu : memSecret.Update s { E with Data := D } =
        { store := { s with secrets := tableReplace Secret.ident s.secrets { E with Data := D } },
          err := none, obj := { E with Data := D } } := by
      have hf : tableFind Secret.ident s.secrets (Secret.ident { E with Data := D }) = some E := by
        have : Secret.ident { E with Data := D } = E.ident := rfl
        rw [this, hE, h]
      simp only [memSecret, hf]
    have hex : IsAlreadyExists (some (errAlreadyExists (targetSecret name ns D).ident)) = true :=
      rfl
    simp only [syncTargetSecret, Client.create, Client.get, Client.update, hc, hk, hg, hu, hex,
      tableEnsure, tableCurrent, h, Option.getD_some, Option.map_none', true_and]
    simp

theorem mergeJobStatus_self (b o : JobStatus) : mergeJobStatus b b o = o := by
  cases b
  cases o
  simp only [mergeJobStatus, JobStatus.mk.injEq]
  refine ⟨?_, ?_, ?_, ?_, ?_, ?_⟩ <;> split <;> simp_all

/-- The store after `SimulateExternalSecretSync`, given the ExternalSecret it
found or created. -/
theorem SimulateExternalSecretSync_mem (w : Session MemStore) (now name ns : String)
    (D : Option (List (String × Bytes))) :
    (statusSettable (tableCurrent Unstructured.ident w.store.unstructureds
        (newUnstructured ⟨"external-secrets.io", "v1beta1", "ExternalSecret"⟩ name ns)) = true →
      (SimulateExternalSecretSync memUnstructured memSecret w now name ns D).err = none ∧
      (SimulateExternalSecretSync memUnstructured memSecret w now name ns
        D).session.store =
        { unstructureds := tableReplace Unstructured.ident
            (tableEnsure Unstructured.ident w.store.unstructureds
              (newUnstructured ⟨"external-secrets.io", "v1beta1", "ExternalSecret"⟩ name ns))
            (setStatus (tableCurrent Unstructured.ident w.store.unstructureds
              (newUnstructured ⟨"external-secrets.io", "v1beta1", "ExternalSecret"⟩ name ns))
              "conditions" (readyConditions "SecretSynced" "Secret was synced" now)),
          secrets := tableReplace Secret.ident
            (tableEnsure Secret.ident w.store.secrets (targetSecret name ns D))
            { tableCurrent Secret.ident w.store.secrets (targetSecret name ns D) with Data := D },
          jobs := w.store.jobs }) ∧
    (statusSettable (tableCurrent Unstructured.ident w.store.unstructureds
        (newUnstructured ⟨"external-secrets.io", "v1beta1", "ExternalSecret"⟩ name ns)) = false →
      (SimulateExternalSecretSync memUnstructured memSecret w now name ns D).err ≠
        none) := by
  obtain ⟨s, calls⟩ := w
  simp only
  obtain ⟨r1, r2, r3⟩ := createOrGet_memUnstructured s calls
    (newUnstructured ⟨"external-secrets.io", "v1beta1", "ExternalSecret"⟩ name ns) "ExternalSecret"
  have hfind := tableFind_ensure Unstructured.ident s.unstructureds
    (newUnstructured ⟨"external-secrets.io", "v1beta1", "ExternalSecret"⟩ name ns)
  have hid := tableCurrent_ident Unstructured.ident s.unstructureds
    (newUnstructured ⟨"external-secrets.io", "v1beta1", "ExternalSecret"⟩ name ns)
  rw [← hid] at hfind
  simp only [SimulateExternalSecretSync]
  generalize createOrGet memUnstructured ⟨s, calls⟩
    (newUnstructured ⟨"external-secrets.io", "v1beta1", "ExternalSecret"⟩ name ns)
    "ExternalSecret" = r at r1 r2 r3 ⊢
  generalize tableCurrent Unstructured.ident s.unstructureds
    (newUnstructured ⟨"external-secrets.io", "v1beta1", "ExternalSecret"⟩ name ns) = cur
    at r2 hfind hid ⊢
  clear hid
  generalize tableEnsure Unstructured.ident s.unstructureds
    (newUnstructured ⟨"external-secrets.io", "v1beta1", "ExternalSecret"⟩ name ns) = t'
    at r3 hfind ⊢
  obtain ⟨⟨store, calls'⟩, rerr, robj⟩ := r
  simp only at r1 r2 r3
  subst r1 r2 r3
  simp only
  rcases SetNestedField_status robj "conditions"
    (readyConditions "SecretSynced" "Secret was synced" now) with ⟨hs, h1⟩ | ⟨hs, e, h1⟩
  · refine ⟨fun _ => ?_, fun hf => (by rw [hs] at hf; cases hf)⟩
    simp only [h1]
    have hP := statusPatch_mem_rewritten { s with unstructureds := t' } calls' robj
      (mapSet (statusFields robj) "conditions"
        (readyConditions "SecretSynced" "Secret was synced" now)) hfind
    rw [setStatus_eq]
    simp only [hP.1]
    have hS := syncTargetSecret_mem
      (memUnstructured.statusPatch ⟨{ s with unstructureds := t' }, calls'⟩
        ⟨mapSet robj.Object "status" (Value.map (mapSet (statusFields robj) "conditions"
          (readyConditions "SecretSynced" "Secret was synced" now)))⟩ robj).session.store
      (memUnstructured.statusPatch ⟨{ s with unstructureds := t' }, calls'⟩
        ⟨mapSet robj.Object "status" (Value.map (mapSet (statusFields robj) "conditions"
          (readyConditions "SecretSynced" "Secret was synced" now)))⟩ robj).session.calls
      name ns D
    refine ⟨hS.1, ?_⟩
    rw [hS.2, hP.2]
  · refine ⟨fun ht => (by rw [hs] at ht; cases ht), fun _ => ?_⟩
    simp [h1]

theorem createOrGet_memJob (s : MemStore) (calls : List Call) (obj : Job) (kind : String) :
    (createOrGet memJob ⟨s, calls⟩ obj kind).err = none ∧
    (createOrGet memJob ⟨s, calls⟩ obj kind).obj = tableCurrent Job.ident s.jobs obj ∧
    (createOrGet memJob ⟨s, calls⟩ obj kind).session.store =
      { s with jobs := tableEnsure Job.ident s.jobs obj } := by
  cases h : tableFind Job.ident s.jobs obj.ident with
  | some x =>
    have hc : memJob.Create s obj =
        { store := s, err := some (errAlreadyExists obj.ident), obj := obj } := by
      simp only [memJob, h]
    have hg : memJob.Get s (ClientObject.key obj) obj = { store := s, err := none, obj := x } := by
      have h' : tableFind Job.ident s.jobs (ClientObject.key obj) = some x := h
      simp only [memJob, h']
    have hex : IsAlreadyExists (memJob.Create s obj).err = true := by
      rw [hc]; rfl
    have hget : (memJob.Get (memJob.Create s obj).store
        (ClientObject.key (memJob.Create s obj).obj) (memJob.Create s obj).obj).err = none := by
      rw [hc]; simp only; rw [hg]
    obtain ⟨e1, e2, e3, _⟩ := createOrGet_of_alreadyExists memJob ⟨s, calls⟩ kind obj hex hget
    refine ⟨e1, ?_, ?_⟩
    · rw [e2, hc]; simp only; rw [hg]
      simp [tableCurrent, h]
    · rw [e3, hc]; simp only; rw [hg]
      simp [tableEnsure, h]
  | none =>
    have hc : memJob.Create s obj =
        { store := { s with jobs := s.jobs ++ [obj] }, err := none, obj := obj } := by
      simp only [memJob, h]
    obtain ⟨e1, e2, e3, _⟩ := createOrGet_of_created memJob ⟨s, calls⟩ kind obj (by rw [hc])
    refine ⟨e1, ?_, ?_⟩
    · rw [e2, hc]
      simp [tableCurrent, h]
    · rw [e3, hc]
      simp [tableEnsure, h]

/-- The Job table after `SimulateJobComplete`, given the Job it found or created. -/
theorem SimulateJobComplete_mem (w : Session MemStore) (now : Time) (name ns : String) :
    (SimulateJobComplete memJob w now name ns).err = none ∧
    (SimulateJobComplete memJob w now name ns).session.store =
      { w.store with
        jobs := tableReplace Job.ident (tableEnsure Job.ident w.store.jobs (newJob name ns))
          (completedJob (tableCurrent Job.ident w.store.jobs (newJob name ns)) now) } := by
  obtain ⟨s, calls⟩ := w
  simp only
  obtain ⟨r1, r2, r3⟩ := createOrGet_memJob s calls (newJob name ns) "Job"
  have hfind := tableFind_ensure Job.ident s.jobs (newJob name ns)
  have hid := tableCurrent_ident Job.ident s.jobs (newJob name ns)
  rw [← hid] at hfind
  simp only [SimulateJobComplete]
  generalize createOrGet memJob ⟨s, calls⟩ (newJob name ns) "Job" = r at r1 r2 r3 ⊢
  generalize tableCurrent Job.ident s.jobs (newJob name ns) = cur at r2 hfind hid ⊢
  clear hid
  generalize tableEnsure Job.ident s.jobs (newJob name ns) = t' at r3 hfind ⊢
  obtain ⟨⟨store, calls'⟩, rerr, robj⟩ := r
  simp only at r1 r2 r3
  subst r1 r2 r3
  have hf : tableFind Job.ident t' (completedJob robj now).ident = some robj := hfind
  simp only [Client.statusPatch, memJob, hf, Option.map_none', true_and, mergeJobStatus_self]
  rfl

/-! ### Calling a simulator twice -/

/-- After an object of the identity of `o` was put in the table, a request for
`o'` of the same identity finds it, and putting another one replaces it. -/
theorem table_after_replace {O I : Type} [DecidableEq I] (ident : O → I) (t : List O)
    (o o' X1 X2 : O) (h1 : ident X1 = ident o) (h2 : ident X2 = ident o)
    (h' : ident o' = ident o) :
    tableCurrent ident (tableReplace ident (tableEnsure ident t o) X1) o' = X1 ∧
    tableEnsure ident (tableReplace ident (tableEnsure ident t o) X1) o' =
      tableReplace ident (tableEnsure ident t o) X1 ∧
    tableReplace ident (tableReplace ident (tableEnsure ident t o) X1) X2 =
      tableReplace ident (tableEnsure ident t o) X2 := by
  have hf : tableFind ident (tableReplace ident (tableEnsure ident t o) X1) (ident o') =
      some X1 := by
    rw [h']
    exact tableFind_replace X1 (tableFind_ensure ident t o) h1
  obtain ⟨a, b⟩ := tableEnsure_of_find hf
  exact ⟨b, a, tableReplace_replace ident _ X1 X2 (h1.trans h2.symm)⟩

theorem tableEnsure_replace_swap {O I : Type} [DecidableEq I] (ident : O → I) (t : List O)
    (o o' z : O) (h' : ident o' = ident o) (hz : ident z = ident o) :
    tableReplace ident (tableEnsure ident t o) z = tableReplace ident (tableEnsure ident t o') z := by
  cases h : tableFind ident t (ident o) with
  | some x =>
    have ho' : tableFind ident t (ident o') = some x := by rw [h', h]
    simp [tableEnsure, h, ho']
  | none =>
    have ho' : tableFind ident t (ident o') = none := by rw [h', h]
    simp only [tableEnsure, h, ho']
    rw [tableReplace_append_self ident t o z h hz,
      tableReplace_append_self ident t o' z ho' (hz.trans h'.symm)]

theorem simulateUnstructuredReady_twice (w : Session MemStore) (now1 now2 : String)
    (gvk : GroupVersionKind) (name ns condReason condMessage : String)
    (h1 : (simulateUnstructuredReady memUnstructured w now1 gvk name ns condReason
      condMessage).err = none) :
    (simulateUnstructuredReady memUnstructured
      (simulateUnstructuredReady memUnstructured w now1 gvk name ns condReason condMessage).session
      now2 gvk name ns condReason condMessage).err = none ∧
    (simulateUnstructuredReady memUnstructured
      (simulateUnstructuredReady memUnstructured w now1 gvk name ns condReason condMessage).session
      now2 gvk name ns condReason condMessage).session.store =
      (simulateUnstructuredReady memUnstructured w now2 gvk name ns condReason
        condMessage).session.store ∧
    ∃ X, tableFind Unstructured.ident
        (simulateUnstructuredReady memUnstructured
          (simulateUnstructuredReady memUnstructured w now1 gvk name ns condReason
            condMessage).session
          now2 gvk name ns condReason condMessage).session.store.unstructureds
        (newUnstructured gvk name ns).ident = some X ∧
      mapGet (statusFields X) "ready" = some (Value.bool true) ∧
      mapGet (statusFields X) "conditions" = some (readyConditions condReason condMessage now2) := by
  obtain ⟨ok1, bad1⟩ := simulateUnstructuredReady_mem w now1 gvk name ns condReason condMessage
  obtain ⟨okO, _⟩ := simulateUnstructuredReady_mem w now2 gvk name ns condReason condMessage
  have hid := tableCurrent_ident Unstructured.ident w.store.unstructureds
    (newUnstructured gvk name ns)
  generalize tableCurrent Unstructured.ident w.store.unstructureds
    (newUnstructured gvk name ns) = cur at ok1 bad1 okO hid
  have hs : statusSettable cur = true := by
    cases h : statusSettable cur with
    | true => rfl
    | false => exact absurd h1 (bad1 h)
  obtain ⟨_, st1⟩ := ok1 hs
  obtain ⟨_, stO⟩ := okO hs
  obtain ⟨ok2, _⟩ := simulateUnstructuredReady_mem
    (simulateUnstructuredReady memUnstructured w now1 gvk name ns condReason
      condMessage).session now2 gvk name ns condReason condMessage
  have hX1 : (setStatus (setStatus cur "ready" (Value.bool true)) "conditions"
      (readyConditions condReason condMessage now1)).ident = (newUnstructured gvk name ns).ident := by
    rw [ident_setStatus, ident_setStatus, hid]
  have hX2 : (setStatus (setStatus cur "ready" (Value.bool true)) "conditions"
      (readyConditions condReason condMessage now2)).ident = (newUnstructured gvk name ns).ident := by
    rw [ident_setStatus, ident_setStatus, hid]
  obtain ⟨tc, te, tr⟩ := table_after_replace Unstructured.ident w.store.unstructureds
    (newUnstructured gvk name ns) (newUnstructured gvk name ns) _ _ hX1 hX2 rfl
  rw [st1] at ok2
  simp only [tc, te] at ok2
  obtain ⟨e2, st2⟩ := ok2 (statusSettable_setStatus _ _ _)
  have hready : mapGet (statusFields (setStatus cur "ready" (Value.bool true))) "ready" =
      some (Value.bool true) := by
    rw [statusFields_setStatus, mapGet_mapSet_self]
  have hsame : setStatus (setStatus (setStatus (setStatus cur "ready" (Value.bool true))
      "conditions" (readyConditions condReason condMessage now1)) "ready" (Value.bool true))
      "conditions" (readyConditions condReason condMessage now2) =
      setStatus (setStatus cur "ready" (Value.bool true)) "conditions"
        (readyConditions condReason condMessage now2) := by
    rcases setStatus_of_get (setStatus cur "ready" (Value.bool true)) "conditions" "ready"
      (readyConditions condReason condMessage now1) (Value.bool true) hready with h | h
    · rw [h, setStatus_setStatus]
    · exact absurd h (by decide)
  rw [hsame, tr] at st2
  refine ⟨e2, ?_, ?_⟩
  · rw [st2, stO]
  · refine ⟨setStatus (setStatus cur "ready" (Value.bool true)) "conditions"
        (readyConditions condReason condMessage now2), ?_, ?_, ?_⟩
    · rw [st2]
      exact tableFind_replace _ (tableFind_ensure Unstructured.ident w.store.unstructureds
        (newUnstructured gvk name ns)) hX2
    · rw [statusFields_setStatus, mapGet_mapSet_ne _ _ (by decide), hready]
    · rw [statusFields_setStatus, mapGet_mapSet_self]

theorem SimulateExternalSecretSync_twice (w : Session MemStore) (now1 now2 name ns : String)
    (D1 D2 : Option (List (String × Bytes)))
    (h1 : (SimulateExternalSecretSync memUnstructured memSecret w now1 name ns D1).err = none) :
    (SimulateExternalSecretSync memUnstructured memSecret
      (SimulateExternalSecretSync memUnstructured memSecret w now1 name ns D1).session
      now2 name ns D2).err = none ∧
    (SimulateExternalSecretSync memUnstructured memSecret
      (SimulateExternalSecretSync memUnstructured memSecret w now1 name ns D1).session
      now2 name ns D2).session.store =
      (SimulateExternalSecretSync memUnstructured memSecret w now2 name ns D2).session.store ∧
    (∃ X, tableFind Unstructured.ident
        (SimulateExternalSecretSync memUnstructured memSecret
          (SimulateExternalSecretSync memUnstructured memSecret w now1 name ns D1).session
          now2 name ns D2).session.store.unstructureds
        (newUnstructured ⟨"external-secrets.io", "v1beta1", "ExternalSecret"⟩ name ns).ident =
          some X ∧
      mapGet (statusFields X) "conditions" =
        some (readyConditions "SecretSynced" "Secret was synced" now2)) ∧
    (∃ S, tableFind Secret.ident
        (SimulateExternalSecretSync memUnstructured memSecret
          (SimulateExternalSecretSync memUnstructured memSecret w now1 name ns D1).session
          now2 name ns D2).session.store.secrets ⟨ns, name⟩ = some S ∧
      S.Data = D2) := by
  obtain ⟨ok1, bad1⟩ := SimulateExternalSecretSync_mem w now1 name ns D1
  obtain ⟨okO, _⟩ := SimulateExternalSecretSync_mem w now2 name ns D2
  have hid := tableCurrent_ident Unstructured.ident w.store.unstructureds
    (newUnstructured ⟨"external-secrets.io", "v1beta1", "ExternalSecret"⟩ name ns)
  generalize tableCurrent Unstructured.ident w.store.unstructureds
    (newUnstructured ⟨"external-secrets.io", "v1beta1", "ExternalSecret"⟩ name ns) = cur
    at ok1 bad1 okO hid
  have hs : statusSettable cur = true := by
    cases h : statusSettable cur with
    | true => rfl
    | false => exact absurd h1 (bad1 h)
  obtain ⟨_, st1⟩ := ok1 hs
  obtain ⟨_, stO⟩ := okO hs
  obtain ⟨ok2, _⟩ := SimulateExternalSecretSync_mem
    (SimulateExternalSecretSync memUnstructured memSecret w now1 name ns D1).session
    now2 name ns D2
  have hX1 : (setStatus cur "conditions"
      (readyConditions "SecretSynced" "Secret was synced" now1)).ident =
      (newUnstructured ⟨"external-secrets.io", "v1beta1", "ExternalSecret"⟩ name ns).ident := by
    rw [ident_setStatus, hid]
  have hX2 : (setStatus cur "conditions"
      (readyConditions "SecretSynced" "Secret was synced" now2)).ident =
      (newUnstructured ⟨"external-secrets.io", "v1beta1", "ExternalSecret"⟩ name ns).ident := by
    rw [ident_setStatus, hid]
  obtain ⟨tc, te, tr⟩ := table_after_replace Unstructured.ident w.store.unstructureds
    (newUnstructured ⟨"external-secrets.io", "v1beta1", "ExternalSecret"⟩ name ns)
    (newUnstructured ⟨"external-secrets.io", "v1beta1", "ExternalSecret"⟩ name ns) _ _ hX1 hX2 rfl
  -- the Secret table
  have hS1 : Secret.ident { tableCurrent Secret.ident w.store.secrets (targetSecret name ns D1)
      with Data := D1 } = (targetSecret name ns D1).ident :=
    tableCurrent_ident Secret.ident w.store.secrets (targetSecret name ns D1)
  have hS2 : Secret.ident { tableCurrent Secret.ident w.store.secrets (targetSecret name ns D1)
      with Data := D2 } = (targetSecret name ns D1).ident :=
    tableCurrent_ident Secret.ident w.store.secrets (targetSecret name ns D1)
  obtain ⟨sc, se, sr⟩ := table_after_replace Secret.ident w.store.secrets
    (targetSecret name ns D1) (targetSecret name ns D2) _ _ hS1 hS2 rfl
  rw [st1] at ok2
  simp only [tc, te, sc, se] at ok2
  obtain ⟨e2, st2⟩ := ok2 (statusSettable_setStatus _ _ _)
  rw [setStatus_setStatus, tr, sr] at st2
  have hcur : ({ tableCurrent Secret.ident w.store.secrets (targetSecret name ns D1)
      with Data := D2 } : Secret) =
      { tableCurrent Secret.ident w.store.secrets (targetSecret name ns D2) with Data := D2 } := by
    cases h : tableFind Secret.ident w.store.secrets (targetSecret name ns D1).ident with
    | some E =>
      have h' : tableFind Secret.ident w.store.secrets (targetSecret name ns D2).ident = some E := h
      simp [tableCurrent, h, h']
    | none =>
      have h' : tableFind Secret.ident w.store.secrets (targetSecret name ns D2).ident = none := h
      simp only [tableCurrent, h, h', Option.getD_none]
      rfl
  have hswap := tableEnsure_replace_swap Secret.ident w.store.secrets
    (targetSecret name ns D1) (targetSecret name ns D2)
    { tableCurrent Secret.ident w.store.secrets (targetSecret name ns D1) with Data := D2 }
    rfl hS2
  refine ⟨e2, ?_,
    ⟨setStatus cur "conditions" (readyConditions "SecretSynced" "Secret was synced" now2),
      ?_, ?_⟩,
    ⟨{ tableCurrent Secret.ident w.store.secrets (targetSecret name ns D1) with Data := D2 },
      ?_, ?_⟩⟩
  · rw [st2, stO, hswap, hcur]
  · rw [st2]
    exact tableFind_replace _ (tableFind_ensure Unstructured.ident w.store.unstructureds
      (newUnstructured ⟨"external-secrets.io", "v1beta1", "ExternalSecret"⟩ name ns)) hX2
  · rw [statusFields_setStatus, mapGet_mapSet_self]
  · rw [st2]
    exact tableFind_replace _ (tableFind_ensure Secret.ident w.store.secrets
      (targetSecret name ns D1)) hS2
  · rfl

theorem completedJob_completedJob (j : Job) (now1 now2 : Time) :
    completedJob (completedJob j now1) now2 = completedJob j now2 := rfl

theorem SimulateJobComplete_twice (w : Session MemStore) (now1 now2 : Time) (name ns : String) :
    (SimulateJobComplete memJob (SimulateJobComplete memJob w now1 name ns).session
      now2 name ns).err = none ∧
    (SimulateJobComplete memJob (SimulateJobComplete memJob w now1 name ns).session
      now2 name ns).session.store = (SimulateJobComplete memJob w now2 name ns).session.store ∧
    ∃ J, tableFind Job.ident
        (SimulateJobComplete memJob (SimulateJobComplete memJob w now1 name ns).session
          now2 name ns).session.store.jobs ⟨ns, name⟩ = some J ∧
      J.Status.Succeeded = 1 ∧ J.Status.Conditions = jobCompleteConditions now2 := by
  obtain ⟨_, st1⟩ := SimulateJobComplete_mem w now1 name ns
  obtain ⟨_, stO⟩ := SimulateJobComplete_mem w now2 name ns
  obtain ⟨e2, st2⟩ := SimulateJobComplete_mem (SimulateJobComplete memJob w now1 name ns).session
    now2 name ns
  have hX1 : (completedJob (tableCurrent Job.ident w.store.jobs (newJob name ns)) now1).ident =
      (newJob name ns).ident := tableCurrent_ident Job.ident w.store.jobs (newJob name ns)
  have hX2 : (completedJob (tableCurrent Job.ident w.store.jobs (newJob name ns)) now2).ident =
      (newJob name ns).ident := tableCurrent_ident Job.ident w.store.jobs (newJob name ns)
  obtain ⟨tc, te, tr⟩ := table_after_replace Job.ident w.store.jobs (newJob name ns)
    (newJob name ns) _ _ hX1 hX2 rfl
  rw [st1] at st2
  simp only [tc, te, completedJob_completedJob, tr] at st2
  refine ⟨e2, ?_, completedJob (tableCurrent Job.ident w.store.jobs (newJob name ns)) now2,
    ?_, rfl, rfl⟩
  · rw [st2, stO]
  · rw [st2]
    exact tableFind_replace _ (tableFind_ensure Job.ident w.store.jobs (newJob name ns)) hX2

/-- C6. On the in-memory store, a second call of a simulator with the same
arguments, after a first call that returned no error, returns no error and
leaves the store as one call alone (made at the second clock reading) leaves
it; the target object then carries the one condition list of that call: one
Ready condition for MariaDB, Memcached and the ExternalSecret, the two
completion conditions for the Job, and the target Secret the data passed. -/
theorem Simulate_twice_idempotent (w : Session MemStore) (name ns now1 now2 : String)
    (t1 t2 : Time) (D : Option (List (String × Bytes))) :
    ((SimulateMariaDBReady memUnstructured w now1 name ns).err = none →
      (SimulateMariaDBReady memUnstructured
        (SimulateMariaDBReady memUnstructured w now1 name ns).session now2 name ns).err = none ∧
      (SimulateMariaDBReady memUnstructured
        (SimulateMariaDBReady memUnstructured w now1 name ns).session now2 name ns).session.store =
        (SimulateMariaDBReady memUnstructured w now2 name ns).session.store ∧
      ∃ X, tableFind Unstructured.ident
          (SimulateMariaDBReady memUnstructured
            (SimulateMariaDBReady memUnstructured w now1 name ns).session
            now2 name ns).session.store.unstructureds
          (newUnstructured ⟨"k8s.mariadb.com", "v1alpha1", "MariaDB"⟩ name ns).ident = some X ∧
        mapGet (statusFields X) "ready" = some (Value.bool true) ∧
        mapGet (statusFields X) "conditions" =
          some (readyConditions "Ready" "MariaDB is ready" now2)) ∧
    ((SimulateMemcachedReady memUnstructured w now1 name ns).err = none →
      (SimulateMemcachedReady memUnstructured
        (SimulateMemcachedReady memUnstructured w now1 name ns).session now2 name ns).err = none ∧
      (SimulateMemcachedReady memUnstructured
        (SimulateMemcachedReady memUnstructured w now1 name ns).session
        now2 name ns).session.store =
        (SimulateMemcachedReady memUnstructured w now2 name ns).session.store ∧
      ∃ X, tableFind Unstructured.ident
          (SimulateMemcachedReady memUnstructured
            (SimulateMemcachedReady memUnstructured w now1 name ns).session
            now2 name ns).session.store.unstructureds
          (newUnstructured ⟨"opsv1.memcached.com", "v1alpha1", "Memcached"⟩ name ns).ident =
            some X ∧
        mapGet (statusFields X) "ready" = some (Value.bool true) ∧
        mapGet (statusFields X) "conditions" =
          some (readyConditions "Ready" "Memcached is ready" now2)) ∧
    ((SimulateExternalSecretSync memUnstructured memSecret w now1 name ns D).err = none →
      (SimulateExternalSecretSync memUnstructured memSecret
        (SimulateExternalSecretSync memUnstructured memSecret w now1 name ns D).session
        now2 name ns D).err = none ∧
      (SimulateExternalSecretSync memUnstructured memSecret
        (SimulateExternalSecretSync memUnstructured memSecret w now1 name ns D).session
        now2 name ns D).session.store =
        (SimulateExternalSecretSync memUnstructured memSecret w now2 name ns D).session.store ∧
      (∃ X, tableFind Unstructured.ident
          (SimulateExternalSecretSync memUnstructured memSecret
            (SimulateExternalSecretSync memUnstructured memSecret w now1 name ns D).session
            now2 name ns D).session.store.unstructureds
          (newUnstructured ⟨"external-secrets.io", "v1beta1", "ExternalSecret"⟩ name ns).ident =
            some X ∧
        mapGet (statusFields X) "conditions" =
          some (readyConditions "SecretSynced" "Secret was synced" now2)) ∧
      (∃ S, tableFind Secret.ident
          (SimulateExternalSecretSync memUnstructured memSecret
            (SimulateExternalSecretSync memUnstructured memSecret w now1 name ns D).session
            now2 name ns D).session.store.secrets ⟨ns, name⟩ = some S ∧
        S.Data = D)) ∧
    ((SimulateJobComplete memJob (SimulateJobComplete memJob w t1 name ns).session
        t2 name ns).err = none ∧
      (SimulateJobComplete memJob (SimulateJobComplete memJob w t1 name ns).session
        t2 name ns).session.store = (SimulateJobComplete memJob w t2 name ns).session.store ∧
      ∃ J, tableFind Job.ident
          (SimulateJobComplete memJob (SimulateJobComplete memJob w t1 name ns).session
            t2 name ns).session.store.jobs ⟨ns, name⟩ = some J ∧
        J.Status.Succeeded = 1 ∧ J.Status.Conditions = jobCompleteConditions t2) :=
  ⟨fun h => simulateUnstructuredReady_twice w now1 now2 _ name ns _ _ h,
    fun h => simulateUnstructuredReady_twice w now1 now2 _ name ns _ _ h,
    fun h => SimulateExternalSecretSync_twice w now1 now2 name ns D D h,
    SimulateJobComplete_twice w t1 t2 name ns⟩

theorem memSecret_Get_of_find (s : MemStore) (key : ObjectKey) (obj S : Secret)
    (h : tableFind Secret.ident s.secrets key = some S) :
    memSecret.Get s key obj = { store := s, err := none, obj := S } := by
  simp only [memSecret, h]

/-- C7. On the in-memory store, `SimulateExternalSecretSync` called with `D1`
and then with `D2` for the same name and namespace, the first call returning
no error, returns no error the second time, and a Get of the target Secret
then returns a Secret whose Data is `D2`: nothing of `D1` is left. -/
theorem SimulateExternalSecretSync_overwrites_data (w : Session MemStore)
    (now1 now2 name ns : String) (D1 D2 : Option (List (String × Bytes)))
    (h1 : (SimulateExternalSecretSync memUnstructured memSecret w now1 name ns D1).err = none) :
    (SimulateExternalSecretSync memUnstructured memSecret
      (SimulateExternalSecretSync memUnstructured memSecret w now1 name ns D1).session
      now2 name ns D2).err = none ∧
    (memSecret.Get
      (SimulateExternalSecretSync memUnstructured memSecret
        (SimulateExternalSecretSync memUnstructured memSecret w now1 name ns D1).session
        now2 name ns D2).session.store ⟨ns, name⟩ Secret.zero).err = none ∧
    (memSecret.Get
      (SimulateExternalSecretSync memUnstructured memSecret
        (SimulateExternalSecretSync memUnstructured memSecret w now1 name ns D1).session
        now2 name ns D2).session.store ⟨ns, name⟩ Secret.zero).obj.Data = D2 := by
  obtain ⟨e2, _, _, S, hS, hD⟩ := SimulateExternalSecretSync_twice w now1 now2 name ns D1 D2 h1
  have hG := memSecret_Get_of_find _ _ Secret.zero S hS
  refine ⟨e2, ?_, ?_⟩
  · rw [hG]
  · rw [hG]
    exact hD

/-- Witness for C6: the four simulators on a store that holds a stale MariaDB
`ns/db` and nothing else. -/
theorem Simulate_twice_idempotent_witness :
    (SimulateMariaDBReady memUnstructured mariadbTestSession "t1" "db" "ns").err = none ∧
    (SimulateMemcachedReady memUnstructured mariadbTestSession "t1" "db" "ns").err = none ∧
    (SimulateExternalSecretSync memUnstructured memSecret mariadbTestSession "t1" "db" "ns"
      (some [("password", [1, 2])])).err = none ∧
    (SimulateMariaDBReady memUnstructured
      (SimulateMariaDBReady memUnstructured mariadbTestSession "t1" "db" "ns").session
      "t2" "db" "ns").err = none ∧
    (SimulateMemcachedReady memUnstructured
      (SimulateMemcachedReady memUnstructured mariadbTestSession "t1" "db" "ns").session
      "t2" "db" "ns").session.store =
      (SimulateMemcachedReady memUnstructured mariadbTestSession "t2" "db" "ns").session.store ∧
    (SimulateExternalSecretSync memUnstructured memSecret
      (SimulateExternalSecretSync memUnstructured memSecret mariadbTestSession "t1" "db" "ns"
        (some [("password", [1, 2])])).session
      "t2" "db" "ns" (some [("password", [1, 2])])).err = none ∧
    (SimulateJobComplete memJob (SimulateJobComplete memJob mariadbTestSession 1 "db" "ns").session
      2 "db" "ns").err = none :=
  ⟨by decide, by decide, by decide,
    ((Simulate_twice_idempotent mariadbTestSession "db" "ns" "t1" "t2" 1 2
      (some [("password", [1, 2])])).1 (by decide)).1,
    ((Simulate_twice_idempotent mariadbTestSession "db" "ns" "t1" "t2" 1 2
      (some [("password", [1, 2])])).2.1 (by decide)).2.1,
    ((Simulate_twice_idempotent mariadbTestSession "db" "ns" "t1" "t2" 1 2
      (some [("password", [1, 2])])).2.2.1 (by decide)).1,
    (Simulate_twice_idempotent mariadbTestSession "db" "ns" "t1" "t2" 1 2
      (some [("password", [1, 2])])).2.2.2.1⟩

/-- Counterexample for C6 as stated: the store holds the MariaDB `ns/db` with a
status that is no map. It answers the requests of both calls of
`SimulateMariaDBReady` as a store does in any second call (AlreadyExists to
the Create, the object to the Get), yet both calls return an error, the second
as the first: `status.ready` cannot be set in that object. -/
theorem second_call_fails_on_bad_status :
    (SimulateMariaDBReady memUnstructured.traced
      (SimulateMariaDBReady memUnstructured.traced badStatusSession "t1" "db" "ns").session
      "t1" "db" "ns").session.store.2.map Prod.snd =
      [some (errAlreadyExists ⟨"ns", "db"⟩), none, some (errAlreadyExists ⟨"ns", "db"⟩), none] ∧
    (∃ e, (SimulateMariaDBReady memUnstructured.traced badStatusSession "t1" "db" "ns").err =
      some (Err.wrap "setting MariaDB status.ready: " e)) ∧
    (∃ e, (SimulateMariaDBReady memUnstructured.traced
      (SimulateMariaDBReady memUnstructured.traced badStatusSession "t1" "db" "ns").session
      "t1" "db" "ns").err = some (Err.wrap "setting MariaDB status.ready: " e)) ∧
    (SimulateMariaDBReady memUnstructured.traced
      (SimulateMariaDBReady memUnstructured.traced badStatusSession "t1" "db" "ns").session
      "t1" "db" "ns").err ≠ none :=
  ⟨by decide, ⟨_, rfl⟩, ⟨_, rfl⟩, by decide⟩

/-- Witness for C7: payload `{username, password}` then payload `{password}` on
an empty store. -/
theorem SimulateExternalSecretSync_overwrites_data_witness :
    (SimulateExternalSecretSync memUnstructured memSecret ⟨MemStore.empty, []⟩ "t1" "es" "ns"
      (some [("username", [97]), ("password", [1, 2])])).err = none ∧
    (SimulateExternalSecretSync memUnstructured memSecret
      (SimulateExternalSecretSync memUnstructured memSecret ⟨MemStore.empty, []⟩ "t1" "es" "ns"
        (some [("username", [97]), ("password", [1, 2])])).session
      "t2" "es" "ns" (some [("password", [3])])).err = none ∧
    (memSecret.Get
      (SimulateExternalSecretSync memUnstructured memSecret
        (SimulateExternalSecretSync memUnstructured memSecret ⟨MemStore.empty, []⟩ "t1" "es" "ns"
          (some [("username", [97]), ("password", [1, 2])])).session
        "t2" "es" "ns" (some [("password", [3])])).session.store ⟨"ns", "es"⟩ Secret.zero).err =
      none ∧
    (memSecret.Get
      (SimulateExternalSecretSync memUnstructured memSecret
        (SimulateExternalSecretSync memUnstructured memSecret ⟨MemStore.empty, []⟩ "t1" "es" "ns"
          (some [("username", [97]), ("password", [1, 2])])).session
        "t2" "es" "ns" (some [("password", [3])])).session.store ⟨"ns", "es"⟩
        Secret.zero).obj.Data = some [("password", [3])] :=
  ⟨by decide,
    SimulateExternalSecretSync_overwrites_data ⟨MemStore.empty, []⟩ "t1" "t2" "es" "ns"
      (some [("username", [97]), ("password", [1, 2])]) (some [("password", [3])]) (by decide)⟩

/-! ### `AssertResourceExists` -/

/-- C11. `AssertResourceExists` issues exactly one request, the Get on `key`.
It reports a failure if and only if that Get returned an error, whatever the
error is (every error `e`, NotFound included, gives the one failure built from
`e`), and it reports nothing if and only if the Get succeeded. -/
theorem AssertResourceExists_iff_get_succeeds {σ O : Type} [ClientObject O] (lib : TextLib)
    (c : Client σ O) (w : Session σ) (g : Gomega) (key : ObjectKey) (obj : O) :
    (AssertResourceExists lib c w g key obj).session.calls =
      w.calls ++ [Call.Get key (ClientObject.toObject obj)] ∧
    ((∃ msg, (AssertResourceExists lib c w g key obj).gomega = g.fail msg) ↔
      ∃ e, (c.Get w.store key obj).err = some e) ∧
    (∀ e, (c.Get w.store key obj).err = some e →
      (AssertResourceExists lib c w g key obj).gomega =
        g.fail (lib.unexpectedErrorFailure e.Error)) ∧
    ((AssertResourceExists lib c w g key obj).gomega = g ↔
      (c.Get w.store key obj).err = none) := by
  have hg : (AssertResourceExists lib c w g key obj).gomega =
      g.expectNoError lib (c.Get w.store key obj).err := rfl
  refine ⟨rfl, ?_, ?_, ?_⟩
  · rw [hg]
    cases herr : (c.Get w.store key obj).err with
    | none =>
      simp only [Gomega.expectNoError]
      constructor
      · rintro ⟨msg, hmsg⟩
        exact absurd hmsg.symm (Gomega.fail_ne g msg)
      · rintro ⟨e, he⟩
        cases he
    | some e =>
      simp only [Gomega.expectNoError]
      exact ⟨fun _ => ⟨e, rfl⟩, fun _ => ⟨_, rfl⟩⟩
  · intro e he
    rw [hg, he]
    rfl
  · rw [hg]
    cases herr : (c.Get w.store key obj).err with
    | none => simp [Gomega.expectNoError]
    | some e => simp [Gomega.expectNoError, Gomega.fail_ne]

/-- Witness for C11: a store holding the Job `ns/j`, asked for `ns/absent`
(NotFound, reported) and for `ns/j` (nothing reported). -/
theorem AssertResourceExists_iff_get_succeeds_witness :
    (memJob.Get jobTestSession.store ⟨"ns", "absent"⟩ (jobNamed "absent")).err =
      some (errNotFound ⟨"ns", "absent"⟩) ∧
    (AssertResourceExists plainText memJob jobTestSession ⟨[]⟩ ⟨"ns", "absent"⟩
      (jobNamed "absent")).gomega =
      Gomega.fail ⟨[]⟩ (plainText.unexpectedErrorFailure (errNotFound ⟨"ns", "absent"⟩).Error) ∧
    (memJob.Get jobTestSession.store ⟨"ns", "j"⟩ (jobNamed "j")).err = none ∧
    (AssertResourceExists plainText memJob jobTestSession ⟨[]⟩ ⟨"ns", "j"⟩
      (jobNamed "j")).gomega = ⟨[]⟩ :=
  ⟨by decide,
    (AssertResourceExists_iff_get_succeeds plainText memJob jobTestSession ⟨[]⟩
      ⟨"ns", "absent"⟩ (jobNamed "absent")).2.2.1 _ (by decide),
    by decide,
    (AssertResourceExists_iff_get_succeeds plainText memJob jobTestSession ⟨[]⟩
      ⟨"ns", "j"⟩ (jobNamed "j")).2.2.2.mpr (by decide)⟩

/-! ### The first entry of a type decides -/

/-- C12. When `c0` is the first entry of `L` whose type is `T`, the outcome of
`AssertCondition` on `L` is its outcome on the one-element list `[c0]`, for
every expected status; in particular, with `L = pre ++ c0 :: post` and no
entry of type `T` in `pre`, the entries of `post` (those of type `T` included)
have no influence. -/
theorem AssertCondition_first_match_only (lib : TextLib) (g : Gomega) (L : Slice Condition)
    (T s : String) (c0 : Condition)
    (h : L.elems.find? (fun c => decide (c.Type' = T)) = some c0) :
    AssertCondition lib g L T s = AssertCondition lib g (some [c0]) T s ∧
    ∀ pre post post' : List Condition, L = some (pre ++ c0 :: post) →
      (∀ c ∈ pre, c.Type' ≠ T) →
      AssertCondition lib g (some (pre ++ c0 :: post')) T s = AssertCondition lib g L T s := by
  have hT : c0.Type' = T := by
    have := List.find?_some h
    simpa using this
  have hL := assertConditionLoop_eq lib g L.elems T s
  rw [h] at hL
  have h1 : AssertCondition lib g (some [c0]) T s =
      g.expectEqual lib c0.Status s ("condition " ++ lib.quote T ++ " has status " ++
        lib.quote c0.Status ++ ", expected " ++ lib.quote s) := by
    simp [AssertCondition, Slice.elems, assertConditionLoop, hT]
  have h0 : AssertCondition lib g L T s =
      g.expectEqual lib c0.Status s ("condition " ++ lib.quote T ++ " has status " ++
        lib.quote c0.Status ++ ", expected " ++ lib.quote s) := by
    simp only [AssertCondition, hL, Option.map_some']
  refine ⟨by rw [h0, h1], ?_⟩
  intro pre post post' _ hpre
  have hfind : (Slice.elems (some (pre ++ c0 :: post'))).find?
      (fun c => decide (c.Type' = T)) = some c0 := by
    simp only [Slice.elems, Option.getD_some]
    rw [List.find?_append, find?_type_eq_none.mpr hpre]
    simp [List.find?, hT]
  have hL' := assertConditionLoop_eq lib g (Slice.elems (some (pre ++ c0 :: post'))) T s
  rw [hfind] at hL'
  rw [h0]
  simp only [AssertCondition, hL', Option.map_some']

/-- Witness for C12: two entries of type Ready, the first False, the second
True, checked for True: the outcome is that of the list holding the first. -/
theorem AssertCondition_first_match_only_witness :
    (Slice.elems (some [(⟨"Ready", "False", "", "", ""⟩ : Condition),
        ⟨"Ready", "True", "", "", ""⟩])).find?
      (fun c => decide (c.Type' = "Ready")) = some ⟨"Ready", "False", "", "", ""⟩ ∧
    AssertCondition plainText ⟨[]⟩
        (some [⟨"Ready", "False", "", "", ""⟩, ⟨"Ready", "True", "", "", ""⟩]) "Ready" "True" =
      AssertCondition plainText ⟨[]⟩ (some [⟨"Ready", "False", "", "", ""⟩]) "Ready" "True" ∧
    AssertCondition plainText ⟨[]⟩
        (some ([] ++ (⟨"Ready", "False", "", "", ""⟩ : Condition) ::
          [⟨"Ready", "Unknown", "", "", ""⟩])) "Ready" "True" =
      AssertCondition plainText ⟨[]⟩
        (some [⟨"Ready", "False", "", "", ""⟩, ⟨"Ready", "True", "", "", ""⟩]) "Ready" "True" ∧
    (AssertCondition plainText ⟨[]⟩
        (some [⟨"Ready", "False", "", "", ""⟩, ⟨"Ready", "True", "", "", ""⟩]) "Ready"
        "True").failures.length = 1 :=
  ⟨by decide,
    (AssertCondition_first_match_only plainText ⟨[]⟩
      (some [⟨"Ready", "False", "", "", ""⟩, ⟨"Ready", "True", "", "", ""⟩]) "Ready" "True"
      ⟨"Ready", "False", "", "", ""⟩ (by decide)).1,
    (AssertCondition_first_match_only plainText ⟨[]⟩
      (some [⟨"Ready", "False", "", "", ""⟩, ⟨"Ready", "True", "", "", ""⟩]) "Ready" "True"
      ⟨"Ready", "False", "", "", ""⟩ (by decide)).2 [] [⟨"Ready", "True", "", "", ""⟩]
      [⟨"Ready", "Unknown", "", "", ""⟩] rfl (by simp),
    by decide⟩

/-! ### The error paths of `createOrGet` -/

/-- Create fails with an error that is not AlreadyExists: the error comes back
wrapped, and nothing else is requested. -/
theorem createOrGet_of_create_failed {σ O : Type} [ClientObject O] (c : Client σ O)
    (w : Session σ) (kind : String) (obj : O) (e : Err)
    (hcreate : (c.Create w.store obj).err = some e)
    (hother : IsAlreadyExists (some e) = false) :
    (createOrGet c w obj kind).err = some (Err.wrap ("creating " ++ kind ++ ": ") e) ∧
    (createOrGet c w obj kind).session.store = (c.Create w.store obj).store ∧
    (createOrGet c w obj kind).session.calls =
      w.calls ++ [Call.Create (ClientObject.toObject obj)] := by
  have h1 : (c.create w obj).err = some e := hcreate
  have h2 : (c.create w obj).err ≠ none ∧ IsAlreadyExists (c.create w obj).err = false := by
    rw [h1]
    exact ⟨by simp, hother⟩
  simp only [createOrGet, if_pos h2]
  simp [Client.create, hcreate]

/-- Create reports AlreadyExists and the Get that follows fails: the error of
the Get comes back wrapped. -/
theorem createOrGet_of_get_failed {σ O : Type} [ClientObject O] (c : Client σ O)
    (w : Session σ) (kind : String) (obj : O) (e : Err)
    (hexists : IsAlreadyExists (c.Create w.store obj).err = true)
    (hget : (c.Get (c.Create w.store obj).store (ClientObject.key (c.Create w.store obj).obj)
      (c.Create w.store obj).obj).err = some e) :
    (createOrGet c w obj kind).err = some (Err.wrap ("getting " ++ kind ++ ": ") e) ∧
    (createOrGet c w obj kind).session.store =
      (c.Get (c.Create w.store obj).store (ClientObject.key (c.Create w.store obj).obj)
        (c.Create w.store obj).obj).store ∧
    (createOrGet c w obj kind).session.calls =
      w.calls ++ [Call.Create (ClientObject.toObject obj),
        Call.Get (ClientObject.key (c.Create w.store obj).obj)
          (ClientObject.toObject (c.Create w.store obj).obj)] := by
  have h1 : (c.create w obj).err = (c.Create w.store obj).err := rfl
  have h2 : ¬ ((c.create w obj).err ≠ none ∧ IsAlreadyExists (c.create w obj).err = false) := by
    rw [h1, hexists]
    simp
  have h3 : IsAlreadyExists (c.create w obj).err = true := by rw [h1, hexists]
  have h4 : (c.get (c.create w obj).session (ClientObject.key (c.create w obj).obj)
      (c.create w obj).obj).err = some e := hget
  have h5 : (c.get (c.create w obj).session (ClientObject.key (c.create w obj).obj)
      (c.create w obj).obj).err ≠ none := by rw [h4]; simp
  simp only [createOrGet, if_neg h2, if_pos h3, if_pos h5]
  simp [Client.get, Client.create, hget]

/-- C15. If the Create of `createOrGet` fails with an error `e` that is not
classified as AlreadyExists, `createOrGet` returns `e` wrapped by
`"creating <kind>: "` and the Create is the only request issued (no Get). If
the Create reports AlreadyExists and the Get that follows fails with `e`,
`createOrGet` returns `e` wrapped by `"getting <kind>: "`, after exactly these
two requests. -/
theorem createOrGet_wraps_errors {σ O : Type} [ClientObject O] (c : Client σ O)
    (w : Session σ) (kind : String) (obj : O) :
    (∀ e, (c.Create w.store obj).err = some e → IsAlreadyExists (some e) = false →
      (createOrGet c w obj kind).err = some (Err.wrap ("creating " ++ kind ++ ": ") e) ∧
      (Err.wrap ("creating " ++ kind ++ ": ") e).Error = "creating " ++ kind ++ ": " ++ e.Error ∧
      (createOrGet c w obj kind).session.calls =
        w.calls ++ [Call.Create (ClientObject.toObject obj)]) ∧
    (IsAlreadyExists (c.Create w.store obj).err = true →
      ∀ e, (c.Get (c.Create w.store obj).store (ClientObject.key (c.Create w.store obj).obj)
          (c.Create w.store obj).obj).err = some e →
        (createOrGet c w obj kind).err = some (Err.wrap ("getting " ++ kind ++ ": ") e) ∧
        (Err.wrap ("getting " ++ kind ++ ": ") e).Error = "getting " ++ kind ++ ": " ++ e.Error ∧
        (createOrGet c w obj kind).session.calls =
          w.calls ++ [Call.Create (ClientObject.toObject obj),
            Call.Get (ClientObject.key (c.Create w.store obj).obj)
              (ClientObject.toObject (c.Create w.store obj).obj)]) :=
  ⟨fun e hcreate hother =>
      ⟨(createOrGet_of_create_failed c w kind obj e hcreate hother).1, rfl,
        (createOrGet_of_create_failed c w kind obj e hcreate hother).2.2⟩,
    fun hexists e hget =>
      ⟨(createOrGet_of_get_failed c w kind obj e hexists hget).1, rfl,
        (createOrGet_of_get_failed c w kind obj e hexists hget).2.2⟩⟩

/-- Witness for C15: a client that cannot reach the store, and a client that
loses its connection after a Create of the Job `ns/j`, which the store holds. -/
theorem createOrGet_wraps_errors_witness :
    ((refusingJob.Create jobTestSession.store (jobNamed "j")).err =
        some (Err.plain "connection refused") ∧
      IsAlreadyExists (some (Err.plain "connection refused")) = false ∧
      (createOrGet refusingJob jobTestSession (jobNamed "j") "Job").err =
        some (Err.wrap "creating Job: " (Err.plain "connection refused")) ∧
      (createOrGet refusingJob jobTestSession (jobNamed "j") "Job").session.calls =
        jobTestSession.calls ++ [Call.Create (ClientObject.toObject (jobNamed "j"))]) ∧
    (IsAlreadyExists (getRefusingJob.Create jobTestSession.store (jobNamed "j")).err = true ∧
      (getRefusingJob.Get (getRefusingJob.Create jobTestSession.store (jobNamed "j")).store
        (ClientObject.key (getRefusingJob.Create jobTestSession.store (jobNamed "j")).obj)
        (getRefusingJob.Create jobTestSession.store (jobNamed "j")).obj).err =
          some (Err.plain "connection refused") ∧
      (createOrGet getRefusingJob jobTestSession (jobNamed "j") "Job").err =
        some (Err.wrap "getting Job: " (Err.plain "connection refused"))) :=
  ⟨⟨by decide, by decide,
      ((createOrGet_wraps_errors refusingJob jobTestSession "Job" (jobNamed "j")).1
        (Err.plain "connection refused") (by decide) (by decide)).1,
      ((createOrGet_wraps_errors refusingJob jobTestSession "Job" (jobNamed "j")).1
        (Err.plain "connection refused") (by decide) (by decide)).2.2⟩,
    ⟨by decide, by decide,
      ((createOrGet_wraps_errors getRefusingJob jobTestSession "Job" (jobNamed "j")).2
        (by decide) (Err.plain "connection refused") (by decide)).1⟩⟩

/-! ### `SecretBuilder.Create` -/

/-- In any heap grown from the builder's, `Build` returns a Secret with the
builder's value and only appends to the heap. -/
theorem Build_view {h : Heap} {b : Ref} {s : SecretStruct} (hc : h.Closed)
    (hb : h[b]? = some (Cell.secret s)) (ext : List Cell) :
    Heap.viewSecret (Build (h ++ ext) b).1 (Build (h ++ ext) b).2 = some (h.viewStruct s) ∧
    ∃ ext', (Build (h ++ ext) b).1 = h ++ (ext ++ ext') := by
  have B := Build_spec h b s hb (structReach_lt hc hb) ext [] (by simp)
  simp only [Heap.writeAll, List.foldl_nil] at B
  obtain ⟨⟨e, he⟩, _, hv⟩ := B
  exact ⟨hv, e, by rw [he, List.append_assoc]⟩

/-- What `Create` does on a builder: the client is handed the builder's value. -/
theorem SecretBuilder.Create_spec {σ : Type} (c : Client σ Secret) {h : Heap} {b : Ref}
    {s : SecretStruct} (hc : h.Closed) (hb : h[b]? = some (Cell.secret s)) (ext : List Cell)
    (w : Session σ) :
    (SecretBuilder.Create c (h ++ ext) b w).heap = (Build (h ++ ext) b).1 ∧
    (SecretBuilder.Create c (h ++ ext) b w).built = (Build (h ++ ext) b).2 ∧
    (SecretBuilder.Create c (h ++ ext) b w).session.store =
      (c.Create w.store (h.viewStruct s)).store ∧
    (SecretBuilder.Create c (h ++ ext) b w).session.calls =
      w.calls ++ [Call.Create (Object.secret (h.viewStruct s))] ∧
    (∀ e, (c.Create w.store (h.viewStruct s)).err = some e →
      (SecretBuilder.Create c (h ++ ext) b w).secret = none ∧
      (SecretBuilder.Create c (h ++ ext) b w).err = some (Err.wrap
        ("creating Secret " ++ (c.Create w.store (h.viewStruct s)).obj.Namespace ++ "/" ++
          (c.Create w.store (h.viewStruct s)).obj.Name ++ ": ") e)) ∧
    ((c.Create w.store (h.viewStruct s)).err = none →
      (SecretBuilder.Create c (h ++ ext) b w).secret =
        some (c.Create w.store (h.viewStruct s)).obj ∧
      (SecretBuilder.Create c (h ++ ext) b w).err = none) := by
  have hv := (Build_view hc hb ext).1
  have herr : (c.create w (h.viewStruct s)).err = (c.Create w.store (h.viewStruct s)).err := rfl
  refine ⟨?_, ?_, ?_, ?_, ?_, ?_⟩
  · simp only [SecretBuilder.Create, hv, Option.getD_some]
    split <;> rfl
  · simp only [SecretBuilder.Create, hv, Option.getD_some]
    split <;> rfl
  · simp only [SecretBuilder.Create, hv, Option.getD_some]
    split <;> rfl
  · simp only [SecretBuilder.Create, hv, Option.getD_some]
    split <;> rfl
  · intro e he
    simp [SecretBuilder.Create, hv, herr, he, Client.create]
  · intro he
    simp [SecretBuilder.Create, hv, herr, he, Client.create]

/-- In the in-memory store a Create of a Secret that was just created, or was
there before, is rejected as a duplicate. -/
theorem memSecret_Create_twice (st : MemStore) (v : Secret) :
    (memSecret.Create (memSecret.Create st v).store v).err = some (errAlreadyExists v.ident) ∧
    (memSecret.Create (memSecret.Create st v).store v).obj = v := by
  cases hfind : tableFind Secret.ident st.secrets v.ident with
  | some x => simp [memSecret, hfind]
  | none =>
    have hfind' : tableFind Secret.ident (st.secrets ++ [v]) v.ident = some v := by
      simp only [tableFind] at hfind ⊢
      rw [List.find?_append, hfind]
      simp
    simp [memSecret, hfind, hfind']

/-- In the in-memory store a Secret that was created is found by its
namespace and name. -/
theorem memSecret_Get_created (st : MemStore) (v handle : Secret)
    (h : (memSecret.Create st v).err = none) :
    memSecret.Get (memSecret.Create st v).store v.ident handle =
      { store := (memSecret.Create st v).store, err := none, obj := v } ∧
    (memSecret.Create st v).obj = v := by
  cases hfind : tableFind Secret.ident st.secrets v.ident with
  | some x => simp [memSecret, hfind] at h
  | none =>
    have hfind' : tableFind Secret.ident (st.secrets ++ [v]) v.ident = some v := by
      simp only [tableFind] at hfind ⊢
      rw [List.find?_append, hfind]
      simp
    simp [memSecret, hfind, hfind']

/-- C13. On a builder with struct `s` (in a heap without dangling references):
when the client's Create of the built Secret fails with `e`, `Create` returns a
nil Secret and `e` wrapped by `"creating Secret <namespace>/<name>: "`, the
namespace and name being those of the built object when the error is made,
which are the ones set on the builder whenever the client left them alone. In
particular, on the in-memory store, which rejects duplicate names, the second
of two `Create` calls on the same builder returns a nil Secret and the wrapped
AlreadyExists error. -/
theorem SecretBuilder_Create_wraps_error {σ : Type} (c : Client σ Secret) (h : Heap) (b : Ref)
    (s : SecretStruct) (w : Session σ) (hc : h.Closed) (hb : h[b]? = some (Cell.secret s)) :
    (∀ e, (c.Create w.store (h.viewStruct s)).err = some e →
      (SecretBuilder.Create c h b w).secret = none ∧
      (SecretBuilder.Create c h b w).err = some (Err.wrap
        ("creating Secret " ++ (c.Create w.store (h.viewStruct s)).obj.Namespace ++ "/" ++
          (c.Create w.store (h.viewStruct s)).obj.Name ++ ": ") e) ∧
      ((c.Create w.store (h.viewStruct s)).obj.Namespace = s.Namespace →
        (c.Create w.store (h.viewStruct s)).obj.Name = s.Name →
        (SecretBuilder.Create c h b w).err = some (Err.wrap
          ("creating Secret " ++ s.Namespace ++ "/" ++ s.Name ++ ": ") e) ∧
        (SecretBuilder.Create c h b w).err.map Err.Error =
          some ("creating Secret " ++ s.Namespace ++ "/" ++ s.Name ++ ": " ++ e.Error))) ∧
    (∀ w0 : Session MemStore,
      (SecretBuilder.Create memSecret (SecretBuilder.Create memSecret h b w0).heap b
        (SecretBuilder.Create memSecret h b w0).session).secret = none ∧
      (SecretBuilder.Create memSecret (SecretBuilder.Create memSecret h b w0).heap b
        (SecretBuilder.Create memSecret h b w0).session).err = some (Err.wrap
          ("creating Secret " ++ s.Namespace ++ "/" ++ s.Name ++ ": ")
          (errAlreadyExists ⟨s.Namespace, s.Name⟩))) := by
  constructor
  · intro e he
    have S := SecretBuilder.Create_spec c hc hb [] w
    simp only [List.append_nil] at S
    obtain ⟨hsec, herr⟩ := S.2.2.2.2.1 e he
    refine ⟨hsec, herr, fun hns hname => ?_⟩
    rw [herr, hns, hname]
    exact ⟨rfl, rfl⟩
  · intro w0
    have S1 := SecretBuilder.Create_spec memSecret hc hb [] w0
    simp only [List.append_nil] at S1
    obtain ⟨ext, hext⟩ := (Build_view hc hb []).2
    simp only [List.append_nil, List.nil_append] at hext
    have S2 := SecretBuilder.Create_spec memSecret hc hb ext
      (SecretBuilder.Create memSecret h b w0).session
    rw [← hext, ← S1.1] at S2
    have hdup := memSecret_Create_twice w0.store (h.viewStruct s)
    rw [← S1.2.2.1] at hdup
    obtain ⟨hsec, herr⟩ := S2.2.2.2.2.1 _ hdup.1
    rw [hdup.2] at herr
    exact ⟨hsec, herr⟩

/-- Witness for C13: the builder of `TestSecretBuilder_Create_PropagatesError`
creating into a store that holds `default/dup-secret`, and creating twice into
the empty store. -/
theorem SecretBuilder_Create_wraps_error_witness :
    (builderAfter [] dupSecretOps).1.Closed ∧
    (builderAfter [] dupSecretOps).1[(builderAfter [] dupSecretOps).2]? =
      some (Cell.secret { zeroSecret with Name := "dup-secret", Namespace := "default" }) ∧
    (SecretBuilder.Create memSecret (builderAfter [] dupSecretOps).1
      (builderAfter [] dupSecretOps).2 dupSecretSession).secret = none ∧
    (SecretBuilder.Create memSecret (builderAfter [] dupSecretOps).1
      (builderAfter [] dupSecretOps).2 dupSecretSession).err.map Err.Error =
        some "creating Secret default/dup-secret: \"dup-secret\" already exists" ∧
    (SecretBuilder.Create memSecret
      (SecretBuilder.Create memSecret (builderAfter [] dupSecretOps).1
        (builderAfter [] dupSecretOps).2 emptySession).heap (builderAfter [] dupSecretOps).2
      (SecretBuilder.Create memSecret (builderAfter [] dupSecretOps).1
        (builderAfter [] dupSecretOps).2 emptySession).session).secret = none :=
  ⟨by decide, by decide,
    ((SecretBuilder_Create_wraps_error memSecret (builderAfter [] dupSecretOps).1
      (builderAfter [] dupSecretOps).2
      { zeroSecret with Name := "dup-secret", Namespace := "default" } dupSecretSession
      (by decide) (by decide)).1
      (errAlreadyExists ⟨"default", "dup-secret"⟩) (by decide)).1,
    (((SecretBuilder_Create_wraps_error memSecret (builderAfter [] dupSecretOps).1
      (builderAfter [] dupSecretOps).2
      { zeroSecret with Name := "dup-secret", Namespace := "default" } dupSecretSession
      (by decide) (by decide)).1
      (errAlreadyExists ⟨"default", "dup-secret"⟩) (by decide)).2.2 (by decide) (by decide)).2,
    ((SecretBuilder_Create_wraps_error memSecret (builderAfter [] dupSecretOps).1
      (builderAfter [] dupSecretOps).2
      { zeroSecret with Name := "dup-secret", Namespace := "default" } dupSecretSession
      (by decide) (by decide)).2 emptySession).1⟩

/-- C14. On a builder with struct `s` (in a heap without dangling references):
when the client's Create of the built Secret succeeds, `Create` returns no
error and the built object as the client left it, after that single request.
On the in-memory store, which keeps objects as handed to it, the returned
Secret has the name and namespace set on the builder, and a Get on that
namespace and name afterwards succeeds and returns a Secret of that name (the
builder's Secret). -/
theorem SecretBuilder_Create_persists {σ : Type} (c : Client σ Secret) (h : Heap) (b : Ref)
    (s : SecretStruct) (w : Session σ) (hc : h.Closed) (hb : h[b]? = some (Cell.secret s)) :
    ((c.Create w.store (h.viewStruct s)).err = none →
      (SecretBuilder.Create c h b w).err = none ∧
      (SecretBuilder.Create c h b w).secret = some (c.Create w.store (h.viewStruct s)).obj ∧
      (SecretBuilder.Create c h b w).session.store = (c.Create w.store (h.viewStruct s)).store ∧
      (SecretBuilder.Create c h b w).session.calls =
        w.calls ++ [Call.Create (Object.secret (h.viewStruct s))]) ∧
    (∀ w0 : Session MemStore, (memSecret.Create w0.store (h.viewStruct s)).err = none →
      (SecretBuilder.Create memSecret h b w0).err = none ∧
      (∃ v, (SecretBuilder.Create memSecret h b w0).secret = some v ∧ v.Name = s.Name ∧
        v.Namespace = s.Namespace ∧ v = h.viewStruct s) ∧
      ∀ handle : Secret,
        (memSecret.Get (SecretBuilder.Create memSecret h b w0).session.store
          ⟨s.Namespace, s.Name⟩ handle).err = none ∧
        (memSecret.Get (SecretBuilder.Create memSecret h b w0).session.store
          ⟨s.Namespace, s.Name⟩ handle).obj.Name = s.Name ∧
        (memSecret.Get (SecretBuilder.Create memSecret h b w0).session.store
          ⟨s.Namespace, s.Name⟩ handle).obj = h.viewStruct s) := by
  constructor
  · intro he
    have S := SecretBuilder.Create_spec c hc hb [] w
    simp only [List.append_nil] at S
    exact ⟨(S.2.2.2.2.2 he).2, (S.2.2.2.2.2 he).1, S.2.2.1, S.2.2.2.1⟩
  · intro w0 he
    have S := SecretBuilder.Create_spec memSecret hc hb [] w0
    simp only [List.append_nil] at S
    have hobj : (memSecret.Create w0.store (h.viewStruct s)).obj = h.viewStruct s :=
      (memSecret_Get_created w0.store (h.viewStruct s) Secret.zero he).2
    refine ⟨(S.2.2.2.2.2 he).2, ⟨h.viewStruct s, ?_, rfl, rfl, rfl⟩, fun handle => ?_⟩
    · rw [(S.2.2.2.2.2 he).1, hobj]
    · have hG := (memSecret_Get_created w0.store (h.viewStruct s) handle he).1
      rw [S.2.2.1]
      have hid : (h.viewStruct s).ident = ⟨s.Namespace, s.Name⟩ := rfl
      rw [hid] at hG
      rw [hG]
      exact ⟨rfl, rfl, rfl⟩

/-- Witness for C14: the builder of `TestSecretBuilder_Create_PropagatesError`
creating into the empty store. -/
theorem SecretBuilder_Create_persists_witness :
    (builderAfter [] dupSecretOps).1.Closed ∧
    (builderAfter [] dupSecretOps).1[(builderAfter [] dupSecretOps).2]? =
      some (Cell.secret { zeroSecret with Name := "dup-secret", Namespace := "default" }) ∧
    (SecretBuilder.Create memSecret (builderAfter [] dupSecretOps).1
      (builderAfter [] dupSecretOps).2 emptySession).err = none ∧
    (SecretBuilder.Create memSecret (builderAfter [] dupSecretOps).1
      (builderAfter [] dupSecretOps).2 emptySession).session.calls.length = 1 ∧
    (memSecret.Get (SecretBuilder.Create memSecret (builderAfter [] dupSecretOps).1
      (builderAfter [] dupSecretOps).2 emptySession).session.store
      ⟨"default", "dup-secret"⟩ Secret.zero).obj.Name = "dup-secret" :=
  ⟨by decide, by decide,
    ((SecretBuilder_Create_persists memSecret (builderAfter [] dupSecretOps).1
      (builderAfter [] dupSecretOps).2
      { zeroSecret with Name := "dup-secret", Namespace := "default" } emptySession
      (by decide) (by decide)).1 (by decide)).1,
    by
      rw [((SecretBuilder_Create_persists memSecret (builderAfter [] dupSecretOps).1
        (builderAfter [] dupSecretOps).2
        { zeroSecret with Name := "dup-secret", Namespace := "default" } emptySession
        (by decide) (by decide)).1 (by decide)).2.2.2]
      decide,
    (((SecretBuilder_Create_persists memSecret (builderAfter [] dupSecretOps).1
      (builderAfter [] dupSecretOps).2
      { zeroSecret with Name := "dup-secret", Namespace := "default" } emptySession
      (by decide) (by decide)).2 emptySession (by decide)).2.2 Secret.zero).2.1⟩

/-! ### The setters that replace a field -/

/-- Overwriting a struct by a struct changes nothing that is read from maps,
slices and byte arrays. -/
theorem reads_set_secret {h : Heap} {b : Ref} {s : SecretStruct}
    (hb : h[b]? = some (Cell.secret s)) (s' : SecretStruct) (f : Option Ref) :
    Heap.readStringMap (h.set b (Cell.secret s')) f = h.readStringMap f ∧
    Heap.readOwnerRefs (h.set b (Cell.secret s')) f = h.readOwnerRefs f ∧
    Heap.dataEntries (h.set b (Cell.secret s')) f = h.dataEntries f ∧
    Heap.readBytes (h.set b (Cell.secret s')) f = h.readBytes f := by
  have hlt : b < h.length := (List.getElem?_eq_some_iff.mp hb).1
  cases f with
  | none => exact ⟨rfl, rfl, rfl, rfl⟩
  | some r =>
    by_cases hr : r = b
    · subst hr
      simp [Heap.readStringMap, Heap.readOwnerRefs, Heap.dataEntries, Heap.readBytes,
        List.getElem?_set_self hlt, hb]
    · simp [Heap.readStringMap, Heap.readOwnerRefs, Heap.dataEntries, Heap.readBytes,
        List.getElem?_set_ne (Ne.symm hr)]

theorem viewStruct_set_secret {h : Heap} {b : Ref} {s : SecretStruct}
    (hb : h[b]? = some (Cell.secret s)) (s' t : SecretStruct) :
    Heap.viewStruct (h.set b (Cell.secret s')) t = h.viewStruct t := by
  have hd : Heap.readData (h.set b (Cell.secret s')) t.Data = h.readData t.Data := by
    simp only [Heap.readData, (reads_set_secret hb s' t.Data).2.2.1]
    congr 1
    funext m
    apply List.map_congr_left
    intro kv _
    rw [(reads_set_secret hb s' kv.2).2.2.2]
  simp only [Heap.viewStruct, (reads_set_secret hb s' t.Labels).1,
    (reads_set_secret hb s' t.Annotations).1, (reads_set_secret hb s' t.OwnerReferences).2.1,
    (reads_set_secret hb s' t.StringData).1, hd]

theorem fieldReach_lt {h : Heap} (hc : h.Closed) {r : Ref} (hr : r < h.length) :
    ∀ q ∈ h.fieldReach (some r), q < h.length := by
  intro q hq
  simp only [Heap.fieldReach] at hq
  split at hq
  · rename_i m hm
    rw [List.mem_cons] at hq
    rcases hq with hq | hq
    · rw [hq]; exact hr
    · exact hc (Cell.dataMap m) (List.mem_iff_getElem?.mpr ⟨r, hm⟩) q hq
  · rw [List.mem_singleton] at hq
    rw [hq]; exact hr

/-- A map of the heap `h0` reads the same in every heap that kept the cells of
`h0`. -/
theorem reads_low {h0 g : Heap} (hc : h0.Closed)
    (hlow : ∀ q : Ref, q < h0.length → g[q]? = h0[q]?) (d : Option Ref)
    (hd : ∀ r ∈ d.toList, r < h0.length) :
    g.readStringMap d = h0.readStringMap d ∧ g.readData d = h0.readData d := by
  cases d with
  | none => exact ⟨rfl, rfl⟩
  | some r =>
    have hr : r < h0.length := hd r (by simp)
    have := field_congr (g := g) (h := h0) (r := some r)
      (fun q hq => hlow q (fieldReach_lt hc hr q hq))
    exact ⟨this.2.1, this.2.2.2⟩

/-- An assignment to the builder's struct that leaves its labels, annotations
and owner references alone and stores maps of `h0` only keeps the builder
well-formed and changes no value but through the struct. -/
theorem updateSecret_view (h0 : Heap) {h : Heap} {b : Ref} {s : SecretStruct}
    (f : SecretStruct → SecretStruct) (hbn : h0.length ≤ b) (hc : h.Closed)
    (hb : h[b]? = some (Cell.secret s))
    (hlow : ∀ q : Ref, q < h0.length → h[q]? = h0[q]?)
    (hlab : ∀ l, s.Labels = some l → h0.length ≤ l ∧ ∃ m, h[l]? = some (Cell.stringMap m))
    (hfl : (f s).Labels = s.Labels) (hfa : (f s).Annotations = s.Annotations)
    (hfo : (f s).OwnerReferences = s.OwnerReferences)
    (hfd : ∀ r ∈ (f s).Data.toList, r < h0.length)
    (hfs : ∀ r ∈ (f s).StringData.toList, r < h0.length) :
    (h.updateSecret b f).Closed ∧ (h.updateSecret b f)[b]? = some (Cell.secret (f s)) ∧
    (∀ q : Ref, q < h0.length → (h.updateSecret b f)[q]? = h0[q]?) ∧
    (∀ l, (f s).Labels = some l →
      h0.length ≤ l ∧ ∃ m, (h.updateSecret b f)[l]? = some (Cell.stringMap m)) ∧
    Heap.viewStruct (h.updateSecret b f) (f s) = h.viewStruct (f s) := by
  have hblt : b < h.length := (List.getElem?_eq_some_iff.mp hb).1
  have hmem : Cell.secret s ∈ h := List.mem_iff_getElem?.mpr ⟨b, hb⟩
  have hold : ∀ q ∈ s.refs, q < h.length := hc _ hmem
  have hrefs : ∀ q ∈ (f s).refs, q < h.length := by
    intro q hq
    rw [mem_refs] at hq
    rcases hq with hq | hq | hq | hq | hq
    · exact hold q (mem_refs.mpr (Or.inl (hfl ▸ hq)))
    · exact hold q (mem_refs.mpr (Or.inr (Or.inl (hfa ▸ hq))))
    · exact hold q (mem_refs.mpr (Or.inr (Or.inr (Or.inl (hfo ▸ hq)))))
    · exact Nat.lt_of_lt_of_le (hfd q (by simp [hq])) (Nat.le_trans hbn (Nat.le_of_lt hblt))
    · exact Nat.lt_of_lt_of_le (hfs q (by simp [hq])) (Nat.le_trans hbn (Nat.le_of_lt hblt))
  obtain ⟨u1, u2, _⟩ := updateSecret_inv f hc hb hrefs
  have hU : h.updateSecret b f = h.set b (Cell.secret (f s)) := by
    simp only [Heap.updateSecret, hb]
  refine ⟨u1, u2, ?_, ?_, ?_⟩
  · intro q hq
    have hne : b ≠ q := Nat.ne_of_gt (Nat.lt_of_lt_of_le hq hbn)
    rw [hU, List.getElem?_set_ne hne, hlow q hq]
  · intro l hl
    rw [hfl] at hl
    obtain ⟨h1, m, hm⟩ := hlab l hl
    refine ⟨h1, m, ?_⟩
    have hne : b ≠ l := by
      intro e
      rw [← e, hb] at hm
      simp at hm
    rw [hU, List.getElem?_set_ne hne, hm]
  · rw [hU]
    exact viewStruct_set_secret hb _ _

/-- One setter call on a builder made in `h0` and handed maps of `h0`: the
builder stays such a builder; `WithName`, `WithNamespace`, `WithData` and
`WithStringData` change the one field they name and no other, and no other
setter changes any of these four fields. -/
theorem Setter.apply_view {h0 h : Heap} {b : Ref} {s : SecretStruct} (op : Setter)
    (hc0 : h0.Closed) (hbn : h0.length ≤ b) (hc : h.Closed)
    (hb : h[b]? = some (Cell.secret s))
    (hlow : ∀ q : Ref, q < h0.length → h[q]? = h0[q]?)
    (hlab : ∀ l, s.Labels = some l → h0.length ≤ l ∧ ∃ m, h[l]? = some (Cell.stringMap m))
    (hdat : ∀ r ∈ s.Data.toList, r < h0.length)
    (hstr : ∀ r ∈ s.StringData.toList, r < h0.length)
    (ha : ∀ r ∈ op.argRefs, r < h0.length) :
    ∃ s', ((op.apply h b).Closed ∧ (op.apply h b)[b]? = some (Cell.secret s') ∧
        (∀ q : Ref, q < h0.length → (op.apply h b)[q]? = h0[q]?) ∧
        (∀ l, s'.Labels = some l →
          h0.length ≤ l ∧ ∃ m, (op.apply h b)[l]? = some (Cell.stringMap m)) ∧
        (∀ r ∈ s'.Data.toList, r < h0.length) ∧ (∀ r ∈ s'.StringData.toList, r < h0.length)) ∧
      ((∀ name, op = Setter.WithName name →
          Heap.viewStruct (op.apply h b) s' = { h.viewStruct s with Name := name }) ∧
        (∀ ns, op = Setter.WithNamespace ns →
          Heap.viewStruct (op.apply h b) s' = { h.viewStruct s with Namespace := ns }) ∧
        (∀ d, op = Setter.WithData d →
          Heap.viewStruct (op.apply h b) s' = { h.viewStruct s with Data := h0.readData d }) ∧
        (∀ d, op = Setter.WithStringData d →
          Heap.viewStruct (op.apply h b) s' =
            { h.viewStruct s with StringData := h0.readStringMap d })) ∧
      (((∀ name, op ≠ Setter.WithName name) →
          (Heap.viewStruct (op.apply h b) s').Name = (h.viewStruct s).Name) ∧
        ((∀ ns, op ≠ Setter.WithNamespace ns) →
          (Heap.viewStruct (op.apply h b) s').Namespace = (h.viewStruct s).Namespace) ∧
        ((∀ d, op ≠ Setter.WithData d) →
          (Heap.viewStruct (op.apply h b) s').Data = (h.viewStruct s).Data) ∧
        ((∀ d, op ≠ Setter.WithStringData d) →
          (Heap.viewStruct (op.apply h b) s').StringData = (h.viewStruct s).StringData)) := by
  have hblt : b < h.length := (List.getElem?_eq_some_iff.mp hb).1
  cases op with
  | WithName name =>
    obtain ⟨u1, u2, u3, u4, u5⟩ := updateSecret_view h0 (fun s => { s with Name := name })
      hbn hc hb hlow hlab rfl rfl rfl hdat hstr
    refine ⟨{ s with Name := name }, ⟨u1, u2, u3, u4, hdat, hstr⟩, ⟨?_, ?_, ?_, ?_⟩,
      ⟨?_, ?_, ?_, ?_⟩⟩
    · intro n hn
      cases hn
      exact u5
    · intro n hn; cases hn
    · intro n hn; cases hn
    · intro n hn; cases hn
    · intro hn; exact absurd rfl (hn name)
    · intro _; exact (congrArg Secret.Namespace u5).trans rfl
    · intro _; exact (congrArg Secret.Data u5).trans rfl
    · intro _; exact (congrArg Secret.StringData u5).trans rfl
  | WithNamespace ns =>
    obtain ⟨u1, u2, u3, u4, u5⟩ := updateSecret_view h0
      (fun s => { s with Namespace := ns }) hbn hc hb hlow hlab rfl rfl rfl hdat hstr
    refine ⟨{ s with Namespace := ns }, ⟨u1, u2, u3, u4, hdat, hstr⟩, ⟨?_, ?_, ?_, ?_⟩,
      ⟨?_, ?_, ?_, ?_⟩⟩
    · intro n hn; cases hn
    · intro n hn
      cases hn
      exact u5
    · intro n hn; cases hn
    · intro n hn; cases hn
    · intro _; exact (congrArg Secret.Name u5).trans rfl
    · intro hn; exact absurd rfl (hn ns)
    · intro _; exact (congrArg Secret.Data u5).trans rfl
    · intro _; exact (congrArg Secret.StringData u5).trans rfl
  | WithData d =>
    have had : ∀ r ∈ d.toList, r < h0.length := fun r hr => ha r (by simpa [Setter.argRefs] using hr)
    obtain ⟨u1, u2, u3, u4, u5⟩ := updateSecret_view h0 (fun s => { s with Data := d })
      hbn hc hb hlow hlab rfl rfl rfl had hstr
    refine ⟨{ s with Data := d }, ⟨u1, u2, u3, u4, had, hstr⟩, ⟨?_, ?_, ?_, ?_⟩,
      ⟨?_, ?_, ?_, ?_⟩⟩
    · intro n hn; cases hn
    · intro n hn; cases hn
    · intro n hn
      cases hn
      rw [← (reads_low hc0 hlow d had).2]
      exact u5
    · intro n hn; cases hn
    · intro _; exact (congrArg Secret.Name u5).trans rfl
    · intro _; exact (congrArg Secret.Namespace u5).trans rfl
    · intro hn; exact absurd rfl (hn d)
    · intro _; exact (congrArg Secret.StringData u5).trans rfl
  | WithStringData d =>
    have had : ∀ r ∈ d.toList, r < h0.length := fun r hr => ha r (by simpa [Setter.argRefs] using hr)
    obtain ⟨u1, u2, u3, u4, u5⟩ := updateSecret_view h0
      (fun s => { s with StringData := d }) hbn hc hb hlow hlab rfl rfl rfl hdat had
    refine ⟨{ s with StringData := d }, ⟨u1, u2, u3, u4, hdat, had⟩, ⟨?_, ?_, ?_, ?_⟩,
      ⟨?_, ?_, ?_, ?_⟩⟩
    · intro n hn; cases hn
    · intro n hn; cases hn
    · intro n hn; cases hn
    · intro n hn
      cases hn
      rw [← (reads_low hc0 hlow d had).1]
      exact u5
    · intro _; exact (congrArg Secret.Name u5).trans rfl
    · intro _; exact (congrArg Secret.Namespace u5).trans rfl
    · intro _; exact (congrArg Secret.Data u5).trans rfl
    · intro hn; exact absurd rfl (hn d)
  | WithLabels a =>
    obtain ⟨l, m0, hcase, w1, w2, w3⟩ := WithLabels_spec h b s a hb
      (fun l hl => (hlab l hl).2)
    obtain ⟨c1, _, _⟩ := WithLabels_inv (h := h) a hc hb
    have hl : h0.length ≤ l := by
      rcases hcase with ⟨hx, _⟩ | ⟨_, hx, _⟩
      · exact (hlab l hx).1
      · rw [hx]; exact Nat.le_trans hbn (Nat.le_of_lt hblt)
    have hlow' : ∀ q : Ref, q < h0.length → (Forge.WithLabels h b a)[q]? = h0[q]? := by
      intro q hq
      rw [w3 q (Nat.ne_of_lt (Nat.lt_of_lt_of_le hq hbn)) (Nat.ne_of_lt (Nat.lt_of_lt_of_le hq hl))
        (Nat.lt_of_lt_of_le hq (Nat.le_trans hbn (Nat.le_of_lt hblt))), hlow q hq]
    have hD : Heap.readData (Forge.WithLabels h b a) s.Data = h.readData s.Data := by
      rw [(reads_low hc0 hlow' s.Data hdat).2, (reads_low hc0 hlow s.Data hdat).2]
    have hS : Heap.readStringMap (Forge.WithLabels h b a) s.StringData = h.readStringMap s.StringData := by
      rw [(reads_low hc0 hlow' s.StringData hstr).1, (reads_low hc0 hlow s.StringData hstr).1]
    refine ⟨{ s with Labels := some l }, ⟨c1, w1, hlow', ?_, hdat, hstr⟩, ⟨?_, ?_, ?_, ?_⟩,
      ⟨?_, ?_, ?_, ?_⟩⟩
    · intro l' hl'
      simp only [Option.some.injEq] at hl'
      subst hl'
      exact ⟨hl, _, w2⟩
    · intro n hn; cases hn
    · intro n hn; cases hn
    · intro n hn; cases hn
    · intro n hn; cases hn
    · intro _; rfl
    · intro _; rfl
    · intro _; exact hD
    · intro _; exact hS
  | WithOwnerRef ref =>
    obtain ⟨c1, _, _⟩ := WithOwnerRef_inv (h := h) ref hc hb
    have hW : Forge.WithOwnerRef h b ref =
        (h ++ [Cell.ownerRefs (((h.readOwnerRefs s.OwnerReferences).getD []) ++ [ref])]).set b
          (Cell.secret { s with OwnerReferences := some h.length }) := by
      simp only [Forge.WithOwnerRef, hb]
    have hlen : (h ++ [Cell.ownerRefs (((h.readOwnerRefs s.OwnerReferences).getD []) ++
        [ref])]).length = h.length + 1 := by simp
    have hcell : (Forge.WithOwnerRef h b ref)[b]? =
        some (Cell.secret { s with OwnerReferences := some h.length }) := by
      rw [hW]
      exact List.getElem?_set_self (by rw [hlen]; exact Nat.lt_succ_of_lt hblt)
    have hsame : ∀ q : Ref, q ≠ b → q < h.length → (Forge.WithOwnerRef h b ref)[q]? = h[q]? := by
      intro q hqb hq
      rw [hW, List.getElem?_set_ne (Ne.symm hqb)]
      exact List.getElem?_append_left hq
    have hlow' : ∀ q : Ref, q < h0.length → (Forge.WithOwnerRef h b ref)[q]? = h0[q]? := by
      intro q hq
      rw [hsame q (Nat.ne_of_lt (Nat.lt_of_lt_of_le hq hbn))
        (Nat.lt_of_lt_of_le hq (Nat.le_trans hbn (Nat.le_of_lt hblt))), hlow q hq]
    have hD : Heap.readData (Forge.WithOwnerRef h b ref) s.Data = h.readData s.Data := by
      rw [(reads_low hc0 hlow' s.Data hdat).2, (reads_low hc0 hlow s.Data hdat).2]
    have hS : Heap.readStringMap (Forge.WithOwnerRef h b ref) s.StringData =
        h.readStringMap s.StringData := by
      rw [(reads_low hc0 hlow' s.StringData hstr).1, (reads_low hc0 hlow s.StringData hstr).1]
    refine ⟨{ s with OwnerReferences := some h.length }, ⟨c1, hcell, hlow', ?_, hdat, hstr⟩,
      ⟨?_, ?_, ?_, ?_⟩, ⟨?_, ?_, ?_, ?_⟩⟩
    · intro l hl'
      obtain ⟨h1, m, hm⟩ := hlab l hl'
      refine ⟨h1, m, ?_⟩
      have hne : l ≠ b := by
        intro e
        rw [e, hb] at hm
        simp at hm
      exact (hsame l hne (List.getElem?_eq_some_iff.mp hm).1).trans hm
    · intro n hn; cases hn
    · intro n hn; cases hn
    · intro n hn; cases hn
    · intro n hn; cases hn
    · intro _; rfl
    · intro _; rfl
    · intro _; exact hD
    · intro _; exact hS

/-- A chain of setter calls on a builder made in `h0` and handed maps of `h0`:
each of the four replaced fields holds the argument of the last call of its
setter, and is unchanged if its setter is not called. -/
theorem runSetters_view (ops : List Setter) {h0 h : Heap} {b : Ref} {s : SecretStruct}
    (hc0 : h0.Closed) (hbn : h0.length ≤ b) (hc : h.Closed)
    (hb : h[b]? = some (Cell.secret s))
    (hlow : ∀ q : Ref, q < h0.length → h[q]? = h0[q]?)
    (hlab : ∀ l, s.Labels = some l → h0.length ≤ l ∧ ∃ m, h[l]? = some (Cell.stringMap m))
    (hdat : ∀ r ∈ s.Data.toList, r < h0.length)
    (hstr : ∀ r ∈ s.StringData.toList, r < h0.length)
    (ha : ∀ op ∈ ops, ∀ r ∈ op.argRefs, r < h0.length) :
    ∃ s', ((runSetters h b ops).Closed ∧ (runSetters h b ops)[b]? = some (Cell.secret s') ∧
        (∀ q : Ref, q < h0.length → (runSetters h b ops)[q]? = h0[q]?) ∧
        (∀ l, s'.Labels = some l →
          h0.length ≤ l ∧ ∃ m, (runSetters h b ops)[l]? = some (Cell.stringMap m)) ∧
        (∀ r ∈ s'.Data.toList, r < h0.length) ∧ (∀ r ∈ s'.StringData.toList, r < h0.length)) ∧
      (((∀ name, Setter.WithName name ∉ ops) →
          (Heap.viewStruct (runSetters h b ops) s').Name = (h.viewStruct s).Name) ∧
        ((∀ ns, Setter.WithNamespace ns ∉ ops) →
          (Heap.viewStruct (runSetters h b ops) s').Namespace = (h.viewStruct s).Namespace) ∧
        ((∀ d, Setter.WithData d ∉ ops) →
          (Heap.viewStruct (runSetters h b ops) s').Data = (h.viewStruct s).Data) ∧
        ((∀ d, Setter.WithStringData d ∉ ops) →
          (Heap.viewStruct (runSetters h b ops) s').StringData = (h.viewStruct s).StringData)) ∧
      ((∀ pre post name, ops = pre ++ Setter.WithName name :: post →
          (∀ n, Setter.WithName n ∉ post) →
          (Heap.viewStruct (runSetters h b ops) s').Name = name) ∧
        (∀ pre post ns, ops = pre ++ Setter.WithNamespace ns :: post →
          (∀ n, Setter.WithNamespace n ∉ post) →
          (Heap.viewStruct (runSetters h b ops) s').Namespace = ns) ∧
        (∀ pre post d, ops = pre ++ Setter.WithData d :: post →
          (∀ n, Setter.WithData n ∉ post) →
          (Heap.viewStruct (runSetters h b ops) s').Data = h0.readData d) ∧
        (∀ pre post d, ops = pre ++ Setter.WithStringData d :: post →
          (∀ n, Setter.WithStringData n ∉ post) →
          (Heap.viewStruct (runSetters h b ops) s').StringData = h0.readStringMap d)) := by
  induction ops generalizing h s with
  | nil =>
    refine ⟨s, ⟨hc, hb, hlow, hlab, hdat, hstr⟩, ⟨fun _ => rfl, fun _ => rfl, fun _ => rfl,
      fun _ => rfl⟩, ⟨?_, ?_, ?_, ?_⟩⟩ <;>
    · intro pre post x hx
      simp at hx
  | cons op rest ih =>
    obtain ⟨s1, ⟨a1, a2, a3, a4, a5, a6⟩, ⟨e1, e2, e3, e4⟩, ⟨f1, f2, f3, f4⟩⟩ :=
      Setter.apply_view op hc0 hbn hc hb hlow hlab hdat hstr (ha op (List.mem_cons_self _ _))
    obtain ⟨s', inv, ⟨g1, g2, g3, g4⟩, ⟨l1, l2, l3, l4⟩⟩ :=
      ih a1 a2 a3 a4 a5 a6 (fun op' hop' => ha op' (List.mem_cons_of_mem _ hop'))
    have hrun : runSetters h b (op :: rest) = runSetters (op.apply h b) b rest := rfl
    rw [hrun]
    refine ⟨s', inv, ⟨?_, ?_, ?_, ?_⟩, ⟨?_, ?_, ?_, ?_⟩⟩
    · intro hn
      rw [g1 (fun n hm => hn n (List.mem_cons_of_mem _ hm)),
        f1 (fun n e => hn n (e ▸ List.mem_cons_self _ _))]
    · intro hn
      rw [g2 (fun n hm => hn n (List.mem_cons_of_mem _ hm)),
        f2 (fun n e => hn n (e ▸ List.mem_cons_self _ _))]
    · intro hn
      rw [g3 (fun n hm => hn n (List.mem_cons_of_mem _ hm)),
        f3 (fun n e => hn n (e ▸ List.mem_cons_self _ _))]
    · intro hn
      rw [g4 (fun n hm => hn n (List.mem_cons_of_mem _ hm)),
        f4 (fun n e => hn n (e ▸ List.mem_cons_self _ _))]
    · intro pre post x hx hpost
      cases pre with
      | nil =>
        simp only [List.nil_append, List.cons.injEq] at hx
        obtain ⟨hop, hrest⟩ := hx
        subst hrest
        rw [g1 hpost, e1 x hop]
      | cons p pre' =>
        simp only [List.cons_append, List.cons.injEq] at hx
        exact l1 pre' post x hx.2 hpost
    · intro pre post x hx hpost
      cases pre with
      | nil =>
        simp only [List.nil_append, List.cons.injEq] at hx
        obtain ⟨hop, hrest⟩ := hx
        subst hrest
        rw [g2 hpost, e2 x hop]
      | cons p pre' =>
        simp only [List.cons_append, List.cons.injEq] at hx
        exact l2 pre' post x hx.2 hpost
    · intro pre post x hx hpost
      cases pre with
      | nil =>
        simp only [List.nil_append, List.cons.injEq] at hx
        obtain ⟨hop, hrest⟩ := hx
        subst hrest
        rw [g3 hpost, e3 x hop]
      | cons p pre' =>
        simp only [List.cons_append, List.cons.injEq] at hx
        exact l3 pre' post x hx.2 hpost
    · intro pre post x hx hpost
      cases pre with
      | nil =>
        simp only [List.nil_append, List.cons.injEq] at hx
        obtain ⟨hop, hrest⟩ := hx
        subst hrest
        rw [g4 hpost, e4 x hop]
      | cons p pre' =>
        simp only [List.cons_append, List.cons.injEq] at hx
        exact l4 pre' post x hx.2 hpost

/-- C20. For the builder reached from `NewSecretBuilder()` by any chain `ops`
of setter calls (in a heap `h0` without dangling references, the setters being
handed maps of `h0`), `Build()` returns a Secret `v` in which Name, Namespace,
Data and StringData each hold the argument of the last call of the field's
setter in `ops`: the string as given, the map with the contents of the map
given. And one more call of one of these four setters gives a `Build()` that
differs from `v` in that one field only. -/
theorem setters_replace_wholesale (h0 : Heap) (ops : List Setter) (hclosed : h0.Closed)
    (hargs : ∀ op ∈ ops, ∀ r ∈ op.argRefs, r < h0.length) :
    ∃ v : Secret,
      Heap.viewSecret (Build (builderAfter h0 ops).1 (builderAfter h0 ops).2).1
        (Build (builderAfter h0 ops).1 (builderAfter h0 ops).2).2 = some v ∧
      ((∀ pre post name, ops = pre ++ Setter.WithName name :: post →
          (∀ n, Setter.WithName n ∉ post) → v.Name = name) ∧
        (∀ pre post ns, ops = pre ++ Setter.WithNamespace ns :: post →
          (∀ n, Setter.WithNamespace n ∉ post) → v.Namespace = ns) ∧
        (∀ pre post d, ops = pre ++ Setter.WithData d :: post →
          (∀ n, Setter.WithData n ∉ post) → v.Data = h0.readData d) ∧
        (∀ pre post d, ops = pre ++ Setter.WithStringData d :: post →
          (∀ n, Setter.WithStringData n ∉ post) → v.StringData = h0.readStringMap d)) ∧
      ((∀ name,
          Heap.viewSecret
            (Build (builderAfter h0 (ops ++ [Setter.WithName name])).1
              (builderAfter h0 (ops ++ [Setter.WithName name])).2).1
            (Build (builderAfter h0 (ops ++ [Setter.WithName name])).1
              (builderAfter h0 (ops ++ [Setter.WithName name])).2).2 =
            some { v with Name := name }) ∧
        (∀ ns,
          Heap.viewSecret
            (Build (builderAfter h0 (ops ++ [Setter.WithNamespace ns])).1
              (builderAfter h0 (ops ++ [Setter.WithNamespace ns])).2).1
            (Build (builderAfter h0 (ops ++ [Setter.WithNamespace ns])).1
              (builderAfter h0 (ops ++ [Setter.WithNamespace ns])).2).2 =
            some { v with Namespace := ns }) ∧
        (∀ d : Option Ref, (∀ r ∈ d.toList, r < h0.length) →
          Heap.viewSecret
            (Build (builderAfter h0 (ops ++ [Setter.WithData d])).1
              (builderAfter h0 (ops ++ [Setter.WithData d])).2).1
            (Build (builderAfter h0 (ops ++ [Setter.WithData d])).1
              (builderAfter h0 (ops ++ [Setter.WithData d])).2).2 =
            some { v with Data := h0.readData d }) ∧
        (∀ d : Option Ref, (∀ r ∈ d.toList, r < h0.length) →
          Heap.viewSecret
            (Build (builderAfter h0 (ops ++ [Setter.WithStringData d])).1
              (builderAfter h0 (ops ++ [Setter.WithStringData d])).2).1
            (Build (builderAfter h0 (ops ++ [Setter.WithStringData d])).1
              (builderAfter h0 (ops ++ [Setter.WithStringData d])).2).2 =
            some { v with StringData := h0.readStringMap d })) := by
  obtain ⟨n1, n2, _⟩ := NewSecretBuilder_inv hclosed
  have hbp : (NewSecretBuilder h0).2 = h0.length := rfl
  have hlow0 : ∀ q : Ref, q < h0.length → (NewSecretBuilder h0).1[q]? = h0[q]? :=
    fun q hq => List.getElem?_append_left hq
  obtain ⟨s, ⟨a1, a2, a3, a4, a5, a6⟩, _, ⟨l1, l2, l3, l4⟩⟩ :=
    runSetters_view ops hclosed (Nat.le_of_eq hbp.symm) n1 n2 hlow0
      (fun l hl => by simp [zeroSecret] at hl) (fun r hr => by simp [zeroSecret] at hr)
      (fun r hr => by simp [zeroSecret] at hr) hargs
  have hstate : ∀ ops', builderAfter h0 ops' =
      (runSetters (NewSecretBuilder h0).1 (NewSecretBuilder h0).2 ops', (NewSecretBuilder h0).2) :=
    fun _ => rfl
  have hmore : ∀ op, runSetters (NewSecretBuilder h0).1 (NewSecretBuilder h0).2 (ops ++ [op]) =
      op.apply (runSetters (NewSecretBuilder h0).1 (NewSecretBuilder h0).2 ops)
        (NewSecretBuilder h0).2 := by
    intro op
    simp [runSetters, List.foldl_append]
  have hB := (Build_view a1 a2 []).1
  rw [List.append_nil] at hB
  have hstep : ∀ op : Setter, (∀ r ∈ op.argRefs, r < h0.length) → ∀ u : Secret,
      (∀ s', (op.apply (runSetters (NewSecretBuilder h0).1 (NewSecretBuilder h0).2 ops)
          (NewSecretBuilder h0).2)[(NewSecretBuilder h0).2]? = some (Cell.secret s') →
        Heap.viewStruct (op.apply (runSetters (NewSecretBuilder h0).1
          (NewSecretBuilder h0).2 ops) (NewSecretBuilder h0).2) s' = u) →
      Heap.viewSecret
        (Build (builderAfter h0 (ops ++ [op])).1 (builderAfter h0 (ops ++ [op])).2).1
        (Build (builderAfter h0 (ops ++ [op])).1 (builderAfter h0 (ops ++ [op])).2).2 =
        some u := by
    intro op hop u hu
    obtain ⟨s1, ⟨b1, b2, _⟩, _, _⟩ :=
      Setter.apply_view op hclosed (Nat.le_of_eq hbp.symm) a1 a2 a3 a4 a5 a6 hop
    have hB1 := (Build_view b1 b2 []).1
    rw [List.append_nil] at hB1
    rw [hstate, hmore, hB1, hu s1 b2]
  refine ⟨_, by rw [hstate]; exact hB, ⟨l1, l2, l3, l4⟩, ⟨?_, ?_, ?_, ?_⟩⟩
  · intro name
    apply hstep (Setter.WithName name) (by simp [Setter.argRefs])
    intro s' hs'
    obtain ⟨s1, ⟨_, b2, _⟩, ⟨e1, _, _, _⟩, _⟩ := Setter.apply_view (Setter.WithName name)
      hclosed (Nat.le_of_eq hbp.symm) a1 a2 a3 a4 a5 a6 (by simp [Setter.argRefs])
    rw [b2] at hs'
    simp only [Option.some.injEq, Cell.secret.injEq] at hs'
    subst hs'
    exact e1 name rfl
  · intro ns
    apply hstep (Setter.WithNamespace ns) (by simp [Setter.argRefs])
    intro s' hs'
    obtain ⟨s1, ⟨_, b2, _⟩, ⟨_, e2, _, _⟩, _⟩ := Setter.apply_view (Setter.WithNamespace ns)
      hclosed (Nat.le_of_eq hbp.symm) a1 a2 a3 a4 a5 a6 (by simp [Setter.argRefs])
    rw [b2] at hs'
    simp only [Option.some.injEq, Cell.secret.injEq] at hs'
    subst hs'
    exact e2 ns rfl
  · intro d hd
    have hd' : ∀ r ∈ (Setter.WithData d).argRefs, r < h0.length := by
      simpa [Setter.argRefs] using hd
    apply hstep (Setter.WithData d) hd'
    intro s' hs'
    obtain ⟨s1, ⟨_, b2, _⟩, ⟨_, _, e3, _⟩, _⟩ := Setter.apply_view (Setter.WithData d)
      hclosed (Nat.le_of_eq hbp.symm) a1 a2 a3 a4 a5 a6 hd'
    rw [b2] at hs'
    simp only [Option.some.injEq, Cell.secret.injEq] at hs'
    subst hs'
    exact e3 d rfl
  · intro d hd
    have hd' : ∀ r ∈ (Setter.WithStringData d).argRefs, r < h0.length := by
      simpa [Setter.argRefs] using hd
    apply hstep (Setter.WithStringData d) hd'
    intro s' hs'
    obtain ⟨s1, ⟨_, b2, _⟩, ⟨_, _, _, e4⟩, _⟩ := Setter.apply_view (Setter.WithStringData d)
      hclosed (Nat.le_of_eq hbp.symm) a1 a2 a3 a4 a5 a6 hd'
    rw [b2] at hs'
    simp only [Option.some.injEq, Cell.secret.injEq] at hs'
    subst hs'
    exact e4 d rfl

/-- Witness for C20: a chain with two `WithName` and two `WithData` calls, the
second `WithData` with the nil map; one more `WithNamespace` changes the
namespace only. -/
theorem setters_replace_wholesale_witness :
    copyTestHeap.Closed ∧ (∀ op ∈ replaceTestOps, ∀ r ∈ op.argRefs, r < copyTestHeap.length) ∧
    ∃ v : Secret,
      Heap.viewSecret
        (Build (builderAfter copyTestHeap replaceTestOps).1
          (builderAfter copyTestHeap replaceTestOps).2).1
        (Build (builderAfter copyTestHeap replaceTestOps).1
          (builderAfter copyTestHeap replaceTestOps).2).2 = some v ∧
      v.Name = "second" ∧ v.Data = none ∧
      Heap.viewSecret
        (Build (builderAfter copyTestHeap (replaceTestOps ++ [Setter.WithNamespace "ns"])).1
          (builderAfter copyTestHeap (replaceTestOps ++ [Setter.WithNamespace "ns"])).2).1
        (Build (builderAfter copyTestHeap (replaceTestOps ++ [Setter.WithNamespace "ns"])).1
          (builderAfter copyTestHeap (replaceTestOps ++ [Setter.WithNamespace "ns"])).2).2 =
        some { v with Namespace := "ns" } ∧
      Heap.viewSecret
        (Build (builderAfter copyTestHeap (replaceTestOps ++ [Setter.WithData (some 1)])).1
          (builderAfter copyTestHeap (replaceTestOps ++ [Setter.WithData (some 1)])).2).1
        (Build (builderAfter copyTestHeap (replaceTestOps ++ [Setter.WithData (some 1)])).1
          (builderAfter copyTestHeap (replaceTestOps ++ [Setter.WithData (some 1)])).2).2 =
        some { v with Data := copyTestHeap.readData (some 1) } :=
  ⟨by decide, by decide,
    (setters_replace_wholesale copyTestHeap replaceTestOps (by decide) (by decide)).imp
      (fun _ hv => ⟨hv.1,
        hv.2.1.1 [Setter.WithName "first", Setter.WithData (some 1), Setter.WithLabels none]
          [Setter.WithData none] "second" rfl (by simp),
        hv.2.1.2.2.1 [Setter.WithName "first", Setter.WithData (some 1), Setter.WithLabels none,
          Setter.WithName "second"] [] none rfl (by simp),
        hv.2.2.2.1 "ns", hv.2.2.2.2.1 (some 1) (by decide)⟩)⟩

/-! ### `SetupEnvTest` -/

/-- The registration loop only adds registration events. -/
theorem registerSchemes_events {Scheme : Type}
    (adders : List (String × (Scheme → Scheme × Option Err))) (s : Scheme)
    (events : List EnvEvent) :
    ∃ added, (registerSchemes adders s events).2 = events ++ added ∧
      ∀ x ∈ added, ∃ name, x = EnvEvent.AddToScheme name := by
  induction adders generalizing s events with
  | nil => exact ⟨[], by simp [registerSchemes], by simp⟩
  | cons a rest ih =>
    obtain ⟨name, add⟩ := a
    cases hadd : (add s).2 with
    | some e =>
      refine ⟨[EnvEvent.AddToScheme name], by simp [registerSchemes, hadd], ?_⟩
      intro x hx
      exact ⟨name, by simpa using hx⟩
    | none =>
      obtain ⟨added, h1, h2⟩ := ih (add s).1 (events ++ [EnvEvent.AddToScheme name])
      refine ⟨EnvEvent.AddToScheme name :: added, ?_, ?_⟩
      · simp only [registerSchemes, hadd]
        rw [h1, List.append_assoc]
        rfl
      · intro x hx
        rw [List.mem_cons] at hx
        rcases hx with hx | hx
        · exact ⟨name, hx⟩
        · exact h2 x hx

/-- Enumerating the bundled directory reads one directory and does nothing else. -/
theorem fakeCRDSubDirs_events {Config Scheme Cl : Type} (lib : EnvLib Config Scheme Cl) :
    ∀ x ∈ (fakeCRDSubDirs lib).2, ∃ path, x = EnvEvent.ReadDir path := by
  intro x hx
  simp only [fakeCRDSubDirs] at hx
  split at hx
  · simp at hx
  · rename_i base _
    split at hx <;> exact ⟨base, by simpa using hx⟩

/-- C18. In `SetupEnvTest`, when the enumeration of the bundled directories and
the environment's `Start` have succeeded and the call returns an error `e`:
the config, the client and the teardown function returned are nil; `Stop` was
called exactly once, after `Start` and as the last action before returning; and
`e` wraps the error of a scheme registration or of the client construction. -/
theorem SetupEnvTest_stops_on_failure {Config Scheme Cl : Type}
    (lib : EnvLib Config Scheme Cl) (crdPaths dirs : List String) (events0 : List EnvEvent)
    (cfg : Config) (e : Err)
    (hdirs : fakeCRDSubDirs lib = (Except.ok dirs, events0))
    (hstart : lib.Start (dirs ++ crdPaths) = Except.ok cfg)
    (herr : (SetupEnvTest lib crdPaths).err = some e) :
    (SetupEnvTest lib crdPaths).cfg = none ∧ (SetupEnvTest lib crdPaths).client = none ∧
    (SetupEnvTest lib crdPaths).teardown = none ∧
    (∃ mid, (SetupEnvTest lib crdPaths).events =
        events0 ++ [EnvEvent.Start (dirs ++ crdPaths)] ++ mid ++ [EnvEvent.Stop] ∧
      EnvEvent.Stop ∉ events0 ∧ EnvEvent.Stop ∉ mid) ∧
    ((∃ name e', e = Err.wrap ("envtest: failed to register " ++ name ++ " scheme: ") e') ∨
      ∃ e', e = Err.wrap "envtest: failed to create client: " e') := by
  have h0 : EnvEvent.Stop ∉ events0 := by
    intro hmem
    have := fakeCRDSubDirs_events lib EnvEvent.Stop (by rw [hdirs]; exact hmem)
    obtain ⟨p, hp⟩ := this
    cases hp
  obtain ⟨added, hadd, hkind⟩ := registerSchemes_events (schemeAdders lib) lib.NewScheme
    (events0 ++ [EnvEvent.Start (dirs ++ crdPaths)])
  have hnot : EnvEvent.Stop ∉ added := by
    intro hmem
    obtain ⟨n, hn⟩ := hkind _ hmem
    cases hn
  cases hreg : registerSchemes (schemeAdders lib) lib.NewScheme
      (events0 ++ [EnvEvent.Start (dirs ++ crdPaths)]) with
  | mk r events2 =>
    rw [hreg] at hadd
    simp only at hadd
    cases r with
    | error ne =>
      obtain ⟨name, e'⟩ := ne
      have hS : SetupEnvTest lib crdPaths =
          { cfg := none, client := none, teardown := none,
            err := some (Err.wrap ("envtest: failed to register " ++ name ++ " scheme: ") e'),
            events := events2 ++ [EnvEvent.Stop] } := by
        simp only [SetupEnvTest, hdirs, hstart, hreg]
      rw [hS] at herr ⊢
      simp only [Option.some.injEq] at herr
      refine ⟨rfl, rfl, rfl, ⟨added, ?_, h0, hnot⟩, Or.inl ⟨name, e', herr.symm⟩⟩
      simp only [hadd]
    | ok s =>
      cases hnew : lib.NewClient cfg s with
      | error e' =>
        have hS : SetupEnvTest lib crdPaths =
            { cfg := none, client := none, teardown := none,
              err := some (Err.wrap "envtest: failed to create client: " e'),
              events := events2 ++ [EnvEvent.NewClient, EnvEvent.Stop] } := by
          simp only [SetupEnvTest, hdirs, hstart, hreg, hnew]
        rw [hS] at herr ⊢
        simp only [Option.some.injEq] at herr
        refine ⟨rfl, rfl, rfl, ⟨added ++ [EnvEvent.NewClient], ?_, h0, ?_⟩,
          Or.inr ⟨e', herr.symm⟩⟩
        · simp [hadd]
        · simp [hnot]
      | ok k =>
        have hS : (SetupEnvTest lib crdPaths).err = none := by
          simp only [SetupEnvTest, hdirs, hstart, hreg, hnew]
        rw [hS] at herr
        cases herr

/-- Witness for C18: the registration of `appsv1` fails (and so does `Stop`);
the client construction fails. -/
theorem SetupEnvTest_stops_on_failure_witness :
    ((SetupEnvTest badSchemeEnvLib ["extra/crds"]).cfg = none ∧
      (SetupEnvTest badSchemeEnvLib ["extra/crds"]).teardown = none ∧
      (SetupEnvTest badSchemeEnvLib ["extra/crds"]).events.getLast? = some EnvEvent.Stop) ∧
    ((SetupEnvTest badClientEnvLib []).client = none ∧
      (SetupEnvTest badClientEnvLib []).events.getLast? = some EnvEvent.Stop) :=
  ⟨⟨(SetupEnvTest_stops_on_failure badSchemeEnvLib ["extra/crds"]
        ["testutil/envtest/../fake_crds/eso", "testutil/envtest/../fake_crds/mariadb"]
        [EnvEvent.ReadDir "testutil/envtest/../fake_crds"]
        ["testutil/envtest/../fake_crds/eso", "testutil/envtest/../fake_crds/mariadb",
          "extra/crds"]
        (Err.wrap "envtest: failed to register appsv1 scheme: "
          (Err.plain "type registered twice")) rfl rfl (by decide)).1,
      (SetupEnvTest_stops_on_failure badSchemeEnvLib ["extra/crds"]
        ["testutil/envtest/../fake_crds/eso", "testutil/envtest/../fake_crds/mariadb"]
        [EnvEvent.ReadDir "testutil/envtest/../fake_crds"]
        ["testutil/envtest/../fake_crds/eso", "testutil/envtest/../fake_crds/mariadb",
          "extra/crds"]
        (Err.wrap "envtest: failed to register appsv1 scheme: "
          (Err.plain "type registered twice")) rfl rfl (by decide)).2.2.1,
      by decide⟩,
    ⟨(SetupEnvTest_stops_on_failure badClientEnvLib []
        ["testutil/envtest/../fake_crds/eso", "testutil/envtest/../fake_crds/mariadb"]
        [EnvEvent.ReadDir "testutil/envtest/../fake_crds"]
        ["testutil/envtest/../fake_crds/eso", "testutil/envtest/../fake_crds/mariadb"]
        (Err.wrap "envtest: failed to create client: " (Err.plain "no such host"))
        rfl rfl (by decide)).2.1,
      by decide⟩⟩

/-- C19. When the source file is known to the runtime and the bundled
`fake_crds` directory `base` can be read, `SetupEnvTest(crdPaths...)` reads
that one directory and starts the environment once, with the manifest paths
`Join(base, name)` of the entries of `base` that are directories, in the order
listed, followed by `crdPaths` in the order given, and nothing else. -/
theorem SetupEnvTest_manifest_paths {Config Scheme Cl : Type} (lib : EnvLib Config Scheme Cl)
    (crdPaths : List String) (filename : String) (entries : List DirEntry)
    (hcaller : lib.Caller = some filename)
    (hread : lib.ReadDir (lib.Join [lib.Dir filename, "..", "fake_crds"]) = Except.ok entries) :
    (fakeCRDSubDirs lib).1 =
      Except.ok ((entries.filter (fun e => e.IsDir)).map
        (fun e => lib.Join [lib.Join [lib.Dir filename, "..", "fake_crds"], e.Name])) ∧
    ∃ rest, (SetupEnvTest lib crdPaths).events =
        [EnvEvent.ReadDir (lib.Join [lib.Dir filename, "..", "fake_crds"]),
          EnvEvent.Start ((entries.filter (fun e => e.IsDir)).map
            (fun e => lib.Join [lib.Join [lib.Dir filename, "..", "fake_crds"], e.Name]) ++
            crdPaths)] ++ rest ∧
      (∀ paths, EnvEvent.Start paths ∉ rest) ∧ (∀ path, EnvEvent.ReadDir path ∉ rest) := by
  have hF : fakeCRDSubDirs lib =
      (Except.ok ((entries.filter (fun e => e.IsDir)).map
        (fun e => lib.Join [lib.Join [lib.Dir filename, "..", "fake_crds"], e.Name])),
        [EnvEvent.ReadDir (lib.Join [lib.Dir filename, "..", "fake_crds"])]) := by
    simp only [fakeCRDSubDirs, FakeCRDsPath, hcaller, hread]
  refine ⟨by rw [hF], ?_⟩
  cases hstart : lib.Start ((entries.filter (fun e => e.IsDir)).map
      (fun e => lib.Join [lib.Join [lib.Dir filename, "..", "fake_crds"], e.Name]) ++
      crdPaths) with
  | error e =>
    refine ⟨[], ?_, by simp, by simp⟩
    simp only [SetupEnvTest, hF, hstart]
    rfl
  | ok cfg =>
    obtain ⟨added, hadd, hkind⟩ := registerSchemes_events (schemeAdders lib) lib.NewScheme
      ([EnvEvent.ReadDir (lib.Join [lib.Dir filename, "..", "fake_crds"])] ++
        [EnvEvent.Start ((entries.filter (fun e => e.IsDir)).map
          (fun e => lib.Join [lib.Join [lib.Dir filename, "..", "fake_crds"], e.Name]) ++
          crdPaths)])
    have hnoStart : ∀ paths, EnvEvent.Start paths ∉ added := by
      intro paths hmem
      obtain ⟨n, hn⟩ := hkind _ hmem
      cases hn
    have hnoRead : ∀ path, EnvEvent.ReadDir path ∉ added := by
      intro path hmem
      obtain ⟨n, hn⟩ := hkind _ hmem
      cases hn
    cases hreg : registerSchemes (schemeAdders lib) lib.NewScheme
        ([EnvEvent.ReadDir (lib.Join [lib.Dir filename, "..", "fake_crds"])] ++
          [EnvEvent.Start ((entries.filter (fun e => e.IsDir)).map
            (fun e => lib.Join [lib.Join [lib.Dir filename, "..", "fake_crds"], e.Name]) ++
            crdPaths)]) with
    | mk r events2 =>
      rw [hreg] at hadd
      simp only at hadd
      cases r with
      | error ne =>
        obtain ⟨name, e'⟩ := ne
        refine ⟨added ++ [EnvEvent.Stop], ?_, ?_, ?_⟩
        · simp only [SetupEnvTest, hF, hstart, hreg, hadd]
          simp
        · intro paths
          simp [hnoStart]
        · intro path
          simp [hnoRead]
      | ok s =>
        cases hnew : lib.NewClient cfg s with
        | error e' =>
          refine ⟨added ++ [EnvEvent.NewClient, EnvEvent.Stop], ?_, ?_, ?_⟩
          · simp only [SetupEnvTest, hF, hstart, hreg, hnew, hadd]
            simp
          · intro paths
            simp [hnoStart]
          · intro path
            simp [hnoRead]
        | ok k =>
          refine ⟨added ++ [EnvEvent.NewClient], ?_, ?_, ?_⟩
          · simp only [SetupEnvTest, hF, hstart, hreg, hnew, hadd]
            simp
          · intro paths
            simp [hnoStart]
          · intro path
            simp [hnoRead]

/-- Witness for C19: a bundled directory with the entries `eso` (directory),
`README.md` (file) and `mariadb` (directory), and one caller-supplied path. -/
theorem SetupEnvTest_manifest_paths_witness :
    goodEnvLib.Caller = some "testutil/envtest/setup.go" ∧
    ∃ rest, (SetupEnvTest goodEnvLib ["extra/crds"]).events =
        [EnvEvent.ReadDir "testutil/envtest/../fake_crds",
          EnvEvent.Start ["testutil/envtest/../fake_crds/eso",
            "testutil/envtest/../fake_crds/mariadb", "extra/crds"]] ++ rest ∧
      (∀ paths, EnvEvent.Start paths ∉ rest) ∧ (∀ path, EnvEvent.ReadDir path ∉ rest) :=
  ⟨rfl,
    (SetupEnvTest_manifest_paths goodEnvLib ["extra/crds"] "testutil/envtest/setup.go"
      [⟨"eso", true⟩, ⟨"README.md", false⟩, ⟨"mariadb", true⟩] rfl rfl).2⟩

/-! ### Which errors are passed on -/

theorem Err.wraps_wrap_of {x e : Err} (t : String) (h : x.wraps e = true) :
    (Err.wrap t x).wraps e = true := by
  rw [Err.wraps]
  split
  · rfl
  · exact h

/-- Recording the replies changes nothing else: `createOrGet` on the recording
client returns what it returns on the client itself. -/
theorem createOrGet_traced_eq {σ O : Type} [ClientObject O] (c : Client σ O)
    (w : Session (Traced σ)) (obj : O) (kind : String) :
    (createOrGet c.traced w obj kind).err = (createOrGet c ⟨w.store.1, w.calls⟩ obj kind).err ∧
    (createOrGet c.traced w obj kind).obj = (createOrGet c ⟨w.store.1, w.calls⟩ obj kind).obj ∧
    (createOrGet c.traced w obj kind).session.store.1 =
      (createOrGet c ⟨w.store.1, w.calls⟩ obj kind).session.store ∧
    (createOrGet c.traced w obj kind).session.calls =
      (createOrGet c ⟨w.store.1, w.calls⟩ obj kind).session.calls := by
  simp only [createOrGet, Client.create, Client.get, Client.traced]
  split
  · exact ⟨rfl, rfl, rfl, rfl⟩
  · split
    · split <;> exact ⟨rfl, rfl, rfl, rfl⟩
    · exact ⟨rfl, rfl, rfl, rfl⟩

theorem simulateUnstructuredReady_traced_eq {σ : Type} (c : Client σ Unstructured)
    (w : Session (Traced σ)) (now : String) (gvk : GroupVersionKind)
    (name ns condReason condMessage : String) :
    (simulateUnstructuredReady c.traced w now gvk name ns condReason condMessage).err =
      (simulateUnstructuredReady c ⟨w.store.1, w.calls⟩ now gvk name ns condReason
        condMessage).err := by
  obtain ⟨h1, h2, h3, h4⟩ := createOrGet_traced_eq c w (newUnstructured gvk name ns) gvk.Kind
  simp only [simulateUnstructuredReady]
  generalize createOrGet c.traced w (newUnstructured gvk name ns) gvk.Kind = r at *
  generalize createOrGet c ⟨w.store.1, w.calls⟩ (newUnstructured gvk name ns) gvk.Kind = r' at *
  obtain ⟨⟨⟨st, log⟩, calls⟩, rerr, robj⟩ := r
  obtain ⟨⟨st', calls'⟩, rerr', robj'⟩ := r'
  simp only at h1 h2 h3 h4
  subst h1 h2 h3 h4
  cases rerr with
  | some e => rfl
  | none =>
    simp only
    cases SetNestedField robj.Object (Value.bool true) ["status", "ready"] with
    | error msg => rfl
    | ok o1 =>
      simp only
      cases SetNestedField o1 (readyConditions condReason condMessage now)
          ["status", "conditions"] with
      | error msg => rfl
      | ok o2 => rfl

theorem SimulateJobComplete_traced_eq {σ : Type} (c : Client σ Job) (w : Session (Traced σ))
    (now : Time) (name ns : String) :
    (SimulateJobComplete c.traced w now name ns).err =
      (SimulateJobComplete c ⟨w.store.1, w.calls⟩ now name ns).err := by
  obtain ⟨h1, h2, h3, h4⟩ := createOrGet_traced_eq c w (newJob name ns) "Job"
  simp only [SimulateJobComplete]
  generalize createOrGet c.traced w (newJob name ns) "Job" = r at *
  generalize createOrGet c ⟨w.store.1, w.calls⟩ (newJob name ns) "Job" = r' at *
  obtain ⟨⟨⟨st, log⟩, calls⟩, rerr, robj⟩ := r
  obtain ⟨⟨st', calls'⟩, rerr', robj'⟩ := r'
  simp only at h1 h2 h3 h4
  subst h1 h2 h3 h4
  cases rerr with
  | some e => rfl
  | none => rfl

theorem syncTargetSecret_traced_eq {σ : Type} (cs : Client σ Secret) (w : Session (Traced σ))
    (name ns : String) (data : Option (List (String × Bytes))) :
    (syncTargetSecret cs.traced w name ns data).err =
      (syncTargetSecret cs ⟨w.store.1, w.calls⟩ name ns data).err := by
  simp only [syncTargetSecret, Client.create, Client.get, Client.update, Client.traced]
  split
  · rfl
  · split
    · rfl
    · split <;> rfl

theorem SimulateExternalSecretSync_traced_eq {σ : Type} (cu : Client σ Unstructured)
    (cs : Client σ Secret) (w : Session (Traced σ)) (now name ns : String)
    (data : Option (List (String × Bytes))) :
    (SimulateExternalSecretSync cu.traced cs.traced w now name ns data).err =
      (SimulateExternalSecretSync cu cs ⟨w.store.1, w.calls⟩ now name ns data).err := by
  obtain ⟨h1, h2, h3, h4⟩ := createOrGet_traced_eq cu w (newUnstructured
    { Group := "external-secrets.io", Version := "v1beta1", Kind := "ExternalSecret" } name ns)
    "ExternalSecret"
  simp only [SimulateExternalSecretSync]
  generalize createOrGet cu.traced w (newUnstructured
    { Group := "external-secrets.io", Version := "v1beta1", Kind := "ExternalSecret" } name ns)
    "ExternalSecret" = r at *
  generalize createOrGet cu ⟨w.store.1, w.calls⟩ (newUnstructured
    { Group := "external-secrets.io", Version := "v1beta1", Kind := "ExternalSecret" } name ns)
    "ExternalSecret" = r' at *
  obtain ⟨⟨⟨st, log⟩, calls⟩, rerr, robj⟩ := r
  obtain ⟨⟨st', calls'⟩, rerr', robj'⟩ := r'
  simp only at h1 h2 h3 h4
  subst h1 h2 h3 h4
  cases rerr with
  | some e => rfl
  | none =>
    simp only
    cases SetNestedField robj.Object (readyConditions "SecretSynced" "Secret was synced" now)
        ["status", "conditions"] with
    | error msg => rfl
    | ok o =>
      simp only
      cases hp : (cu.StatusPatch st { Object := o } robj).err with
      | some e1 => simp [Client.statusPatch, Client.traced, hp]
      | none =>
        simp only [Client.statusPatch, Client.traced, hp]
        exact syncTargetSecret_traced_eq cs _ name ns data

theorem AssertResourceExists_traced_eq {σ O : Type} [ClientObject O] (lib : TextLib)
    (c : Client σ O) (w : Session (Traced σ)) (g : Gomega) (key : ObjectKey) (obj : O) :
    (AssertResourceExists lib c.traced w g key obj).gomega =
      (AssertResourceExists lib c ⟨w.store.1, w.calls⟩ g key obj).gomega ∧
    (AssertResourceNotExists lib c.traced w g key obj).gomega =
      (AssertResourceNotExists lib c ⟨w.store.1, w.calls⟩ g key obj).gomega :=
  ⟨rfl, rfl⟩

theorem EventuallyCondition.attempt_traced_eq {σ O : Type} [ClientObject O] (lib : TextLib)
    (plib : PollLib O) (c : Client σ O) (w : Session (Traced σ)) (obj : O)
    (condType status : String) :
    (EventuallyCondition.attempt lib plib c.traced w obj condType status).failure =
      (EventuallyCondition.attempt lib plib c ⟨w.store.1, w.calls⟩ obj condType status).failure ∧
    (EventuallyCondition.attempt lib plib c.traced w obj condType status).obj =
      (EventuallyCondition.attempt lib plib c ⟨w.store.1, w.calls⟩ obj condType status).obj := by
  simp only [EventuallyCondition.attempt, Client.get, Client.traced]
  split
  · exact ⟨rfl, rfl⟩
  · split
    · exact ⟨rfl, rfl⟩
    · split <;> exact ⟨rfl, rfl⟩

theorem SecretBuilder.Create_traced_eq {σ : Type} (c : Client σ Secret) (h : Heap) (b : Ref)
    (w : Session (Traced σ)) :
    (SecretBuilder.Create c.traced h b w).err =
      (SecretBuilder.Create c h b ⟨w.store.1, w.calls⟩).err ∧
    (SecretBuilder.Create c.traced h b w).secret =
      (SecretBuilder.Create c h b ⟨w.store.1, w.calls⟩).secret := by
  simp only [SecretBuilder.Create, Client.create, Client.traced]
  split <;> exact ⟨rfl, rfl⟩

/-- The owner references named by a chain of setter calls, in call order. -/
theorem ownerArgs_map (rs : List OwnerReference) :
    (rs.map Setter.WithOwnerRef).filterMap Setter.ownerRef = rs := by
  induction rs with
  | nil => rfl
  | cons r rs ih => simp [List.filterMap_cons, Setter.ownerRef, ih]

/-- One setter call, as seen by the two fields the builder allocates itself:
`WithOwnerRef` appends its argument to the owner references and every other
setter leaves them alone; `WithLabels` leaves a non-nil label map and every
other setter leaves the label map as it was. -/
theorem Setter.apply_lists {h : Heap} {b : Ref} {s : SecretStruct} (op : Setter)
    (hb : h[b]? = some (Cell.secret s))
    (hlab : ∀ l, s.Labels = some l → ∃ m, h[l]? = some (Cell.stringMap m))
    (hown : ∀ o, s.OwnerReferences = some o → ∃ L, h[o]? = some (Cell.ownerRefs L)) :
    ∃ s', (op.apply h b)[b]? = some (Cell.secret s') ∧
      (∀ l, s'.Labels = some l → ∃ m, (op.apply h b)[l]? = some (Cell.stringMap m)) ∧
      (∀ o, s'.OwnerReferences = some o → ∃ L, (op.apply h b)[o]? = some (Cell.ownerRefs L)) ∧
      (∀ r, op = Setter.WithOwnerRef r →
        Heap.readOwnerRefs (op.apply h b) s'.OwnerReferences =
          some ((h.readOwnerRefs s.OwnerReferences).getD [] ++ [r])) ∧
      ((∀ r, op ≠ Setter.WithOwnerRef r) →
        Heap.readOwnerRefs (op.apply h b) s'.OwnerReferences =
          h.readOwnerRefs s.OwnerReferences) ∧
      ((∃ a, op = Setter.WithLabels a) → s'.Labels ≠ none) ∧
      ((∀ a, op ≠ Setter.WithLabels a) → s'.Labels = s.Labels) := by
  have hblt : b < h.length := (List.getElem?_eq_some_iff.mp hb).1
  have hupd : ∀ f : SecretStruct → SecretStruct, (f s).Labels = s.Labels →
      (f s).OwnerReferences = s.OwnerReferences →
      (h.updateSecret b f)[b]? = some (Cell.secret (f s)) ∧
      (∀ l, (f s).Labels = some l → ∃ m, (h.updateSecret b f)[l]? = some (Cell.stringMap m)) ∧
      (∀ o, (f s).OwnerReferences = some o →
        ∃ L, (h.updateSecret b f)[o]? = some (Cell.ownerRefs L)) ∧
      Heap.readOwnerRefs (h.updateSecret b f) (f s).OwnerReferences =
        h.readOwnerRefs s.OwnerReferences := by
    intro f hfl hfo
    have hU : h.updateSecret b f = h.set b (Cell.secret (f s)) := by
      simp only [Heap.updateSecret, hb]
    rw [hU]
    refine ⟨List.getElem?_set_self hblt, ?_, ?_, ?_⟩
    · intro l hl
      rw [hfl] at hl
      obtain ⟨m, hm⟩ := hlab l hl
      have hne : b ≠ l := by
        intro e
        rw [← e, hb] at hm
        simp at hm
      exact ⟨m, by rw [List.getElem?_set_ne hne]; exact hm⟩
    · intro o ho
      rw [hfo] at ho
      obtain ⟨L, hL⟩ := hown o ho
      have hne : b ≠ o := by
        intro e
        rw [← e, hb] at hL
        simp at hL
      exact ⟨L, by rw [List.getElem?_set_ne hne]; exact hL⟩
    · rw [hfo]
      exact (reads_set_secret hb (f s) s.OwnerReferences).2.1
  cases op with
  | WithName name =>
    obtain ⟨u1, u2, u3, u4⟩ := hupd (fun s => { s with Name := name }) rfl rfl
    exact ⟨_, u1, u2, u3, (fun r hr => by cases hr), fun _ => u4, (fun ⟨a, ha⟩ => by cases ha),
      fun _ => rfl⟩
  | WithNamespace ns =>
    obtain ⟨u1, u2, u3, u4⟩ := hupd (fun s => { s with Namespace := ns }) rfl rfl
    exact ⟨_, u1, u2, u3, (fun r hr => by cases hr), fun _ => u4, (fun ⟨a, ha⟩ => by cases ha),
      fun _ => rfl⟩
  | WithData d =>
    obtain ⟨u1, u2, u3, u4⟩ := hupd (fun s => { s with Data := d }) rfl rfl
    exact ⟨_, u1, u2, u3, (fun r hr => by cases hr), fun _ => u4, (fun ⟨a, ha⟩ => by cases ha),
      fun _ => rfl⟩
  | WithStringData d =>
    obtain ⟨u1, u2, u3, u4⟩ := hupd (fun s => { s with StringData := d }) rfl rfl
    exact ⟨_, u1, u2, u3, (fun r hr => by cases hr), fun _ => u4, (fun ⟨a, ha⟩ => by cases ha),
      fun _ => rfl⟩
  | WithLabels a =>
    obtain ⟨l, m0, hcase, w1, w2, w3⟩ := WithLabels_spec h b s a hb hlab
    refine ⟨{ s with Labels := some l }, w1, ?_, ?_, (fun r hr => by cases hr), ?_,
      (fun _ => by simp), fun hn => absurd rfl (hn a)⟩
    · intro l' hl'
      simp only [Option.some.injEq] at hl'
      subst hl'
      exact ⟨_, w2⟩
    · intro o ho
      simp only at ho
      obtain ⟨L, hL⟩ := hown o ho
      have holt : o < h.length := (List.getElem?_eq_some_iff.mp hL).1
      have hob : o ≠ b := by
        intro e
        rw [e, hb] at hL
        simp at hL
      have hol : o ≠ l := by
        intro e
        rcases hcase with ⟨_, hm⟩ | ⟨_, hlen, _⟩
        · rw [e, hm] at hL
          simp at hL
        · rw [e, hlen] at holt
          exact Nat.lt_irrefl _ holt
      exact ⟨L, by rw [Setter.apply, w3 o hob hol holt]; exact hL⟩
    · intro _
      cases ho : s.OwnerReferences with
      | none => simp [Heap.readOwnerRefs, ho]
      | some o =>
        obtain ⟨L, hL⟩ := hown o ho
        have holt : o < h.length := (List.getElem?_eq_some_iff.mp hL).1
        have hob : o ≠ b := by
          intro e
          rw [e, hb] at hL
          simp at hL
        have hol : o ≠ l := by
          intro e
          rcases hcase with ⟨_, hm⟩ | ⟨_, hlen, _⟩
          · rw [e, hm] at hL
            simp at hL
          · rw [e, hlen] at holt
            exact Nat.lt_irrefl _ holt
        simp only [ho, Heap.readOwnerRefs, Setter.apply, w3 o hob hol holt]
  | WithOwnerRef r =>
    have hW : Forge.WithOwnerRef h b r =
        (h ++ [Cell.ownerRefs (((h.readOwnerRefs s.OwnerReferences).getD []) ++ [r])]).set b
          (Cell.secret { s with OwnerReferences := some h.length }) := by
      simp only [Forge.WithOwnerRef, hb]
    have hblt' : b < (h ++ [Cell.ownerRefs
        (((h.readOwnerRefs s.OwnerReferences).getD []) ++ [r])]).length := by
      rw [List.length_append]
      exact Nat.lt_of_lt_of_le hblt (Nat.le_add_right _ _)
    have hnew : (Forge.WithOwnerRef h b r)[h.length]? =
        some (Cell.ownerRefs (((h.readOwnerRefs s.OwnerReferences).getD []) ++ [r])) := by
      rw [hW, List.getElem?_set_ne (Nat.ne_of_lt hblt)]
      exact getElem?_append_cons_length h _ []
    have hold : ∀ q : Ref, q ≠ b → q < h.length → (Forge.WithOwnerRef h b r)[q]? = h[q]? := by
      intro q hq hlt
      rw [hW, List.getElem?_set_ne (Ne.symm hq), List.getElem?_append_left hlt]
    refine ⟨{ s with OwnerReferences := some h.length }, ?_, ?_, ?_, ?_,
      fun hn => absurd rfl (hn r), (fun ⟨a, ha⟩ => by cases ha), fun _ => rfl⟩
    · simp only [Setter.apply]
      rw [hW]
      exact List.getElem?_set_self hblt'
    · intro l hl
      simp only at hl
      obtain ⟨m, hm⟩ := hlab l hl
      have hllt : l < h.length := (List.getElem?_eq_some_iff.mp hm).1
      have hlb : l ≠ b := by
        intro e
        rw [e, hb] at hm
        simp at hm
      exact ⟨m, by rw [Setter.apply, hold l hlb hllt]; exact hm⟩
    · intro o ho
      simp only [Option.some.injEq] at ho
      subst ho
      exact ⟨_, hnew⟩
    · intro r' hr'
      cases hr'
      simp only [Heap.readOwnerRefs, Setter.apply, hnew]

/-- A chain of setter calls, as seen by the two fields the builder allocates
itself: the owner references grow by the arguments of the `WithOwnerRef` calls,
in call order, and the label map is nil afterwards exactly if it was nil before
and the chain has no `WithLabels` call. -/
theorem runSetters_lists (ops : List Setter) {h : Heap} {b : Ref} {s : SecretStruct}
    (hb : h[b]? = some (Cell.secret s))
    (hlab : ∀ l, s.Labels = some l → ∃ m, h[l]? = some (Cell.stringMap m))
    (hown : ∀ o, s.OwnerReferences = some o → ∃ L, h[o]? = some (Cell.ownerRefs L)) :
    ∃ s', (runSetters h b ops)[b]? = some (Cell.secret s') ∧
      (∀ l, s'.Labels = some l → ∃ m, (runSetters h b ops)[l]? = some (Cell.stringMap m)) ∧
      Heap.readOwnerRefs (runSetters h b ops) s'.OwnerReferences =
        (if ops.filterMap Setter.ownerRef = [] then h.readOwnerRefs s.OwnerReferences
          else some ((h.readOwnerRefs s.OwnerReferences).getD [] ++
            ops.filterMap Setter.ownerRef)) ∧
      (s'.Labels = none ↔ s.Labels = none ∧ ∀ a, Setter.WithLabels a ∉ ops) := by
  induction ops generalizing h s with
  | nil => exact ⟨s, hb, hlab, by simp [runSetters], by simp⟩
  | cons op ops ih =>
    obtain ⟨s1, a1, a2, a3, a4, a5, a6, a7⟩ := Setter.apply_lists op hb hlab hown
    obtain ⟨s2, b1, b2, b3, b4⟩ := ih a1 a2 a3
    have hrun : runSetters h b (op :: ops) = runSetters (op.apply h b) b ops := rfl
    refine ⟨s2, by rw [hrun]; exact b1, by rw [hrun]; exact b2, ?_, ?_⟩
    · rw [hrun, b3]
      cases op with
      | WithOwnerRef r =>
        rw [a4 r rfl]
        by_cases hr : ops.filterMap Setter.ownerRef = [] <;>
          simp [List.filterMap_cons, Setter.ownerRef, hr]
      | WithName x =>
        rw [a5 (fun r hr => by cases hr)]
        simp [List.filterMap_cons, Setter.ownerRef]
      | WithNamespace x =>
        rw [a5 (fun r hr => by cases hr)]
        simp [List.filterMap_cons, Setter.ownerRef]
      | WithData x =>
        rw [a5 (fun r hr => by cases hr)]
        simp [List.filterMap_cons, Setter.ownerRef]
      | WithStringData x =>
        rw [a5 (fun r hr => by cases hr)]
        simp [List.filterMap_cons, Setter.ownerRef]
      | WithLabels x =>
        rw [a5 (fun r hr => by cases hr)]
        simp [List.filterMap_cons, Setter.ownerRef]
    · rw [b4]
      by_cases hop : ∃ a, op = Setter.WithLabels a
      · have h1 := a6 hop
        obtain ⟨a, rfl⟩ := hop
        constructor
        · intro hx
          exact absurd hx.1 h1
        · intro hx
          exact absurd (List.mem_cons_self _ _) (hx.2 a)
      · have h1 := a7 (fun a e => hop ⟨a, e⟩)
        rw [h1]
        constructor
        · rintro ⟨x1, x2⟩
          refine ⟨x1, fun a ha => ?_⟩
          rcases List.mem_cons.mp ha with e | e
          · exact hop ⟨a, e.symm⟩
          · exact x2 a e
        · rintro ⟨x1, x2⟩
          exact ⟨x1, fun a ha => x2 a (List.mem_cons_of_mem _ ha)⟩

/-- The Secret that `Build()` returns for the builder reached from
`NewSecretBuilder()` by the chain `ops`: its owner references are the arguments
of the `WithOwnerRef` calls of the chain, in call order (nil if there is none),
and its label map is nil exactly if the chain has no `WithLabels` call. -/
theorem Build_lists (h0 : Heap) (ops : List Setter) (hclosed : h0.Closed)
    (hargs : ∀ op ∈ ops, ∀ r ∈ op.argRefs, r < h0.length) :
    ∃ v : Secret,
      Heap.viewSecret (Build (builderAfter h0 ops).1 (builderAfter h0 ops).2).1
        (Build (builderAfter h0 ops).1 (builderAfter h0 ops).2).2 = some v ∧
      v.OwnerReferences = (if ops.filterMap Setter.ownerRef = [] then none
        else some (ops.filterMap Setter.ownerRef)) ∧
      (v.Labels = none ↔ ∀ a, Setter.WithLabels a ∉ ops) ∧
      ((∀ name, Setter.WithName name ∉ ops) → v.Name = "") ∧
      ((∀ ns, Setter.WithNamespace ns ∉ ops) → v.Namespace = "") ∧
      ((∀ d, Setter.WithData d ∉ ops) → v.Data = none) ∧
      ((∀ d, Setter.WithStringData d ∉ ops) → v.StringData = none) := by
  obtain ⟨n1, n2, _⟩ := NewSecretBuilder_inv hclosed
  have hbp : (NewSecretBuilder h0).2 = h0.length := rfl
  have hlow0 : ∀ q : Ref, q < h0.length → (NewSecretBuilder h0).1[q]? = h0[q]? :=
    fun q hq => List.getElem?_append_left hq
  obtain ⟨s, ⟨a1, a2, _⟩, ⟨f1, f2, f3, f4⟩, _⟩ :=
    runSetters_view ops hclosed (Nat.le_of_eq hbp.symm) n1 n2 hlow0
      (fun l hl => by simp [zeroSecret] at hl) (fun r hr => by simp [zeroSecret] at hr)
      (fun r hr => by simp [zeroSecret] at hr) hargs
  obtain ⟨s', c1, c2, c3, c4⟩ := runSetters_lists ops n2
    (fun l hl => by simp [zeroSecret] at hl) (fun o ho => by simp [zeroSecret] at ho)
  rw [a2] at c1
  simp only [Option.some.injEq, Cell.secret.injEq] at c1
  subst c1
  have hB := (Build_view a1 a2 []).1
  rw [List.append_nil] at hB
  refine ⟨_, hB, ?_, ?_, ?_, ?_, ?_, ?_⟩
  · show Heap.readOwnerRefs _ s.OwnerReferences = _
    rw [c3]
    simp [zeroSecret, Heap.readOwnerRefs]
  · show Heap.readStringMap _ s.Labels = none ↔ _
    have hz : zeroSecret.Labels = none := rfl
    rw [← (show (s.Labels = none ↔ ∀ a, Setter.WithLabels a ∉ ops) from by
      rw [c4]; simp [hz])]
    cases hl : s.Labels with
    | none => simp [Heap.readStringMap]
    | some l =>
      obtain ⟨m, hm⟩ := c2 l hl
      simp [Heap.readStringMap, hm]
  · intro hn
    exact (f1 hn).trans rfl
  · intro hn
    exact (f2 hn).trans rfl
  · intro hn
    exact (f3 hn).trans rfl
  · intro hn
    exact (f4 hn).trans rfl

/-- C21. `WithOwnerRef` appends. For every list `rs` of owner references, the
builder reached from `NewSecretBuilder()` by calling `WithOwnerRef` with the
entries of `rs` in turn yields a `Build()` whose OwnerReferences are `rs`: the
same entries in call order, duplicates kept (and the nil slice if `rs` is
empty). Calls of the other setters in between change nothing about this: for
any chain of setter calls the owner references built are the arguments of its
`WithOwnerRef` calls, in call order. -/
theorem WithOwnerRef_appends (h0 : Heap) (rs : List OwnerReference) (hclosed : h0.Closed) :
    (∃ v : Secret,
      Heap.viewSecret
        (Build (builderAfter h0 (rs.map Setter.WithOwnerRef)).1
          (builderAfter h0 (rs.map Setter.WithOwnerRef)).2).1
        (Build (builderAfter h0 (rs.map Setter.WithOwnerRef)).1
          (builderAfter h0 (rs.map Setter.WithOwnerRef)).2).2 = some v ∧
      v.OwnerReferences.getD [] = rs ∧
      (rs ≠ [] → v.OwnerReferences = some rs) ∧ (rs = [] → v.OwnerReferences = none)) ∧
    (∀ ops : List Setter, (∀ op ∈ ops, ∀ r ∈ op.argRefs, r < h0.length) →
      ∃ v : Secret,
        Heap.viewSecret (Build (builderAfter h0 ops).1 (builderAfter h0 ops).2).1
          (Build (builderAfter h0 ops).1 (builderAfter h0 ops).2).2 = some v ∧
        v.OwnerReferences.getD [] = ops.filterMap Setter.ownerRef) := by
  constructor
  · obtain ⟨v, hv, ho, _⟩ := Build_lists h0 (rs.map Setter.WithOwnerRef) hclosed
      (fun op hop r hr => by
        obtain ⟨x, _, rfl⟩ := List.mem_map.mp hop
        simp [Setter.argRefs] at hr)
    rw [ownerArgs_map] at ho
    refine ⟨v, hv, ?_, ?_, ?_⟩
    · rw [ho]
      by_cases hr : rs = [] <;> simp [hr]
    · intro hr
      rw [ho, if_neg hr]
    · intro hr
      rw [ho, if_pos hr]
  · intro ops hargs
    obtain ⟨v, hv, ho, _⟩ := Build_lists h0 ops hclosed hargs
    refine ⟨v, hv, ?_⟩
    rw [ho]
    by_cases hr : ops.filterMap Setter.ownerRef = [] <;> simp [hr]

/-- Witness for C21: the two owner references of the test, the first one given
a second time. -/
theorem WithOwnerRef_appends_witness :
    copyTestHeap.Closed ∧
    ∃ v : Secret,
      Heap.viewSecret
        (Build (builderAfter copyTestHeap
          ([ownerRef1, ownerRef2, ownerRef1].map Setter.WithOwnerRef)).1
          (builderAfter copyTestHeap
            ([ownerRef1, ownerRef2, ownerRef1].map Setter.WithOwnerRef)).2).1
        (Build (builderAfter copyTestHeap
          ([ownerRef1, ownerRef2, ownerRef1].map Setter.WithOwnerRef)).1
          (builderAfter copyTestHeap
            ([ownerRef1, ownerRef2, ownerRef1].map Setter.WithOwnerRef)).2).2 = some v ∧
      v.OwnerReferences = some [ownerRef1, ownerRef2, ownerRef1] :=
  ⟨by decide,
    (WithOwnerRef_appends copyTestHeap [ownerRef1, ownerRef2, ownerRef1] (by decide)).1.imp
      (fun _ hv => ⟨hv.1, hv.2.2.1 (by decide)⟩)⟩

/-- C24. A field whose setter was never called is at its zero value in
`Build()`. For the builder reached from `NewSecretBuilder()` by any chain `ops`
of setter calls: Name and Namespace are empty, Data, StringData and Labels are
nil and there are no OwnerReferences, each provided `ops` has no call of the
field's setter. So a chain of `WithName` and `WithNamespace` calls only builds
a Secret with nil Data, nil StringData, nil Labels and no OwnerReferences. The
label map is made by the first `WithLabels` call, whatever map that call is
handed: Labels is non-nil exactly if `ops` has a `WithLabels` call. -/
theorem unset_fields_stay_zero (h0 : Heap) (ops : List Setter) (hclosed : h0.Closed)
    (hargs : ∀ op ∈ ops, ∀ r ∈ op.argRefs, r < h0.length) :
    ∃ v : Secret,
      Heap.viewSecret (Build (builderAfter h0 ops).1 (builderAfter h0 ops).2).1
        (Build (builderAfter h0 ops).1 (builderAfter h0 ops).2).2 = some v ∧
      (((∀ name, Setter.WithName name ∉ ops) → v.Name = "") ∧
        ((∀ ns, Setter.WithNamespace ns ∉ ops) → v.Namespace = "") ∧
        ((∀ d, Setter.WithData d ∉ ops) → v.Data = none) ∧
        ((∀ d, Setter.WithStringData d ∉ ops) → v.StringData = none) ∧
        ((∀ a, Setter.WithLabels a ∉ ops) → v.Labels = none) ∧
        ((∀ r, Setter.WithOwnerRef r ∉ ops) → v.OwnerReferences = none)) ∧
      ((∀ op ∈ ops, (∃ name, op = Setter.WithName name) ∨ (∃ ns, op = Setter.WithNamespace ns)) →
        v.Data = none ∧ v.StringData = none ∧ v.Labels = none ∧ v.OwnerReferences = none) ∧
      (v.Labels ≠ none ↔ ∃ a, Setter.WithLabels a ∈ ops) := by
  obtain ⟨v, hv, ho, hl, z1, z2, z3, z4⟩ := Build_lists h0 ops hclosed hargs
  have z6 : (∀ r, Setter.WithOwnerRef r ∉ ops) → v.OwnerReferences = none := by
    intro hn
    rw [ho, if_pos]
    rw [List.filterMap_eq_nil_iff]
    intro op hop
    cases op with
    | WithOwnerRef r => exact absurd hop (hn r)
    | _ => rfl
  refine ⟨v, hv, ⟨z1, z2, z3, z4, hl.mpr, z6⟩, ?_, ?_⟩
  · intro honly
    have hnot : ∀ op ∈ ops, (∀ d, op ≠ Setter.WithData d) ∧ (∀ d, op ≠ Setter.WithStringData d) ∧
        (∀ a, op ≠ Setter.WithLabels a) ∧ (∀ r, op ≠ Setter.WithOwnerRef r) := by
      intro op hop
      rcases honly op hop with ⟨x, rfl⟩ | ⟨x, rfl⟩ <;>
        exact ⟨(fun _ e => by cases e), (fun _ e => by cases e), (fun _ e => by cases e),
          (fun _ e => by cases e)⟩
    exact ⟨z3 (fun d hd => (hnot _ hd).1 d rfl), z4 (fun d hd => (hnot _ hd).2.1 d rfl),
      hl.mpr (fun a ha => (hnot _ ha).2.2.1 a rfl), z6 (fun r hr => (hnot _ hr).2.2.2 r rfl)⟩
  · rw [Ne, hl]
    constructor
    · intro hn
      by_contra hc
      exact hn (fun a ha => hc ⟨a, ha⟩)
    · rintro ⟨a, ha⟩ hn
      exact hn a ha

/-- Witness for C24: the chain of `TestSecretBuilder_PartialChain`, and the
same chain followed by `WithLabels(nil)`. -/
theorem unset_fields_stay_zero_witness :
    copyTestHeap.Closed ∧
    (∀ op ∈ partialChainOps, ∀ r ∈ op.argRefs, r < copyTestHeap.length) ∧
    (∃ v : Secret,
      Heap.viewSecret
        (Build (builderAfter copyTestHeap partialChainOps).1
          (builderAfter copyTestHeap partialChainOps).2).1
        (Build (builderAfter copyTestHeap partialChainOps).1
          (builderAfter copyTestHeap partialChainOps).2).2 = some v ∧
      v.Data = none ∧ v.StringData = none ∧ v.Labels = none ∧ v.OwnerReferences = none) ∧
    (Heap.viewSecret
      (Build (builderAfter copyTestHeap (partialChainOps ++ [Setter.WithLabels none])).1
        (builderAfter copyTestHeap (partialChainOps ++ [Setter.WithLabels none])).2).1
      (Build (builderAfter copyTestHeap (partialChainOps ++ [Setter.WithLabels none])).1
        (builderAfter copyTestHeap (partialChainOps ++ [Setter.WithLabels none])).2).2).map
      Secret.Labels = some (some []) :=
  ⟨by decide, by decide,
    (unset_fields_stay_zero copyTestHeap partialChainOps (by decide) (by decide)).imp
      (fun _ hv => ⟨hv.1, hv.2.2.1 (fun op hop => by
        simp only [partialChainOps, List.mem_cons, List.mem_singleton, List.not_mem_nil,
          or_false] at hop
        rcases hop with rfl | rfl
        · exact Or.inl ⟨_, rfl⟩
        · exact Or.inr ⟨_, rfl⟩)⟩),
    by decide⟩

/-- What `Create` hands the client, for a builder whose `Build()` has value
`v`. -/
theorem SecretBuilder.Create_calls {σ : Type} (c : Client σ Secret) (g : Heap) (b : Ref)
    (w : Session σ) (v : Secret)
    (hv : Heap.viewSecret (Build g b).1 (Build g b).2 = some v) :
    (SecretBuilder.Create c g b w).heap = (Build g b).1 ∧
    (SecretBuilder.Create c g b w).built = (Build g b).2 ∧
    (SecretBuilder.Create c g b w).session.calls = w.calls ++ [Call.Create (Object.secret v)] := by
  refine ⟨?_, ?_, ?_⟩
  · simp only [SecretBuilder.Create]
    split <;> rfl
  · simp only [SecretBuilder.Create]
    split <;> rfl
  · simp only [SecretBuilder.Create, hv, Option.getD_some]
    split <;> rfl

/-- C25. `SecretBuilder.Create` never changes the builder. Let the builder be
reached from `NewSecretBuilder()` by any chain of setter calls, `v` be the
value of its `Build()`, and `r` be the result of `Create` with any client in
any session (so whether the store's Create succeeds or fails). Then after any
allocations `ext` and any sequence `ws` of stores into the object handed to the
client (the cells reachable from `r.built`) or into cells allocated since: every
cell that existed before `Create`, the builder and all it refers to among them,
is as it was; `Build()` returns a Secret of value `v` again; and a further
`Create` hands its client a Secret of value `v`. -/
theorem SecretBuilder_Create_leaves_builder {σ : Type} (c : Client σ Secret) (w : Session σ)
    (h0 : Heap) (ops : List Setter) (hclosed : h0.Closed)
    (hargs : ∀ op ∈ ops, ∀ r ∈ op.argRefs, r < h0.length)
    (h : Heap) (b : Ref) (hst : (h, b) = builderAfter h0 ops)
    (r : Created σ) (hr : r = SecretBuilder.Create c h b w) :
    ∃ v : Secret,
      Heap.viewSecret (Build h b).1 (Build h b).2 = some v ∧
      ∀ (ext : List Cell) (ws : List (Ref × Cell)),
        (∀ x ∈ ws, x.1 ∈ r.heap.reach r.built ∨ r.heap.length ≤ x.1) →
        (∀ q : Ref, q < h.length → (Heap.writeAll (r.heap ++ ext) ws)[q]? = h[q]?) ∧
        Heap.viewSecret (Build (Heap.writeAll (r.heap ++ ext) ws) b).1
          (Build (Heap.writeAll (r.heap ++ ext) ws) b).2 = some v ∧
        ∀ (c' : Client σ Secret) (w' : Session σ),
          (SecretBuilder.Create c' (Heap.writeAll (r.heap ++ ext) ws) b w').session.calls =
            w'.calls ++ [Call.Create (Object.secret v)] := by
  obtain ⟨n1, n2, n3⟩ := NewSecretBuilder_inv hclosed
  obtain ⟨hc, s, hb⟩ := runSetters_inv ops h0.length n1 n2 n3 hargs
  have hh : h = runSetters (NewSecretBuilder h0).1 (NewSecretBuilder h0).2 ops :=
    congrArg Prod.fst hst
  have hbb : b = (NewSecretBuilder h0).2 := congrArg Prod.snd hst
  rw [← hh] at hc hb
  rw [← hbb] at hb
  have hs := structReach_lt hc hb
  have B1 := Build_spec h b s hb hs [] [] (by simp)
  simp only [List.append_nil, Heap.writeAll, List.foldl_nil] at B1
  obtain ⟨⟨e1, he1⟩, hr1, hv1⟩ := B1
  obtain ⟨k1, k2, _⟩ := SecretBuilder.Create_calls c h b w _ hv1
  rw [← hr] at k1 k2
  refine ⟨h.viewStruct s, hv1, fun ext ws hws => ?_⟩
  have hlow : ∀ x ∈ ws, h.length ≤ x.1 := by
    intro x hx
    rcases hws x hx with hm | hm
    · rw [k1, k2] at hm
      exact (hr1 _ hm).1
    · rw [k1, he1, List.length_append] at hm
      exact Nat.le_trans (Nat.le_add_right _ _) hm
  have hheap : r.heap ++ ext = h ++ (e1 ++ ext) := by rw [k1, he1, List.append_assoc]
  have B2 := Build_spec h b s hb hs (e1 ++ ext) ws hlow
  rw [← hheap] at B2
  refine ⟨fun q hq => ?_, B2.2.2, fun c' w' =>
    (SecretBuilder.Create_calls c' _ b w' _ B2.2.2).2.2⟩
  rw [writeAll_getElem? _ ws q (fun x hx e => by
    have := hlow x hx
    rw [e] at this
    exact Nat.lt_irrefl _ (Nat.lt_of_lt_of_le hq this)), hheap]
  exact List.getElem?_append_left hq

/-- Witness for C25: the store accepts the Secret, then writes a uid, a
resource version and a label map of its own into the object it was handed and
overwrites the bytes of its data. -/
theorem SecretBuilder_Create_leaves_builder_witness :
    copyTestHeap.Closed ∧ (∀ op ∈ copyTestOps, ∀ r ∈ op.argRefs, r < copyTestHeap.length) ∧
    (∀ x ∈ storeWrites,
      x.1 ∈ Heap.reach
        (SecretBuilder.Create memSecret (builderAfter copyTestHeap copyTestOps).1
          (builderAfter copyTestHeap copyTestOps).2 emptySession).heap
        (SecretBuilder.Create memSecret (builderAfter copyTestHeap copyTestOps).1
          (builderAfter copyTestHeap copyTestOps).2 emptySession).built ∨
      (SecretBuilder.Create memSecret (builderAfter copyTestHeap copyTestOps).1
        (builderAfter copyTestHeap copyTestOps).2 emptySession).heap.length ≤ x.1) ∧
    ∃ v : Secret,
      Heap.viewSecret
        (Build (builderAfter copyTestHeap copyTestOps).1
          (builderAfter copyTestHeap copyTestOps).2).1
        (Build (builderAfter copyTestHeap copyTestOps).1
          (builderAfter copyTestHeap copyTestOps).2).2 = some v ∧
      Heap.viewSecret
        (Build (Heap.writeAll
          ((SecretBuilder.Create memSecret (builderAfter copyTestHeap copyTestOps).1
            (builderAfter copyTestHeap copyTestOps).2 emptySession).heap ++
            [Cell.stringMap [("managed", "yes")]]) storeWrites)
          (builderAfter copyTestHeap copyTestOps).2).1
        (Build (Heap.writeAll
          ((SecretBuilder.Create memSecret (builderAfter copyTestHeap copyTestOps).1
            (builderAfter copyTestHeap copyTestOps).2 emptySession).heap ++
            [Cell.stringMap [("managed", "yes")]]) storeWrites)
          (builderAfter copyTestHeap copyTestOps).2).2 = some v :=
  ⟨by decide, by decide, by decide,
    (SecretBuilder_Create_leaves_builder memSecret emptySession copyTestHeap copyTestOps
      (by decide) (by decide) _ _ rfl _ rfl).imp
      (fun _ hv => ⟨hv.1,
        (hv.2 [Cell.stringMap [("managed", "yes")]] storeWrites (by decide)).2.1⟩)⟩

/-- The last request of `createOrGet` is a Create or a Get. -/
theorem createOrGet_last_call {σ O : Type} [ClientObject O] (c : Client σ O) (w : Session σ)
    (obj : O) (kind : String) (o : Object) :
    (createOrGet c w obj kind).session.calls.getLast? ≠ some (Call.Update o) := by
  simp only [createOrGet]
  split_ifs <;> simp [Client.create, Client.get]

/-- The requests of the second half of `SimulateExternalSecretSync` when the
target Secret exists and can be fetched. -/
theorem syncTargetSecret_exists_calls {σ : Type} (cs : Client σ Secret) (w : Session σ)
    (name ns : String) (data : Option (List (String × Bytes)))
    (hae : IsAlreadyExists (cs.Create w.store (targetSecret name ns data)).err = true)
    (hget : (cs.Get (cs.Create w.store (targetSecret name ns data)).store
      (ClientObject.key (cs.Create w.store (targetSecret name ns data)).obj) Secret.zero).err =
        none) :
    (syncTargetSecret cs w name ns data).session.calls =
      w.calls ++ [Call.Create (Object.secret (targetSecret name ns data)),
        Call.Get (ClientObject.key (cs.Create w.store (targetSecret name ns data)).obj)
          (Object.secret Secret.zero),
        Call.Update (Object.secret
          { (cs.Get (cs.Create w.store (targetSecret name ns data)).store
              (ClientObject.key (cs.Create w.store (targetSecret name ns data)).obj)
              Secret.zero).obj with Data := data })] := by
  have herr : (cs.create w (targetSecret name ns data)).err =
      (cs.Create w.store (targetSecret name ns data)).err := rfl
  cases he : (cs.Create w.store (targetSecret name ns data)).err with
  | none =>
    rw [he] at hae
    simp [IsAlreadyExists] at hae
  | some e =>
    rw [he] at hae
    simp only [syncTargetSecret, herr, he, hae]
    simp [Client.get, Client.create, Client.update, hget, ClientObject.toObject]

/-- The second half of `SimulateExternalSecretSync` ends with an Update only
when the target Secret exists and can be fetched. -/
theorem syncTargetSecret_last_update {σ : Type} (cs : Client σ Secret) (w : Session σ)
    (name ns : String) (data : Option (List (String × Bytes))) (o : Object)
    (hlast : (syncTargetSecret cs w name ns data).session.calls.getLast? =
      some (Call.Update o)) :
    IsAlreadyExists (cs.Create w.store (targetSecret name ns data)).err = true ∧
    (cs.Get (cs.Create w.store (targetSecret name ns data)).store
      (ClientObject.key (cs.Create w.store (targetSecret name ns data)).obj) Secret.zero).err =
        none := by
  have herr : (cs.create w (targetSecret name ns data)).err =
      (cs.Create w.store (targetSecret name ns data)).err := rfl
  cases he : (cs.Create w.store (targetSecret name ns data)).err with
  | none =>
    simp [syncTargetSecret, herr, he, Client.create] at hlast
  | some e =>
    cases hae : IsAlreadyExists (some e) with
    | false =>
      simp [syncTargetSecret, herr, he, hae, Client.create] at hlast
    | true =>
      refine ⟨rfl, ?_⟩
      cases hg : (cs.Get (cs.Create w.store (targetSecret name ns data)).store
        (ClientObject.key (cs.Create w.store (targetSecret name ns data)).obj) Secret.zero).err with
      | none => rfl
      | some ge =>
        have hgerr : (cs.get (cs.create w (targetSecret name ns data)).session
            (ClientObject.key (cs.create w (targetSecret name ns data)).obj) Secret.zero).err =
            some ge := hg
        simp [syncTargetSecret, herr, he, hae, hgerr] at hlast
        simp [Client.get] at hlast

/-- C26. Whenever the last request of `SimulateExternalSecretSync` is an Update
(it issues no other), the store had answered the Create of the target Secret
with AlreadyExists and the Get that followed without error, and the object of
the Update is the Secret `fetched` by that Get with its Data replaced by
`targetSecretData`: name, namespace, uid, resource version, labels,
annotations, owner references, string data and type are those of `fetched`.
Conversely, when the store answers the Create of the target Secret with
AlreadyExists and the Get without error, these two requests are followed by
that Update. Both hold for every client. -/
theorem sync_update_replaces_data_only {σ : Type} (cu : Client σ Unstructured)
    (cs : Client σ Secret) (w : Session σ) (now name ns : String)
    (targetSecretData : Option (List (String × Bytes))) :
    (∀ (pre : List Call) (o : Object),
      (SimulateExternalSecretSync cu cs w now name ns targetSecretData).session.calls =
        pre ++ [Call.Update o] →
      ∃ st : σ,
        IsAlreadyExists (cs.Create st (targetSecret name ns targetSecretData)).err = true ∧
        (cs.Get (cs.Create st (targetSecret name ns targetSecretData)).store
          (ClientObject.key (cs.Create st (targetSecret name ns targetSecretData)).obj)
          Secret.zero).err = none ∧
        (∃ pre', pre = pre' ++
          [Call.Create (Object.secret (targetSecret name ns targetSecretData)),
            Call.Get (ClientObject.key (cs.Create st (targetSecret name ns targetSecretData)).obj)
              (Object.secret Secret.zero)]) ∧
        ∃ fetched sent : Secret,
          fetched = (cs.Get (cs.Create st (targetSecret name ns targetSecretData)).store
            (ClientObject.key (cs.Create st (targetSecret name ns targetSecretData)).obj)
            Secret.zero).obj ∧
          o = Object.secret sent ∧ sent.Data = targetSecretData ∧
          sent.Name = fetched.Name ∧ sent.Namespace = fetched.Namespace ∧
          sent.UID = fetched.UID ∧ sent.ResourceVersion = fetched.ResourceVersion ∧
          sent.Labels = fetched.Labels ∧ sent.Annotations = fetched.Annotations ∧
          sent.OwnerReferences = fetched.OwnerReferences ∧
          sent.StringData = fetched.StringData ∧ sent.Type' = fetched.Type') ∧
    (∀ w' : Session σ,
      IsAlreadyExists (cs.Create w'.store (targetSecret name ns targetSecretData)).err = true →
      (cs.Get (cs.Create w'.store (targetSecret name ns targetSecretData)).store
        (ClientObject.key (cs.Create w'.store (targetSecret name ns targetSecretData)).obj)
        Secret.zero).err = none →
      (syncTargetSecret cs w' name ns targetSecretData).session.calls =
        w'.calls ++ [Call.Create (Object.secret (targetSecret name ns targetSecretData)),
          Call.Get (ClientObject.key (cs.Create w'.store
            (targetSecret name ns targetSecretData)).obj) (Object.secret Secret.zero),
          Call.Update (Object.secret
            { (cs.Get (cs.Create w'.store (targetSecret name ns targetSecretData)).store
                (ClientObject.key (cs.Create w'.store
                  (targetSecret name ns targetSecretData)).obj)
                Secret.zero).obj with Data := targetSecretData })]) := by
  refine ⟨fun pre o hlast => ?_,
    fun w' hae hget => syncTargetSecret_exists_calls cs w' name ns targetSecretData hae hget⟩
  have hl : (SimulateExternalSecretSync cu cs w now name ns targetSecretData).session.calls.getLast? =
      some (Call.Update o) := by
    rw [hlast]
    simp
  simp only [SimulateExternalSecretSync] at hl hlast
  cases hr : (createOrGet cu w (newUnstructured
      { Group := "external-secrets.io", Version := "v1beta1", Kind := "ExternalSecret" }
      name ns) "ExternalSecret").err with
  | some e =>
    simp only [hr] at hl
    exact absurd hl (createOrGet_last_call _ _ _ _ _)
  | none =>
    simp only [hr] at hl hlast
    cases hs : SetNestedField (createOrGet cu w (newUnstructured
        { Group := "external-secrets.io", Version := "v1beta1", Kind := "ExternalSecret" }
        name ns) "ExternalSecret").obj.Object
        (readyConditions "SecretSynced" "Secret was synced" now) ["status", "conditions"] with
    | error e =>
      simp only [hs] at hl
      exact absurd hl (createOrGet_last_call _ _ _ _ _)
    | ok u =>
      simp only [hs] at hl hlast
      cases hp : (cu.statusPatch (createOrGet cu w (newUnstructured
          { Group := "external-secrets.io", Version := "v1beta1", Kind := "ExternalSecret" }
          name ns) "ExternalSecret").session { Object := u }
          (createOrGet cu w (newUnstructured
            { Group := "external-secrets.io", Version := "v1beta1", Kind := "ExternalSecret" }
            name ns) "ExternalSecret").obj).err with
      | some e =>
        simp only [hp] at hl
        simp [Client.statusPatch] at hl
      | none =>
        simp only [hp] at hl hlast
        obtain ⟨hae, hget⟩ := syncTargetSecret_last_update cs _ name ns targetSecretData o hl
        have hc := syncTargetSecret_exists_calls cs _ name ns targetSecretData hae hget
        rw [hc] at hlast
        have hsplit : ∀ (l : List Call) (a b c : Call), l ++ [a, b, c] = (l ++ [a, b]) ++ [c] := by
          intro l a b c
          simp
        rw [hsplit] at hlast
        obtain ⟨e1, e2⟩ := List.append_inj' hlast rfl
        simp only [List.cons.injEq, Call.Update.injEq, and_true] at e2
        exact ⟨_, hae, hget, ⟨_, e1.symm⟩, _, _, rfl, e2.symm, rfl, rfl, rfl, rfl, rfl, rfl,
          rfl, rfl, rfl, rfl⟩

/-- Witness for C26: the store holds the target Secret with labels, an
annotation, an owner reference, a type, string data and a resource version; the
Update that `SimulateExternalSecretSync` sends is that Secret with the new
Data. -/
theorem sync_update_replaces_data_only_witness :
    (SimulateExternalSecretSync memUnstructured memSecret storedTargetSession "t0" "db-creds"
      "default" (some [("password", [110, 101, 119])])).session.calls =
      (SimulateExternalSecretSync memUnstructured memSecret storedTargetSession "t0" "db-creds"
        "default" (some [("password", [110, 101, 119])])).session.calls.dropLast ++
        [Call.Update (Object.secret
          { storedTarget with Data := some [("password", [110, 101, 119])] })] ∧
    ∃ st : MemStore,
      IsAlreadyExists (memSecret.Create st
        (targetSecret "db-creds" "default" (some [("password", [110, 101, 119])]))).err = true ∧
      (memSecret.Get (memSecret.Create st
          (targetSecret "db-creds" "default" (some [("password", [110, 101, 119])]))).store
        (ClientObject.key (memSecret.Create st
          (targetSecret "db-creds" "default" (some [("password", [110, 101, 119])]))).obj)
        Secret.zero).err = none :=
  ⟨rfl,
    ((sync_update_replaces_data_only memUnstructured memSecret storedTargetSession "t0"
      "db-creds" "default" (some [("password", [110, 101, 119])])).1 _ _ rfl).imp
      (fun _ h => ⟨h.1, h.2.1⟩)⟩

/-- The session and the object handle after a poll attempt are those after its
Get. -/
theorem EventuallyCondition.attempt_session {σ O : Type} [ClientObject O] (lib : TextLib)
    (plib : PollLib O) (c : Client σ O) (w : Session σ) (obj : O) (condType status : String) :
    (EventuallyCondition.attempt lib plib c w obj condType status).session =
      (c.get w (ClientObject.key obj) obj).session ∧
    (EventuallyCondition.attempt lib plib c w obj condType status).obj =
      (c.get w (ClientObject.key obj) obj).obj := by
  simp only [EventuallyCondition.attempt]
  split
  · exact ⟨rfl, rfl⟩
  · split
    · exact ⟨rfl, rfl⟩
    · split <;> exact ⟨rfl, rfl⟩

/-- The failure of a poll attempt, stage by stage. -/
theorem EventuallyCondition.attempt_failure {σ O : Type} [ClientObject O] (lib : TextLib)
    (plib : PollLib O) (c : Client σ O) (w : Session σ) (obj : O) (condType status : String) :
    (∀ e, (c.Get w.store (ClientObject.key obj) obj).err = some e →
      (EventuallyCondition.attempt lib plib c w obj condType status).failure =
        some (plib.succeedFailure e.Error)) ∧
    ((c.Get w.store (ClientObject.key obj) obj).err = none →
      (∀ e, plib.ToUnstructured (c.Get w.store (ClientObject.key obj) obj).obj = Except.error e →
        (EventuallyCondition.attempt lib plib c w obj condType status).failure =
          some (failureMessage "failed to convert object to unstructured"
            (lib.unexpectedErrorFailure e.Error))) ∧
      (∀ unstrMap,
        plib.ToUnstructured (c.Get w.store (ClientObject.key obj) obj).obj =
          Except.ok unstrMap →
        (∀ raw found nestedErr,
          NestedSlice unstrMap ["status", "conditions"] = (raw, found, some nestedErr) →
          (EventuallyCondition.attempt lib plib c w obj condType status).failure =
            some (failureMessage "failed to read .status.conditions"
              (lib.unexpectedErrorFailure nestedErr.Error))) ∧
        (∀ raw, NestedSlice unstrMap ["status", "conditions"] = (raw, false, none) →
          (EventuallyCondition.attempt lib plib c w obj condType status).failure =
            some (failureMessage "object has no .status.conditions field" lib.beTrueFailure)) ∧
        (∀ raw, NestedSlice unstrMap ["status", "conditions"] = (raw, true, none) →
          (EventuallyCondition.attempt lib plib c w obj condType status).failure =
            (AssertCondition lib ⟨[]⟩ (some (convertConditions plib (raw.getD []))) condType
              status).failures.head?))) := by
  have hgerr : (c.get w (ClientObject.key obj) obj).err =
      (c.Get w.store (ClientObject.key obj) obj).err := rfl
  have hgobj : (c.get w (ClientObject.key obj) obj).obj =
      (c.Get w.store (ClientObject.key obj) obj).obj := rfl
  refine ⟨fun e he => ?_, fun hg => ⟨fun e hu => ?_, fun unstrMap hu =>
    ⟨fun raw found nestedErr hn => ?_, fun raw hn => ?_, fun raw hn => ?_⟩⟩⟩
  · simp only [EventuallyCondition.attempt, hgerr, he]
  · simp only [EventuallyCondition.attempt, hgerr, hg, hgobj, hu]
  · simp only [EventuallyCondition.attempt, hgerr, hg, hgobj, hu, hn]
  · simp only [EventuallyCondition.attempt, hgerr, hg, hgobj, hu, hn]
  · simp only [EventuallyCondition.attempt, hgerr, hg, hgobj, hu, hn]

/-- The conversion loop keeps the entries that are maps and convert, in their
order. -/
theorem convertConditions_eq_filterMap {O : Type} (plib : PollLib O) (raw : List Value) :
    convertConditions plib raw = raw.filterMap (fun v =>
      match v with
      | Value.map condMap =>
        match plib.FromUnstructured condMap with
        | Except.ok cond => some cond
        | Except.error _ => none
      | _ => none) := by
  induction raw with
  | nil => rfl
  | cons v rest ih =>
    cases v with
    | map condMap =>
      cases hc : plib.FromUnstructured condMap with
      | ok cond => simp [convertConditions, List.filterMap_cons, hc, ih]
      | error e => simp [convertConditions, List.filterMap_cons, hc, ih]
    | _ => simp [convertConditions, List.filterMap_cons, ih]

/-- C27. In a poll attempt of `EventuallyCondition` whose Get and conversion
succeed: when `.status.conditions` is read as the list `raw`, the attempt fails
or passes as `AssertCondition` does on the entries of `raw` that are maps and
convert to a Condition, taken in their order; an entry that is no map or fails
conversion is passed over (the list handed on is the same as without it); and
when the object has no `.status.conditions` field the attempt fails with the
message of "object has no .status.conditions field", `AssertCondition` not
being called. -/
theorem attempt_converts_conditions_in_order {σ O : Type} [ClientObject O] (lib : TextLib)
    (plib : PollLib O) (c : Client σ O) (w : Session σ) (obj : O) (condType status : String)
    (unstrMap : Fields) (hget : (c.Get w.store (ClientObject.key obj) obj).err = none)
    (hconv : plib.ToUnstructured (c.Get w.store (ClientObject.key obj) obj).obj =
      Except.ok unstrMap) :
    (∀ raw : List Value,
      NestedFieldNoCopy (Value.map unstrMap) ["status", "conditions"] =
        Except.ok (some (Value.list raw)) →
      (EventuallyCondition.attempt lib plib c w obj condType status).failure =
        (AssertCondition lib ⟨[]⟩ (some (raw.filterMap (fun v =>
          match v with
          | Value.map condMap =>
            match plib.FromUnstructured condMap with
            | Except.ok cond => some cond
            | Except.error _ => none
          | _ => none))) condType status).failures.head?) ∧
    (∀ (raw : List Value), convertConditions plib raw = raw.filterMap (fun v =>
      match v with
      | Value.map condMap =>
        match plib.FromUnstructured condMap with
        | Except.ok cond => some cond
        | Except.error _ => none
      | _ => none)) ∧
    (∀ (pre post : List Value) (v : Value),
      ((∀ condMap, v ≠ Value.map condMap) ∨
        ∃ condMap e, v = Value.map condMap ∧ plib.FromUnstructured condMap = Except.error e) →
      convertConditions plib (pre ++ v :: post) = convertConditions plib (pre ++ post)) ∧
    (NestedFieldNoCopy (Value.map unstrMap) ["status", "conditions"] = Except.ok none →
      (EventuallyCondition.attempt lib plib c w obj condType status).failure =
        some (failureMessage "object has no .status.conditions field" lib.beTrueFailure) ∧
      ∀ msg, (EventuallyCondition.attempt lib plib c w obj condType status).failure = some msg →
        containsSubstr msg "object has no .status.conditions field") := by
  obtain ⟨_, hf⟩ := EventuallyCondition.attempt_failure lib plib c w obj condType status
  obtain ⟨_, hf⟩ := hf hget
  obtain ⟨_, hno, hyes⟩ := hf unstrMap hconv
  refine ⟨fun raw hn => ?_, convertConditions_eq_filterMap plib, fun pre post v hv => ?_,
    fun hn => ?_⟩
  · have hs : NestedSlice unstrMap ["status", "conditions"] = (some raw, true, none) := by
      simp only [NestedSlice, hn]
    rw [hyes _ hs, Option.getD_some, convertConditions_eq_filterMap]
  · rw [convertConditions_eq_filterMap, convertConditions_eq_filterMap, List.filterMap_append,
      List.filterMap_append, List.filterMap_cons]
    rcases hv with hv | ⟨condMap, e, rfl, he⟩
    · cases v with
      | map condMap => exact absurd rfl (hv condMap)
      | _ => rfl
    · simp only [he]
  · have hs : NestedSlice unstrMap ["status", "conditions"] = (none, false, none) := by
      simp only [NestedSlice, hn]
    have hfail := hno _ hs
    refine ⟨hfail, fun msg hm => ?_⟩
    rw [hfail] at hm
    cases hm
    simp only [failureMessage]
    exact containsSubstr_append_left _ (containsSubstr_append_left _ (containsSubstr_self _))

/-- Witness for C27: an object whose three condition entries are a map with a
number as status, a string, and Ready/True; the attempt passes on the third.
And an object without a status. -/
theorem attempt_converts_conditions_in_order_witness :
    (memUnstructured.traced.Get oddConditionsSession.store
      (ClientObject.key (newUnstructured
        { Group := "k8s.mariadb.com", Version := "v1alpha1", Kind := "MariaDB" } "db" "ns"))
      (newUnstructured
        { Group := "k8s.mariadb.com", Version := "v1alpha1", Kind := "MariaDB" } "db" "ns")).err =
      none ∧
    (EventuallyCondition.attempt plainText plainPollLib memUnstructured.traced
      oddConditionsSession
      (newUnstructured { Group := "k8s.mariadb.com", Version := "v1alpha1", Kind := "MariaDB" }
        "db" "ns") "Ready" "True").failure =
      (AssertCondition plainText ⟨[]⟩ (some [⟨"Ready", "True", "", "", ""⟩]) "Ready"
        "True").failures.head? ∧
    (EventuallyCondition.attempt plainText plainPollLib memUnstructured noStatusSession
      (newUnstructured { Group := "k8s.mariadb.com", Version := "v1alpha1", Kind := "MariaDB" }
        "db" "ns") "Ready" "True").failure =
      some "object has no .status.conditions field\nExpected to be true" :=
  ⟨rfl,
    (attempt_converts_conditions_in_order plainText plainPollLib memUnstructured.traced
      oddConditionsSession
      (newUnstructured { Group := "k8s.mariadb.com", Version := "v1alpha1", Kind := "MariaDB" }
        "db" "ns") "Ready" "True" _ rfl rfl).1 _ rfl,
    ((attempt_converts_conditions_in_order plainText plainPollLib memUnstructured
      noStatusSession
      (newUnstructured { Group := "k8s.mariadb.com", Version := "v1alpha1", Kind := "MariaDB" }
        "db" "ns") "Ready" "True" _ rfl rfl).2.2.2 rfl).1⟩

/-- A poll attempt issues one request, a Get, and leaves the store and the
object handle as that Get does. -/
theorem EventuallyCondition.attempt_get {σ O : Type} [ClientObject O] (lib : TextLib)
    (plib : PollLib O) (c : Client σ O) (w : Session σ) (obj : O) (condType status : String) :
    (EventuallyCondition.attempt lib plib c w obj condType status).session.calls =
      w.calls ++ [Call.Get (ClientObject.key obj) (ClientObject.toObject obj)] ∧
    (EventuallyCondition.attempt lib plib c w obj condType status).session.store =
      (c.Get w.store (ClientObject.key obj) obj).store ∧
    (EventuallyCondition.attempt lib plib c w obj condType status).obj =
      (c.Get w.store (ClientObject.key obj) obj).obj := by
  obtain ⟨h1, h2⟩ := EventuallyCondition.attempt_session lib plib c w obj condType status
  rw [h1, h2]
  exact ⟨rfl, rfl, rfl⟩

/-- The failure of a poll attempt is decided by what its Get returns. -/
theorem EventuallyCondition.attempt_failure_congr {σ τ O : Type} [ClientObject O]
    (lib : TextLib) (plib : PollLib O) (c : Client σ O) (c' : Client τ O) (w : Session σ)
    (w' : Session τ) (obj obj' : O) (condType status : String)
    (herr : (c.Get w.store (ClientObject.key obj) obj).err =
      (c'.Get w'.store (ClientObject.key obj') obj').err)
    (hobj : (c.Get w.store (ClientObject.key obj) obj).obj =
      (c'.Get w'.store (ClientObject.key obj') obj').obj) :
    (EventuallyCondition.attempt lib plib c w obj condType status).failure =
      (EventuallyCondition.attempt lib plib c' w' obj' condType status).failure := by
  simp only [EventuallyCondition.attempt, Client.get, herr, hobj]
  split
  · rfl
  · split
    · rfl
    · split <;> rfl

/-- The result of the polling loop is the result of one of the calls of the
polled function. -/
theorem Eventually.poll_is_attempt {σ O : Type} (wait : σ → σ)
    (f : Session σ → O → Attempt σ O) (n : Nat) (w : Session σ) (obj : O) :
    ∃ wl ol, Eventually.poll wait f n w obj = f wl ol := by
  induction n generalizing w obj with
  | zero => exact ⟨w, obj, rfl⟩
  | succ n ih =>
    cases hf : (f w obj).failure with
    | none => exact ⟨w, obj, by simp only [Eventually.poll, hf]⟩
    | some m =>
      obtain ⟨wl, ol, h⟩ := ih { (f w obj).session with store := wait (f w obj).session.store }
        (f w obj).obj
      exact ⟨wl, ol, by simp only [Eventually.poll, hf, h]⟩

/-- The polling loop ends with the first attempt that passes or, when none
does, with the last poll before the timeout: when every call of the polled
function issues one request, a loop with `n` polls left issues `k + 1` requests
for a `k ≤ n`, and `n + 1` requests if its result is a failure. -/
theorem Eventually.poll_calls {σ O : Type} (wait : σ → σ) (f : Session σ → O → Attempt σ O)
    (hf : ∀ w obj, (f w obj).session.calls.length = w.calls.length + 1)
    (n : Nat) (w : Session σ) (obj : O) :
    (∃ k, k ≤ n ∧
      (Eventually.poll wait f n w obj).session.calls.length = w.calls.length + (k + 1)) ∧
    ((Eventually.poll wait f n w obj).failure ≠ none →
      (Eventually.poll wait f n w obj).session.calls.length = w.calls.length + (n + 1)) := by
  induction n generalizing w obj with
  | zero => exact ⟨⟨0, Nat.le_refl _, hf w obj⟩, fun _ => hf w obj⟩
  | succ n ih =>
    cases hfail : (f w obj).failure with
    | none =>
      have hp : Eventually.poll wait f (n + 1) w obj = f w obj := by
        simp only [Eventually.poll, hfail]
      rw [hp]
      exact ⟨⟨0, Nat.zero_le _, hf w obj⟩, fun hne => absurd hfail hne⟩
    | some m =>
      have hp : Eventually.poll wait f (n + 1) w obj =
          Eventually.poll wait f n
            { (f w obj).session with store := wait (f w obj).session.store } (f w obj).obj := by
        simp only [Eventually.poll, hfail]
      obtain ⟨⟨k, hk, hlen⟩, hall⟩ :=
        ih { (f w obj).session with store := wait (f w obj).session.store } (f w obj).obj
      rw [hp]
      simp only [hf w obj] at hlen hall
      refine ⟨⟨k + 1, Nat.succ_le_succ hk, ?_⟩, fun hne => ?_⟩
      · rw [hlen]
        omega
      · rw [hall hne]
        omega

/-- A loop whose polled function fails with `m` in every state from which the
loop calls it fails with `m`. -/
theorem Eventually.poll_failure_of_invariant {σ O : Type} (wait : σ → σ)
    (f : Session σ → O → Attempt σ O) (I : σ → O → Prop) (F : Option String)
    (hI : ∀ w obj, I w.store obj →
      (f w obj).failure = F ∧ I (wait (f w obj).session.store) (f w obj).obj)
    (n : Nat) (w : Session σ) (obj : O) (h0 : I w.store obj) :
    (Eventually.poll wait f n w obj).failure = F := by
  induction n generalizing w obj with
  | zero => exact (hI w obj h0).1
  | succ n ih =>
    cases hfail : (f w obj).failure with
    | none =>
      have hp : Eventually.poll wait f (n + 1) w obj = f w obj := by
        simp only [Eventually.poll, hfail]
      rw [hp, hfail]
      exact ((hI w obj h0).1.symm.trans hfail).symm ▸ rfl
    | some m =>
      have hp : Eventually.poll wait f (n + 1) w obj =
          Eventually.poll wait f n
            { (f w obj).session with store := wait (f w obj).session.store } (f w obj).obj := by
        simp only [Eventually.poll, hfail]
      rw [hp]
      exact ih _ _ (hI w obj h0).2

/-- The first failure of `AssertCondition` on a gomega without failures, by
the first entry of the given type. -/
theorem AssertCondition_fresh_head (lib : TextLib) (L : List Condition) (T S : String) :
    (AssertCondition lib ⟨[]⟩ (some L) T S).failures.head? =
      match L.find? (fun c => decide (c.Type' = T)) with
      | some c0 =>
        if c0.Status = S then none
        else some (failureMessage ("condition " ++ lib.quote T ++ " has status " ++
          lib.quote c0.Status ++ ", expected " ++ lib.quote S) (lib.equalFailure c0.Status S))
      | none =>
        some (failureMessage ("condition " ++ lib.quote T ++ " not found")
          (lib.containFailure T)) := by
  have hloop := assertConditionLoop_eq lib ⟨[]⟩ L T S
  cases hfind : L.find? (fun c => decide (c.Type' = T)) with
  | some c0 =>
    rw [hfind] at hloop
    by_cases hs : c0.Status = S
    · simp [AssertCondition, Slice.elems, hloop, Gomega.expectEqual, hs]
    · simp [AssertCondition, Slice.elems, hloop, Gomega.expectEqual, hs, Gomega.fail]
  | none =>
    rw [hfind] at hloop
    have hany : (L.any fun c => decide (c.Type' = T)) = false := by
      rw [List.any_eq_false]
      intro c hc
      simpa using (find?_type_eq_none.mp hfind) c hc
    simp [AssertCondition, Slice.elems, hloop, Gomega.expectContainType, hany, Gomega.fail]

/-- When `NestedSlice` finds a list, the field at the path is that list. -/
theorem NestedSlice_found {obj : Fields} {path : List String} {raw : Option (List Value)}
    (h : NestedSlice obj path = (raw, true, none)) :
    ∃ items, raw = some items ∧
      NestedFieldNoCopy (Value.map obj) path = Except.ok (some (Value.list items)) := by
  unfold NestedSlice at h
  split at h
  · simp at h
  · simp at h
  · rename_i items hn
    simp only [Prod.mk.injEq, and_true] at h
    exact ⟨items, h.symm, hn⟩
  · simp at h

/-- A poll attempt passes exactly if the Get succeeds, the object converts,
`.status.conditions` is a list, and the first converted entry of the given
type has the expected status. -/
theorem EventuallyCondition.attempt_pass_iff {σ O : Type} [ClientObject O] (lib : TextLib)
    (plib : PollLib O) (c : Client σ O) (w : Session σ) (obj : O) (condType status : String) :
    (EventuallyCondition.attempt lib plib c w obj condType status).failure = none ↔
      (c.Get w.store (ClientObject.key obj) obj).err = none ∧
      ∃ unstrMap raw c0,
        plib.ToUnstructured (c.Get w.store (ClientObject.key obj) obj).obj =
          Except.ok unstrMap ∧
        NestedFieldNoCopy (Value.map unstrMap) ["status", "conditions"] =
          Except.ok (some (Value.list raw)) ∧
        (convertConditions plib raw).find? (fun c => decide (c.Type' = condType)) = some c0 ∧
        c0.Status = status := by
  obtain ⟨f1, f2⟩ := EventuallyCondition.attempt_failure lib plib c w obj condType status
  constructor
  · intro hpass
    cases hg : (c.Get w.store (ClientObject.key obj) obj).err with
    | some e =>
      rw [f1 e hg] at hpass
      cases hpass
    | none =>
      obtain ⟨f3, f4⟩ := f2 hg
      cases hu : plib.ToUnstructured (c.Get w.store (ClientObject.key obj) obj).obj with
      | error e =>
        rw [f3 e hu] at hpass
        cases hpass
      | ok unstrMap =>
        obtain ⟨f5, f6, f7⟩ := f4 unstrMap hu
        rcases hn : NestedSlice unstrMap ["status", "conditions"] with ⟨raw, found, nerr⟩
        cases nerr with
        | some ne =>
          rw [f5 raw found ne hn] at hpass
          cases hpass
        | none =>
          cases found with
          | false =>
            rw [f6 raw hn] at hpass
            cases hpass
          | true =>
            obtain ⟨items, hraw, hfield⟩ := NestedSlice_found hn
            rw [f7 raw hn, hraw, Option.getD_some, AssertCondition_fresh_head] at hpass
            cases hfind : (convertConditions plib items).find?
                (fun c => decide (c.Type' = condType)) with
            | none =>
              rw [hfind] at hpass
              cases hpass
            | some c0 =>
              rw [hfind] at hpass
              by_cases hs : c0.Status = status
              · exact ⟨rfl, unstrMap, items, c0, rfl, hfield, hfind, hs⟩
              · simp [hs] at hpass
  · rintro ⟨hg, unstrMap, raw, c0, hu, hfield, hfind, hs⟩
    obtain ⟨_, f4⟩ := f2 hg
    obtain ⟨_, _, f7⟩ := f4 unstrMap hu
    have hn : NestedSlice unstrMap ["status", "conditions"] = (some raw, true, none) := by
      simp only [NestedSlice, hfield]
    rw [f7 _ hn, Option.getD_some, AssertCondition_fresh_head, hfind]
    simp [hs]

/-- On a store that answers the Get of every poll as it answered the first
one, the loop ends with the failure of the first attempt. -/
theorem EventuallyCondition.poll_stable {σ O : Type} [ClientObject O] (lib : TextLib)
    (plib : PollLib O) (wait : σ → σ) (c : Client σ O) (w : Session σ) (obj : O)
    (condType status : String) (n : Nat)
    (herr : (c.Get (wait (c.Get w.store (ClientObject.key obj) obj).store)
        (ClientObject.key (c.Get w.store (ClientObject.key obj) obj).obj)
        (c.Get w.store (ClientObject.key obj) obj).obj).err =
      (c.Get w.store (ClientObject.key obj) obj).err)
    (hobj : (c.Get (wait (c.Get w.store (ClientObject.key obj) obj).store)
        (ClientObject.key (c.Get w.store (ClientObject.key obj) obj).obj)
        (c.Get w.store (ClientObject.key obj) obj).obj).obj =
      (c.Get w.store (ClientObject.key obj) obj).obj)
    (hstore : wait (c.Get (wait (c.Get w.store (ClientObject.key obj) obj).store)
        (ClientObject.key (c.Get w.store (ClientObject.key obj) obj).obj)
        (c.Get w.store (ClientObject.key obj) obj).obj).store =
      wait (c.Get w.store (ClientObject.key obj) obj).store) :
    (Eventually.poll wait
      (fun w' obj' => EventuallyCondition.attempt lib plib c w' obj' condType status)
      n w obj).failure =
      (EventuallyCondition.attempt lib plib c w obj condType status).failure := by
  obtain ⟨_, a2, a3⟩ := EventuallyCondition.attempt_get lib plib c w obj condType status
  have hinv := Eventually.poll_failure_of_invariant wait
    (fun w' obj' => EventuallyCondition.attempt lib plib c w' obj' condType status)
    (fun s o => s = wait (c.Get w.store (ClientObject.key obj) obj).store ∧
      o = (c.Get w.store (ClientObject.key obj) obj).obj)
    (EventuallyCondition.attempt lib plib c w obj condType status).failure
    (fun w' obj' hI => by
      obtain ⟨hs, ho⟩ := hI
      obtain ⟨_, b2, b3⟩ := EventuallyCondition.attempt_get lib plib c w' obj' condType status
      refine ⟨?_, ?_, ?_⟩
      · apply EventuallyCondition.attempt_failure_congr
        · rw [hs, ho]
          exact herr
        · rw [hs, ho]
          exact hobj
      · show wait (EventuallyCondition.attempt lib plib c w' obj' condType
          status).session.store = _
        rw [b2, hs, ho]
        exact hstore
      · show (EventuallyCondition.attempt lib plib c w' obj' condType status).obj = _
        rw [b3, hs, ho]
        exact hobj)
  cases n with
  | zero => rfl
  | succ n =>
    cases hfail : (EventuallyCondition.attempt lib plib c w obj condType status).failure with
    | none => simp only [Eventually.poll, hfail]
    | some m =>
      have hp : Eventually.poll wait
          (fun w' obj' => EventuallyCondition.attempt lib plib c w' obj' condType status)
          (n + 1) w obj =
          Eventually.poll wait
            (fun w' obj' => EventuallyCondition.attempt lib plib c w' obj' condType status) n
            { (EventuallyCondition.attempt lib plib c w obj condType status).session with
              store := wait
                (EventuallyCondition.attempt lib plib c w obj condType status).session.store }
            (EventuallyCondition.attempt lib plib c w obj condType status).obj := by
        simp only [Eventually.poll, hfail]
      rw [hp, hinv n _ _ ⟨by simp only [a2], a3⟩, hfail]

/-- What `EventuallyCondition` reports, by the failure of the last attempt of
its loop. -/
theorem EventuallyCondition_gomega {σ O : Type} [ClientObject O] (lib : TextLib)
    (plib : PollLib O) (alib : AsyncLib σ) (c : Client σ O) (w : Session σ) (g : Gomega)
    (obj : O) (condType status : String) (timeout : Nat) :
    (EventuallyCondition lib plib alib c w g obj condType status timeout).session =
      (Eventually.poll alib.wait
        (fun w' obj' => EventuallyCondition.attempt lib plib c w' obj' condType status)
        (alib.polls timeout defaultPollingInterval) w obj).session ∧
    ((Eventually.poll alib.wait
        (fun w' obj' => EventuallyCondition.attempt lib plib c w' obj' condType status)
        (alib.polls timeout defaultPollingInterval) w obj).failure = none →
      (EventuallyCondition lib plib alib c w g obj condType status timeout).gomega = g) ∧
    (∀ msg, (Eventually.poll alib.wait
        (fun w' obj' => EventuallyCondition.attempt lib plib c w' obj' condType status)
        (alib.polls timeout defaultPollingInterval) w obj).failure = some msg →
      (EventuallyCondition lib plib alib c w g obj condType status timeout).gomega =
        g.fail (alib.timedOutPrefix ++ msg ++ alib.timedOutSuffix)) := by
  refine ⟨rfl, fun h => ?_, fun msg h => ?_⟩
  · simp only [EventuallyCondition, h]
  · simp only [EventuallyCondition, h]

/-- Every call of the polled function issues one request. -/
theorem EventuallyCondition.attempt_calls_length {σ O : Type} [ClientObject O] (lib : TextLib)
    (plib : PollLib O) (c : Client σ O) (condType status : String) (w : Session σ) (obj : O) :
    (EventuallyCondition.attempt lib plib c w obj condType status).session.calls.length =
      w.calls.length + 1 := by
  rw [(EventuallyCondition.attempt_get lib plib c w obj condType status).1]
  simp

/-- C22 (as amended). Let the store answer the Get of a poll made one interval
after the first fetch as it answered the first fetch, and be after it as it
was (the target object does not change during the call). Then
`EventuallyCondition` reports no failure exactly if the fetch succeeds, the
object converts and, among the entries of its `.status.conditions` that are
maps and convert to a Condition, there is one of the given type and the first
of them has the expected status. Otherwise it reports one failure, after as
many attempts as the timeout allows: the timeout text around the failure of
the last attempt, which is the failure every attempt had; when no converted
entry has the type this is the failure of `AssertCondition` for a type that is
absent, and when the first converted entry of the type has another status it
is the failure of `AssertCondition` for that status. -/
theorem EventuallyCondition_on_unchanging_store {σ O : Type} [ClientObject O] (lib : TextLib)
    (plib : PollLib O) (alib : AsyncLib σ) (c : Client σ O) (w : Session σ) (g : Gomega)
    (obj : O) (condType status : String) (timeout : Nat)
    (got : Reply σ O) (hgot : got = c.Get w.store (ClientObject.key obj) obj)
    (again : Reply σ O)
    (hagain : again = c.Get (alib.wait got.store) (ClientObject.key got.obj) got.obj)
    (herr : again.err = got.err) (hobj : again.obj = got.obj)
    (hstore : alib.wait again.store = alib.wait got.store)
    (res : Checked σ O)
    (hres : res = EventuallyCondition lib plib alib c w g obj condType status timeout) :
    (res.gomega = g ↔
      got.err = none ∧
      ∃ unstrMap raw c0,
        plib.ToUnstructured got.obj = Except.ok unstrMap ∧
        NestedFieldNoCopy (Value.map unstrMap) ["status", "conditions"] =
          Except.ok (some (Value.list raw)) ∧
        (convertConditions plib raw).find? (fun c => decide (c.Type' = condType)) = some c0 ∧
        c0.Status = status) ∧
    (res.gomega ≠ g →
      ∃ msg wl ol,
        (EventuallyCondition.attempt lib plib c wl ol condType status).failure = some msg ∧
        res.session = (EventuallyCondition.attempt lib plib c wl ol condType status).session ∧
        (EventuallyCondition.attempt lib plib c w obj condType status).failure = some msg ∧
        res.gomega = g.fail (alib.timedOutPrefix ++ msg ++ alib.timedOutSuffix) ∧
        containsSubstr (alib.timedOutPrefix ++ msg ++ alib.timedOutSuffix) msg ∧
        res.session.calls.length =
          w.calls.length + (alib.polls timeout defaultPollingInterval + 1)) ∧
    (∀ unstrMap raw, got.err = none → plib.ToUnstructured got.obj = Except.ok unstrMap →
      NestedFieldNoCopy (Value.map unstrMap) ["status", "conditions"] =
        Except.ok (some (Value.list raw)) →
      ((∀ cond ∈ convertConditions plib raw, cond.Type' ≠ condType) →
        res.gomega = g.fail (alib.timedOutPrefix ++
          failureMessage ("condition " ++ lib.quote condType ++ " not found")
            (lib.containFailure condType) ++ alib.timedOutSuffix)) ∧
      (∀ c0, (convertConditions plib raw).find? (fun c => decide (c.Type' = condType)) =
          some c0 → c0.Status ≠ status →
        res.gomega = g.fail (alib.timedOutPrefix ++
          failureMessage ("condition " ++ lib.quote condType ++ " has status " ++
            lib.quote c0.Status ++ ", expected " ++ lib.quote status)
            (lib.equalFailure c0.Status status) ++ alib.timedOutSuffix))) := by
  subst hgot hagain hres
  have hstable := EventuallyCondition.poll_stable lib plib alib.wait c w obj condType status
    (alib.polls timeout defaultPollingInterval) herr hobj hstore
  obtain ⟨hsess, hnone, hsome⟩ :=
    EventuallyCondition_gomega lib plib alib c w g obj condType status timeout
  have hcalls := Eventually.poll_calls alib.wait
    (fun w' obj' => EventuallyCondition.attempt lib plib c w' obj' condType status)
    (EventuallyCondition.attempt_calls_length lib plib c condType status)
    (alib.polls timeout defaultPollingInterval) w obj
  have hiff := EventuallyCondition.attempt_pass_iff lib plib c w obj condType status
  obtain ⟨_, f2⟩ := EventuallyCondition.attempt_failure lib plib c w obj condType status
  refine ⟨?_, ?_, ?_⟩
  · rw [← hiff, ← hstable]
    constructor
    · intro hg
      cases hl : (Eventually.poll alib.wait
          (fun w' obj' => EventuallyCondition.attempt lib plib c w' obj' condType status)
          (alib.polls timeout defaultPollingInterval) w obj).failure with
      | none => rfl
      | some msg =>
        rw [hsome msg hl] at hg
        exact absurd hg (Gomega.fail_ne _ _)
    · exact hnone
  · intro hne
    cases hl : (Eventually.poll alib.wait
        (fun w' obj' => EventuallyCondition.attempt lib plib c w' obj' condType status)
        (alib.polls timeout defaultPollingInterval) w obj).failure with
    | none => exact absurd (hnone hl) hne
    | some msg =>
      obtain ⟨wl, ol, hlast⟩ := Eventually.poll_is_attempt alib.wait
        (fun w' obj' => EventuallyCondition.attempt lib plib c w' obj' condType status)
        (alib.polls timeout defaultPollingInterval) w obj
      refine ⟨msg, wl, ol, ?_, ?_, ?_, hsome msg hl, ?_, ?_⟩
      · rw [← hl, hlast]
      · rw [hsess, hlast]
      · rw [← hstable, hl]
      · exact containsSubstr_append_left _ (containsSubstr_append_right _ (containsSubstr_self _))
      · rw [hsess]
        exact hcalls.2 (by rw [hl]; simp)
  · intro unstrMap raw hg hu hfield
    obtain ⟨_, f4⟩ := f2 hg
    obtain ⟨_, _, f7⟩ := f4 unstrMap hu
    have hn : NestedSlice unstrMap ["status", "conditions"] = (some raw, true, none) := by
      simp only [NestedSlice, hfield]
    have hfail := f7 _ hn
    rw [Option.getD_some, AssertCondition_fresh_head, ← hstable] at hfail
    constructor
    · intro habs
      simp only [find?_type_eq_none.mpr habs] at hfail
      exact hsome _ hfail
    · intro c0 hfind hs
      simp only [hfind, if_neg hs] at hfail
      exact hsome _ hfail

/-- Witness for C22: the object of `TestEventuallyCondition` on the in-memory
store, polled for two seconds. Ready/True passes; Degraded/True fails with the
"not found" failure at the timeout. -/
theorem EventuallyCondition_on_unchanging_store_witness :
    ((memUnstructured.Get (plainAsyncLib.wait
        (memUnstructured.Get pdbSession.store (ClientObject.key pdbHandle) pdbHandle).store)
        (ClientObject.key
          (memUnstructured.Get pdbSession.store (ClientObject.key pdbHandle) pdbHandle).obj)
        (memUnstructured.Get pdbSession.store (ClientObject.key pdbHandle) pdbHandle).obj).err =
      (memUnstructured.Get pdbSession.store (ClientObject.key pdbHandle) pdbHandle).err) ∧
    (EventuallyCondition plainText plainPollLib plainAsyncLib memUnstructured pdbSession ⟨[]⟩
      pdbHandle "Ready" "True" 2000).gomega = ⟨[]⟩ ∧
    (EventuallyCondition plainText plainPollLib plainAsyncLib memUnstructured pdbSession ⟨[]⟩
      pdbHandle "Degraded" "True" 2000).gomega =
      ⟨["Timed out.\ncondition \"Degraded\" not found\n" ++
        "Expected to contain element with Type Degraded\n"]⟩ :=
  ⟨rfl,
    (EventuallyCondition_on_unchanging_store plainText plainPollLib plainAsyncLib memUnstructured
      pdbSession ⟨[]⟩ pdbHandle "Ready" "True" 2000 _ rfl _ rfl rfl rfl rfl _ rfl).1.mpr
      ⟨rfl, _, _, _, rfl, rfl, rfl, rfl⟩,
    ((EventuallyCondition_on_unchanging_store plainText plainPollLib plainAsyncLib memUnstructured
      pdbSession ⟨[]⟩ pdbHandle "Degraded" "True" 2000 _ rfl _ rfl rfl rfl rfl _ rfl).2.2
      _ _ rfl rfl rfl).1 (by decide)⟩

/-- Counterexample for C22 as stated: the stored object does not change, and
the first entry of its `.status.conditions` has type Ready and the number 0 as
status, not "True". `EventuallyCondition` for Ready/True reports no failure
all the same: that entry does not convert and is passed over, and the third
entry is Ready/True. -/
theorem first_entry_of_type_passed_over :
    (memUnstructured.Get oddObjectSession.store
      (ClientObject.key (newUnstructured
        { Group := "k8s.mariadb.com", Version := "v1alpha1", Kind := "MariaDB" } "db" "ns"))
      (newUnstructured
        { Group := "k8s.mariadb.com", Version := "v1alpha1", Kind := "MariaDB" } "db" "ns")).err =
      none ∧
    (NestedFieldNoCopy (Value.map (memUnstructured.Get oddObjectSession.store
      (ClientObject.key (newUnstructured
        { Group := "k8s.mariadb.com", Version := "v1alpha1", Kind := "MariaDB" } "db" "ns"))
      (newUnstructured
        { Group := "k8s.mariadb.com", Version := "v1alpha1", Kind := "MariaDB" } "db"
        "ns")).obj.Object) ["status", "conditions"] =
      Except.ok (some (Value.list [
        Value.map [("type", Value.str "Ready"), ("status", Value.num 0)],
        Value.str "Ready",
        Value.map [("type", Value.str "Ready"), ("status", Value.str "True")]]))) ∧
    (∀ s : MemStore, plainAsyncLib.wait s = s) ∧
    (EventuallyCondition plainText plainPollLib plainAsyncLib memUnstructured oddObjectSession
      ⟨[]⟩ (newUnstructured
        { Group := "k8s.mariadb.com", Version := "v1alpha1", Kind := "MariaDB" } "db" "ns")
      "Ready" "True" 2000).gomega = ⟨[]⟩ :=
  ⟨rfl, rfl, fun _ => rfl, by decide⟩

/-- Under a done context the Get of a context-honouring client fails with the
context's error and leaves state and object handle alone. -/
theorem Client.withContext_Get_done {σ O : Type} (c : Client σ O) (s : σ × Bool)
    (key : ObjectKey) (obj : O) (hdone : s.2 = true) :
    (c.withContext.Get s key obj).err = some (Err.plain "context canceled") ∧
    (c.withContext.Get s key obj).store = s ∧ (c.withContext.Get s key obj).obj = obj := by
  simp [Client.withContext, hdone]

/-- C23. The polling loop of `EventuallyCondition` is not cancelled by the
context: the context reaches the Get of each attempt only. For a client that
honours the context (in any state of the context, with anything happening
while the loop waits): the loop issues `k + 1` Gets for a `k` that is at most
the number of polls the timeout allows, and if a failure is reported, all
polls were made. And under a context that is done from the start and stays
done, every attempt's Get is issued and fails, so that `EventuallyCondition`
returns after as many attempts as the timeout allows, reporting the context's
error as the failure of the last attempt. -/
theorem EventuallyCondition_polls_until_timeout {σ O : Type} [ClientObject O] (lib : TextLib)
    (plib : PollLib O) (alib : AsyncLib (σ × Bool)) (c : Client σ O) (w : Session (σ × Bool))
    (g : Gomega) (obj : O) (condType status : String) (timeout : Nat)
    (res : Checked (σ × Bool) O)
    (hres : res = EventuallyCondition lib plib alib c.withContext w g obj condType status
      timeout) :
    (∃ k, k ≤ alib.polls timeout defaultPollingInterval ∧
      res.session.calls.length = w.calls.length + (k + 1)) ∧
    (res.gomega ≠ g →
      res.session.calls.length =
        w.calls.length + (alib.polls timeout defaultPollingInterval + 1)) ∧
    (w.store.2 = true → (∀ s : σ × Bool, s.2 = true → (alib.wait s).2 = true) →
      res.session.calls.length =
        w.calls.length + (alib.polls timeout defaultPollingInterval + 1) ∧
      res.gomega = g.fail (alib.timedOutPrefix ++ plib.succeedFailure "context canceled" ++
        alib.timedOutSuffix)) := by
  subst hres
  obtain ⟨hsess, hnone, hsome⟩ :=
    EventuallyCondition_gomega lib plib alib c.withContext w g obj condType status timeout
  obtain ⟨hk, hall⟩ := Eventually.poll_calls alib.wait
    (fun w' obj' => EventuallyCondition.attempt lib plib c.withContext w' obj' condType status)
    (EventuallyCondition.attempt_calls_length lib plib c.withContext condType status)
    (alib.polls timeout defaultPollingInterval) w obj
  rw [← hsess] at hk hall
  refine ⟨hk, fun hne => hall (fun hl => hne (hnone hl)), fun hdone hkeep => ?_⟩
  have hfail := Eventually.poll_failure_of_invariant alib.wait
    (fun w' obj' => EventuallyCondition.attempt lib plib c.withContext w' obj' condType status)
    (fun s _ => s.2 = true) (some (plib.succeedFailure "context canceled"))
    (fun w' obj' hI => by
      obtain ⟨g1, g2, _⟩ :=
        Client.withContext_Get_done c w'.store (ClientObject.key obj') obj' hI
      refine ⟨?_, ?_⟩
      · have := (EventuallyCondition.attempt_failure lib plib c.withContext w' obj' condType
          status).1 _ g1
        rw [this]
        rfl
      · show (alib.wait (EventuallyCondition.attempt lib plib c.withContext w' obj' condType
          status).session.store).2 = true
        rw [(EventuallyCondition.attempt_get lib plib c.withContext w' obj' condType status).2.1,
          g2]
        exact hkeep _ hI)
    (alib.polls timeout defaultPollingInterval) w obj hdone
  exact ⟨hall (by rw [hfail]; simp), hsome _ hfail⟩

/-- Witness for C23: the context is done before the call; eight Gets are
issued in two seconds, each refused. -/
theorem EventuallyCondition_polls_until_timeout_witness :
    pdbDoneSession.store.2 = true ∧
    (∀ s : MemStore × Bool, s.2 = true → (doneAsyncLib.wait s).2 = true) ∧
    (EventuallyCondition plainText plainPollLib doneAsyncLib memUnstructured.withContext
      pdbDoneSession ⟨[]⟩ pdbHandle "Ready" "True" 2000).session.calls.length = 8 ∧
    (EventuallyCondition plainText plainPollLib doneAsyncLib memUnstructured.withContext
      pdbDoneSession ⟨[]⟩ pdbHandle "Ready" "True" 2000).gomega =
      ⟨["Timed out.\nExpected success, but got an error: context canceled\n"]⟩ :=
  ⟨rfl, fun _ _ => rfl,
    (EventuallyCondition_polls_until_timeout plainText plainPollLib doneAsyncLib memUnstructured
      pdbDoneSession ⟨[]⟩ pdbHandle "Ready" "True" 2000 _ rfl).2.2 rfl (fun _ _ => rfl)⟩

/-- Counterexample for C23 as stated: the context is cancelled while the loop
waits for the first time. The loop does not return: it issues the seven polls
that two seconds allow, each answered with the context's error, and reports
the failure at the timeout. -/
theorem polling_goes_on_after_cancellation :
    pdbContextSession.store.1.2 = false ∧
    (∀ s : Traced (MemStore × Bool), (cancellingAsyncLib.wait s).1.2 = true) ∧
    (EventuallyCondition plainText plainPollLib cancellingAsyncLib
      memUnstructured.withContext.traced pdbContextSession ⟨[]⟩ pdbHandle "Ready" "False"
      2000).session.store.2.map Prod.snd =
      none :: List.replicate 7 (some (Err.plain "context canceled")) ∧
    ¬ ((EventuallyCondition plainText plainPollLib cancellingAsyncLib
      memUnstructured.withContext.traced pdbContextSession ⟨[]⟩ pdbHandle "Ready" "False"
      2000).session.store.2.filter
        (fun e => decide (e.2 = some (Err.plain "context canceled")))).length ≤ 1 ∧
    (EventuallyCondition plainText plainPollLib cancellingAsyncLib
      memUnstructured.withContext.traced pdbContextSession ⟨[]⟩ pdbHandle "Ready" "False"
      2000).gomega =
      ⟨["Timed out.\nExpected success, but got an error: context canceled\n"]⟩ :=
  ⟨rfl, fun _ => rfl, by decide, by decide, by decide⟩

end Forge
